import Mathlib

/-!
vtk-dicom: the value container (vtkDICOMValue) and the tag (vtkDICOMTag)

A shallow embedding of `vtkDICOMValue.cxx` and `vtkDICOMTag.h`.

Conventions of the embedding

* Bytes (`char`, `unsigned char`) are naturals below 256; `short` and `int`
  elements are integers, `unsigned short` and `unsigned int` elements are
  naturals; `float` and `double` elements are their IEEE-754 bit patterns
  (naturals below 2^32 and 2^64).
* The 32-bit header fields `VL` and `NumberOfValues` are naturals, every
  store into them is reduced modulo 2^32.
* The element array that follows the header in the same allocation is a list
  with one entry per allocated slot, so its length is the capacity of the
  allocation.  Slots that the C++ leaves unwritten hold the filler the
  allocation was given.
* A result of type `Option` is `none` where the C++ reads or writes outside
  its allocation (undefined behaviour).
-/

namespace DICOM

/-! ## Value representations and storage types -/

/-- Modelled from the spec: the value representation codes of `vtkDICOMVR`
(declared in vtkDICOMVR.h, which is not part of the sources at hand); only
equality of codes is used.  `XX` is the invalid VR, `OX` and `XS` are the two
abstract VRs. -/
inductive vtkDICOMVR where
  | XX | AE | AS | AT | CS | DA | DS | DT | FD | FL | IS | LO | LT | OB | OF
  | OW | PN | SH | SL | SQ | SS | ST | TM | UI | UL | UN | US | UT | OX | XS
  deriving DecidableEq, Repr

/-- The storage type codes kept in `Value::Type` (the VTK type identifiers
and the three DICOM specific ones). -/
inductive VTKType where
  | VTK_CHAR | VTK_UNSIGNED_CHAR | VTK_SHORT | VTK_UNSIGNED_SHORT
  | VTK_INT | VTK_UNSIGNED_INT | VTK_FLOAT | VTK_DOUBLE
  | VTK_DICOM_TAG | VTK_DICOM_ITEM | VTK_DICOM_VALUE
  deriving DecidableEq, Repr

/-- The constant 2^32: one more than the largest `unsigned int`. -/
def UINT_RANGE : Nat := 4294967296

/-- The sentinel 0xffffffff stored in `VL` of a growable value. -/
def VL_UNDEFINED : Nat := 4294967295

/-! ## vtkDICOMTag -/

/-- A tag: the 32-bit key `(group << 16) | element`. -/
structure vtkDICOMTag where
  Key : Nat
  deriving DecidableEq, Repr

namespace vtkDICOMTag

/-- The default constructor `vtkDICOMTag()`: key 0. -/
def zero : vtkDICOMTag := ⟨0⟩

/-- The constructor `vtkDICOMTag(int group, int element)`, for arguments that
are not negative; the key is kept in 32 bits. -/
def ofGroupElement (group element : Nat) : vtkDICOMTag :=
  ⟨((group <<< 16) ||| element) % UINT_RANGE⟩

/-- Method `GetGroup`: `static_cast<unsigned short>(Key >> 16)`. -/
def GetGroup (t : vtkDICOMTag) : Nat := (t.Key >>> 16) % 65536

/-- Method `GetElement`: `static_cast<unsigned short>(Key)`. -/
def GetElement (t : vtkDICOMTag) : Nat := t.Key % 65536

end vtkDICOMTag

/-! ## The allocation: header and element array -/

/-- The element array of an allocation, one constructor per storage type.
`Item` stands for `vtkDICOMItem` and `Val` for the nested `vtkDICOMValue`
handles of a multiplexed value; both are used through their own equality
only. -/
inductive ValueData (Item Val : Type) where
  | chars (d : List Nat)
  | uchars (d : List Nat)
  | shorts (d : List Int)
  | ushorts (d : List Nat)
  | ints (d : List Int)
  | uints (d : List Nat)
  | floats (d : List Nat)
  | doubles (d : List Nat)
  | tags (d : List vtkDICOMTag)
  | items (d : List Item)
  | values (d : List Val)
  deriving DecidableEq, Repr

/-- The struct `vtkDICOMValue::Value` together with the `Data` array of its
`ValueT<T>` subclass.  `Type` is not a field: it is fixed by the constructor
of `Data`, as the C++ constructors guarantee. -/
structure Value (Item Val : Type) where
  ReferenceCount : Nat
  CharacterSet : Nat
  VR : vtkDICOMVR
  VL : Nat
  NumberOfValues : Nat
  Data : ValueData Item Val
  deriving DecidableEq, Repr

variable {Item Val : Type}

/-- The field `Value::Type`. -/
def ValueData.Type : ValueData Item Val → VTKType
  | .chars _ => .VTK_CHAR
  | .uchars _ => .VTK_UNSIGNED_CHAR
  | .shorts _ => .VTK_SHORT
  | .ushorts _ => .VTK_UNSIGNED_SHORT
  | .ints _ => .VTK_INT
  | .uints _ => .VTK_UNSIGNED_INT
  | .floats _ => .VTK_FLOAT
  | .doubles _ => .VTK_DOUBLE
  | .tags _ => .VTK_DICOM_TAG
  | .items _ => .VTK_DICOM_ITEM
  | .values _ => .VTK_DICOM_VALUE

/-- The field `Value::Type` of an allocation. -/
def Value.Type (v : Value Item Val) : VTKType := v.Data.Type

/-- The number of allocated element slots. -/
def ValueData.capacity : ValueData Item Val → Nat
  | .chars d => d.length
  | .uchars d => d.length
  | .shorts d => d.length
  | .ushorts d => d.length
  | .ints d => d.length
  | .uints d => d.length
  | .floats d => d.length
  | .doubles d => d.length
  | .tags d => d.length
  | .items d => d.length
  | .values d => d.length

/-! ## The heap of allocations and the handles -/

/-- The heap: slot `p` holds the allocation at address `p`, or `none` once it
has been freed. -/
abbrev Heap (Item Val : Type) := List (Option (Value Item Val))

/-- A `vtkDICOMValue` object: its only member is the pointer `V`, `none` is
the null pointer of an invalid value. -/
abbrev Handle := Option Nat

/-- Dereference a pointer. -/
def Heap.deref (h : Heap Item Val) (p : Nat) : Option (Value Item Val) :=
  (h.get? p).join

/-- `ValueMalloc` followed by the placement construction of the header and
array: the new allocation gets an address no other allocation has.  (Failure
of `malloc` is not modelled.) -/
def Heap.alloc (h : Heap Item Val) (v : Value Item Val) : Nat × Heap Item Val :=
  (h.length, h ++ [some v])

/-- Overwrite the allocation at address `p`. -/
def Heap.store (h : Heap Item Val) (p : Nat) (v : Value Item Val) : Heap Item Val :=
  h.set p (some v)

/-- `FreeValue`: release the allocation at address `p`. -/
def Heap.free (h : Heap Item Val) (p : Nat) : Heap Item Val :=
  h.set p none

/-! ## Equality -/

/-- IEEE-754 test for NaN on a bit pattern with `e` exponent bits and `m`
mantissa bits. -/
def ieeeIsNan (e m : Nat) (x : Nat) : Bool :=
  (x >>> m) % 2 ^ e == 2 ^ e - 1 && x % 2 ^ m != 0

/-- The C++ `==` on two floating point numbers given by their bit patterns:
NaN equals nothing, the two zeros are equal, otherwise the patterns are
compared. -/
def ieeeEq (e m : Nat) (x y : Nat) : Bool :=
  !ieeeIsNan e m x && !ieeeIsNan e m y &&
    (x == y || (x % 2 ^ (e + m) == 0 && y % 2 ^ (e + m) == 0))

/-- The loop `do { r &= (*ap++ == *bp++); } while (r && --n);` of `Compare`,
entered with `n + 1` elements to go.  Reading past either array is `none`. -/
def CompareLoop {T : Type} (eq : T → T → Bool) : Nat → List T → List T → Option Bool
  | n, a :: ap, b :: bp =>
    if eq a b then
      match n with
      | 0 => some true
      | k + 1 => CompareLoop eq k ap bp
    else some false
  | _, _, _ => none

/-- The function `ValueT<T>::Compare(a, b)` for `n` elements, where `n` is
`a->VL/sizeof(T)` (or `a->NumberOfValues` in the two specialisations). -/
def Compare {T : Type} (eq : T → T → Bool) (n : Nat) (ap bp : List T) : Option Bool :=
  if n ≠ 0 then CompareLoop eq (n - 1) ap bp else some true

/-- The part of `operator==` that runs once both pointers are known to be
distinct and not null.  `itemEq` and `valEq` are the `operator==` of
`vtkDICOMItem` and of the nested `vtkDICOMValue` elements. -/
def Value.equalTo (itemEq : Item → Item → Bool) (valEq : Val → Val → Bool)
    (a b : Value Item Val) : Option Bool :=
  if a.VR = b.VR ∧ a.VL = b.VL ∧ a.Type = b.Type ∧ a.NumberOfValues = b.NumberOfValues then
    match a.Data, b.Data with
    | .chars x, .chars y => Compare (fun u v => u == v) (a.VL / 1) x y
    | .uchars x, .uchars y => Compare (fun u v => u == v) (a.VL / 1) x y
    | .shorts x, .shorts y => Compare (fun u v => u == v) (a.VL / 2) x y
    | .ushorts x, .ushorts y => Compare (fun u v => u == v) (a.VL / 2) x y
    | .ints x, .ints y => Compare (fun u v => u == v) (a.VL / 4) x y
    | .uints x, .uints y => Compare (fun u v => u == v) (a.VL / 4) x y
    | .floats x, .floats y => Compare (ieeeEq 8 23) (a.VL / 4) x y
    | .doubles x, .doubles y => Compare (ieeeEq 11 52) (a.VL / 8) x y
    | .items x, .items y => Compare itemEq a.NumberOfValues x y
    | .values x, .values y => Compare valEq a.NumberOfValues x y
    | _, _ => some true
  else some false

/-- The operator `vtkDICOMValue::operator==` on two handles. -/
def operator_eq (itemEq : Item → Item → Bool) (valEq : Val → Val → Bool)
    (heap : Heap Item Val) (a b : Handle) : Option Bool :=
  if a ≠ b then
    match a, b with
    | some p, some q =>
      match heap.deref p, heap.deref q with
      | some va, some vb => va.equalTo itemEq valEq vb
      | _, _ => none
    | _, _ => some false
  else some true

/-! ## Allocation -/

/-- Write the elements `xs` into the slots `i, i+1, ...` of `buf`; `none`
when a write would fall outside the allocation. -/
def overwrite {α : Type} (buf : List α) (i : Nat) (xs : List α) : Option (List α) :=
  if i + xs.length ≤ buf.length then
    some (buf.take i ++ xs ++ buf.drop (i + xs.length))
  else none

/-- Read `n` elements starting at a pointer: `mem` is the memory from the
pointer onwards, `none` when fewer than `n` elements are there. -/
def readArray {α : Type} (mem : List α) (n : Nat) : Option (List α) :=
  if n ≤ mem.length then some (mem.take n) else none

/-- Little-endian bytes of an unsigned number of `w` bytes. -/
def toBytes : Nat → Nat → List Nat
  | 0, _ => []
  | w + 1, x => x % 256 :: toBytes w (x / 256)

/-- The unsigned number with the given little-endian bytes. -/
def ofBytes : List Nat → Nat
  | [] => 0
  | b :: bs => b + 256 * ofBytes bs

/-- Conversion to an unsigned integer type of `bits` bits (reduction modulo
2^bits). -/
def toUnsigned (bits : Nat) (x : Int) : Nat := (x % (2 ^ bits : Nat)).toNat

/-- Conversion to a signed integer type of `bits` bits (two-complement
wrap-around). -/
def toSigned (bits : Nat) (x : Int) : Int :=
  let u := toUnsigned bits x
  if u < 2 ^ (bits - 1) then (u : Int) else (u : Int) - (2 ^ bits : Nat)

/-- The content of a fresh element slot of `w` bytes when every byte of
fresh memory is `raw`. -/
def rawSlot (w : Nat) (raw : Nat) : Nat := ofBytes (List.replicate w raw)

/-- The number of slots `vn + !vn` that `Allocate<T>` asks for. -/
def slotCount (vn : Nat) : Nat := vn + (if vn = 0 then 1 else 0)

/-- The fresh array of `Allocate<T>(vr, vn)`: `vn + !vn` slots, each holding
`x`. -/
def slots {α : Type} (vn : Nat) (x : α) : List α := List.replicate (slotCount vn) x

/-- The fresh array of `Allocate<char>(vr, vn)`: `vn + pad + 1` bytes, where
`pad = (vn & (vr != UI))` makes room for the pad space and the last byte for
the terminating NUL. -/
def charSlots (raw : Nat) (vr : vtkDICOMVR) (vn : Nat) : List Nat :=
  List.replicate (vn + (if vr ≠ .UI then vn % 2 else 0) + 1) raw

/-- Modelled from the spec: the base constructor `Value::Value()` (declared
in vtkDICOMValue.h, which is not part of the sources at hand) gives a fresh
allocation the reference count 1, its one handle.  The rest is the generic
constructor `ValueT<T>::ValueT(vr, vn)`: `VL = vn*sizeof(T)` and
`NumberOfValues = vn`, both for `vn` already cast to `unsigned int`. -/
def ValueT (size : Nat) (vr : vtkDICOMVR) (vn : Nat) (d : ValueData Item Val) :
    Value Item Val :=
  { ReferenceCount := 1, CharacterSet := 0, VR := vr,
    VL := (vn % UINT_RANGE * size) % UINT_RANGE,
    NumberOfValues := vn % UINT_RANGE, Data := d }

/-- The function `Allocate<char>(vr, vn)` with the constructor
`ValueT<char>::ValueT`: `vn + pad + 1` bytes, `VL` padded to even,
`NumberOfValues = (vn > 0)`. -/
def AllocateCharData (raw : Nat) (vr : vtkDICOMVR) (vn : Nat) : Value Item Val :=
  let vn32 := vn % UINT_RANGE
  { ReferenceCount := 1, CharacterSet := 0, VR := vr,
    VL := (vn32 + vn32 % 2) % UINT_RANGE,
    NumberOfValues := if vn32 > 0 then 1 else 0,
    Data := .chars (charSlots raw vr vn) }

/-- The function `Allocate<unsigned char>(vr, vn)` with the constructor
`ValueT<unsigned char>::ValueT`: `VL` padded to even. -/
def AllocateUnsignedCharData (raw : Nat) (vr : vtkDICOMVR) (vn : Nat) : Value Item Val :=
  let vn32 := vn % UINT_RANGE
  { ReferenceCount := 1, CharacterSet := 0, VR := vr,
    VL := (vn32 + vn32 % 2) % UINT_RANGE,
    NumberOfValues := vn32,
    Data := .uchars (slots vn raw) }

/-- The function `Allocate<short>(vr, vn)`. -/
def AllocateShortData (raw : Nat) (vr : vtkDICOMVR) (vn : Nat) : Value Item Val :=
  ValueT 2 vr vn (.shorts (slots vn (toSigned 16 (rawSlot 2 raw))))

/-- The function `Allocate<unsigned short>(vr, vn)`. -/
def AllocateUnsignedShortData (raw : Nat) (vr : vtkDICOMVR) (vn : Nat) : Value Item Val :=
  ValueT 2 vr vn (.ushorts (slots vn (rawSlot 2 raw)))

/-- The function `Allocate<int>(vr, vn)`. -/
def AllocateIntData (raw : Nat) (vr : vtkDICOMVR) (vn : Nat) : Value Item Val :=
  ValueT 4 vr vn (.ints (slots vn (toSigned 32 (rawSlot 4 raw))))

/-- The function `Allocate<unsigned int>(vr, vn)`. -/
def AllocateUnsignedIntData (raw : Nat) (vr : vtkDICOMVR) (vn : Nat) : Value Item Val :=
  ValueT 4 vr vn (.uints (slots vn (rawSlot 4 raw)))

/-- The function `Allocate<float>(vr, vn)`. -/
def AllocateFloatData (raw : Nat) (vr : vtkDICOMVR) (vn : Nat) : Value Item Val :=
  ValueT 4 vr vn (.floats (slots vn (rawSlot 4 raw)))

/-- The function `Allocate<double>(vr, vn)`. -/
def AllocateDoubleData (raw : Nat) (vr : vtkDICOMVR) (vn : Nat) : Value Item Val :=
  ValueT 8 vr vn (.doubles (slots vn (rawSlot 8 raw)))

/-- The function `Allocate<vtkDICOMTag>(vr, vn)`: the constructor
`ValueT<vtkDICOMTag>::ValueT` sets `VL = 4*vn` and default-constructs the
first `vn` tags in place. -/
def AllocateTagData (raw : Nat) (vr : vtkDICOMVR) (vn : Nat) : Value Item Val :=
  let vn32 := vn % UINT_RANGE
  ValueT 4 vr vn (.tags (List.replicate vn32 vtkDICOMTag.zero ++
    List.replicate (slotCount vn - vn32) ⟨rawSlot 4 raw⟩))

/-- The function `Allocate<vtkDICOMItem>(vr, vn)`: `VL = 0`, the items are
default-constructed in place (`emptyItem` is `vtkDICOMItem()`; the one spare
slot of an allocation for zero items is shown holding it too). -/
def AllocateSequenceData (emptyItem : Item) (vr : vtkDICOMVR) (vn : Nat) : Value Item Val :=
  ValueT 0 vr vn (.items (slots vn emptyItem))

/-- The function `Allocate<vtkDICOMValue>(vr, vn)`: `VL = 0`, the nested
values are default-constructed in place (`emptyVal` is `vtkDICOMValue()`). -/
def AllocateMultiplexData (emptyVal : Val) (vr : vtkDICOMVR) (vn : Nat) : Value Item Val :=
  ValueT 0 vr vn (.values (slots vn emptyVal))

/-- Give a constructed allocation (or none, for a value left invalid) an
address: the handle the constructor leaves in `this->V`. -/
def construct (heap : Heap Item Val) (c : Option (Value Item Val)) :
    Handle × Heap Item Val :=
  match c with
  | none => (none, heap)
  | some v => ((some (heap.alloc v).1 : Handle), (heap.alloc v).2)

/-! ## Construction from tags -/

/-- The specialisation `CreateValue<vtkDICOMTag>(vr, data, n)`; the inner
`none` is the handle left null because the VR is not AT. -/
def CreateValue_Tag (raw : Nat) (vr : vtkDICOMVR) (data : List vtkDICOMTag) (n : Nat) :
    Option (Option (Value Item Val)) :=
  if vr = .AT then
    let v : Value Item Val := AllocateTagData raw vr n
    match v.Data with
    | .tags slots =>
      (readArray data n).bind fun src =>
      (overwrite slots 0 src).map fun d => some { v with Data := .tags d }
    | _ => none
  else some none

/-! ## Numeric types and conversions -/

/-- The native numeric types: the element types `T` of `CreateValue<T>`, the
output types `OT` of the getters, and `long`, the result type of `strtol`. -/
inductive NumType where
  | uchar | short | ushort | int | uint | long | float | double
  deriving DecidableEq, Repr

/-- The operator `sizeof` on the native types (`long` as on LP64 platforms). -/
def NumType.sizeof : NumType → Nat
  | .uchar => 1 | .short => 2 | .ushort => 2 | .int => 4 | .uint => 4
  | .long => 8 | .float => 4 | .double => 8

/-- Whether the type is a floating point type. -/
def NumType.isFloating : NumType → Bool
  | .float => true | .double => true | _ => false

/-- Whether an integer type is signed. -/
def NumType.isSigned : NumType → Bool
  | .short => true | .int => true | .long => true | _ => false

/-- The function `vtkTypeTraits<T>::VTKTypeID()`; `long` has no storage type
in the value container, it only occurs as an intermediate result. -/
def NumType.VTKTypeID : NumType → Option VTKType
  | .uchar => some .VTK_UNSIGNED_CHAR | .short => some .VTK_SHORT
  | .ushort => some .VTK_UNSIGNED_SHORT | .int => some .VTK_INT
  | .uint => some .VTK_UNSIGNED_INT | .float => some .VTK_FLOAT
  | .double => some .VTK_DOUBLE | .long => none

/-- The floating point services of the compiler and the C library, which the
embedding does not compute: they are taken as given.  Floating point numbers
are bit patterns; strings are byte lists. -/
structure FloatEnv where
  /-- `static_cast<double>(x)` for `x` of the given type. -/
  toDouble : NumType → Int → Nat
  /-- `static_cast<float>(x)` for `x` of the given type. -/
  toFloat : NumType → Int → Nat
  /-- `static_cast<OT>(x)` for an integer type `OT` and a floating `x`. -/
  toInteger : NumType → NumType → Int → Int
  /-- `strtod(cp, NULL)` on the memory starting at `cp`. -/
  strtod : List Nat → Nat
  /-- The characters that `sprintf(cp, fmt, d)` writes before the NUL, for
  the formats used: 0 is `%.10g`, 1 is `%#.16g`, 2 is `%#.8g`, 3 is `%.15e`
  and 4 is `%.7e`. -/
  sprintf : Nat → Nat → List Nat

/-- The conversion `static_cast<OT>(x)` of a value `x` of type `IT`: integer
to integer conversions wrap around, the rest is left to the `FloatEnv`. -/
def castTo (fe : FloatEnv) (OT IT : NumType) (x : Int) : Int :=
  if OT = IT then x
  else if OT = .double then fe.toDouble IT x
  else if OT = .float then fe.toFloat IT x
  else if IT.isFloating then fe.toInteger OT IT x
  else if OT.isSigned then toSigned (8 * OT.sizeof) x
  else toUnsigned (8 * OT.sizeof) x

/-- The function `NumericalConversion(u, v, n)`: cast `n` values of type
`IT` to type `OT`. -/
def NumericalConversion (fe : FloatEnv) (OT IT : NumType) (u : List Int) : List Int :=
  u.map (castTo fe OT IT)

/-! ## The C library functions on strings -/

/-- The bytes of the characters used below. -/
def BACKSLASH : Nat := 92

/-- The space character. -/
def SPACE : Nat := 32

/-- The function `isspace` in the C locale. -/
def isspace (c : Nat) : Bool := c == 32 || (9 ≤ c && c ≤ 13)

/-- The function `isdigit`. -/
def isdigit (c : Nat) : Bool := 48 ≤ c && c ≤ 57

/-- The largest `long` (LP64 platforms). -/
def LONG_MAX : Int := 9223372036854775807

/-- The smallest `long` (LP64 platforms). -/
def LONG_MIN : Int := -9223372036854775808

/-- The value of the leading decimal digits of a string, continuing from the
value `acc` of the digits already read. -/
def digitsValue : Nat → List Nat → Nat
  | acc, [] => acc
  | acc, c :: cs => if isdigit c then digitsValue (acc * 10 + (c - 48)) cs else acc

/-- The function `strtol(cp, NULL, 10)` on the memory starting at `cp`: skip
white space, read an optional sign and the decimal digits, saturate at the
range of `long`; 0 when there is no digit. -/
def strtol (cp : List Nat) : Int :=
  match cp.dropWhile isspace with
  | 45 :: r => max (-(digitsValue 0 r : Int)) LONG_MIN
  | 43 :: r => min (digitsValue 0 r : Int) LONG_MAX
  | r => min (digitsValue 0 r : Int) LONG_MAX

/-- The function `strncpy(dst, src, m)`: the `m` bytes it writes, which are
the bytes of `src` up to its first NUL, then NUL bytes.  `none` when it
reads past the end of the memory `src`. -/
def strncpy : List Nat → Nat → Option (List Nat)
  | _, 0 => some []
  | [], _ + 1 => none
  | c :: cs, k + 1 =>
    if c = 0 then some (List.replicate (k + 1) 0) else (strncpy cs k).map (c :: ·)

/-- The digits of a natural number, most significant first, as characters. -/
def decimalDigits (n : Nat) : List Nat := ((Nat.digits 10 n).reverse).map (· + 48)

/-- The characters that `sprintf(cp, "%i", d)` writes before the NUL. -/
def sprintf_i (d : Int) : List Nat :=
  if d < 0 then 45 :: decimalDigits d.natAbs
  else if d = 0 then [48]
  else decimalDigits d.natAbs

/-! ## StringConversion -/

/-- The loop `do { bk = (*cp == '\\'); cp++; } while (!bk && *cp != '\0');`
on the memory starting at `cp`: the result is the memory starting at the new
`cp`. -/
def skipValue : List Nat → Option (List Nat)
  | [] => none
  | c :: cp =>
    if c = BACKSLASH then some cp
    else match cp with
      | [] => none
      | d :: _ => if d ≠ 0 then skipValue cp else some cp

/-- The first loop of `StringConversion`:
`for (j = 0; j < i && *cp != '\0'; j++)` around `skipValue`. -/
def skipValues : Nat → List Nat → Option (List Nat)
  | 0, cp => some cp
  | j + 1, cp =>
    match cp with
    | [] => none
    | c :: _ => if c ≠ 0 then (skipValue cp).bind (skipValues j) else some cp

/-- The second loop of `StringConversion`:
`for (k = 0; k < n && *cp != '\0'; k++)`, converting with `conv` (`strtol` or
`strtod` followed by the cast) and skipping to the next value.  The result
lists the values written through `v`, at most `n`. -/
def convertValues (conv : List Nat → Int) : Nat → List Nat → Option (List Int)
  | 0, _ => some []
  | k + 1, cp =>
    match cp with
    | [] => none
    | c :: _ =>
      if c ≠ 0 then
        (skipValue cp).bind fun cp1 => (convertValues conv k cp1).map (conv cp :: ·)
      else some []

/-- The function `StringConversion<OT>(cp, vr, v, i, n)`: the values it
writes to `v[0], v[1], ...`.  For a VR other than IS and DS it writes `n`
zeros. -/
def StringConversion (fe : FloatEnv) (OT : NumType) (cp : List Nat) (vr : vtkDICOMVR)
    (i n : Nat) : Option (List Int) :=
  if vr = .IS ∨ vr = .DS then
    (skipValues i cp).bind fun cp1 =>
      convertValues
        (fun cp2 => if vr = .DS then castTo fe OT .double (fe.strtod cp2)
                    else castTo fe OT .long (strtol cp2)) n cp1
  else some (List.replicate n 0)

/-! ## memcpy into arrays of wider elements -/

/-- Split `n * w` bytes into `n` unsigned numbers of `w` bytes each. -/
def ofByteArray (w : Nat) : Nat → List Nat → List Nat
  | 0, _ => []
  | n + 1, bs => ofBytes (bs.take w) :: ofByteArray w n (bs.drop w)

/-- The call `memcpy(ptr, data, m)` where `ptr` is a fresh array of `cap`
elements of `w` bytes: the elements afterwards, as unsigned numbers.  `none`
when the `m` bytes do not fit. -/
def memcpyToSlots (w cap raw : Nat) (bytes : List Nat) : Option (List Nat) :=
  (overwrite (List.replicate (w * cap) raw) 0 bytes).map (ofByteArray w cap)

/-- The object representation of `n` source elements of type `T`. -/
def objectBytes (T : NumType) (data : List Int) : List Nat :=
  data.flatMap fun x => toBytes T.sizeof (toUnsigned (8 * T.sizeof) x)

/-! ## Construction from a character string -/

/-- Replace the element array and the element count of an allocation. -/
def Value.fill (v : Value Item Val) (d : ValueData Item Val) (count : Nat) :
    Value Item Val :=
  { v with Data := d, NumberOfValues := count }

/-- The specialisation `CreateValue<char>(vr, data, m)`.  `data` is the
memory starting at the pointer, `m` the length passed.  The inner `none` is
the handle left null because no branch applies. -/
def CreateValue_char (fe : FloatEnv) (raw : Nat) (vr : vtkDICOMVR) (data : List Nat)
    (m : Nat) : Option (Option (Value Item Val)) :=
  if vr = .ST ∨ vr = .LT ∨ vr = .UT then
    let pad := m % 2
    let v : Value Item Val := AllocateCharData raw vr (m + pad)
    (readArray data m).bind fun src =>
    (overwrite (charSlots raw vr (m + pad)) 0 src).bind fun b1 =>
    (if pad ≠ 0 then overwrite b1 m [SPACE] else some b1).bind fun b2 =>
    (overwrite b2 (m + pad) [0]).map fun b3 =>
    some (v.fill (.chars b3) 1)
  else if vr = .OW then
    let v : Value Item Val := AllocateShortData raw vr (m / 2)
    (readArray data m).bind fun src =>
    (memcpyToSlots 2 (slotCount (m / 2)) raw src).map fun d =>
    some (v.fill (.shorts (d.map fun (x : Nat) => toSigned 16 x)) v.NumberOfValues)
  else if vr = .OF then
    let v : Value Item Val := AllocateFloatData raw vr (m / 4)
    (readArray data m).bind fun src =>
    (memcpyToSlots 4 (slotCount (m / 4)) raw src).map fun d =>
    some (v.fill (.floats d) v.NumberOfValues)
  else if vr = .UN ∨ vr = .OB ∨ vr = .OX then
    let pad := m % 2
    let v : Value Item Val := AllocateUnsignedCharData raw vr (m + pad)
    (readArray data m).bind fun src =>
    (overwrite (slots (m + pad) raw) 0 src).bind fun b1 =>
    (if pad ≠ 0 then overwrite b1 m [0] else some b1).map fun b2 =>
    some (v.fill (.uchars b2) v.NumberOfValues)
  else
    -- count the number of backslash-separated values
    (readArray data m).bind fun src =>
    let n := (if m > 0 then 1 else 0) + src.count BACKSLASH
    if vr = .AE ∨ vr = .AS ∨ vr = .CS ∨ vr = .DA ∨ vr = .DS ∨ vr = .DT ∨
       vr = .IS ∨ vr = .LO ∨ vr = .PN ∨ vr = .SH ∨ vr = .TM ∨ vr = .UI then
      let pad := m % 2
      let v : Value Item Val := AllocateCharData raw vr m
      (strncpy data m).bind fun cpy =>
      (overwrite (charSlots raw vr m) 0 cpy).bind fun b1 =>
      (if pad ≠ 0 ∧ vr ≠ .UI then overwrite b1 m [SPACE] else some b1).bind fun b2 =>
      (overwrite b2 (if pad ≠ 0 ∧ vr ≠ .UI then m + 1 else m) [0]).map fun b3 =>
      some (v.fill (.chars b3) (n % UINT_RANGE))
    else if vr = .FD then
      let v : Value Item Val := AllocateDoubleData raw vr n
      (StringConversion fe .double data .DS 0 n).bind fun w =>
      (overwrite (slots n (rawSlot 8 raw)) 0 (w.map Int.toNat)).map
        fun d => some (v.fill (.doubles d) v.NumberOfValues)
    else if vr = .FL then
      let v : Value Item Val := AllocateFloatData raw vr n
      (StringConversion fe .float data .DS 0 n).bind fun w =>
      (overwrite (slots n (rawSlot 4 raw)) 0 (w.map Int.toNat)).map
        fun d => some (v.fill (.floats d) v.NumberOfValues)
    else if vr = .UL then
      let v : Value Item Val := AllocateUnsignedIntData raw vr n
      (StringConversion fe .uint data .IS 0 n).bind fun w =>
      (overwrite (slots n (rawSlot 4 raw)) 0 (w.map Int.toNat)).map
        fun d => some (v.fill (.uints d) v.NumberOfValues)
    else if vr = .SL then
      let v : Value Item Val := AllocateIntData raw vr n
      (StringConversion fe .int data .IS 0 n).bind fun w =>
      (overwrite (slots n (toSigned 32 (rawSlot 4 raw))) 0 w).map
        fun d => some (v.fill (.ints d) v.NumberOfValues)
    else if vr = .US then
      let v : Value Item Val := AllocateUnsignedShortData raw vr n
      (StringConversion fe .ushort data .IS 0 n).bind fun w =>
      (overwrite (slots n (rawSlot 2 raw)) 0 (w.map Int.toNat)).map
        fun d => some (v.fill (.ushorts d) v.NumberOfValues)
    else if vr = .SS ∨ vr = .XS then
      let v : Value Item Val := AllocateShortData raw vr n
      (StringConversion fe .short data .IS 0 n).bind fun w =>
      (overwrite (slots n (toSigned 16 (rawSlot 2 raw))) 0 w).map
        fun d => some (v.fill (.shorts d) v.NumberOfValues)
    else some none

/-! ## Reading values back -/

/-- The function `vtkDICOMValue::GetValuesT<VT>(v, c, s)` for a numeric type
`VT`.  `out` is the content of the array `v` before the call, the result its
content afterwards. -/
def GetValuesT (fe : FloatEnv) (VT : NumType) (val : Value Item Val) (out : List Int)
    (c s : Nat) : Option (List Int) :=
  match val.Data with
  | .chars d =>
    (StringConversion fe VT d val.VR s c).bind fun w => overwrite out 0 w
  | .uchars d =>
    (readArray (d.drop s) c).bind fun u =>
      overwrite out 0 (NumericalConversion fe VT .uchar (u.map Int.ofNat))
  | .shorts d =>
    (readArray (d.drop s) c).bind fun u =>
      overwrite out 0 (NumericalConversion fe VT .short u)
  | .ushorts d =>
    (readArray (d.drop s) c).bind fun u =>
      overwrite out 0 (NumericalConversion fe VT .ushort (u.map Int.ofNat))
  | .ints d =>
    (readArray (d.drop s) c).bind fun u =>
      overwrite out 0 (NumericalConversion fe VT .int u)
  | .uints d =>
    (readArray (d.drop s) c).bind fun u =>
      overwrite out 0 (NumericalConversion fe VT .uint (u.map Int.ofNat))
  | .floats d =>
    (readArray (d.drop s) c).bind fun u =>
      overwrite out 0 (NumericalConversion fe VT .float (u.map Int.ofNat))
  | .doubles d =>
    (readArray (d.drop s) c).bind fun u =>
      overwrite out 0 (NumericalConversion fe VT .double (u.map Int.ofNat))
  | .tags d =>
    -- for (i = 0; i < c; i += 2) { v[i] = group; v[i+1] = element; }
    (readArray (d.drop s) ((c + 1) / 2)).bind fun t =>
      overwrite out 0 (t.flatMap fun a =>
        [castTo fe VT .ushort a.GetGroup, castTo fe VT .ushort a.GetElement])
  | _ => some out

/-- The interface methods `GetValues(VT *v, size_t c, size_t s)`; they
dereference `this->V` without a test. -/
def GetValues (fe : FloatEnv) (VT : NumType) (v : Option (Value Item Val)) (out : List Int)
    (c s : Nat) : Option (List Int) :=
  v.bind fun val => GetValuesT fe VT val out c s

/-- The common body of `GetUnsignedChar`, `GetShort`, `GetUnsignedShort`,
`GetInt`, `GetUnsignedInt`, `GetFloat` and `GetDouble`: the local `v` starts
as zero and is returned. -/
def GetScalar (fe : FloatEnv) (VT : NumType) (v : Option (Value Item Val)) (i : Nat) :
    Option Int :=
  match v with
  | some val =>
    if i < val.NumberOfValues then (GetValuesT fe VT val [0] 1 i).map (·.headD 0)
    else some 0
  | none => some 0

/-- The method `GetInt(i)`. -/
def GetInt (fe : FloatEnv) (v : Option (Value Item Val)) (i : Nat) : Option Int :=
  GetScalar fe .int v i

/-- The method `GetUnsignedShort(i)`. -/
def GetUnsignedShort (fe : FloatEnv) (v : Option (Value Item Val)) (i : Nat) : Option Int :=
  GetScalar fe .ushort v i

/-! ## Substrings of text values -/

/-- The loop `do { dp++; } while (*dp != '\\' && dp != ep);` entered after
its first increment: `dp` is the position reached and `mem` the memory from
there on. -/
def scanValue (ep : Nat) : Nat → List Nat → Option Nat
  | _, [] => none
  | dp, c :: mem => if c ≠ BACKSLASH ∧ dp ≠ ep then scanValue ep (dp + 1) mem else some dp

/-- The outer loop of `Substring` for the default character set
`do { cp = dp + 1; ...scanValue... } while (--i != 0 && dp != ep);`
entered with `dp + 1 = start` and with `i = more + 1`.  The result is the
pair `(cp, dp)`. -/
def findValue (buf : List Nat) (ep : Nat) : Nat → Nat → Option (Nat × Nat)
  | more, start =>
    (scanValue ep start (buf.drop start)).bind fun dp =>
      match more with
      | 0 => some (start, dp)
      | k + 1 => if dp ≠ ep then findValue buf ep k (dp + 1) else some (start, dp)

/-- The loop `while (cp != dp && cp[0] == ' ') { cp++; }` on the memory
`mem` starting at `cp`. -/
def skipSpaces (dp : Nat) : Nat → List Nat → Option Nat
  | cp, [] => if cp ≠ dp then none else some cp
  | cp, c :: mem => if cp ≠ dp ∧ c = SPACE then skipSpaces dp (cp + 1) mem else some cp

/-- The loop `while (cp != dp && dp[-1] == ch) { dp--; }`. -/
def dropTrailing (buf : List Nat) (ch : Nat) (cp : Nat) : Nat → Option Nat
  | 0 => if cp ≠ 0 then none else some 0
  | dp + 1 =>
    if cp ≠ dp + 1 then
      match buf.get? dp with
      | none => none
      | some c => if c = ch then dropTrailing buf ch cp dp else some (dp + 1)
    else some (dp + 1)

/-- The loop of `Substring` for a specific character set
`for (;;) { dp = cp + cs.NextBackslash(cp, ep); if (--i == 0 || *dp != '\\') break; cp = dp + 1; }`
entered with `i = more + 1`; `next mem len` is `cs.NextBackslash` on the
`len` bytes of `mem`. -/
def findValueCS (next : List Nat → Nat → Nat) (buf : List Nat) (ep : Nat) :
    Nat → Nat → Option (Nat × Nat)
  | more, cp =>
    let dp := cp + next (buf.drop cp) (ep - cp)
    match more with
    | 0 => some (cp, dp)
    | k + 1 =>
      match buf.get? dp with
      | none => none
      | some c => if c ≠ BACKSLASH then some (cp, dp) else findValueCS next buf ep k (dp + 1)

/-- Modelled from the spec: the separator search of the character set
collaborator (`vtkDICOMCharacterSet::NextBackslash`, not part of the sources
at hand) is taken as a parameter `nextBackslash cs mem len`, the offset of
the next separator in the `len` bytes of `mem`.  The rest is the method
`Substring(i, start, end)`, which requires a text value; the result is the
pair `(start, end)` of offsets into `Data`. -/
def Substring (nextBackslash : Nat → List Nat → Nat → Nat) (val : Value Item Val)
    (i : Nat) : Option (Nat × Nat) :=
  match val.Data with
  | .chars buf =>
    let ep := val.VL
    (if val.NumberOfValues > 1 ∧ i + 1 > 0 then
      if val.CharacterSet = 0 then findValue buf ep i 0
      else findValueCS (nextBackslash val.CharacterSet) buf ep i 0
    else some (0, ep)).bind fun (cd : Nat × Nat) =>
    -- remove any spaces used as padding
    (if val.VR ≠ .ST ∧ val.VR ≠ .LT ∧ val.VR ≠ .UT then
      skipSpaces cd.2 cd.1 (buf.drop cd.1) else some cd.1).bind fun cp =>
    (dropTrailing buf SPACE cp cd.2).map fun dp => (cp, dp)
  | _ => none

/-! ## Conversion of one value to text -/

/-- The bytes `buf[cp], ..., buf[dp-1]` that `str.append(cp, dp)` appends. -/
def substr (buf : List Nat) (cp dp : Nat) : Option (List Nat) :=
  if cp ≤ dp ∧ dp ≤ buf.length then some ((buf.drop cp).take (dp - cp)) else none

/-- The integer branch of `AppendValueToString`: `d` is the element read as
`int`, `u0` the element read into the `size_t u` (zero unless the storage
type is `unsigned int`).  The digits are written from the end of `text[16]`
backwards; `none` when they do not fit. -/
def integerToText (d : Int) (u0 : Nat) : Option (List Nat) :=
  let u : Nat :=
    if d > 0 then d.toNat
    else if d < 0 then toUnsigned 64 (toSigned 32 (-d))
    else u0
  let digits := if u = 0 then [48] else decimalDigits u
  let text := if d < 0 then 45 :: digits else digits
  if text.length ≤ 16 then some text else none

/-- One hexadecimal digit as the loop of the tag branch prints it. -/
def hexChar (c : Nat) : Nat := if c < 10 then 48 + c else 65 - 10 + c

/-- The tag branch of `AppendValueToString`: the text `(gggg,eeee)`. -/
def tagToText (a : vtkDICOMTag) : List Nat :=
  let hex4 (t : Nat) : List Nat :=
    [hexChar ((t >>> 12) % 16), hexChar ((t >>> 8) % 16), hexChar ((t >>> 4) % 16),
     hexChar (t % 16)]
  [40] ++ hex4 a.GetGroup ++ [44] ++ hex4 a.GetElement ++ [41]

/-- The test `vtkMath::IsNan` on the bits of a double. -/
def isNanDouble (f : Nat) : Bool := ieeeIsNan 11 52 f

/-- The test `vtkMath::IsInf` on the bits of a double. -/
def isInfDouble (f : Nat) : Bool := f % 2 ^ 63 == 2047 * 2 ^ 52

/-- The loop `while (tj > 1 && text[tj-1] == '0' && text[tj-2] != '.') { tj--; }`
of the floating point branch. -/
def trimZeros (text : List Nat) : Nat → Nat
  | 0 => 0
  | tj + 1 =>
    if tj + 1 > 1 ∧ text.get? tj = some 48 ∧ text.get? (tj - 1) ≠ some 46 then
      trimZeros text tj
    else tj + 1

/-- The floating point branch of `AppendValueToString` for the double `f`
(given by its bits); `isDouble` tells whether the storage type is
`VTK_DOUBLE` rather than `VTK_FLOAT`. -/
def floatToText (fe : FloatEnv) (isDouble : Bool) (f : Nat) : List Nat :=
  if isNanDouble f then [110, 97, 110]
  else if isInfDouble f then (if f / 2 ^ 63 % 2 = 1 then [45, 105, 110, 102] else [105, 110, 102])
  else
    -- fabs(f) <= 2^53 for doubles, fabs(f) <= 2^24 for floats
    let small := if isDouble then f % 2 ^ 63 ≤ 0x4340000000000000
                 else f % 2 ^ 63 ≤ 0x4170000000000000
    let text0 :=
      if small then
        let t := if isDouble then fe.sprintf 1 f else fe.sprintf 2 f
        -- make sure there is a zero after the decimal point
        if t.getLast? = some 46 then t ++ [48] else t
      else
        if isDouble then fe.sprintf 3 f else fe.sprintf 4 f
    -- trim trailing zeros, except the one following the decimal point
    let ti := (text0.takeWhile fun c => c ≠ 101).length
    let tj := trimZeros text0 ti
    let text1 := text0.take tj ++ text0.drop ti
    -- if exponent has three digits, clear the first if it is zero
    let n1 := text1.length
    if n1 ≥ 5 ∧ text1.get? (n1 - 5) = some 101 ∧ text1.get? (n1 - 3) = some 48 then
      text1.take (n1 - 3) ++ text1.drop (n1 - 2)
    else text1

/-- The method `AppendValueToString(str, i)`: the text it appends to `str`.
`nextBackslash` is as in `Substring`. -/
def AppendValueToString (fe : FloatEnv) (nextBackslash : Nat → List Nat → Nat → Nat)
    (v : Option (Value Item Val)) (i : Nat) : Option (List Nat) :=
  match v with
  | none => some []
  | some val =>
    match val.Data with
    | .chars buf =>
      (if val.VR ≠ .ST ∧ val.VR ≠ .LT ∧ val.VR ≠ .UT then
        Substring nextBackslash val i
       else some (0, if i = 0 then val.VL else 0)).bind fun (cd : Nat × Nat) =>
      -- while (cp != dp && dp[-1] == '\0') { --dp; }
      (dropTrailing buf 0 cd.1 cd.2).bind fun dp => substr buf cd.1 dp
    | .uchars d => (d.get? i).bind fun x => integerToText x 0
    | .shorts d => (d.get? i).bind fun x => integerToText x 0
    | .ushorts d => (d.get? i).bind fun x => integerToText x 0
    | .ints d => (d.get? i).bind fun x => integerToText x 0
    | .uints d => (d.get? i).bind fun x => integerToText 0 x
    | .floats d => (d.get? i).map fun x => floatToText fe false (fe.toDouble .float x)
    | .doubles d => (d.get? i).map fun x => floatToText fe true x
    | .tags d => (d.get? i).map tagToText
    | _ => some []

/-- The method `GetString(i)`. -/
def GetString (fe : FloatEnv) (nextBackslash : Nat → List Nat → Nat → Nat)
    (v : Option (Value Item Val)) (i : Nat) : Option (List Nat) :=
  match v with
  | some val =>
    if i < val.NumberOfValues then AppendValueToString fe nextBackslash v i else some []
  | none => some []

/-! ## Construction from numeric arrays -/

/-- Replace the element array of an allocation. -/
def Value.setData (v : Value Item Val) (d : ValueData Item Val) : Value Item Val :=
  { v with Data := d }

/-- The bits of the double 9.999999999e+99. -/
def DS_MAX : Nat := 0x54b249ad258ce8b9

/-- The bits of the double 1e-99. -/
def DS_TINY : Nat := 0x2b617f7d4ed8c33e

/-- The clamping of the DS branch on the bits of the double `d`:
`if (d > 9.999999999e+99) ... else if (d < -9.999999999e+99) ... else if
(fabs(d) < 1e-99 || vtkMath::IsNan(d)) d = 0.0`. -/
def clampDS (d : Nat) : Nat :=
  let mag := d % 2 ^ 63
  let neg : Bool := d / 2 ^ 63 % 2 == 1
  if !isNanDouble d ∧ !neg ∧ mag > DS_MAX then DS_MAX
  else if !isNanDouble d ∧ neg ∧ mag > DS_MAX then DS_MAX + 2 ^ 63
  else if mag < DS_TINY ∨ isNanDouble d then 0
  else d

/-- The text of one element of the DS branch after the exponent has been
canonicalised: `if (dl >= 5 && (cp[dl-5] == 'e' || cp[dl-5] == 'E') &&
cp[dl-3] == '0')` the zero at `dl-3` is removed. -/
def fixExponent (t : List Nat) : List Nat :=
  let dl := t.length
  if dl ≥ 5 ∧ (t.get? (dl - 5) = some 101 ∨ t.get? (dl - 5) = some 69) ∧
      t.get? (dl - 3) = some 48 then
    t.take (dl - 3) ++ t.drop (dl - 2)
  else t

/-- The loop of the DS branch over the source elements: `buf` is the text
buffer and `cp` the write position; each round writes the formatted element
with its NUL, canonicalises the exponent in place and writes a backslash. -/
def writeDS (fe : FloatEnv) (T : NumType) : List Int → List Nat → Nat →
    Option (List Nat × Nat)
  | [], buf, cp => some (buf, cp)
  | x :: xs, buf, cp =>
    let t := fe.sprintf 0 (clampDS (castTo fe .double T x).toNat)
    (overwrite buf cp (t ++ [0])).bind fun b1 =>
    (overwrite b1 cp (fixExponent t ++ [0])).bind fun b2 =>
    (overwrite b2 (cp + (fixExponent t).length) [BACKSLASH]).bind fun b3 =>
    writeDS fe T xs b3 (cp + (fixExponent t).length + 1)

/-- The loop of the IS branch over the source elements:
`sprintf(cp, "%i", static_cast<int>(data[i])); cp += strlen(cp); *cp++ = '\\';` -/
def writeIS (fe : FloatEnv) (T : NumType) : List Int → List Nat → Nat →
    Option (List Nat × Nat)
  | [], buf, cp => some (buf, cp)
  | x :: xs, buf, cp =>
    let t := sprintf_i (castTo fe .int T x)
    (overwrite buf cp (t ++ [0])).bind fun b1 =>
    (overwrite b1 (cp + t.length) [BACKSLASH]).bind fun b2 =>
    writeIS fe T xs b2 (cp + t.length + 1)

/-- The end of the DS and IS branches: step back over the last backslash,
set `NumberOfValues` and `VL`, pad to even length with a space and write the
terminating NUL. -/
def finishText (v : Value Item Val) (n : Nat) (buf : List Nat) (cp0 : Nat) :
    Option (Option (Value Item Val)) :=
  let cp := if cp0 ≠ 0 then cp0 - 1 else cp0
  let vl := cp % UINT_RANGE
  if vl % 2 = 1 then
    (overwrite buf cp [SPACE]).bind fun b1 =>
    (overwrite b1 (cp + 1) [0]).map fun b2 =>
      some { v with NumberOfValues := n % UINT_RANGE, VL := (vl + 1) % UINT_RANGE,
                    Data := .chars b2 }
  else
    (overwrite buf cp [0]).map fun b1 =>
      some { v with NumberOfValues := n % UINT_RANGE, VL := vl, Data := .chars b1 }

/-- The loop of the AT branch
`for (i = 0; i < n; i += 2) { g = data[i]; e = data[i+1]; ptr[i/2] = vtkDICOMTag(g,e); }`
with `k` rounds to go and `j = i/2`. -/
def fillTags (fe : FloatEnv) (T : NumType) (data : List Int) :
    Nat → Nat → List vtkDICOMTag → Option (List vtkDICOMTag)
  | 0, _, ptr => some ptr
  | k + 1, j, ptr =>
    match data.get? (2 * j), data.get? (2 * j + 1) with
    | some g, some e =>
      (overwrite ptr j [vtkDICOMTag.ofGroupElement (castTo fe .ushort T g).toNat
        (castTo fe .ushort T e).toNat]).bind fun p1 => fillTags fe T data k (j + 1) p1
    | _, _ => none

/-- The first step of `CreateValue<T>`: the abstract VRs are replaced, OX
by OB or OW and XS by US or SS, depending on the element type. -/
def resolveVR (T : NumType) (vr : vtkDICOMVR) : vtkDICOMVR :=
  if vr = .OX then (if T.VTKTypeID = some .VTK_UNSIGNED_CHAR then .OB else .OW)
  else if vr = .XS then (if T.VTKTypeID = some .VTK_UNSIGNED_SHORT then .US else .SS)
  else vr

/-- The rest of `CreateValue<T>`, after `vr` has been resolved: use the VR
to set the data type, then convert the input to that type. -/
def CreateValueAs (fe : FloatEnv) (raw : Nat) (T : NumType) (vr : vtkDICOMVR)
    (data : List Int) (n : Nat) : Option (Option (Value Item Val)) :=
  let vt := T.VTKTypeID
  if vr = .FD then
    (readArray data n).bind fun src =>
    (overwrite (slots n (rawSlot 8 raw)) 0
      ((NumericalConversion fe .double T src).map Int.toNat)).map fun d =>
    some ((AllocateDoubleData raw vr n).setData (.doubles d))
  else if vr = .FL then
    (readArray data n).bind fun src =>
    (overwrite (slots n (rawSlot 4 raw)) 0
      ((NumericalConversion fe .float T src).map Int.toNat)).map fun d =>
    some ((AllocateFloatData raw vr n).setData (.floats d))
  else if vr = .UL then
    (readArray data n).bind fun src =>
    (overwrite (slots n (rawSlot 4 raw)) 0
      ((NumericalConversion fe .uint T src).map Int.toNat)).map fun d =>
    some ((AllocateUnsignedIntData raw vr n).setData (.uints d))
  else if vr = .SL then
    (readArray data n).bind fun src =>
    (overwrite (slots n (toSigned 32 (rawSlot 4 raw))) 0
      (NumericalConversion fe .int T src)).map fun d =>
    some ((AllocateIntData raw vr n).setData (.ints d))
  else if vr = .US then
    (readArray data n).bind fun src =>
    (overwrite (slots n (rawSlot 2 raw)) 0
      ((NumericalConversion fe .ushort T src).map Int.toNat)).map fun d =>
    some ((AllocateUnsignedShortData raw vr n).setData (.ushorts d))
  else if vr = .SS then
    (readArray data n).bind fun src =>
    (overwrite (slots n (toSigned 16 (rawSlot 2 raw))) 0
      (NumericalConversion fe .short T src)).map fun d =>
    some ((AllocateShortData raw vr n).setData (.shorts d))
  else if vr = .DS then
    (readArray data n).bind fun src =>
    (writeDS fe T src (charSlots raw vr (17 * n)) 0).bind fun (bc : List Nat × Nat) =>
    finishText (AllocateCharData raw vr (17 * n)) n bc.1 bc.2
  else if vr = .IS then
    (readArray data n).bind fun src =>
    (writeIS fe T src (charSlots raw vr (13 * n)) 0).bind fun (bc : List Nat × Nat) =>
    finishText (AllocateCharData raw vr (13 * n)) n bc.1 bc.2
  else if vr = .OB ∨ vr = .UN then
    let m := n * T.sizeof
    let pad := m % 2
    (readArray data n).bind fun src =>
    (overwrite (slots (m + pad) raw) 0 (objectBytes T src)).bind fun b1 =>
    (if pad ≠ 0 then overwrite b1 m [0] else some b1).map fun b2 =>
    some ((AllocateUnsignedCharData raw vr (m + pad)).fill (.uchars b2) (m % UINT_RANGE))
  else if vr = .OW then
    if vt = some .VTK_UNSIGNED_SHORT then
      (readArray data n).bind fun src =>
      (memcpyToSlots 2 (slotCount n) raw (objectBytes T src)).map fun d =>
      some ((AllocateUnsignedShortData raw vr n).setData (.ushorts d))
    else
      (readArray data n).bind fun src =>
      (memcpyToSlots 2 (slotCount (n * T.sizeof / 2)) raw (objectBytes T src)).map fun d =>
      some ((AllocateShortData raw vr (n * T.sizeof / 2)).setData
        (.shorts (d.map fun (x : Nat) => toSigned 16 x)))
  else if vr = .OF then
    (readArray data n).bind fun src =>
    (memcpyToSlots 4 (slotCount (n * T.sizeof / 4)) raw (objectBytes T src)).map fun d =>
    some ((AllocateFloatData raw vr (n * T.sizeof / 4)).setData (.floats d))
  else if vr = .AT then
    let v : Value Item Val := AllocateTagData raw vr (n / 2)
    match v.Data with
    | .tags ptr => (fillTags fe T data ((n + 1) / 2) 0 ptr).map fun d =>
        some (v.setData (.tags d))
    | _ => none
  else some none

/-- The template `CreateValue<T>(vr, data, n)` for a numeric element type
`T`.  `data` is the memory starting at the pointer, `n` the number of
elements passed.  The inner `none` is the handle left null because no branch
applies. -/
def CreateValue (fe : FloatEnv) (raw : Nat) (T : NumType) (vr : vtkDICOMVR)
    (data : List Int) (n : Nat) : Option (Option (Value Item Val)) :=
  CreateValueAs fe raw T (resolveVR T vr) data n

/-! ## Growing a sequence of items -/

/-- The statement `if (--(v->ReferenceCount) == 0) { FreeValue(v); }` for
the allocation at address `p`: the heap afterwards, `none` when there is no
live allocation at `p`. -/
def release (heap : Heap Item Val) (p : Nat) : Option (Heap Item Val) :=
  (heap.deref p).map fun v =>
    if v.ReferenceCount - 1 = 0 then heap.free p
    else heap.store p { v with ReferenceCount := v.ReferenceCount - 1 }

/-- Modelled from the spec: the inline method `Clear()` (declared in
vtkDICOMValue.h, which is not part of the sources at hand) drops the
reference this handle holds, frees the allocation when the count reaches
zero, and leaves the handle null.  The result is the heap afterwards. -/
def Clear (heap : Heap Item Val) (h : Handle) : Option (Heap Item Val) :=
  match h with
  | none => some heap
  | some p => release heap p

/-- Modelled from the spec: the copy constructor of `vtkDICOMValue`
(declared in vtkDICOMValue.h, which is not part of the sources at hand)
shares the allocation and increments its reference count.  The result is
the new handle and the heap afterwards. -/
def copyHandle (heap : Heap Item Val) (h : Handle) : Option (Handle × Heap Item Val) :=
  match h with
  | none => some (none, heap)
  | some p =>
    (heap.deref p).map fun v =>
      (some p, heap.store p { v with ReferenceCount := v.ReferenceCount + 1 })

/-- The method `AppendInit<vtkDICOMItem>(vr)`: the handle and the heap
afterwards. -/
def AppendInit (emptyItem : Item) (heap : Heap Item Val) (h : Handle) (vr : vtkDICOMVR) :
    Option (Handle × Heap Item Val) :=
  (Clear heap h).map fun heap1 =>
    -- mark as empty but growable
    let v : Value Item Val :=
      { AllocateSequenceData emptyItem vr 2 with NumberOfValues := 0, VL := VL_UNDEFINED }
    (some (heap1.alloc v).1, (heap1.alloc v).2)

/-- The loop `nn = 1; do { nn <<= 1; } while (nn <= n);` with `fuel` rounds
allowed after the first. -/
def growLoop (n : Nat) : Nat → Nat → Nat
  | 0, nn => 2 * nn
  | fuel + 1, nn => if 2 * nn ≤ n then growLoop n fuel (2 * nn) else 2 * nn

/-- The capacity `nn` that `AppendValue` computes: 0 stands for no
reallocation. -/
def newCapacity (v : Value Item Val) : Nat :=
  let n := v.NumberOfValues
  -- reallocate if not unique reference, or not yet growable
  if v.ReferenceCount ≠ 1 ∨ v.VL ≠ VL_UNDEFINED then growLoop n n 1
  -- reallocate if n is a power of two
  else if n > 1 ∧ (n - 1) &&& n = 0 then 2 * n
  else 0

/-- The method `AppendValue<vtkDICOMItem>(item)`: the handle and the heap
afterwards. -/
def AppendValue (emptyItem : Item) (heap : Heap Item Val) (h : Handle) (item : Item) :
    Option (Handle × Heap Item Val) :=
  match h with
  | none => some (none, heap)
  | some p =>
    (heap.deref p).bind fun v =>
    match v.Data with
    | .items cptr =>
      let n := v.NumberOfValues
      let nn := newCapacity v
      if nn ≠ 0 then
        -- ++(v->ReferenceCount), then Allocate<T>(v->VR, nn), which starts with Clear()
        let heap1 := heap.store p { v with ReferenceCount := v.ReferenceCount + 1 }
        (Clear heap1 (some p)).bind fun heap2 =>
        -- the new allocation: NumberOfValues = n, then copy the n old items
        let fresh : Value Item Val := AllocateSequenceData emptyItem v.VR nn
        (readArray cptr n).bind fun old =>
        (overwrite (slots nn emptyItem) 0 old).bind fun ptr =>
        -- if (--(v->ReferenceCount) == 0) { FreeValue(v); }
        (release heap2 p).bind fun heap3 =>
        -- mark as growable, add the item
        (overwrite ptr (n % UINT_RANGE) [item]).map fun ptr1 =>
        let nv : Value Item Val :=
          { fresh with NumberOfValues := (n % UINT_RANGE + 1) % UINT_RANGE,
                       VL := VL_UNDEFINED, Data := .items ptr1 }
        (some (heap3.alloc nv).1, (heap3.alloc nv).2)
      else
        (overwrite cptr n [item]).map fun ptr1 =>
        (some p, heap.store p
          { v with VL := VL_UNDEFINED, NumberOfValues := (n + 1) % UINT_RANGE,
                   Data := .items ptr1 })
    | _ => none

/-! ## Vocabulary of the specification -/

/-- The backslash-delimited segments of a byte string (always at least one). -/
def segments : List Nat → List (List Nat)
  | [] => [[]]
  | c :: cs =>
    if c = BACKSLASH then [] :: segments cs
    else match segments cs with
      | [] => [[c]]
      | seg :: rest => (c :: seg) :: rest

/-- A byte string with all leading and all trailing spaces removed. -/
def trimSpaces (l : List Nat) : List Nat :=
  (l.dropWhile (· == SPACE)).rdropWhile (· == SPACE)

/-- A floating point environment for uses in which no floating point
operation takes part. -/
def FloatEnv.trivial : FloatEnv :=
  ⟨fun _ _ => 0, fun _ _ => 0, fun _ _ _ => 0, fun _ => 0, fun _ _ => [48]⟩

/-- The text VRs whose value is split at backslashes. -/
def isShortTextVR (vr : vtkDICOMVR) : Bool :=
  vr = .AE ∨ vr = .AS ∨ vr = .CS ∨ vr = .DA ∨ vr = .DS ∨ vr = .DT ∨
  vr = .IS ∨ vr = .LO ∨ vr = .PN ∨ vr = .SH ∨ vr = .TM ∨ vr = .UI

/-- The three long text VRs. -/
def isLongTextVR (vr : vtkDICOMVR) : Bool := vr = .ST ∨ vr = .LT ∨ vr = .UT

/-- The padding that follows the copied bytes of a text value. -/
def textPad (vr : vtkDICOMVR) (m : Nat) : List Nat :=
  if m % 2 = 1 ∧ vr ≠ .UI then [SPACE] else []

/-- The bytes at offsets `cp, ..., dp - 1` of a buffer. -/
def slice (buf : List Nat) (cp dp : Nat) : List Nat := (buf.drop cp).take (dp - cp)

/-- The range of values of an integer type. -/
def NumType.inRange (T : NumType) (x : Int) : Prop :=
  if T.isSigned then -(2 ^ (8 * T.sizeof - 1) : Int) ≤ x ∧ x < 2 ^ (8 * T.sizeof - 1)
  else 0 ≤ x ∧ x < 2 ^ (8 * T.sizeof)

/-- The source data of the conversion constructors
`vtkDICOMValue(vr, data, count)`, which are overloaded on the type of
`data`: a numeric array, an array of tags, or characters.  In each case
`data` is the memory starting at the pointer. -/
inductive Source where
  | numeric (T : NumType) (data : List Int) (n : Nat)
  | tags (data : List vtkDICOMTag) (n : Nat)
  | chars (data : List Nat) (m : Nat)

/-- The conversion constructors `vtkDICOMValue(vr, data, count)`: each calls
the `CreateValue` of its element type. -/
def createFrom (fe : FloatEnv) (raw : Nat) (vr : vtkDICOMVR) :
    Source → Option (Option (Value Item Val))
  | .numeric T data n => CreateValue fe raw T vr data n
  | .tags data n => CreateValue_Tag raw vr data n
  | .chars data m => CreateValue_char fe raw vr data m

/-- The native element type of the four binary integer VRs. -/
def nativeType : vtkDICOMVR → Option NumType
  | .US => some .ushort
  | .SS => some .short
  | .UL => some .uint
  | .SL => some .int
  | _ => none

/-- The text that the loop of the IS branch writes: every element followed
by a backslash. -/
def textIS : List Int → List Nat
  | [] => []
  | x :: xs => sprintf_i x ++ BACKSLASH :: textIS xs

/-- The formatted elements joined by backslashes and followed by `rest`. -/
def numberList : List Int → List Nat → List Nat
  | [], rest => rest
  | [x], rest => sprintf_i x ++ rest
  | x :: y :: ys, rest => sprintf_i x ++ BACKSLASH :: numberList (y :: ys) rest

/-- The shape of what follows the last number in the text buffer: an optional
pad space and the terminating NUL. -/
def IsTextEnd (rest : List Nat) : Prop :=
  (∃ junk, rest = 0 :: junk) ∨ (∃ junk, rest = SPACE :: 0 :: junk)

/-- The representation invariant of an allocation: it has at least one
handle, the element count is within the capacity, and a growable allocation
(one with `VL = 0xffffffff`) has a power of two, at least 2, as capacity. -/
def WellFormed (v : Value Item Val) : Prop :=
  1 ≤ v.ReferenceCount ∧ v.NumberOfValues ≤ v.Data.capacity ∧
  (v.VL = VL_UNDEFINED → ∃ k, 1 ≤ k ∧ v.Data.capacity = 2 ^ k)

/-- A run of `AppendValue` calls on one handle, one per item. -/
def AppendValues (emptyItem : Item) : List Item → Handle × Heap Item Val →
    Option (Handle × Heap Item Val)
  | [], st => some st
  | x :: xs, st => (AppendValue emptyItem st.2 st.1 x).bind (AppendValues emptyItem xs)

/-! ## The other scalar getters -/

/-- The method `GetUnsignedChar(i)`. -/
def GetUnsignedChar (fe : FloatEnv) (v : Option (Value Item Val)) (i : Nat) : Option Int :=
  GetScalar fe .uchar v i

/-- The method `GetShort(i)`. -/
def GetShort (fe : FloatEnv) (v : Option (Value Item Val)) (i : Nat) : Option Int :=
  GetScalar fe .short v i

/-- The method `GetUnsignedInt(i)`. -/
def GetUnsignedInt (fe : FloatEnv) (v : Option (Value Item Val)) (i : Nat) : Option Int :=
  GetScalar fe .uint v i

/-- The method `GetFloat(i)`; the result is the bit pattern of the float. -/
def GetFloat (fe : FloatEnv) (v : Option (Value Item Val)) (i : Nat) : Option Int :=
  GetScalar fe .float v i

/-- The method `GetDouble(i)`; the result is the bit pattern of the double. -/
def GetDouble (fe : FloatEnv) (v : Option (Value Item Val)) (i : Nat) : Option Int :=
  GetScalar fe .double v i

/-- The common body of `AsUnsignedChar`, `AsShort`, `AsUnsignedShort`,
`AsInt`, `AsUnsignedInt`, `AsFloat` and `AsDouble`: the local `v` starts as
zero, is filled from element 0 when there is one, and is returned. -/
def AsScalar (fe : FloatEnv) (VT : NumType) (v : Option (Value Item Val)) : Option Int :=
  match v with
  | some val =>
    if val.NumberOfValues ≥ 1 then (GetValuesT fe VT val [0] 1 0).map (·.headD 0)
    else some 0
  | none => some 0

/-- The method `AsUnsignedChar()`. -/
def AsUnsignedChar (fe : FloatEnv) (v : Option (Value Item Val)) : Option Int :=
  AsScalar fe .uchar v

/-- The method `AsShort()`. -/
def AsShort (fe : FloatEnv) (v : Option (Value Item Val)) : Option Int :=
  AsScalar fe .short v

/-- The method `AsUnsignedShort()`. -/
def AsUnsignedShort (fe : FloatEnv) (v : Option (Value Item Val)) : Option Int :=
  AsScalar fe .ushort v

/-- The method `AsInt()`. -/
def AsInt (fe : FloatEnv) (v : Option (Value Item Val)) : Option Int :=
  AsScalar fe .int v

/-- The method `AsUnsignedInt()`. -/
def AsUnsignedInt (fe : FloatEnv) (v : Option (Value Item Val)) : Option Int :=
  AsScalar fe .uint v

/-- The method `AsFloat()`; the result is the bit pattern of the float. -/
def AsFloat (fe : FloatEnv) (v : Option (Value Item Val)) : Option Int :=
  AsScalar fe .float v

/-- The method `AsDouble()`; the result is the bit pattern of the double. -/
def AsDouble (fe : FloatEnv) (v : Option (Value Item Val)) : Option Int :=
  AsScalar fe .double v

/-- The method `GetCharData()`: the character array of a text value, `none`
(the null pointer) for an invalid value and for every other storage type. -/
def GetCharData (v : Option (Value Item Val)) : Option (List Nat) :=
  match v with
  | some val =>
    match val.Data with
    | .chars buf => some buf
    | _ => none
  | none => none

/-- The loop `while (l > 0 && (cp[l-1] == ' ' || cp[l-1] == '\0')) { l--; }`
of `AsString`. -/
def trimLength (cp : List Nat) : Nat → Option Nat
  | 0 => some 0
  | l + 1 =>
    match cp.get? l with
    | none => none
    | some c => if c = SPACE ∨ c = 0 then trimLength cp l else some (l + 1)

/-- The loop `for (i = 0; i < n; i++) { if (i > 0) { v.append("\\"); }
AppendValueToString(v, i); }` of `AsString`, with `k` rounds to go: the text
it appends. -/
def appendValues (fe : FloatEnv) (nextBackslash : Nat → List Nat → Nat → Nat)
    (v : Option (Value Item Val)) : Nat → Nat → Option (List Nat)
  | 0, _ => some []
  | k + 1, i =>
    (AppendValueToString fe nextBackslash v i).bind fun t =>
    (appendValues fe nextBackslash v k (i + 1)).map fun r =>
      (if i > 0 then [BACKSLASH] else []) ++ t ++ r

/-- The method `AsString()`. -/
def AsString (fe : FloatEnv) (nextBackslash : Nat → List Nat → Nat → Nat)
    (v : Option (Value Item Val)) : Option (List Nat) :=
  match GetCharData v, v with
  | some cp, some val =>
    (if val.VR ≠ .ST ∧ val.VR ≠ .LT ∧ val.VR ≠ .UT then trimLength cp val.VL
     else some val.VL).bind fun l => substr cp 0 l
  | _, some val =>
    if val.VR ≠ .UN ∧ val.VR ≠ .SQ ∧ val.VR ≠ .OW ∧ val.VR ≠ .OB ∧ val.VR ≠ .OF then
      appendValues fe nextBackslash v val.NumberOfValues 0
    else some []
  | _, none => some []

/-! ## Tag access -/

/-- The specialisation `GetValuesT<vtkDICOMTag>(v, c, s)`.  `out` is the
content of the array `v` before the call, the result its content afterwards. -/
def GetValuesT_Tag (val : Value Item Val) (out : List vtkDICOMTag) (c s : Nat) :
    Option (List vtkDICOMTag) :=
  match val.Data with
  | .tags d => (readArray (d.drop s) c).bind fun t => overwrite out 0 t
  | _ => some out

/-- The method `GetTag(i)`: the local `v` starts as the default tag; it is
filled when the VR is AT and `NumberOfValues == 1`. -/
def GetTag (v : Option (Value Item Val)) (i : Nat) : Option vtkDICOMTag :=
  match v with
  | some val =>
    if val.VR = .AT ∧ val.NumberOfValues = 1 then
      (GetValuesT_Tag val [vtkDICOMTag.zero] 1 i).map (·.headD vtkDICOMTag.zero)
    else some vtkDICOMTag.zero
  | none => some vtkDICOMTag.zero

/-- The method `AsTag()`: the local `v` starts as the default tag; it is
filled from element 0 when the VR is AT and `NumberOfValues >= 1`. -/
def AsTag (v : Option (Value Item Val)) : Option vtkDICOMTag :=
  match v with
  | some val =>
    if val.VR = .AT ∧ val.NumberOfValues ≥ 1 then
      (GetValuesT_Tag val [vtkDICOMTag.zero] 1 0).map (·.headD vtkDICOMTag.zero)
    else some vtkDICOMTag.zero
  | none => some vtkDICOMTag.zero

/-! ## More vocabulary of the specification -/

/-- The number that a string of decimal digits denotes; `none` when the
string is empty or holds another character. -/
def digitsNumber (ds : List Nat) : Option Nat :=
  if ds ≠ [] ∧ ds.all isdigit then some (ds.foldl (fun a c => a * 10 + (c - 48)) 0)
  else none

/-- The integer that a decimal integer literal denotes: an optional sign
followed by at least one decimal digit; `none` for every other string. -/
def literalValue : List Nat → Option Int
  | 45 :: ds => (digitsNumber ds).map fun (n : Nat) => -(n : Int)
  | 43 :: ds => (digitsNumber ds).map fun (n : Nat) => (n : Int)
  | ds => (digitsNumber ds).map fun (n : Nat) => (n : Int)

/-- The elements of an integer array as integers (empty for the other
storage types). -/
def ValueData.integers : ValueData Item Val → List Int
  | .uchars d => d.map Int.ofNat
  | .shorts d => d
  | .ushorts d => d.map Int.ofNat
  | .ints d => d
  | .uints d => d.map Int.ofNat
  | _ => []

/-- The order key of a double that is not NaN: its magnitude bits with the
sign applied, so that both zeros have the key 0. -/
def doubleKey (x : Nat) : Int :=
  if x / 2 ^ 63 % 2 = 1 then -((x % 2 ^ 63 : Nat) : Int) else ((x % 2 ^ 63 : Nat) : Int)

/-- The IEEE-754 comparison `x < y` of two doubles given by their bits. -/
def doubleLt (x y : Nat) : Bool :=
  !isNanDouble x && !isNanDouble y && decide (doubleKey x < doubleKey y)

/-- The bits of the double -9.999999999e+99. -/
def DS_MIN : Nat := DS_MAX + 2 ^ 63

/-- The bits of the double +infinity. -/
def DOUBLE_INF : Nat := 0x7ff0000000000000

/-- The bits of the double -infinity. -/
def DOUBLE_NEG_INF : Nat := 0xfff0000000000000

/-- The bits of the quiet NaN of the platform. -/
def DOUBLE_NAN : Nat := 0x7ff8000000000000

/-- A floating point environment that agrees with the C library where the
examples use it: a double converted to `double` is itself, and `%.10g`
prints 0 as `0`, 9.999999999e+99 as `9.999999999e+99` and -9.999999999e+99
as `-9.999999999e+99`. -/
def FloatEnv.sample : FloatEnv :=
  { toDouble := fun _ x => x.toNat
    toFloat := fun _ x => x.toNat
    toInteger := fun _ _ x => x
    strtod := fun _ => 0
    sprintf := fun _ d =>
      if d = DS_MAX then [57, 46, 57, 57, 57, 57, 57, 57, 57, 57, 57, 101, 43, 57, 57]
      else if d = DS_MIN then [45, 57, 46, 57, 57, 57, 57, 57, 57, 57, 57, 57, 101, 43, 57, 57]
      else [48] }

/-- The text of one element of a DS value built from numbers: the element
is converted to `double`, clamped, printed with `%.10g`, and the exponent is
canonicalised. -/
def textDSElement (fe : FloatEnv) (T : NumType) (x : Int) : List Nat :=
  fixExponent (fe.sprintf 0 (clampDS (castTo fe .double T x).toNat))

/-- Byte strings joined by single backslashes. -/
def joinBackslash : List (List Nat) → List Nat
  | [] => []
  | [t] => t
  | t :: u :: ts => t ++ BACKSLASH :: joinBackslash (u :: ts)

/-- The text that the loop of the DS branch writes: every element followed
by a backslash. -/
def textDS (fe : FloatEnv) (T : NumType) : List Int → List Nat
  | [] => []
  | x :: xs => textDSElement fe T x ++ BACKSLASH :: textDS fe T xs

/-- The pad space that makes a payload of odd length even. -/
def evenPad (payload : List Nat) : List Nat :=
  if payload.length % 2 = 1 then [SPACE] else []

/-- Two arrays agree on their first `k` elements, which both of them have. -/
def Agree {α : Type} (k : Nat) (a b : List α) : Prop :=
  k ≤ a.length ∧ k ≤ b.length ∧ ∀ i, i < k → a.get? i = b.get? i

/-- The elements that `operator==` compares are the same in both
allocations, which have the same storage type: the first `VL/sizeof(T)`
elements of a text or numeric array (no element is compared for tags). -/
def SameElements (v1 v2 : Value Item Val) : Prop :=
  match v1.Data, v2.Data with
  | .chars x, .chars y => Agree v1.VL x y
  | .uchars x, .uchars y => Agree v1.VL x y
  | .shorts x, .shorts y => Agree (v1.VL / 2) x y
  | .ushorts x, .ushorts y => Agree (v1.VL / 2) x y
  | .ints x, .ints y => Agree (v1.VL / 4) x y
  | .uints x, .uints y => Agree (v1.VL / 4) x y
  | .floats x, .floats y => Agree (v1.VL / 4) x y
  | .doubles x, .doubles y => Agree (v1.VL / 8) x y
  | .tags _, .tags _ => True
  | _, _ => False

/-- Two allocations with the same VR, VL, element count and storage type
whose compared elements are the same. -/
def SameContent (v1 v2 : Value Item Val) : Prop :=
  v1.VR = v2.VR ∧ v1.VL = v2.VL ∧ v1.NumberOfValues = v2.NumberOfValues ∧ SameElements v1 v2

/-- Whether one of the floating point elements that `operator==` compares
is a NaN. -/
def Value.hasNaN (v : Value Item Val) : Bool :=
  match v.Data with
  | .floats d => (d.take (v.VL / 4)).any (ieeeIsNan 8 23)
  | .doubles d => (d.take (v.VL / 8)).any (ieeeIsNan 11 52)
  | _ => false

/-- The VRs for which `CreateValue<char>` converts the text to numbers. -/
def isNumericVR (vr : vtkDICOMVR) : Bool :=
  vr = .FD ∨ vr = .FL ∨ vr = .UL ∨ vr = .SL ∨ vr = .US ∨ vr = .SS ∨ vr = .XS

/-- The sources from which every allocated element is written: all numeric
and tag arrays, all character strings for the text and byte VRs, and for the
VRs that are converted to numbers the NUL-terminated strings without a NUL
inside that do not end in a backslash. -/
def Source.wellTerminated (vr : vtkDICOMVR) : Source → Prop
  | .chars data m =>
    isNumericVR vr = true →
      ∃ s rest, data = s ++ 0 :: rest ∧ s.length = m ∧ 0 ∉ s ∧
        s.getLast? ≠ some BACKSLASH
  | _ => True

/-! ## The comparison operators of vtkDICOMTag -/

/-- The operator `vtkDICOMTag::operator==`: `Key == b.Key`. -/
def vtkDICOMTag.operator_eq (a b : vtkDICOMTag) : Bool := a.Key == b.Key

/-- The operator `vtkDICOMTag::operator!=`: `Key != b.Key`. -/
def vtkDICOMTag.operator_ne (a b : vtkDICOMTag) : Bool := a.Key != b.Key

/-- The operator `vtkDICOMTag::operator<=`: `Key <= b.Key`. -/
def vtkDICOMTag.operator_le (a b : vtkDICOMTag) : Bool := decide (a.Key ≤ b.Key)

/-- The operator `vtkDICOMTag::operator>=`: `Key >= b.Key`. -/
def vtkDICOMTag.operator_ge (a b : vtkDICOMTag) : Bool := decide (a.Key ≥ b.Key)

/-- The operator `vtkDICOMTag::operator<`: `Key < b.Key`. -/
def vtkDICOMTag.operator_lt (a b : vtkDICOMTag) : Bool := decide (a.Key < b.Key)

/-- The operator `vtkDICOMTag::operator>`: `Key > b.Key`. -/
def vtkDICOMTag.operator_gt (a b : vtkDICOMTag) : Bool := decide (a.Key > b.Key)

/-- The value of one hexadecimal digit character, in either case. -/
def hexDigitValue (c : Nat) : Option Nat :=
  if 48 ≤ c ∧ c ≤ 57 then some (c - 48)
  else if 65 ≤ c ∧ c ≤ 70 then some (c - 55)
  else if 97 ≤ c ∧ c ≤ 102 then some (c - 87)
  else none

/-- The number that a string of hexadecimal digits denotes, most significant
digit first; `none` when a character is not a hexadecimal digit. -/
def hexValue (cs : List Nat) : Option Nat :=
  cs.foldl (fun (acc : Option Nat) (c : Nat) =>
    acc.bind fun a => (hexDigitValue c).map fun d => 16 * a + d) (some 0)

/-! ## Replacing one item of a sequence -/

/-- The method `SetValue<vtkDICOMItem>(i, item)`: the handle and the heap
afterwards.  `assertions` says whether the three `assert`s of the method are
compiled in (they are unless `NDEBUG` is defined).  A failed assertion stops
the program, which is shown as `none`, like the dereference of a null handle
and a write outside the allocation. -/
def SetValue (assertions : Bool) (emptyItem : Item) (heap : Heap Item Val) (h : Handle)
    (i : Nat) (item : Item) : Option (Handle × Heap Item Val) :=
  match h with
  -- assert(this->V != 0);
  | none => none
  | some p =>
    (heap.deref p).bind fun v =>
    -- assert(i < this->V->NumberOfValues);
    if assertions = true ∧ ¬ i < v.NumberOfValues then none
    else
      match v.Data with
      | .items cptr =>
        -- assert(this->V->ReferenceCount == 1);
        if assertions = true ∧ v.ReferenceCount ≠ 1 then none
        -- reallocate the array if we aren't the sole owner
        else if v.ReferenceCount ≠ 1 then
          let m := v.NumberOfValues
          -- Allocate<T>(this->V->VR, m), which starts with Clear()
          (Clear heap (some p)).bind fun heap1 =>
          let fresh : Value Item Val := AllocateSequenceData emptyItem v.VR m
          (readArray cptr m).bind fun old =>
          (overwrite (slots m emptyItem) 0 old).bind fun ptr =>
          (overwrite ptr i [item]).map fun ptr1 =>
          (some (heap1.alloc (fresh.setData (.items ptr1))).1,
            (heap1.alloc (fresh.setData (.items ptr1))).2)
        else
          (overwrite cptr i [item]).map fun ptr1 =>
          (some p, heap.store p (v.setData (.items ptr1)))
      | _ => none

/-- What one call of `AppendValue` in a run did: the element count and the
capacity of the allocation before the call, the capacity of the allocation
the handle has after the call, and whether the call moved the value to a new
allocation (the pointer of the handle changed). -/
structure AppendEvent where
  count : Nat
  capBefore : Nat
  capAfter : Nat
  moved : Bool
  deriving DecidableEq, Repr

/-- The allocation a handle points to. -/
def stateValue (st : Handle × Heap Item Val) : Option (Value Item Val) :=
  st.1.bind st.2.deref

/-- A run of `AppendValue` calls on one handle, one per item, observed from
outside: the list of its events. -/
def AppendValuesTrace (emptyItem : Item) : List Item → Handle × Heap Item Val →
    Option (List AppendEvent)
  | [], _ => some []
  | x :: xs, st =>
    (stateValue st).bind fun v0 =>
    (AppendValue emptyItem st.2 st.1 x).bind fun st1 =>
    (stateValue st1).bind fun v1 =>
    (AppendValuesTrace emptyItem xs st1).map fun t =>
      { count := v0.NumberOfValues, capBefore := v0.Data.capacity,
        capAfter := v1.Data.capacity, moved := decide (st1.1 ≠ st.1) } :: t

/-- Whether `k` is one of 2, 4, 8, ... -/
def isDoublingPoint (k : Nat) : Bool := decide (1 < k ∧ 2 ^ Nat.log 2 k = k)

/-- The state of a sequence that has only been appended to by its one
handle since `AppendInit`: growable, not shared, with `k` items in a
capacity that is 2 or the smallest power of two not below `k`. -/
def Growing (k : Nat) (v : Value Item Val) (d : List Item) : Prop :=
  v.ReferenceCount = 1 ∧ v.VL = VL_UNDEFINED ∧ v.Data = .items d ∧ v.NumberOfValues = k ∧
  k ≤ d.length ∧ ∃ j, 1 ≤ j ∧ d.length = 2 ^ j ∧ (j = 1 ∨ 2 ^ (j - 1) < k)

/-- The smallest power of two that exceeds `n`, as a relation between `n` and
the capacity `c`. -/
def IsLeastPowerOfTwoAbove (n c : Nat) : Prop :=
  (∃ k, c = 2 ^ k) ∧ n < c ∧ ∀ k, n < 2 ^ k → c ≤ 2 ^ k

/-! ## Output to a stream -/

/-- Modelled from the spec: the conversion of the character set
collaborator (`vtkDICOMCharacterSet::ConvertToUTF8`, not part of the sources
at hand) is taken as a parameter `toUTF8 cs bytes`.  The rest is the method
`AppendValueToUTF8String(str, i)`: the text it appends to `str`. -/
def AppendValueToUTF8String (fe : FloatEnv) (nextBackslash : Nat → List Nat → Nat → Nat)
    (toUTF8 : Nat → List Nat → List Nat) (v : Option (Value Item Val)) (i : Nat) :
    Option (List Nat) :=
  match v with
  | none => AppendValueToString fe nextBackslash v i
  | some val =>
    match val.Data with
    | .chars buf =>
      if val.CharacterSet ≠ 0 then
        (if val.VR ≠ .ST ∧ val.VR ≠ .LT ∧ val.VR ≠ .UT then
          Substring nextBackslash val i
         else some (0, if i = 0 then val.VL else 0)).bind fun (cd : Nat × Nat) =>
        (substr buf cd.1 cd.2).map (toUTF8 val.CharacterSet)
      else AppendValueToString fe nextBackslash v i
    | _ => AppendValueToString fe nextBackslash v i

/-- The characters that `os << cp` prints for a `const char *`: the bytes of
the memory at `cp` before the first NUL; `none` when there is no NUL in the
allocation. -/
def cstring (mem : List Nat) : Option (List Nat) :=
  if 0 ∈ mem then some (mem.takeWhile fun c => c != 0) else none

/-- The characters that `os << s.c_str()` prints for a `std::string`: the
bytes before the first NUL, if there is one. -/
def c_str (s : List Nat) : List Nat := s.takeWhile fun c => c != 0

/-- The loop
`for (i = 0; i < n; i++) { s.append((i == 0 ? "" : ",")); v.AppendValueToUTF8String(s, i); }`
of `operator<<` with `k` rounds to go: the string `s` afterwards. -/
def renderValues (fe : FloatEnv) (nextBackslash : Nat → List Nat → Nat → Nat)
    (toUTF8 : Nat → List Nat → List Nat) (v : Option (Value Item Val)) (n : Nat) :
    Nat → List Nat → Option (List Nat)
  | 0, s => some s
  | k + 1, s =>
    (AppendValueToUTF8String fe nextBackslash toUTF8 v (n - (k + 1))).bind fun t =>
      renderValues fe nextBackslash toUTF8 v n k
        (s ++ (if n - (k + 1) = 0 then [] else [44]) ++ t)

/-- The loop `for (j = 0; j < m; j++) { if (j > 0) { os << ","; } os << tp[j]; }`
of `operator<<` from index `j` on. -/
def renderTags (tagText : vtkDICOMTag → List Nat) : Nat → List vtkDICOMTag → List Nat
  | _, [] => []
  | j, t :: ts => (if j > 0 then [44] else []) ++ tagText t ++ renderTags tagText (j + 1) ts

/-- Modelled from the spec: the inline accessors `GetVR`, `GetVL`,
`GetNumberOfValues` and `IsValid` (declared in vtkDICOMValue.h, which is not
part of the sources at hand) return the fields of the allocation and
whether there is one; `tagText` is the `operator<<` of `vtkDICOMTag`
(defined in vtkDICOMTag.cxx, also not at hand).  The rest is the function
`operator<<(ostream&, const vtkDICOMValue&)`: the characters it writes. -/
def operator_shl (fe : FloatEnv) (nextBackslash : Nat → List Nat → Nat → Nat)
    (toUTF8 : Nat → List Nat → List Nat) (tagText : vtkDICOMTag → List Nat)
    (v : Option (Value Item Val)) : Option (List Nat) :=
  match v with
  | none => some [101, 109, 112, 116, 121, 91, 48, 93] -- the characters empty[0]
  | some val =>
    let count := sprintf_i (val.NumberOfValues : Int) ++ [93]
    if val.VR = .UN then
      some ([117, 110, 107, 110, 111, 119, 110, 91] ++ count) -- the characters unknown[
    else if val.VR = .ST ∨ val.VR = .LT ∨ val.VR = .UT then
      -- might have control characters, don't print it
      some ([116, 101, 120, 116, 91] ++ sprintf_i (val.VL : Int) ++ [93]) -- the characters text[
    else
      match val.Data with
      | .chars buf =>
        (skipSpaces val.VL 0 buf).bind fun cp =>
        (dropTrailing buf SPACE cp val.VL).bind fun dp =>
        (if cp ≠ dp then (buf.get? (dp - 1)).map fun (c : Nat) => c == 0
         else some false).bind fun (nulBefore : Bool) =>
        (if nulBefore then some true
         else (buf.get? dp).map fun (c : Nat) => c == 0).bind fun (whole : Bool) =>
        if whole then cstring (buf.drop cp) else (substr buf cp dp).map c_str
      | data =>
        if val.VR = .AT then
          match data with
          | .tags d => (readArray d val.NumberOfValues).map (renderTags tagText 0)
          | _ => some ([116, 97, 103, 115, 91] ++ count) -- the characters tags[
        else if val.VR = .SQ then some ([105, 116, 101, 109, 115, 91] ++ count) -- the characters items[
        else if val.VR = .OB then some ([98, 121, 116, 101, 115, 91] ++ count) -- the characters bytes[
        else if val.VR = .OW then some ([119, 111, 114, 100, 115, 91] ++ count) -- the characters words[
        else if val.VR = .OF then
          some ([102, 108, 111, 97, 116, 115, 91] ++ count) -- the characters floats[
        else
          match data with
          | .values _ =>
            -- value is a multiplex of per-instance values
            some ([118, 97, 108, 117, 101, 115, 91] ++ count) -- the characters values[
          | _ =>
            let m := val.NumberOfValues
            let n := if m ≤ 16 then m else 16
            (renderValues fe nextBackslash toUTF8 v n n []).map fun s =>
              c_str (if m > n then s ++ [44, 46, 46, 46] else s) -- a comma and three dots

/-- Byte strings joined by single commas. -/
def joinComma : List (List Nat) → List Nat
  | [] => []
  | [t] => t
  | t :: u :: ts => t ++ 44 :: joinComma (u :: ts)

/-- The method `vtkDICOMTag::ComputeHash`:
`h = (((Key >> 6) & 0xFFFF03FF) ^ Key); return (h ^ (h >> 16));` -/
def vtkDICOMTag.ComputeHash (t : vtkDICOMTag) : Nat :=
  let h := ((t.Key >>> 6) &&& 0xFFFF03FF) ^^^ t.Key
  h ^^^ (h >>> 16)

/-! ## More constructors and the recount of text values -/

/-- The constructor `vtkDICOMValue(vtkDICOMVR vr)`: an empty value of the
storage type that belongs to the VR; `none` is the handle left null because
no branch applies. -/
def constructVR (raw : Nat) (emptyItem : Item) (vr : vtkDICOMVR) : Option (Value Item Val) :=
  if vr = .AE ∨ vr = .AS ∨ vr = .CS ∨ vr = .DA ∨ vr = .DS ∨ vr = .DT ∨
     vr = .IS ∨ vr = .LO ∨ vr = .PN ∨ vr = .SH ∨ vr = .TM ∨ vr = .UI ∨
     vr = .ST ∨ vr = .LT ∨ vr = .UT then some (AllocateCharData raw vr 0)
  else if vr = .OW ∨ vr = .OX then some (AllocateShortData raw vr 0)
  else if vr = .OF then some (AllocateFloatData raw vr 0)
  else if vr = .UN then some (AllocateUnsignedCharData raw vr 0)
  else if vr = .FD then some (AllocateDoubleData raw vr 0)
  else if vr = .FL then some (AllocateFloatData raw vr 0)
  else if vr = .UL then some (AllocateUnsignedIntData raw vr 0)
  else if vr = .SL then some (AllocateIntData raw vr 0)
  else if vr = .US then some (AllocateUnsignedShortData raw vr 0)
  else if vr = .SS ∨ vr = .XS then some (AllocateShortData raw vr 0)
  else if vr = .AT then some (AllocateTagData raw vr 0)
  else if vr = .SQ then some (AllocateSequenceData emptyItem vr 0)
  else none

/-- Modelled from the spec: the backslash count of the character set
collaborator (`vtkDICOMCharacterSet::CountBackslashes`, not part of the
sources at hand) is taken as a parameter `countBackslashes cs mem len`.  The
rest is the method `ComputeNumberOfValuesForCharData()`: the allocation
afterwards (the inner `none` is the null handle, which is left alone). -/
def ComputeNumberOfValuesForCharData (countBackslashes : Nat → List Nat → Nat → Nat)
    (v : Option (Value Item Val)) : Option (Option (Value Item Val)) :=
  match v with
  | none => some none
  | some val =>
    match val.Data with
    | .chars ptr =>
      if val.VL = 0 then some (some { val with NumberOfValues := 0 })
      else if val.VR = .LT ∨ val.VR = .ST ∨ val.VR = .UT then
        some (some { val with NumberOfValues := 1 })
      else if val.CharacterSet = 0 then
        -- do { n += (*ptr++ == '\\'); } while (--vl);
        (readArray ptr val.VL).map fun (p : List Nat) =>
          some { val with NumberOfValues := (1 + p.count BACKSLASH) % UINT_RANGE }
      else
        some (some { val with NumberOfValues :=
          (1 + countBackslashes val.CharacterSet ptr val.VL) % UINT_RANGE })
    | _ => some v

/-! ## Resizing a byte value -/

/-- The method `ReallocateUnsignedCharData(vn)`: the handle and the heap
afterwards.  The three assertions are not part of the model; a null handle
is dereferenced, and the allocation is read as an array of bytes. -/
def ReallocateUnsignedCharData (raw : Nat) (heap : Heap Item Val) (h : Handle) (vn : Nat) :
    Option (Handle × Heap Item Val) :=
  match h with
  | none => none
  | some p =>
    (heap.deref p).bind fun v =>
    match v.Data with
    | .uchars cptr =>
      let n := v.NumberOfValues
      -- increment ref count before reallocating
      let heap1 := heap.store p { v with ReferenceCount := v.ReferenceCount + 1 }
      -- AllocateUnsignedCharData(v->VR, vn), which starts with Clear()
      (Clear heap1 (some p)).bind fun heap2 =>
      let fresh : Value Item Val := AllocateUnsignedCharData raw v.VR vn
      let n1 := if n < vn then n else vn
      -- if (n > 0) { memcpy(ptr, cptr, n); }
      (readArray cptr n1).bind fun old =>
      (overwrite (slots vn raw) 0 old).bind fun ptr =>
      -- decrement the refcount of the old V
      (release heap2 p).map fun heap3 =>
      let nv : Value Item Val :=
        { fresh with NumberOfValues := vn % UINT_RANGE, VL := VL_UNDEFINED,
                     Data := .uchars ptr }
      (some (heap3.alloc nv).1, (heap3.alloc nv).2)
    | _ => none

/-- One use of a sequence through one of its handles: copy handle `i` (the
copy becomes the last handle), or append the item `x` through handle `i`. -/
inductive SeqOp (I : Type) where
  | copy (i : Nat)
  | append (i : Nat) (x : I)

/-- Apply one operation to the handles of a program and the heap; an index
that names no handle does nothing. -/
def stepOp (emptyItem : Item) (st : List Handle × Heap Item Val) :
    SeqOp Item → Option (List Handle × Heap Item Val)
  | .copy i =>
    match st.1.get? i with
    | none => some st
    | some h => (copyHandle st.2 h).map fun r => (st.1 ++ [r.1], r.2)
  | .append i x =>
    match st.1.get? i with
    | none => some st
    | some h => (AppendValue emptyItem st.2 h x).map fun r => (st.1.set i r.1, r.2)

/-- A run of operations, `none` when one of them fails (an `AppendValue`
that would write outside its array fails). -/
def runOps (emptyItem : Item) : List (SeqOp Item) → List Handle × Heap Item Val →
    Option (List Handle × Heap Item Val)
  | [], st => some st
  | op :: ops, st => (stepOp emptyItem st op).bind (runOps emptyItem ops)

/-- The capacity `c` is 2 when the element count `n` is at most 2, and the
smallest power of two not below `n` otherwise. -/
def CapacityFits (n c : Nat) : Prop :=
  ∃ j, 1 ≤ j ∧ c = 2 ^ j ∧ n ≤ c ∧ (j = 1 ∨ 2 ^ (j - 1) < n)

/-- The handles of a program all lead to sequences of at most `k` items
with a fitting capacity, and the reference count of each allocation is the
number of handles it has. -/
def Tracked (k : Nat) (st : List Handle × Heap Item Val) : Prop :=
  ∀ h ∈ st.1, ∃ p v d, h = some p ∧ st.2.deref p = some v ∧ v.Data = .items d ∧
    v.ReferenceCount = st.1.count (some p) ∧ v.NumberOfValues ≤ k ∧
    CapacityFits v.NumberOfValues d.length

/-! ## Lemmas on buffers and strings -/

theorem overwrite_zero_replicate {α : Type} (raw : α) (k : Nat) (xs : List α) (h : xs.length ≤ k) :
    overwrite (List.replicate k raw) 0 xs = some (xs ++ List.replicate (k - xs.length) raw) := by
  simp [overwrite, h]

theorem strncpy_length : ∀ (mem : List Nat) (m : Nat) (r : List Nat),
    strncpy mem m = some r → r.length = m
  | _, 0, r, h => by simp [strncpy] at h; simp [h]
  | [], _ + 1, r, h => by simp [strncpy] at h
  | c :: cs, k + 1, r, h => by
    simp only [strncpy] at h
    split_ifs at h with hc
    · simp at h; simp [← h]
    · simp only [Option.map_eq_some'] at h
      obtain ⟨r', hr', rfl⟩ := h
      simp [strncpy_length cs k r' hr']

theorem strncpy_append : ∀ (s rest : List Nat), 
    ∃ r, strncpy (s ++ rest) s.length = some r ∧ r.length = s.length
  | [], rest => ⟨[], by simp [strncpy]⟩
  | c :: cs, rest => by
    obtain ⟨r, hr, hl⟩ := strncpy_append cs rest
    simp only [List.cons_append, List.length_cons, strncpy]
    split_ifs with hc
    · exact ⟨_, rfl, by simp⟩
    · exact ⟨c :: r, by simp [hr], by simp [hl]⟩

theorem strncpy_no_nul : ∀ (s rest : List Nat), 0 ∉ s → strncpy (s ++ rest) s.length = some s
  | [], rest, _ => by simp [strncpy]
  | c :: cs, rest, h => by
    simp only [List.mem_cons, not_or] at h
    simp only [List.cons_append, List.length_cons, strncpy]
    have ih := strncpy_no_nul cs rest h.2
    rw [if_neg (fun hc => h.1 hc.symm)]
    simp only [List.append_eq, ih, Option.map_some']

theorem textVL (m : Nat) (h : m < 4294967295) :
    (m % UINT_RANGE + m % UINT_RANGE % 2) % UINT_RANGE = m + m % 2 := by
  simp only [UINT_RANGE]; omega

theorem overwrite_replicate_succ {α : Type} (raw : α) (xs : List α) (k : Nat) :
    overwrite (List.replicate (xs.length + k) raw) 0 xs = some (xs ++ List.replicate k raw) := by
  simp [overwrite]

theorem overwrite_fresh1 {α : Type} (raw : α) (xs : List α) :
    overwrite (List.replicate (xs.length + 1) raw) 0 xs = some (xs ++ [raw]) := by
  simp [overwrite]

theorem overwrite_fresh2 {α : Type} (raw : α) (xs : List α) :
    overwrite (List.replicate (xs.length + 1 + 1) raw) 0 xs = some (xs ++ [raw, raw]) := by
  have h := overwrite_replicate_succ raw xs 2
  simpa [List.replicate_succ] using h

theorem overwrite_at_end {α : Type} (c : α) (xs : List α) (y : α) (ys : List α) :
    overwrite (xs ++ y :: ys) xs.length [c] = some (xs ++ c :: ys) := by
  simp [overwrite]

theorem overwrite_at_end1 {α : Type} (c : α) (xs : List α) (x y : α) (ys : List α) :
    overwrite (xs ++ x :: y :: ys) (xs.length + 1) [c] = some (xs ++ x :: c :: ys) := by
  have := overwrite_at_end c (xs ++ [x]) y ys
  simpa using this

theorem CreateValue_char_shortText (fe : FloatEnv) (raw : Nat) (vr : vtkDICOMVR)
    (data : List Nat) (m : Nat) (src cpy : List Nat)
    (hvr : isShortTextVR vr = true) (hm : m < 4294967295)
    (hsrc : readArray data m = some src) (hcpy : strncpy data m = some cpy) :
    (CreateValue_char fe raw vr data m : Option (Option (Value Item Val))) =
      some (some
        { ReferenceCount := 1, CharacterSet := 0, VR := vr, VL := m + m % 2,
          NumberOfValues := ((if m > 0 then 1 else 0) + src.count BACKSLASH) % UINT_RANGE,
          Data := .chars (cpy ++ textPad vr m ++ [0]) }) := by
  have hlen := strncpy_length data m cpy hcpy
  have hnl : ¬ (vr = .ST ∨ vr = .LT ∨ vr = .UT) := by
    revert hvr; cases vr <;> simp [isShortTextVR]
  have h1 : vr ≠ .OW ∧ vr ≠ .OF ∧ ¬ (vr = .UN ∨ vr = .OB ∨ vr = .OX) := by
    revert hvr; cases vr <;> simp [isShortTextVR]
  have h2 : (vr = .AE ∨ vr = .AS ∨ vr = .CS ∨ vr = .DA ∨ vr = .DS ∨ vr = .DT ∨
      vr = .IS ∨ vr = .LO ∨ vr = .PN ∨ vr = .SH ∨ vr = .TM ∨ vr = .UI) := by
    simpa [isShortTextVR] using hvr
  simp only [CreateValue_char, if_neg hnl, if_neg h1.1, if_neg h1.2.1, if_neg h1.2.2,
    hsrc, Option.some_bind, if_pos h2, hcpy, charSlots, Value.fill, AllocateCharData,
    textVL m hm]
  subst hlen
  by_cases hui : vr = .UI
  · subst hui
    simp [textPad, overwrite_fresh1, overwrite_at_end]
  · rcases Nat.mod_two_eq_zero_or_one cpy.length with hpar | hpar
    · simp [textPad, hui, hpar, overwrite_fresh1, overwrite_at_end]
    · simp [textPad, hui, hpar, overwrite_fresh2, overwrite_at_end, overwrite_at_end1]

theorem CreateValue_char_longText (fe : FloatEnv) (raw : Nat) (vr : vtkDICOMVR)
    (s rest : List Nat)
    (hvr : isLongTextVR vr = true) (hm : s.length < 4294967295) :
    (CreateValue_char fe raw vr (s ++ rest) s.length : Option (Option (Value Item Val))) =
      some (some
        { ReferenceCount := 1, CharacterSet := 0, VR := vr, VL := s.length + s.length % 2,
          NumberOfValues := 1,
          Data := .chars (s ++ textPad vr s.length ++ [0]) }) := by
  have hl : (vr = .ST ∨ vr = .LT ∨ vr = .UT) := by simpa [isLongTextVR] using hvr
  have hui : vr ≠ .UI := by rcases hl with h | h | h <;> simp [h]
  have hread : readArray (s ++ rest) s.length = some s := by simp [readArray]
  have hvl : ((s.length + s.length % 2) % UINT_RANGE +
      (s.length + s.length % 2) % UINT_RANGE % 2) % UINT_RANGE = s.length + s.length % 2 := by
    simp only [UINT_RANGE]; omega
  simp only [CreateValue_char, if_pos hl, hread, Option.some_bind, charSlots, Value.fill,
    AllocateCharData, hvl]
  rcases Nat.mod_two_eq_zero_or_one s.length with hpar | hpar
  · simp [textPad, hui, hpar, overwrite_fresh1, overwrite_at_end]
  · have h2 : (s.length + 1) % 2 = 0 := by omega
    simp [textPad, hui, hpar, h2, overwrite_fresh2, overwrite_at_end, overwrite_at_end1]

theorem slice_length (buf : List Nat) (cp dp : Nat) (_h1 : cp ≤ dp) (h2 : dp ≤ buf.length) :
    (slice buf cp dp).length = dp - cp := by
  simp [slice]; omega

theorem slice_succ (buf : List Nat) (cp dp : Nat) (c : Nat) (h1 : cp ≤ dp)
    (h2 : buf.get? dp = some c) :
    slice buf cp (dp + 1) = slice buf cp dp ++ [c] := by
  unfold slice
  have h3 : dp + 1 - cp = (dp - cp) + 1 := by omega
  rw [h3, List.take_succ]
  congr 1
  rw [List.getElem?_drop]
  have : cp + (dp - cp) = dp := by omega
  rw [this]
  simp only [List.get?_eq_getElem?] at h2
  simp [h2]

theorem slice_self (buf : List Nat) (cp : Nat) : slice buf cp cp = [] := by
  simp [slice]

theorem dropTrailing_spec (buf : List Nat) (ch : Nat) (cp : Nat) :
    ∀ dp, cp ≤ dp → dp ≤ buf.length →
      dropTrailing buf ch cp dp =
        some (cp + ((slice buf cp dp).rdropWhile (· == ch)).length)
  | 0, h1, _ => by
    have : cp = 0 := by omega
    subst this
    simp [dropTrailing, slice]
  | dp + 1, h1, h2 => by
    simp only [dropTrailing]
    by_cases hcp : cp = dp + 1
    · subst hcp
      simp [slice_self]
    · have hlt : dp < buf.length := by omega
      have hget : buf.get? dp = some buf[dp] := by
        rw [List.get?_eq_getElem?, List.getElem?_eq_getElem hlt]
      rw [if_pos hcp, hget]
      simp only
      rw [slice_succ buf cp dp _ (by omega) hget]
      by_cases hc : buf[dp] = ch
      · rw [if_pos hc, dropTrailing_spec buf ch cp dp (by omega) (by omega)]
        rw [List.rdropWhile_concat_pos]
        simp [hc]
      · rw [if_neg hc, List.rdropWhile_concat_neg]
        · simp [slice_length buf cp dp (by omega) (by omega)]
          omega
        · simp [hc]

theorem slice_prefix_take (buf : List Nat) (cp dp : Nat) (l : List Nat)
    (hl : l <+: slice buf cp dp) :
    slice buf cp (cp + l.length) = l := by
  obtain ⟨t, ht⟩ := hl
  unfold slice at *
  have : cp + l.length - cp = l.length := by omega
  rw [this]
  have h2 : List.take l.length (List.take (dp - cp) (List.drop cp buf)) = l := by
    rw [← ht]; simp
  rw [List.take_take] at h2
  have h3 : l.length ≤ dp - cp := by
    have := congrArg List.length ht
    simp at this
    omega
  rwa [min_eq_left h3] at h2

theorem skipSpaces_spec (dp : Nat) : ∀ (mem : List Nat) (cp : Nat), cp ≤ dp →
    dp - cp ≤ mem.length →
    skipSpaces dp cp mem = some (cp + ((mem.take (dp - cp)).takeWhile (· == SPACE)).length)
  | [], cp, h1, h2 => by
    have : cp = dp := by simp at h2; omega
    simp [skipSpaces, this]
  | c :: mem, cp, h1, h2 => by
    simp only [skipSpaces]
    by_cases hcp : cp = dp
    · simp [hcp]
    · have h3 : dp - cp = (dp - (cp + 1)) + 1 := by omega
      by_cases hc : c = SPACE
      · rw [if_pos ⟨hcp, hc⟩, skipSpaces_spec dp mem (cp + 1) (by omega) (by simp at h2; omega)]
        rw [h3, List.take_succ_cons, List.takeWhile_cons_of_pos (by simp [hc])]
        simp; omega
      · rw [if_neg (fun h => hc h.2), h3, List.take_succ_cons,
          List.takeWhile_cons_of_neg (by simp [hc])]
        simp

theorem segments_ne_nil : ∀ s : List Nat, segments s ≠ []
  | [] => by simp [segments]
  | c :: cs => by
    simp only [segments]
    split_ifs
    · simp
    · split <;> simp

theorem segments_of_not_mem : ∀ a : List Nat, BACKSLASH ∉ a → segments a = [a]
  | [], _ => by simp [segments]
  | c :: cs, h => by
    simp only [List.mem_cons, not_or] at h
    have hc : c ≠ BACKSLASH := fun hc => h.1 hc.symm
    simp [segments, hc, segments_of_not_mem cs h.2]

theorem segments_append_backslash : ∀ (a b : List Nat), BACKSLASH ∉ a →
    segments (a ++ BACKSLASH :: b) = a :: segments b
  | [], b, _ => by simp [segments]
  | c :: cs, b, h => by
    simp only [List.mem_cons, not_or] at h
    have hc : c ≠ BACKSLASH := fun hc => h.1 hc.symm
    simp [segments, hc, segments_append_backslash cs b h.2]

theorem segments_length : ∀ s : List Nat, (segments s).length = s.count BACKSLASH + 1
  | [] => by simp [segments]
  | c :: cs => by
    have ih := segments_length cs
    simp only [segments]
    split_ifs with hc
    · simp [hc, ih]
    · have hne : (c == BACKSLASH) = false := by simpa using hc
      rw [List.count_cons, hne]
      split
      · rename_i h; exact absurd h (segments_ne_nil cs)
      · rename_i seg rest h; rw [h] at ih; simpa using ih

theorem scanValue_spec (ep : Nat) : ∀ (a : List Nat) (dp c : Nat) (tail : List Nat),
    BACKSLASH ∉ a → dp + a.length ≤ ep → (c = BACKSLASH ∨ dp + a.length = ep) →
    scanValue ep dp (a ++ c :: tail) = some (dp + a.length)
  | [], dp, c, tail, _, _, h => by
    have : ¬ (c ≠ BACKSLASH ∧ dp ≠ ep) := by
      rintro ⟨h1, h2⟩
      rcases h with h | h
      · exact h1 h
      · exact h2 (by simpa using h)
    simp [scanValue, this]
  | x :: a, dp, c, tail, hn, hle, h => by
    simp only [List.mem_cons, not_or] at hn
    have h1 : x ≠ BACKSLASH := fun hx => hn.1 hx.symm
    have h2 : dp ≠ ep := by simp at hle; omega
    have ih := scanValue_spec ep a (dp + 1) c tail hn.2 (by simp at hle; omega)
      (by rcases h with h | h; exact Or.inl h; right; simp at h; omega)
    simp only [List.cons_append, scanValue, List.append_eq]
    rw [if_pos ⟨h1, h2⟩, ih]
    simp only [List.length_cons, Option.some.injEq]; omega

/-- Split a string at its first backslash. -/
theorem split_first (Q : List Nat) :
    (BACKSLASH ∉ Q) ∨ ∃ a Q1, Q = a ++ BACKSLASH :: Q1 ∧ BACKSLASH ∉ a := by
  induction Q with
  | nil => left; simp
  | cons c cs ih =>
    by_cases hc : c = BACKSLASH
    · right; exact ⟨[], cs, by simp [hc], by simp⟩
    · rcases ih with ih | ⟨a, Q1, h1, h2⟩
      · have hc2 : BACKSLASH ≠ c := fun h => hc h.symm
        left; simp [ih, hc2]
      · have hc2 : BACKSLASH ≠ c := fun h => hc h.symm
        right; exact ⟨c :: a, Q1, by simp [h1], by simp [h2, hc2]⟩

theorem slice_append_left (pre Q rest : List Nat) :
    slice (pre ++ Q ++ rest) pre.length (pre.length + Q.length) = Q := by
  simp [slice]

theorem findValue_spec : ∀ (i : Nat) (pre Q : List Nat) (c : Nat) (tail : List Nat),
    i < (segments Q).length →
    ∃ cp dp, findValue (pre ++ Q ++ c :: tail) (pre.length + Q.length) i pre.length =
        some (cp, dp) ∧ cp ≤ dp ∧ dp ≤ pre.length + Q.length ∧
      slice (pre ++ Q ++ c :: tail) cp dp = (segments Q).getD i []
  | i, pre, Q, c, tail, hi => by
    rcases split_first Q with hQ | ⟨a, Q1, hQ, ha⟩
    · -- the last value: the scan stops at ep
      rw [segments_of_not_mem Q hQ] at hi ⊢
      have hi0 : i = 0 := by simpa using hi
      subst hi0
      refine ⟨pre.length, pre.length + Q.length, ?_, by omega, le_refl _, ?_⟩
      · unfold findValue
        have hd : List.drop pre.length (pre ++ Q ++ c :: tail) = Q ++ c :: tail := by simp
        rw [hd, scanValue_spec _ Q pre.length c tail hQ (le_refl _) (Or.inr rfl)]
        rfl
      · simpa using slice_append_left pre Q (c :: tail)
    · subst hQ
      rw [segments_append_backslash a Q1 ha] at hi ⊢
      have hd : List.drop pre.length (pre ++ (a ++ BACKSLASH :: Q1) ++ c :: tail) =
          a ++ BACKSLASH :: (Q1 ++ c :: tail) := by simp
      have hscan := scanValue_spec (pre.length + (a ++ BACKSLASH :: Q1).length) a pre.length
        BACKSLASH (Q1 ++ c :: tail) ha
        (by simp only [List.length_append, List.length_cons]; omega) (Or.inl rfl)
      cases i with
      | zero =>
        refine ⟨pre.length, pre.length + a.length, ?_, by omega,
          by simp only [List.length_append, List.length_cons]; omega, ?_⟩
        · unfold findValue
          rw [hd, hscan]; rfl
        · have := slice_append_left pre a (BACKSLASH :: Q1 ++ c :: tail)
          simpa using this
      | succ k =>
        have hbuf : pre ++ (a ++ BACKSLASH :: Q1) ++ c :: tail =
            (pre ++ a ++ [BACKSLASH]) ++ Q1 ++ c :: tail := by simp
        have hep : pre.length + (a ++ BACKSLASH :: Q1).length =
            (pre ++ a ++ [BACKSLASH]).length + Q1.length := by
          simp only [List.length_append, List.length_cons, List.length_nil]; omega
        obtain ⟨cp, dp, h1, h2, h3, h4⟩ :=
          findValue_spec k (pre ++ a ++ [BACKSLASH]) Q1 c tail (by simpa using hi)
        refine ⟨cp, dp, ?_, h2, by rw [hep]; exact h3, ?_⟩
        · unfold findValue
          rw [hd, hscan]
          have hne : pre.length + a.length ≠ pre.length + (a ++ BACKSLASH :: Q1).length := by
            simp
          simp only [Option.some_bind, if_pos hne]
          rw [hbuf, hep]
          have hst : pre.length + a.length + 1 = (pre ++ a ++ [BACKSLASH]).length := by
            simp only [List.length_append, List.length_cons, List.length_nil]
          rw [hst]; exact h1
        · rw [hbuf]; simpa using h4

theorem slice_drop (buf : List Nat) (cp t dp : Nat) :
    slice buf (cp + t) dp = (slice buf cp dp).drop t := by
  unfold slice
  rw [List.drop_take, List.drop_drop]
  have e1 : dp - (cp + t) = dp - cp - t := by omega
  have e2 : cp + t = t + cp := by omega
  rw [e1, e2]

theorem drop_takeWhile_length (p : Nat → Bool) : ∀ l : List Nat,
    l.drop (l.takeWhile p).length = l.dropWhile p
  | [] => by simp
  | c :: cs => by
    by_cases hc : p c = true
    · rw [List.takeWhile_cons_of_pos hc, List.dropWhile_cons_of_pos hc]
      simpa using drop_takeWhile_length p cs
    · rw [List.takeWhile_cons_of_neg hc, List.dropWhile_cons_of_neg hc]
      simp

theorem dropWhile_append_of_exists (p : Nat → Bool) (r : List Nat) : ∀ l : List Nat,
    (∃ x ∈ l, ¬ p x = true) → (l ++ r).dropWhile p = l.dropWhile p ++ r
  | [], h => by simp at h
  | c :: cs, h => by
    by_cases hc : p c = true
    · rw [List.cons_append, List.dropWhile_cons_of_pos hc, List.dropWhile_cons_of_pos hc]
      apply dropWhile_append_of_exists p r cs
      obtain ⟨x, hx, hpx⟩ := h
      rcases List.mem_cons.1 hx with rfl | hx
      · exact absurd hc hpx
      · exact ⟨x, hx, hpx⟩
    · rw [List.cons_append, List.dropWhile_cons_of_neg hc, List.dropWhile_cons_of_neg hc]
      rfl

theorem substr_eq_slice (buf : List Nat) (cp dp : Nat) (h1 : cp ≤ dp) (h2 : dp ≤ buf.length) :
    substr buf cp dp = some (slice buf cp dp) := by
  simp [substr, slice, h1, h2]

theorem strip_substr (buf : List Nat) (ch : Nat) (cp dp : Nat) (h1 : cp ≤ dp)
    (h2 : dp ≤ buf.length) :
    (dropTrailing buf ch cp dp).bind (substr buf cp) =
      some ((slice buf cp dp).rdropWhile (· == ch)) := by
  rw [dropTrailing_spec buf ch cp dp h1 h2]
  have hp : (slice buf cp dp).rdropWhile (· == ch) <+: slice buf cp dp :=
    List.rdropWhile_prefix _ _
  have hlen : ((slice buf cp dp).rdropWhile (· == ch)).length ≤ dp - cp := by
    have := hp.length_le
    rwa [slice_length buf cp dp h1 h2] at this
  have hs := slice_prefix_take buf cp dp _ hp
  simp only [Option.some_bind]
  rw [substr_eq_slice buf cp _ (by omega) (by omega), hs]

/-- The values found by `Substring` after its two trimming loops. -/
theorem trim_spec (buf : List Nat) (cp dp : Nat) (h1 : cp ≤ dp) (h2 : dp ≤ buf.length) :
    ∃ cp1 dp1, (skipSpaces dp cp (buf.drop cp)).bind (fun cp1 =>
        (dropTrailing buf SPACE cp1 dp).map fun dp1 => (cp1, dp1)) = some (cp1, dp1) ∧
      cp1 ≤ dp1 ∧ dp1 ≤ buf.length ∧ slice buf cp1 dp1 = trimSpaces (slice buf cp dp) := by
  have hsk := skipSpaces_spec dp (buf.drop cp) cp h1 (by simp; omega)
  have htw : ((List.take (dp - cp) (List.drop cp buf)).takeWhile (· == SPACE)).length ≤ dp - cp := by
    have := (List.takeWhile_prefix (· == SPACE) (l := slice buf cp dp)).length_le
    rwa [slice_length buf cp dp h1 h2] at this
  set t := ((List.take (dp - cp) (List.drop cp buf)).takeWhile (· == SPACE)).length with ht
  have hsl : slice buf (cp + t) dp = (slice buf cp dp).dropWhile (· == SPACE) := by
    rw [slice_drop, ht]
    exact drop_takeWhile_length _ _
  have hdt := dropTrailing_spec buf SPACE (cp + t) dp (by omega) h2
  have hp : (slice buf (cp + t) dp).rdropWhile (· == SPACE) <+: slice buf (cp + t) dp :=
    List.rdropWhile_prefix _ _
  have hlen := hp.length_le
  rw [slice_length buf (cp + t) dp (by omega) h2] at hlen
  refine ⟨cp + t, cp + t + ((slice buf (cp + t) dp).rdropWhile (· == SPACE)).length, ?_,
    by omega, by omega, ?_⟩
  · rw [hsk]; simp only [Option.some_bind]; rw [hdt]; rfl
  · rw [slice_prefix_take buf (cp + t) dp _ hp, hsl]; rfl

theorem rdropWhile_nul_of_not_mem (l : List Nat) (h : 0 ∉ l) :
    l.rdropWhile (· == 0) = l := by
  rw [List.rdropWhile_eq_self_iff]
  intro hl
  have := List.getLast_mem hl
  simp only [beq_iff_eq]
  intro h0
  exact h (h0 ▸ this)

theorem trimSpaces_subset (l : List Nat) : ∀ x ∈ trimSpaces l, x ∈ l := by
  intro x hx
  unfold trimSpaces at hx
  have h1 := (List.rdropWhile_prefix (· == SPACE) (l := l.dropWhile (· == SPACE))).subset hx
  exact (List.dropWhile_suffix _).subset h1

theorem trimSpaces_append_space (l : List Nat) : trimSpaces (l ++ [SPACE]) = trimSpaces l := by
  unfold trimSpaces
  by_cases h : ∀ x ∈ l, (x == SPACE) = true
  · have e1 : l.dropWhile (· == SPACE) = [] := by
      rw [List.dropWhile_eq_nil_iff]; exact h
    have e2 : (l ++ [SPACE]).dropWhile (· == SPACE) = [] := by
      rw [List.dropWhile_eq_nil_iff]
      intro x hx
      rcases List.mem_append.1 hx with hx | hx
      · exact h x hx
      · simp at hx; simp [hx]
    rw [e1, e2]
  · have e2 : (l ++ [SPACE]).dropWhile (· == SPACE) = l.dropWhile (· == SPACE) ++ [SPACE] := by
      push_neg at h
      exact dropWhile_append_of_exists _ _ l h
    rw [e2, List.rdropWhile_concat_pos]
    simp

theorem segments_append_space_getD : ∀ (s : List Nat) (i : Nat),
    (segments (s ++ [SPACE])).getD i [] = (segments s).getD i [] ∨
    (segments (s ++ [SPACE])).getD i [] = (segments s).getD i [] ++ [SPACE]
  | [], i => by
    cases i <;> simp [segments, SPACE, BACKSLASH]
  | c :: cs, i => by
    have ih := segments_append_space_getD cs
    simp only [List.cons_append, segments]
    split_ifs with hc
    · cases i with
      | zero => left; rfl
      | succ k => simpa using ih k
    · rcases h1 : segments (cs ++ [SPACE]) with _ | ⟨a, r⟩
      · exact absurd h1 (segments_ne_nil _)
      · rcases h2 : segments cs with _ | ⟨a', r'⟩
        · exact absurd h2 (segments_ne_nil _)
        · rw [h1, h2] at ih
          cases i with
          | zero => simpa using ih 0
          | succ k => simpa using ih (k + 1)

theorem trimSpaces_segments_pad (vr : vtkDICOMVR) (s : List Nat) (i : Nat) :
    trimSpaces ((segments (s ++ textPad vr s.length)).getD i []) =
      trimSpaces ((segments s).getD i []) := by
  unfold textPad
  split_ifs
  · rcases segments_append_space_getD s i with h | h
    · rw [h]
    · rw [h, trimSpaces_append_space]
  · simp

theorem segments_pad_length (vr : vtkDICOMVR) (s : List Nat) :
    (segments (s ++ textPad vr s.length)).length = (segments s).length := by
  rw [segments_length, segments_length]
  unfold textPad
  split_ifs <;> simp [SPACE, BACKSLASH]

/-- The string form of value `i` of a text allocation whose payload `P` is
followed by a NUL. -/
theorem GetString_text (fe : FloatEnv) (nb : Nat → List Nat → Nat → Nat)
    (val : Value Item Val) (P : List Nat) (i : Nat)
    (hD : val.Data = .chars (P ++ [0])) (hVL : val.VL = P.length)
    (hCS : val.CharacterSet = 0)
    (hvr : val.VR ≠ .ST ∧ val.VR ≠ .LT ∧ val.VR ≠ .UT)
    (hk : val.NumberOfValues = (segments P).length) (h0 : 0 ∉ P)
    (hi : i < val.NumberOfValues) :
    GetString fe nb (some val) i = some (trimSpaces ((segments P).getD i [])) := by
  have hfind : ∃ cp dp,
      (if val.NumberOfValues > 1 ∧ i + 1 > 0 then
        if val.CharacterSet = 0 then findValue (P ++ [0]) val.VL i 0
        else findValueCS (nb val.CharacterSet) (P ++ [0]) val.VL i 0
      else some (0, val.VL)) = some (cp, dp) ∧ cp ≤ dp ∧ dp ≤ P.length ∧
      slice (P ++ [0]) cp dp = (segments P).getD i [] := by
    by_cases hk1 : val.NumberOfValues > 1
    · have h := findValue_spec i [] P 0 [] (by rw [← hk]; exact hi)
      simp only [List.nil_append, List.length_nil, Nat.zero_add] at h
      obtain ⟨cp, dp, h1, h2, h3, h4⟩ := h
      refine ⟨cp, dp, ?_, h2, h3, h4⟩
      rw [if_pos ⟨hk1, Nat.succ_pos i⟩, if_pos hCS, hVL]
      exact h1
    · have hone : (segments P).length = 1 := by
        have := segments_length P
        omega
      have hi0 : i = 0 := by omega
      have hnb : BACKSLASH ∉ P := by
        have := segments_length P
        rw [hone] at this
        exact List.count_eq_zero.1 (by omega)
      refine ⟨0, P.length, ?_, Nat.zero_le _, le_refl _, ?_⟩
      · rw [if_neg (fun h => hk1 h.1), hVL]
      · rw [segments_of_not_mem P hnb, hi0]
        simp [slice]
  obtain ⟨cp, dp, h1, h2, h3, h4⟩ := hfind
  have hlen : dp ≤ (P ++ [0]).length := by simp; omega
  obtain ⟨cp1, dp1, t1, t2, t3, t4⟩ := trim_spec (P ++ [0]) cp dp h2 hlen
  have hstrip := strip_substr (P ++ [0]) 0 cp1 dp1 t2 t3
  have hnul : (slice (P ++ [0]) cp1 dp1).rdropWhile (· == 0) = slice (P ++ [0]) cp1 dp1 := by
    apply rdropWhile_nul_of_not_mem
    rw [t4, h4]
    intro hmem
    have hm1 := trimSpaces_subset _ _ hmem
    rw [← h4] at hm1
    have hm2 : (0 : Nat) ∈ slice (P ++ [0]) 0 P.length := by
      have : slice (P ++ [0]) cp dp = (slice (P ++ [0]) 0 dp).drop cp := by
        have := slice_drop (P ++ [0]) 0 cp dp
        simpa using this
      rw [this] at hm1
      have hm3 := List.mem_of_mem_drop hm1
      unfold slice at hm3 ⊢
      simp only [List.drop_zero, Nat.sub_zero] at hm3 ⊢
      exact (List.take_subset_take_left _ h3) hm3
    have : slice (P ++ [0]) 0 P.length = P := by simp [slice]
    rw [this] at hm2
    exact h0 hm2
  simp only [GetString, if_pos hi, AppendValueToString, hD, Substring, if_pos hvr]
  rw [h1]
  simp only [Option.some_bind]
  rw [t1]
  simp only [Option.map_some', Option.some_bind]
  rw [hstrip, hnul, t4, h4]

theorem readArray_append {α : Type} (s rest : List α) :
    readArray (s ++ rest) s.length = some s := by
  simp [readArray]

theorem textPad_length (vr : vtkDICOMVR) (m : Nat) (h : vr = .UI → m % 2 = 0) :
    (textPad vr m).length = m % 2 := by
  unfold textPad
  by_cases hui : vr = .UI
  · simp [hui, h hui]
  · rcases Nat.mod_two_eq_zero_or_one m with hp | hp <;> simp [hui, hp]

theorem count_lt_range (s : List Nat) (hm : s.length < 4294967295) (hne : s ≠ []) :
    ((if s.length > 0 then 1 else 0) + s.count BACKSLASH) % UINT_RANGE =
      1 + s.count BACKSLASH := by
  have h1 : s.count BACKSLASH ≤ s.length := List.count_le_length _ _
  have h2 : 0 < s.length := List.length_pos.2 hne
  simp only [UINT_RANGE, gt_iff_lt, h2, if_true]
  omega

theorem get?_append_len0 {α : Type} (xs : List α) (y : α) (ys : List α) :
    (xs ++ y :: ys).get? xs.length = some y := by
  rw [List.get?_eq_getElem?, List.getElem?_append_right (le_refl _)]
  simp

theorem get?_append_len1 {α : Type} (xs : List α) (x y : α) (ys : List α) :
    (xs ++ x :: y :: ys).get? (xs.length + 1) = some y := by
  rw [List.get?_eq_getElem?, List.getElem?_append_right (Nat.le_succ _)]
  simp

/-- The layout of a text buffer: `m` copied bytes, the padding, the NUL. -/
theorem text_layout (vr : vtkDICOMVR) (cpy : List Nat) (m : Nat) (hlen : cpy.length = m) :
    (m % 2 = 1 →
      (cpy ++ textPad vr m ++ [0]).get? m = some (if vr = .UI then 0 else SPACE) ∧
      (vr ≠ .UI → (cpy ++ textPad vr m ++ [0]).get? (m + 1) = some 0) ∧
      (cpy ++ textPad vr m ++ [0]).length = (if vr = .UI then m + 1 else m + 2)) ∧
    (m % 2 = 0 →
      (cpy ++ textPad vr m ++ [0]).get? m = some 0 ∧
      (cpy ++ textPad vr m ++ [0]).length = m + 1) := by
  subst hlen
  constructor
  · intro hodd
    by_cases hui : vr = .UI
    · have e : textPad vr cpy.length = [] := by simp [textPad, hui]
      rw [e, if_pos hui, if_pos hui]
      refine ⟨?_, fun h => absurd hui h, by simp⟩
      simp [get?_append_len0 cpy 0 []]
    · have e : textPad vr cpy.length = [SPACE] := by simp [textPad, hui, hodd]
      rw [e, if_neg hui, if_neg hui]
      refine ⟨?_, fun _ => ?_, by simp⟩
      · simpa using get?_append_len0 cpy SPACE [0]
      · simpa using get?_append_len1 cpy SPACE 0 []
  · intro hev
    have e : textPad vr cpy.length = [] := by simp [textPad, hev]
    rw [e]
    refine ⟨?_, by simp⟩
    simp [get?_append_len0 cpy 0 []]

@[simp] theorem setData_VL (v : Value Item Val) (d : ValueData Item Val) :
    (v.setData d).VL = v.VL := rfl

@[simp] theorem fill_VL (v : Value Item Val) (d : ValueData Item Val) (c : Nat) :
    (v.fill d c).VL = v.VL := rfl

theorem ValueT_VL_even (size : Nat) (hs : size % 2 = 0) (vr : vtkDICOMVR) (vn : Nat)
    (d : ValueData Item Val) : (ValueT size vr vn d).VL % 2 = 0 := by
  simp only [ValueT, UINT_RANGE]
  have : (vn % 4294967296 * size) % 2 = 0 := by
    rw [Nat.mul_mod, hs]; simp
  omega

theorem AllocateCharData_VL_even (raw : Nat) (vr : vtkDICOMVR) (vn : Nat) :
    (AllocateCharData raw vr vn : Value Item Val).VL % 2 = 0 := by
  simp only [AllocateCharData, UINT_RANGE]; omega

theorem AllocateUnsignedCharData_VL_even (raw : Nat) (vr : vtkDICOMVR) (vn : Nat) :
    (AllocateUnsignedCharData raw vr vn : Value Item Val).VL % 2 = 0 := by
  simp only [AllocateUnsignedCharData, UINT_RANGE]; omega

theorem finishText_VL_even (v0 : Value Item Val) (n : Nat) (buf : List Nat) (cp0 : Nat)
    (v : Value Item Val) (h : finishText v0 n buf cp0 = some (some v)) : v.VL % 2 = 0 := by
  rw [finishText] at h
  generalize (if cp0 ≠ 0 then cp0 - 1 else cp0) = cp at h
  by_cases hodd : cp % UINT_RANGE % 2 = 1
  · rw [if_pos hodd] at h
    simp only [Option.bind_eq_some, Option.map_eq_some', Option.some.injEq] at h
    obtain ⟨_, _, _, _, rfl⟩ := h
    simp only [UINT_RANGE] at hodd ⊢
    omega
  · rw [if_neg hodd] at h
    simp only [Option.map_eq_some', Option.some.injEq] at h
    obtain ⟨_, _, rfl⟩ := h
    simp only [UINT_RANGE] at hodd ⊢
    omega

theorem CreateValueAs_VL_even (fe : FloatEnv) (raw : Nat) (T : NumType) (vr : vtkDICOMVR)
    (data : List Int) (n : Nat) (v : Value Item Val)
    (h : CreateValueAs fe raw T vr data n = some (some v)) : v.VL % 2 = 0 := by
  unfold CreateValueAs at h
  by_cases hFD : vr = .FD
  · rw [if_pos hFD] at h
    simp only [Option.bind_eq_some, Option.map_eq_some', Option.some.injEq] at h
    obtain ⟨_, _, _, _, rfl⟩ := h
    try simp only [fill_VL, setData_VL]
    exact ValueT_VL_even _ (by decide) _ _ _
  rw [if_neg hFD] at h
  by_cases hFL : vr = .FL
  · rw [if_pos hFL] at h
    simp only [Option.bind_eq_some, Option.map_eq_some', Option.some.injEq] at h
    obtain ⟨_, _, _, _, rfl⟩ := h
    try simp only [fill_VL, setData_VL]
    exact ValueT_VL_even _ (by decide) _ _ _
  rw [if_neg hFL] at h
  by_cases hUL : vr = .UL
  · rw [if_pos hUL] at h
    simp only [Option.bind_eq_some, Option.map_eq_some', Option.some.injEq] at h
    obtain ⟨_, _, _, _, rfl⟩ := h
    try simp only [fill_VL, setData_VL]
    exact ValueT_VL_even _ (by decide) _ _ _
  rw [if_neg hUL] at h
  by_cases hSL : vr = .SL
  · rw [if_pos hSL] at h
    simp only [Option.bind_eq_some, Option.map_eq_some', Option.some.injEq] at h
    obtain ⟨_, _, _, _, rfl⟩ := h
    try simp only [fill_VL, setData_VL]
    exact ValueT_VL_even _ (by decide) _ _ _
  rw [if_neg hSL] at h
  by_cases hUS : vr = .US
  · rw [if_pos hUS] at h
    simp only [Option.bind_eq_some, Option.map_eq_some', Option.some.injEq] at h
    obtain ⟨_, _, _, _, rfl⟩ := h
    try simp only [fill_VL, setData_VL]
    exact ValueT_VL_even _ (by decide) _ _ _
  rw [if_neg hUS] at h
  by_cases hSS : vr = .SS
  · rw [if_pos hSS] at h
    simp only [Option.bind_eq_some, Option.map_eq_some', Option.some.injEq] at h
    obtain ⟨_, _, _, _, rfl⟩ := h
    try simp only [fill_VL, setData_VL]
    exact ValueT_VL_even _ (by decide) _ _ _
  rw [if_neg hSS] at h
  by_cases hDS : vr = .DS
  · rw [if_pos hDS] at h
    simp only [Option.bind_eq_some, Option.map_eq_some', Option.some.injEq] at h
    obtain ⟨_, _, _, _, h3⟩ := h
    exact finishText_VL_even _ _ _ _ _ h3
  rw [if_neg hDS] at h
  by_cases hIS : vr = .IS
  · rw [if_pos hIS] at h
    simp only [Option.bind_eq_some, Option.map_eq_some', Option.some.injEq] at h
    obtain ⟨_, _, _, _, h3⟩ := h
    exact finishText_VL_even _ _ _ _ _ h3
  rw [if_neg hIS] at h
  by_cases hOB : vr = .OB ∨ vr = .UN
  · rw [if_pos hOB] at h
    simp only [Option.bind_eq_some, Option.map_eq_some', Option.some.injEq] at h
    obtain ⟨_, _, _, _, _, _, rfl⟩ := h
    try simp only [fill_VL, setData_VL]
    exact AllocateUnsignedCharData_VL_even _ _ _
  rw [if_neg hOB] at h
  by_cases hOW : vr = .OW
  · rw [if_pos hOW] at h
    split_ifs at h
    all_goals
      simp only [Option.bind_eq_some, Option.map_eq_some', Option.some.injEq] at h
      obtain ⟨_, _, _, _, rfl⟩ := h
      try simp only [fill_VL, setData_VL]
      exact ValueT_VL_even _ (by decide) _ _ _
  rw [if_neg hOW] at h
  by_cases hOF : vr = .OF
  · rw [if_pos hOF] at h
    simp only [Option.bind_eq_some, Option.map_eq_some', Option.some.injEq] at h
    obtain ⟨_, _, _, _, rfl⟩ := h
    try simp only [fill_VL, setData_VL]
    exact ValueT_VL_even _ (by decide) _ _ _
  rw [if_neg hOF] at h
  by_cases hAT : vr = .AT
  · rw [if_pos hAT] at h
    simp only [AllocateTagData, ValueT, Option.map_eq_some', Option.some.injEq] at h
    obtain ⟨_, _, rfl⟩ := h
    simp only [setData_VL, UINT_RANGE]
    omega
  rw [if_neg hAT] at h
  simp at h

theorem CreateValue_Tag_VL_even (raw : Nat) (vr : vtkDICOMVR)
    (data : List vtkDICOMTag) (n : Nat) (v : Value Item Val)
    (h : CreateValue_Tag raw vr data n = some (some v)) : v.VL % 2 = 0 := by
  unfold CreateValue_Tag at h
  by_cases hAT : vr = .AT
  · rw [if_pos hAT] at h
    simp only [AllocateTagData, ValueT, Option.bind_eq_some, Option.map_eq_some',
      Option.some.injEq] at h
    obtain ⟨_, _, _, _, rfl⟩ := h
    simp only [UINT_RANGE]
    omega
  · rw [if_neg hAT] at h
    simp at h

theorem CreateValue_char_VL_even (fe : FloatEnv) (raw : Nat) (vr : vtkDICOMVR)
    (data : List Nat) (m : Nat) (v : Value Item Val)
    (h : CreateValue_char fe raw vr data m = some (some v)) : v.VL % 2 = 0 := by
  unfold CreateValue_char at h
  by_cases h1 : vr = .ST ∨ vr = .LT ∨ vr = .UT
  · rw [if_pos h1] at h
    simp only [Option.bind_eq_some, Option.map_eq_some', Option.some.injEq] at h
    obtain ⟨_, _, _, _, _, _, _, _, rfl⟩ := h
    try simp only [fill_VL, setData_VL]
    exact AllocateCharData_VL_even _ _ _
  rw [if_neg h1] at h
  by_cases h2 : vr = .OW
  · rw [if_pos h2] at h
    simp only [Option.bind_eq_some, Option.map_eq_some', Option.some.injEq] at h
    obtain ⟨_, _, _, _, rfl⟩ := h
    try simp only [fill_VL, setData_VL]
    exact ValueT_VL_even _ (by decide) _ _ _
  rw [if_neg h2] at h
  by_cases h3 : vr = .OF
  · rw [if_pos h3] at h
    simp only [Option.bind_eq_some, Option.map_eq_some', Option.some.injEq] at h
    obtain ⟨_, _, _, _, rfl⟩ := h
    try simp only [fill_VL, setData_VL]
    exact ValueT_VL_even _ (by decide) _ _ _
  rw [if_neg h3] at h
  by_cases h4 : vr = .UN ∨ vr = .OB ∨ vr = .OX
  · rw [if_pos h4] at h
    simp only [Option.bind_eq_some, Option.map_eq_some', Option.some.injEq] at h
    obtain ⟨_, _, _, _, _, _, rfl⟩ := h
    try simp only [fill_VL, setData_VL]
    exact AllocateUnsignedCharData_VL_even _ _ _
  rw [if_neg h4] at h
  simp only [Option.bind_eq_some] at h
  obtain ⟨src, _, h⟩ := h
  by_cases h5 : vr = .AE ∨ vr = .AS ∨ vr = .CS ∨ vr = .DA ∨ vr = .DS ∨ vr = .DT ∨
       vr = .IS ∨ vr = .LO ∨ vr = .PN ∨ vr = .SH ∨ vr = .TM ∨ vr = .UI
  · rw [if_pos h5] at h
    simp only [Option.bind_eq_some, Option.map_eq_some', Option.some.injEq] at h
    obtain ⟨_, _, _, _, _, _, _, _, rfl⟩ := h
    try simp only [fill_VL, setData_VL]
    exact AllocateCharData_VL_even _ _ _
  rw [if_neg h5] at h
  by_cases h6 : vr = .FD
  · rw [if_pos h6] at h
    simp only [Option.bind_eq_some, Option.map_eq_some', Option.some.injEq] at h
    obtain ⟨_, _, _, _, rfl⟩ := h
    try simp only [fill_VL, setData_VL]
    exact ValueT_VL_even _ (by decide) _ _ _
  rw [if_neg h6] at h
  by_cases h7 : vr = .FL
  · rw [if_pos h7] at h
    simp only [Option.bind_eq_some, Option.map_eq_some', Option.some.injEq] at h
    obtain ⟨_, _, _, _, rfl⟩ := h
    try simp only [fill_VL, setData_VL]
    exact ValueT_VL_even _ (by decide) _ _ _
  rw [if_neg h7] at h
  by_cases h8 : vr = .UL
  · rw [if_pos h8] at h
    simp only [Option.bind_eq_some, Option.map_eq_some', Option.some.injEq] at h
    obtain ⟨_, _, _, _, rfl⟩ := h
    try simp only [fill_VL, setData_VL]
    exact ValueT_VL_even _ (by decide) _ _ _
  rw [if_neg h8] at h
  by_cases h9 : vr = .SL
  · rw [if_pos h9] at h
    simp only [Option.bind_eq_some, Option.map_eq_some', Option.some.injEq] at h
    obtain ⟨_, _, _, _, rfl⟩ := h
    try simp only [fill_VL, setData_VL]
    exact ValueT_VL_even _ (by decide) _ _ _
  rw [if_neg h9] at h
  by_cases h10 : vr = .US
  · rw [if_pos h10] at h
    simp only [Option.bind_eq_some, Option.map_eq_some', Option.some.injEq] at h
    obtain ⟨_, _, _, _, rfl⟩ := h
    try simp only [fill_VL, setData_VL]
    exact ValueT_VL_even _ (by decide) _ _ _
  rw [if_neg h10] at h
  by_cases h11 : vr = .SS ∨ vr = .XS
  · rw [if_pos h11] at h
    simp only [Option.bind_eq_some, Option.map_eq_some', Option.some.injEq] at h
    obtain ⟨_, _, _, _, rfl⟩ := h
    try simp only [fill_VL, setData_VL]
    exact ValueT_VL_even _ (by decide) _ _ _
  rw [if_neg h11] at h
  simp at h

theorem overwrite_slots {α : Type} (x : α) (w : List α) :
    overwrite (slots w.length x) 0 w = some (w ++ List.replicate (slotCount w.length - w.length) x) := by
  have h := overwrite_replicate_succ x w (slotCount w.length - w.length)
  have e : w.length + (slotCount w.length - w.length) = slotCount w.length := by
    unfold slotCount; split_ifs <;> omega
  rw [e] at h
  exact h

theorem overwrite_all {α : Type} (out w : List α) (h : out.length = w.length) :
    overwrite out 0 w = some w := by
  simp [overwrite, h]

theorem NumericalConversion_same (fe : FloatEnv) (T : NumType) (u : List Int) :
    NumericalConversion fe T T u = u := by
  have h : castTo fe T T = id := by funext x; simp [castTo]
  simp [NumericalConversion, h]

theorem map_toNat_ofNat (u : List Int) (h : ∀ x ∈ u, 0 ≤ x) :
    (u.map Int.toNat).map Int.ofNat = u := by
  induction u with
  | nil => rfl
  | cons a t ih =>
    simp only [List.map_cons, List.cons.injEq]
    exact ⟨Int.toNat_of_nonneg (h a (by simp)), ih (fun x hx => h x (by simp [hx]))⟩

theorem readArray_prefix {α : Type} (w junk : List α) :
    readArray ((w ++ junk).drop 0) w.length = some w := by
  simp [readArray]

theorem roundtrip_US (fe : FloatEnv) (raw : Nat) (data rest out : List Int)
    (hr : ∀ x ∈ data, NumType.inRange .ushort x)
    (hn : data.length * 2 < 4294967295)
    (hout : out.length = data.length) :
    ∃ v : Value Item Val,
      CreateValue fe raw .ushort .US (data ++ rest) data.length = some (some v) ∧
      v.VR = .US ∧ some v.Type = NumType.VTKTypeID .ushort ∧
      v.NumberOfValues = data.length ∧ v.VL = data.length * 2 ∧
      GetValues fe .ushort (some v) out data.length 0 = some data := by
  have hread : readArray (data ++ rest) data.length = some data := readArray_append data rest
  have hpos : ∀ x ∈ data, 0 ≤ x := fun x hx => by
    have := hr x hx; simp [NumType.inRange, NumType.isSigned] at this; exact this.1
  have hlen : (List.map Int.toNat data).length = data.length := by simp
  have hw := overwrite_slots (rawSlot 2 raw) (List.map Int.toNat data)
  rw [hlen] at hw
  have hra := readArray_prefix (List.map Int.toNat data)
    (List.replicate (slotCount data.length - data.length) (rawSlot 2 raw))
  rw [hlen] at hra
  refine ⟨{ ReferenceCount := 1, CharacterSet := 0, VR := .US, VL := data.length * 2,
            NumberOfValues := data.length,
            Data := .ushorts (List.map Int.toNat data ++
              List.replicate (slotCount data.length - data.length) (rawSlot 2 raw)) },
    ?_, rfl, rfl, rfl, rfl, ?_⟩
  · have e1 : (data.length % UINT_RANGE * 2) % UINT_RANGE = data.length * 2 := by
      simp only [UINT_RANGE]; omega
    have e2 : data.length % UINT_RANGE = data.length := by
      simp only [UINT_RANGE]; omega
    rw [e2] at e1
    simp only [CreateValue, resolveVR, CreateValueAs, hread, Option.some_bind,
      NumericalConversion_same, hw, Option.map_some', reduceCtorEq, if_false, if_true,
      Value.setData, AllocateUnsignedShortData, ValueT, e1, e2]
  · simp only [GetValues, Option.some_bind, GetValuesT, hra,
      NumericalConversion_same, map_toNat_ofNat data hpos, overwrite_all out data hout]

theorem roundtrip_SS (fe : FloatEnv) (raw : Nat) (data rest out : List Int)
    (hn : data.length * 2 < 4294967295)
    (hout : out.length = data.length) :
    ∃ v : Value Item Val,
      CreateValue fe raw .short .SS (data ++ rest) data.length = some (some v) ∧
      v.VR = .SS ∧ some v.Type = NumType.VTKTypeID .short ∧
      v.NumberOfValues = data.length ∧ v.VL = data.length * 2 ∧
      GetValues fe .short (some v) out data.length 0 = some data := by
  have hread : readArray (data ++ rest) data.length = some data := readArray_append data rest
  have hw := overwrite_slots (toSigned 16 (rawSlot 2 raw)) data
  have hra := readArray_prefix data
    (List.replicate (slotCount data.length - data.length) (toSigned 16 (rawSlot 2 raw)))
  refine ⟨{ ReferenceCount := 1, CharacterSet := 0, VR := .SS, VL := data.length * 2,
            NumberOfValues := data.length,
            Data := .shorts (data ++
              List.replicate (slotCount data.length - data.length)
                (toSigned 16 (rawSlot 2 raw))) },
    ?_, rfl, rfl, rfl, rfl, ?_⟩
  · have e1 : (data.length % UINT_RANGE * 2) % UINT_RANGE = data.length * 2 := by
      simp only [UINT_RANGE]; omega
    have e2 : data.length % UINT_RANGE = data.length := by
      simp only [UINT_RANGE]; omega
    rw [e2] at e1
    simp only [CreateValue, resolveVR, CreateValueAs, hread, Option.some_bind,
      NumericalConversion_same, hw, Option.map_some', reduceCtorEq, if_false, if_true,
      Value.setData, AllocateShortData, ValueT, e1, e2]
  · simp only [GetValues, Option.some_bind, GetValuesT, hra,
      NumericalConversion_same, overwrite_all out data hout]

theorem roundtrip_UL (fe : FloatEnv) (raw : Nat) (data rest out : List Int)
    (hr : ∀ x ∈ data, NumType.inRange .uint x)
    (hn : data.length * 4 < 4294967295)
    (hout : out.length = data.length) :
    ∃ v : Value Item Val,
      CreateValue fe raw .uint .UL (data ++ rest) data.length = some (some v) ∧
      v.VR = .UL ∧ some v.Type = NumType.VTKTypeID .uint ∧
      v.NumberOfValues = data.length ∧ v.VL = data.length * 4 ∧
      GetValues fe .uint (some v) out data.length 0 = some data := by
  have hread : readArray (data ++ rest) data.length = some data := readArray_append data rest
  have hpos : ∀ x ∈ data, 0 ≤ x := fun x hx => by
    have := hr x hx; simp [NumType.inRange, NumType.isSigned] at this; exact this.1
  have hlen : (List.map Int.toNat data).length = data.length := by simp
  have hw := overwrite_slots (rawSlot 4 raw) (List.map Int.toNat data)
  rw [hlen] at hw
  have hra := readArray_prefix (List.map Int.toNat data)
    (List.replicate (slotCount data.length - data.length) (rawSlot 4 raw))
  rw [hlen] at hra
  refine ⟨{ ReferenceCount := 1, CharacterSet := 0, VR := .UL, VL := data.length * 4,
            NumberOfValues := data.length,
            Data := .uints (List.map Int.toNat data ++
              List.replicate (slotCount data.length - data.length) (rawSlot 4 raw)) },
    ?_, rfl, rfl, rfl, rfl, ?_⟩
  · have e1 : (data.length % UINT_RANGE * 4) % UINT_RANGE = data.length * 4 := by
      simp only [UINT_RANGE]; omega
    have e2 : data.length % UINT_RANGE = data.length := by
      simp only [UINT_RANGE]; omega
    rw [e2] at e1
    simp only [CreateValue, resolveVR, CreateValueAs, hread, Option.some_bind,
      NumericalConversion_same, hw, Option.map_some', reduceCtorEq, if_false, if_true,
      Value.setData, AllocateUnsignedIntData, ValueT, e1, e2]
  · simp only [GetValues, Option.some_bind, GetValuesT, hra,
      NumericalConversion_same, map_toNat_ofNat data hpos, overwrite_all out data hout]

theorem roundtrip_SL (fe : FloatEnv) (raw : Nat) (data rest out : List Int)
    (hn : data.length * 4 < 4294967295)
    (hout : out.length = data.length) :
    ∃ v : Value Item Val,
      CreateValue fe raw .int .SL (data ++ rest) data.length = some (some v) ∧
      v.VR = .SL ∧ some v.Type = NumType.VTKTypeID .int ∧
      v.NumberOfValues = data.length ∧ v.VL = data.length * 4 ∧
      GetValues fe .int (some v) out data.length 0 = some data := by
  have hread : readArray (data ++ rest) data.length = some data := readArray_append data rest
  have hw := overwrite_slots (toSigned 32 (rawSlot 4 raw)) data
  have hra := readArray_prefix data
    (List.replicate (slotCount data.length - data.length) (toSigned 32 (rawSlot 4 raw)))
  refine ⟨{ ReferenceCount := 1, CharacterSet := 0, VR := .SL, VL := data.length * 4,
            NumberOfValues := data.length,
            Data := .ints (data ++
              List.replicate (slotCount data.length - data.length)
                (toSigned 32 (rawSlot 4 raw))) },
    ?_, rfl, rfl, rfl, rfl, ?_⟩
  · have e1 : (data.length % UINT_RANGE * 4) % UINT_RANGE = data.length * 4 := by
      simp only [UINT_RANGE]; omega
    have e2 : data.length % UINT_RANGE = data.length := by
      simp only [UINT_RANGE]; omega
    rw [e2] at e1
    simp only [CreateValue, resolveVR, CreateValueAs, hread, Option.some_bind,
      NumericalConversion_same, hw, Option.map_some', reduceCtorEq, if_false, if_true,
      Value.setData, AllocateIntData, ValueT, e1, e2]
  · simp only [GetValues, Option.some_bind, GetValuesT, hra,
      NumericalConversion_same, overwrite_all out data hout]

theorem decimalDigits_mem (n : Nat) : ∀ y ∈ decimalDigits n, 48 ≤ y ∧ y ≤ 57 := by
  intro y hy
  simp only [decimalDigits, List.mem_map, List.mem_reverse] at hy
  obtain ⟨d, hd, rfl⟩ := hy
  have := Nat.digits_lt_base (by decide : 1 < 10) hd
  omega

theorem decimalDigits_ne_nil (n : Nat) (h : n ≠ 0) : decimalDigits n ≠ [] := by
  simp [decimalDigits, Nat.digits_ne_nil_iff_ne_zero, h]

theorem decimalDigits_length (n : Nat) (h : n < 10 ^ 10) : (decimalDigits n).length ≤ 10 := by
  simp only [decimalDigits, List.length_map, List.length_reverse]
  by_cases hn : n = 0
  · simp [hn]
  · have h1 := Nat.base_pow_length_digits_le 10 n (by decide) hn
    have h2 : 10 ^ (Nat.digits 10 n).length < 10 ^ 11 := by omega
    have h3 := (Nat.pow_lt_pow_iff_right (by decide : 1 < 10)).1 h2
    omega

theorem sprintf_i_mem (x : Int) : ∀ y ∈ sprintf_i x, y = 45 ∨ (48 ≤ y ∧ y ≤ 57) := by
  intro y hy
  unfold sprintf_i at hy
  split_ifs at hy
  · rcases List.mem_cons.1 hy with h | h
    · exact Or.inl h
    · exact Or.inr (decimalDigits_mem _ y h)
  · simp at hy; right; omega
  · exact Or.inr (decimalDigits_mem _ y hy)

theorem sprintf_i_ne_nil (x : Int) : sprintf_i x ≠ [] := by
  unfold sprintf_i
  split_ifs with h1 h2
  · simp
  · simp
  · exact decimalDigits_ne_nil _ (by omega)

theorem sprintf_i_length (x : Int) (h1 : -2147483648 ≤ x) (h2 : x < 2147483648) :
    (sprintf_i x).length ≤ 11 := by
  have hb : x.natAbs < 10 ^ 10 := by norm_num; omega
  have := decimalDigits_length x.natAbs hb
  unfold sprintf_i
  split_ifs <;> simp <;> omega

theorem digitsValue_digits (c : Nat) (more : List Nat) (hc : isdigit c = false) :
    ∀ (ds : List Nat) (acc : Nat), (∀ d ∈ ds, d < 10) →
      digitsValue acc (ds.map (· + 48) ++ c :: more) =
        ds.foldl (fun a d => a * 10 + d) acc
  | [], acc, _ => by simp [digitsValue, hc]
  | d :: ds, acc, h => by
    have hd : d < 10 := h d (by simp)
    have hdig : isdigit (d + 48) = true := by simp [isdigit]; omega
    have ih := digitsValue_digits c more hc ds (acc * 10 + d) (fun e he => h e (by simp [he]))
    simp only [List.map_cons, List.cons_append, digitsValue, hdig, if_true, List.foldl_cons,
      List.append_eq, Nat.add_sub_cancel]
    exact ih

theorem foldl_digits (n : Nat) :
    (Nat.digits 10 n).reverse.foldl (fun a d => a * 10 + d) 0 = n := by
  rw [List.foldl_reverse]
  have h := Nat.ofDigits_digits 10 n
  rw [Nat.ofDigits_eq_foldr] at h
  simp only [Nat.cast_id, Nat.cast_ofNat] at h
  have e : (fun (x y : Nat) => y * 10 + x) = (fun x y => x + 10 * y) := by
    funext x y; omega
  rw [e]; exact h

theorem digitsValue_decimalDigits (n c : Nat) (more : List Nat) (hc : isdigit c = false) :
    digitsValue 0 (decimalDigits n ++ c :: more) = n := by
  unfold decimalDigits
  rw [digitsValue_digits c more hc _ 0
    (fun d hd => Nat.digits_lt_base (by decide) (List.mem_reverse.1 hd))]
  exact foldl_digits n

theorem strtol_cons (h : Nat) (t : List Nat) (hs : isspace h = false) (h45 : h ≠ 45)
    (h43 : h ≠ 43) : strtol (h :: t) = min (digitsValue 0 (h :: t) : Int) LONG_MAX := by
  unfold strtol
  rw [List.dropWhile_cons_of_neg (by simp [hs])]
  split
  · rename_i heq; simp at heq; exact absurd heq.1 h45
  · rename_i heq; simp at heq; exact absurd heq.1 h43
  · rfl

theorem strtol_minus (t : List Nat) :
    strtol (45 :: t) = max (-(digitsValue 0 t : Int)) LONG_MIN := by
  unfold strtol
  rw [List.dropWhile_cons_of_neg (by decide)]

/-- Reading back a formatted integer. -/
theorem strtol_sprintf_i (x : Int) (c : Nat) (more : List Nat) (hc : isdigit c = false)
    (h1 : LONG_MIN ≤ x) (h2 : x ≤ LONG_MAX) :
    strtol (sprintf_i x ++ c :: more) = x := by
  unfold sprintf_i
  split_ifs with hneg hzero
  · rw [List.cons_append, strtol_minus, digitsValue_decimalDigits _ c more hc]
    simp only [LONG_MIN] at h1 ⊢
    omega
  · subst hzero
    rw [List.cons_append, List.nil_append, strtol_cons 48 _ (by decide) (by decide) (by decide)]
    have e : digitsValue 0 (48 :: c :: more) = 0 := by
      have h48 : isdigit 48 = true := by decide
      simp only [digitsValue, h48, hc, if_true]
      simp
    rw [e]; decide
  · have hne := decimalDigits_ne_nil x.natAbs (by omega)
    obtain ⟨h, t, ht⟩ := List.exists_cons_of_ne_nil hne
    have hmem := decimalDigits_mem x.natAbs h (by rw [ht]; simp)
    have hdv := digitsValue_decimalDigits x.natAbs c more hc
    rw [ht] at hdv ⊢
    rw [List.cons_append, strtol_cons h _ (by simp [isspace]; omega) (by omega) (by omega)]
    rw [List.cons_append] at hdv
    rw [hdv]
    simp only [LONG_MAX] at h2 ⊢
    omega

theorem overwrite_mid {α : Type} (pre fill w : List α) (h : w.length ≤ fill.length) :
    overwrite (pre ++ fill) pre.length w = some (pre ++ w ++ fill.drop w.length) := by
  have h1 : pre.length + w.length ≤ (pre ++ fill).length := by
    simp only [List.length_append]; omega
  simp only [overwrite, if_pos h1]
  simp [List.take_append_eq_append_take, List.drop_append_eq_append_drop]

theorem writeIS_spec (fe : FloatEnv) : ∀ (data : List Int) (pre fill : List Nat),
    (textIS data).length ≤ fill.length →
    writeIS fe .int data (pre ++ fill) pre.length =
      some (pre ++ textIS data ++ fill.drop (textIS data).length,
            pre.length + (textIS data).length)
  | [], pre, fill, _ => by simp [writeIS, textIS]
  | x :: xs, pre, fill, h => by
    have hc : castTo fe .int .int x = x := by simp [castTo]
    simp only [textIS, List.length_append, List.length_cons] at h
    generalize ht : sprintf_i x = t at h
    have hl0 : (t ++ [0]).length = t.length + 1 := by simp
    have e1 := overwrite_mid pre fill (t ++ [0]) (by rw [hl0]; omega)
    rw [hl0] at e1
    have e2 := overwrite_at_end BACKSLASH (pre ++ t) 0 (fill.drop (t.length + 1))
    have hl1 : (pre ++ t ++ [BACKSLASH]).length = pre.length + t.length + 1 := by
      simp only [List.length_append, List.length_cons, List.length_nil]
    have hl2 : (pre ++ t).length = pre.length + t.length := by simp
    have ih := writeIS_spec fe xs (pre ++ t ++ [BACKSLASH])
      (fill.drop (t.length + 1)) (by simp only [List.length_drop]; omega)
    rw [hl1] at ih
    rw [hl2] at e2
    have e3 : pre ++ (t ++ [0]) ++ List.drop (t.length + 1) fill =
        (pre ++ t) ++ 0 :: List.drop (t.length + 1) fill := by simp
    have e5 : (pre ++ t) ++ BACKSLASH :: List.drop (t.length + 1) fill =
        (pre ++ t ++ [BACKSLASH]) ++ List.drop (t.length + 1) fill := by simp
    simp only [writeIS, hc, ht, e1, Option.some_bind]
    rw [e3, e2]
    simp only [Option.some_bind]
    rw [e5, ih]
    simp only [textIS, ht, List.length_append, List.length_cons, List.drop_drop,
      Option.some.injEq, Prod.mk.injEq, List.append_assoc, List.cons_append, List.nil_append]
    refine ⟨?_, by omega⟩
    have e7 : t.length + 1 + (textIS xs).length = t.length + ((textIS xs).length + 1) := by
      omega
    rw [e7]

theorem numberList_append : ∀ (data : List Int) (rest : List Nat),
    numberList data rest = numberList data [] ++ rest
  | [], rest => by simp [numberList]
  | [x], rest => by simp [numberList]
  | x :: y :: ys, rest => by
    simp only [numberList, List.append_assoc, List.cons_append]
    rw [numberList_append (y :: ys) rest]

theorem textIS_eq_numberList : ∀ (data : List Int), data ≠ [] →
    textIS data = numberList data [] ++ [BACKSLASH]
  | [], h => absurd rfl h
  | [x], _ => by simp [textIS, numberList]
  | x :: y :: ys, _ => by
    have ih := textIS_eq_numberList (y :: ys) (by simp)
    simp only [textIS, numberList, List.append_assoc, List.cons_append] at ih ⊢
    rw [ih]

theorem textIS_length_le : ∀ (data : List Int),
    (∀ x ∈ data, -2147483648 ≤ x ∧ x < 2147483648) →
    (textIS data).length ≤ 12 * data.length
  | [], _ => by simp [textIS]
  | x :: xs, h => by
    have h1 := sprintf_i_length x (h x (by simp)).1 (h x (by simp)).2
    have h2 := textIS_length_le xs (fun y hy => h y (by simp [hy]))
    simp only [textIS, List.length_append, List.length_cons]
    omega

theorem skipValue_backslash (t : List Nat) : skipValue (BACKSLASH :: t) = some t := by
  simp [skipValue]

theorem skipValue_cons_cons (y d : Nat) (t : List Nat) (hy : y ≠ BACKSLASH) :
    skipValue (y :: d :: t) = if d ≠ 0 then skipValue (d :: t) else some (d :: t) := by
  rw [skipValue]
  simp only [if_neg hy]

/-- The loop of `skipValue` runs over the characters of one value and stops
behind the backslash or at the NUL that ends it. -/
theorem skipValue_spec : ∀ (a : List Nat) (c : Nat) (more : List Nat),
    a ≠ [] → (∀ y ∈ a, y ≠ BACKSLASH ∧ y ≠ 0) → (c = BACKSLASH ∨ c = 0) →
    skipValue (a ++ c :: more) = some (if c = BACKSLASH then more else c :: more)
  | [], _, _, h, _, _ => absurd rfl h
  | [y], c, more, _, hy, hc => by
    have h1 := hy y (by simp)
    rw [List.singleton_append, skipValue_cons_cons y c more h1.1]
    rcases hc with rfl | rfl
    · have hb : BACKSLASH ≠ 0 := by decide
      rw [if_pos hb, skipValue_backslash, if_pos rfl]
    · have hb : (0 : Nat) ≠ BACKSLASH := by decide
      simp [hb]
  | y :: z :: a, c, more, _, hy, hc => by
    have h1 := hy y (by simp)
    have h2 := hy z (by simp)
    have ih := skipValue_spec (z :: a) c more (by simp) (fun w hw => hy w (by simp [hw])) hc
    rw [List.cons_append, List.cons_append, skipValue_cons_cons y z _ h1.1, if_pos h2.2]
    rw [List.cons_append] at ih
    exact ih

theorem sprintf_i_chars (x : Int) : ∀ y ∈ sprintf_i x, y ≠ BACKSLASH ∧ y ≠ 0 ∧ y ≠ SPACE := by
  intro y hy
  have := sprintf_i_mem x y hy
  simp only [BACKSLASH, SPACE]
  omega

/-- A number list starts with one formatted number, which ends at a
character that is no digit; `skipValue` moves to the next number. -/
theorem numberList_cons (x : Int) (xs : List Int) (rest : List Nat) (hr : IsTextEnd rest) :
    ∃ c more cp1, numberList (x :: xs) rest = sprintf_i x ++ c :: more ∧ isdigit c = false ∧
      skipValue (numberList (x :: xs) rest) = some cp1 ∧
      (xs ≠ [] → cp1 = numberList xs rest) := by
  have hch := sprintf_i_chars x
  cases xs with
  | nil =>
    rcases hr with ⟨junk, rfl⟩ | ⟨junk, rfl⟩
    · refine ⟨0, junk, (if (0 : Nat) = BACKSLASH then junk else 0 :: junk), rfl, by decide, ?_,
        fun h => absurd rfl h⟩
      exact skipValue_spec (sprintf_i x) 0 junk (sprintf_i_ne_nil x)
        (fun y hy => ⟨(hch y hy).1, (hch y hy).2.1⟩) (Or.inr rfl)
    · refine ⟨SPACE, 0 :: junk, (if (0 : Nat) = BACKSLASH then junk else 0 :: junk), rfl,
        by decide, ?_, fun h => absurd rfl h⟩
      have h := skipValue_spec (sprintf_i x ++ [SPACE]) 0 junk (by simp)
        (fun y hy => by
          rcases List.mem_append.1 hy with hy | hy
          · exact ⟨(hch y hy).1, (hch y hy).2.1⟩
          · simp at hy; subst hy; decide) (Or.inr rfl)
      rw [List.append_assoc, List.singleton_append] at h
      exact h
  | cons y ys =>
    refine ⟨BACKSLASH, numberList (y :: ys) rest,
      (if BACKSLASH = BACKSLASH then numberList (y :: ys) rest
       else BACKSLASH :: numberList (y :: ys) rest), rfl, by decide, ?_, fun _ => ?_⟩
    · exact skipValue_spec (sprintf_i x) BACKSLASH (numberList (y :: ys) rest)
        (sprintf_i_ne_nil x) (fun y hy => ⟨(hch y hy).1, (hch y hy).2.1⟩) (Or.inl rfl)
    · simp

theorem numberList_head (x : Int) (xs : List Int) (rest : List Nat) :
    ∃ h t, numberList (x :: xs) rest = h :: t ∧ h ≠ 0 := by
  obtain ⟨h, t, ht⟩ := List.exists_cons_of_ne_nil (sprintf_i_ne_nil x)
  have hh := (sprintf_i_chars x h (by rw [ht]; simp)).2.1
  cases xs with
  | nil => exact ⟨h, t ++ rest, by simp [numberList, ht], hh⟩
  | cons y ys => exact ⟨h, t ++ BACKSLASH :: numberList (y :: ys) rest, by simp [numberList, ht], hh⟩

theorem skipValues_numberList : ∀ (i : Nat) (data : List Int) (rest : List Nat),
    IsTextEnd rest → i < data.length →
    skipValues i (numberList data rest) = some (numberList (data.drop i) rest)
  | 0, data, rest, _, _ => by simp [skipValues]
  | i + 1, [], rest, _, h => by simp at h
  | i + 1, [x], rest, _, h => by simp at h
  | i + 1, x :: y :: ys, rest, hr, h => by
    obtain ⟨hd, tl, e, hne⟩ := numberList_head x (y :: ys) rest
    obtain ⟨c, more, cp1, _, _, hskip, hcp⟩ := numberList_cons x (y :: ys) rest hr
    have ih := skipValues_numberList i (y :: ys) rest hr (by simp at h ⊢; omega)
    rw [hcp (by simp)] at hskip
    rw [e] at hskip ⊢
    simp only [skipValues, ne_eq, hne, not_false_eq_true, if_true, hskip,
      Option.some_bind, List.drop_succ_cons]
    exact ih

theorem convertValues_one (conv : List Nat → Int) (x : Int) (xs : List Int)
    (rest : List Nat) (hr : IsTextEnd rest) :
    convertValues conv 1 (numberList (x :: xs) rest) =
      some [conv (numberList (x :: xs) rest)] := by
  obtain ⟨hd, tl, e, hne⟩ := numberList_head x xs rest
  obtain ⟨c, more, cp1, _, _, hskip, _⟩ := numberList_cons x xs rest hr
  rw [e] at hskip ⊢
  simp only [convertValues, ne_eq, hne, not_false_eq_true, if_true, hskip, Option.some_bind,
    Option.map_some']

theorem strtol_numberList (x : Int) (xs : List Int) (rest : List Nat) (hr : IsTextEnd rest)
    (h1 : LONG_MIN ≤ x) (h2 : x ≤ LONG_MAX) :
    strtol (numberList (x :: xs) rest) = x := by
  obtain ⟨c, more, _, e, hc, _⟩ := numberList_cons x xs rest hr
  rw [e]
  exact strtol_sprintf_i x c more hc h1 h2

/-- Reading value `i` of a number list through `StringConversion`. -/
theorem StringConversion_numberList (fe : FloatEnv) (OT : NumType) (data : List Int)
    (rest : List Nat) (hr : IsTextEnd rest) (i : Nat) (hi : i < data.length)
    (h1 : LONG_MIN ≤ data[i]) (h2 : data[i] ≤ LONG_MAX) :
    StringConversion fe OT (numberList data rest) .IS i 1 =
      some [castTo fe OT .long data[i]] := by
  have hd : data.drop i = data[i] :: data.drop (i + 1) := by
    rw [List.drop_eq_getElem_cons hi]
  simp only [StringConversion, true_or, if_true, skipValues_numberList i data rest hr hi,
    Option.some_bind, reduceCtorEq, if_false, hd]
  rw [convertValues_one _ _ _ _ hr, strtol_numberList _ _ _ hr h1 h2]

theorem finishText_spec (v0 : Value Item Val) (n : Nat) (B : List Nat) (j : Nat)
    (J : List Nat) :
    ∃ (v : Value Item Val) (tail : List Nat),
      finishText v0 n (B ++ BACKSLASH :: j :: J) (B.length + 1) = some (some v) ∧
      v.VR = v0.VR ∧ v.CharacterSet = v0.CharacterSet ∧
      v.NumberOfValues = n % UINT_RANGE ∧ v.Data = .chars (B ++ tail) ∧ IsTextEnd tail := by
  have hcp : (if B.length + 1 ≠ 0 then B.length + 1 - 1 else B.length + 1) = B.length := by
    simp
  rw [finishText]
  simp only [hcp]
  by_cases hodd : B.length % UINT_RANGE % 2 = 1
  · rw [if_pos hodd, overwrite_at_end SPACE B BACKSLASH (j :: J)]
    simp only [Option.some_bind]
    rw [overwrite_at_end1 0 B SPACE j J]
    exact ⟨_, SPACE :: 0 :: J, rfl, rfl, rfl, rfl, rfl, Or.inr ⟨J, rfl⟩⟩
  · rw [if_neg hodd, overwrite_at_end 0 B BACKSLASH (j :: J)]
    exact ⟨_, 0 :: j :: J, rfl, rfl, rfl, rfl, rfl, Or.inl ⟨j :: J, rfl⟩⟩

theorem finishText_empty (v0 : Value Item Val) (raw : Nat) :
    ∃ (v : Value Item Val),
      finishText v0 0 [raw] 0 = some (some v) ∧
      v.VR = v0.VR ∧ v.CharacterSet = v0.CharacterSet ∧
      v.NumberOfValues = 0 ∧ v.Data = .chars [0] := by
  refine ⟨{ v0 with NumberOfValues := 0 % UINT_RANGE, VL := 0 % UINT_RANGE,
                    Data := .chars [0] }, ?_, rfl, rfl, rfl, rfl⟩
  rw [finishText]
  simp [overwrite, UINT_RANGE]

theorem exists_two_of_length {α : Type} : ∀ (l : List α), 2 ≤ l.length →
    ∃ a b t, l = a :: b :: t
  | [], h => by simp at h
  | [_], h => by simp at h
  | a :: b :: t, _ => ⟨a, b, t, rfl⟩

/-- The allocation that the IS branch of `CreateValue<int>` builds. -/
theorem CreateValue_IS (fe : FloatEnv) (raw : Nat) (data rest : List Int)
    (hr : ∀ x ∈ data, NumType.inRange .int x) (hn : data.length * 4 < 4294967295) :
    ∃ (v : Value Item Val) (tail : List Nat),
      CreateValue fe raw .int .IS (data ++ rest) data.length = some (some v) ∧
      v.VR = .IS ∧ v.CharacterSet = 0 ∧ v.NumberOfValues = data.length ∧
      v.Data = .chars (numberList data tail) ∧ IsTextEnd tail := by
  have hread : readArray (data ++ rest) data.length = some data := readArray_append data rest
  have hr' : ∀ x ∈ data, -2147483648 ≤ x ∧ x < 2147483648 := fun x hx => by
    have := hr x hx
    simp [NumType.inRange, NumType.isSigned, NumType.sizeof] at this
    exact this
  have hL := textIS_length_le data hr'
  have hmod : data.length % UINT_RANGE = data.length := by simp only [UINT_RANGE]; omega
  have hw := writeIS_spec fe data [] (charSlots raw .IS (13 * data.length))
    (by simp only [charSlots, List.length_replicate]; omega)
  simp only [List.nil_append, List.length_nil, Nat.zero_add] at hw
  simp only [CreateValue, resolveVR, CreateValueAs, reduceCtorEq, if_false, if_true, hread,
    Option.some_bind, hw]
  by_cases hd : data = []
  · subst hd
    obtain ⟨v, h1, h2, h3, h4, h5⟩ := finishText_empty
      (AllocateCharData raw .IS (13 * 0) : Value Item Val) raw
    refine ⟨v, [0], ?_, h2, h3, h4, h5, Or.inl ⟨[], rfl⟩⟩
    simpa [textIS, charSlots] using h1
  · have hB := textIS_eq_numberList data hd
    have hpos : 0 < data.length := List.length_pos.2 hd
    have hJ : 2 ≤ (List.drop (textIS data).length (charSlots raw .IS (13 * data.length))).length := by
      simp only [charSlots, List.length_drop, List.length_replicate]; omega
    obtain ⟨j, j2, J2, hJ2⟩ := exists_two_of_length _ hJ
    obtain ⟨v, tail, h1, h2, h3, h4, h5, h6⟩ := finishText_spec
      (AllocateCharData raw .IS (13 * data.length) : Value Item Val) data.length
      (numberList data []) j (j2 :: J2)
    refine ⟨v, tail, ?_, h2, h3, by rw [h4, hmod], ?_, h6⟩
    · rw [hJ2, hB]
      simp only [List.length_append, List.length_cons, List.length_nil, List.append_assoc,
        List.singleton_append, Nat.zero_add]
      exact h1
    · rw [h5, ← numberList_append]

theorem castTo_int_long (fe : FloatEnv) (x : Int) (h : NumType.inRange .int x) :
    castTo fe .int .long x = x := by
  simp [NumType.inRange, NumType.isSigned, NumType.sizeof] at h
  simp only [castTo, reduceCtorEq, if_false, NumType.isFloating, NumType.isSigned,
    Bool.false_eq_true, if_true, toSigned, toUnsigned, NumType.sizeof]
  norm_num
  split_ifs <;> omega

/-- The scalar getters on the text of an IS value. -/
theorem GetScalar_IS (fe : FloatEnv) (OT : NumType) (v : Value Item Val) (data : List Int)
    (tail : List Nat) (hVR : v.VR = .IS) (hN : v.NumberOfValues = data.length)
    (hD : v.Data = .chars (numberList data tail)) (ht : IsTextEnd tail)
    (i : Nat) (hi : i < data.length)
    (h1 : LONG_MIN ≤ data[i]) (h2 : data[i] ≤ LONG_MAX) :
    GetScalar fe OT (some v) i = some (castTo fe OT .long data[i]) := by
  have hs := StringConversion_numberList fe OT data tail ht i hi h1 h2
  simp only [GetScalar, hN, hi, if_true, GetValuesT, hD, hVR, hs, Option.some_bind]
  simp [overwrite]

theorem deref_lt (heap : Heap Item Val) (p : Nat) (v : Value Item Val)
    (h : heap.deref p = some v) : p < heap.length := by
  unfold Heap.deref at h
  by_contra hlt
  rw [List.get?_eq_none.2 (by omega)] at h
  simp at h

theorem deref_store_same (heap : Heap Item Val) (p : Nat) (v : Value Item Val)
    (h : p < heap.length) : (heap.store p v).deref p = some v := by
  simp [Heap.deref, Heap.store, List.getElem?_set, h]

theorem deref_store_ne (heap : Heap Item Val) (p q : Nat) (v : Value Item Val)
    (h : q ≠ p) : (heap.store p v).deref q = heap.deref q := by
  simp [Heap.deref, Heap.store, List.getElem?_set, h.symm]

theorem deref_free_same (heap : Heap Item Val) (p : Nat) (h : p < heap.length) :
    (heap.free p).deref p = none := by
  simp [Heap.deref, Heap.free, List.getElem?_set, h]

theorem deref_free_ne (heap : Heap Item Val) (p q : Nat) (h : q ≠ p) :
    (heap.free p).deref q = heap.deref q := by
  simp [Heap.deref, Heap.free, List.getElem?_set, h.symm]

theorem length_store (heap : Heap Item Val) (p : Nat) (v : Value Item Val) :
    (heap.store p v).length = heap.length := by
  simp [Heap.store]

theorem length_free (heap : Heap Item Val) (p : Nat) :
    (heap.free p).length = heap.length := by
  simp [Heap.free]

theorem deref_alloc_new (heap : Heap Item Val) (v : Value Item Val) :
    (heap.alloc v).2.deref (heap.alloc v).1 = some v := by
  simp [Heap.deref, Heap.alloc]

theorem deref_alloc_old (heap : Heap Item Val) (v : Value Item Val) (p : Nat)
    (h : p < heap.length) : (heap.alloc v).2.deref p = heap.deref p := by
  simp [Heap.deref, Heap.alloc, List.getElem?_append_left h]

/-- The effect of `release` on the heap. -/
theorem release_spec (heap : Heap Item Val) (p : Nat) (v : Value Item Val)
    (h : heap.deref p = some v) :
    ∃ heap1, release heap p = some heap1 ∧ heap1.length = heap.length ∧
      heap1.deref p = (if v.ReferenceCount - 1 = 0 then none
        else some { v with ReferenceCount := v.ReferenceCount - 1 }) ∧
      ∀ q, q ≠ p → heap1.deref q = heap.deref q := by
  have hlt := deref_lt heap p v h
  unfold release
  rw [h]
  by_cases h0 : v.ReferenceCount - 1 = 0
  · refine ⟨heap.free p, by simp [h0], length_free heap p, ?_, fun q hq => deref_free_ne heap p q hq⟩
    rw [if_pos h0, deref_free_same heap p hlt]
  · refine ⟨heap.store p { v with ReferenceCount := v.ReferenceCount - 1 }, by simp [h0],
      length_store heap p _, ?_, fun q hq => deref_store_ne heap p q _ hq⟩
    rw [if_neg h0, deref_store_same heap p _ hlt]

theorem growLoop_spec (n : Nat) : ∀ (fuel nn : Nat), (∃ k, nn = 2 ^ k) →
    n < 2 ^ (fuel + 1) * nn →
    n < growLoop n fuel nn ∧ ∃ k, 1 ≤ k ∧ growLoop n fuel nn = 2 ^ k
  | 0, nn, ⟨k, hk⟩, h => by
    refine ⟨by simpa [growLoop] using h, k + 1, by omega, ?_⟩
    simp [growLoop, hk, pow_succ]; omega
  | fuel + 1, nn, ⟨k, hk⟩, h => by
    unfold growLoop
    split_ifs with hle
    · apply growLoop_spec n fuel (2 * nn) ⟨k + 1, by rw [hk, pow_succ]; omega⟩
      have : 2 ^ (fuel + 1 + 1) * nn = 2 ^ (fuel + 1) * (2 * nn) := by
        rw [pow_succ]; ring
      omega
    · refine ⟨by omega, k + 1, by omega, ?_⟩
      rw [hk, pow_succ]; omega

theorem growLoop_start (n : Nat) :
    n < growLoop n n 1 ∧ ∃ k, 1 ≤ k ∧ growLoop n n 1 = 2 ^ k := by
  apply growLoop_spec n n 1 ⟨0, rfl⟩
  have := Nat.lt_two_pow n
  rw [pow_succ]; omega

theorem pow_two_of_and_pred : ∀ (n : Nat), 0 < n → (n - 1) &&& n = 0 → ∃ k, n = 2 ^ k := by
  intro n
  induction n using Nat.strong_induction_on with
  | _ n ih =>
    intro hpos hand
    by_cases h1 : n = 1
    · exact ⟨0, by simp [h1]⟩
    · have hdiv : (n - 1) / 2 &&& n / 2 = 0 := by
        rw [← Nat.and_div_two, hand]
      rcases Nat.even_or_odd' n with ⟨m, rfl | rfl⟩
      · have hm : 0 < m := by omega
        have e1 : (2 * m - 1) / 2 = m - 1 := by omega
        have e2 : 2 * m / 2 = m := by omega
        rw [e1, e2] at hdiv
        obtain ⟨k, hk⟩ := ih m (by omega) hm hdiv
        exact ⟨k + 1, by rw [hk, pow_succ]; omega⟩
      · have e1 : (2 * m + 1 - 1) / 2 = m := by omega
        have e2 : (2 * m + 1) / 2 = m := by omega
        rw [e1, e2, Nat.and_self] at hdiv
        omega

theorem and_pred_pow_two (k : Nat) : (2 ^ k - 1) &&& 2 ^ k = 0 := by
  rw [Nat.and_comm, Nat.and_pow_two_sub_one_eq_mod]
  simp

theorem AppendValue_inplace (emptyItem : Item) (heap : Heap Item Val) (p : Nat)
    (v : Value Item Val) (d : List Item) (item : Item)
    (hp : heap.deref p = some v) (hd : v.Data = .items d)
    (hnn : newCapacity v = 0) (hlt : v.NumberOfValues < d.length)
    (hn : v.NumberOfValues + 1 < UINT_RANGE) :
    AppendValue emptyItem heap (some p) item =
      some (some p, heap.store p
        { v with VL := VL_UNDEFINED, NumberOfValues := v.NumberOfValues + 1,
                 Data := .items (d.take v.NumberOfValues ++ item ::
                   d.drop (v.NumberOfValues + 1)) }) := by
  have hmod : (v.NumberOfValues + 1) % UINT_RANGE = v.NumberOfValues + 1 :=
    Nat.mod_eq_of_lt hn
  have how : overwrite d v.NumberOfValues [item] =
      some (d.take v.NumberOfValues ++ item :: d.drop (v.NumberOfValues + 1)) := by
    have : v.NumberOfValues + 1 ≤ d.length := hlt
    simp [overwrite, this]
  simp only [AppendValue, hp, Option.some_bind, hd, hnn, ne_eq, not_true_eq_false, if_false,
    how, Option.map_some', hmod]

theorem AppendValue_realloc (emptyItem : Item) (heap : Heap Item Val) (p : Nat)
    (v : Value Item Val) (d : List Item) (item : Item)
    (hp : heap.deref p = some v) (hd : v.Data = .items d) (hrc : 1 ≤ v.ReferenceCount)
    (hcap : v.NumberOfValues ≤ d.length) (hn : v.NumberOfValues + 1 < UINT_RANGE)
    (hgt : v.NumberOfValues < newCapacity v) :
    ∃ heap1, AppendValue emptyItem heap (some p) item = some (some heap.length, heap1) ∧
      heap1.deref heap.length = some
        { ReferenceCount := 1, CharacterSet := 0, VR := v.VR, VL := VL_UNDEFINED,
          NumberOfValues := v.NumberOfValues + 1,
          Data := .items (d.take v.NumberOfValues ++ item ::
            List.replicate (newCapacity v - v.NumberOfValues - 1) emptyItem) } ∧
      heap1.deref p = (if v.ReferenceCount = 1 then none
        else some { v with ReferenceCount := v.ReferenceCount - 1 }) := by
  have hlt := deref_lt heap p v hp
  obtain ⟨rc, cs, vr, vl, n, dat⟩ := v
  dsimp only at hd hrc hcap hn hgt ⊢
  subst hd
  generalize hcapn : newCapacity
    ({ ReferenceCount := rc, CharacterSet := cs, VR := vr, VL := vl, NumberOfValues := n,
       Data := .items d } : Value Item Val) = nn at hgt ⊢
  have hnn : nn ≠ 0 := by omega
  have hmod : n % UINT_RANGE = n := Nat.mod_eq_of_lt (by omega)
  have hmod1 : (n + 1) % UINT_RANGE = n + 1 := Nat.mod_eq_of_lt hn
  -- the reference count goes up and down again around the allocation
  have h1 := deref_store_same heap p
    ({ ReferenceCount := rc + 1, CharacterSet := cs, VR := vr, VL := vl, NumberOfValues := n,
       Data := .items d } : Value Item Val) hlt
  obtain ⟨heap2, r1, l1, d1, _⟩ := release_spec _ p _ h1
  simp only [Nat.add_sub_cancel] at d1
  rw [if_neg (by omega)] at d1
  obtain ⟨heap3, r2, l2, d2, _⟩ := release_spec heap2 p _ d1
  rw [length_store] at l1
  dsimp only at d2
  -- the copy of the old items and the new item
  have hread : readArray d n = some (d.take n) := by
    simp [readArray, hcap]
  have hlen : (d.take n).length = n := by
    simp [hcap]
  have hslots : slots nn emptyItem =
      List.replicate ((d.take n).length + ((nn - n - 1) + 1)) emptyItem := by
    rw [hlen]
    simp only [slots, slotCount, if_neg hnn]
    congr 1; omega
  have hcopy := overwrite_replicate_succ emptyItem (d.take n) ((nn - n - 1) + 1)
  rw [← hslots, List.replicate_succ] at hcopy
  have hput := overwrite_at_end item (d.take n) emptyItem
    (List.replicate (nn - n - 1) emptyItem)
  rw [hlen] at hput
  obtain ⟨nv, hnv⟩ : ∃ nv : Value Item Val, nv =
      { ReferenceCount := 1, CharacterSet := 0, VR := vr, VL := VL_UNDEFINED,
        NumberOfValues := n + 1,
        Data := .items (d.take n ++ item :: List.replicate (nn - n - 1) emptyItem) } :=
    ⟨_, rfl⟩
  rw [← hnv]
  refine ⟨(heap3.alloc nv).2, ?_, ?_, ?_⟩
  · simp only [AppendValue, hp, Option.some_bind, hcapn, ne_eq, hnn, not_false_eq_true, if_true,
      Clear, r1, hread, hcopy, r2, hmod, hput, Option.map_some', hmod1, Heap.alloc, l2, l1,
      AllocateSequenceData, ValueT, hnv]
  · have := deref_alloc_new heap3 nv
    simp only [Heap.alloc, l2, l1] at this ⊢
    exact this
  · rw [deref_alloc_old heap3 _ p (by omega), d2]
    by_cases h1 : rc = 1
    · simp [h1]
    · rw [if_neg (by omega), if_neg h1]

theorem newCapacity_cases (v : Value Item Val) :
    (newCapacity v = 0 ∧ v.ReferenceCount = 1 ∧ v.VL = VL_UNDEFINED ∧
      ¬ (v.NumberOfValues > 1 ∧ (v.NumberOfValues - 1) &&& v.NumberOfValues = 0)) ∨
    (v.NumberOfValues < newCapacity v ∧ ∃ k, 1 ≤ k ∧ newCapacity v = 2 ^ k) := by
  unfold newCapacity
  dsimp only
  by_cases h1 : v.ReferenceCount ≠ 1 ∨ v.VL ≠ VL_UNDEFINED
  · right
    rw [if_pos h1]
    exact growLoop_start v.NumberOfValues
  · rw [if_neg h1]
    push_neg at h1
    by_cases h2 : v.NumberOfValues > 1 ∧ (v.NumberOfValues - 1) &&& v.NumberOfValues = 0
    · right
      rw [if_pos h2]
      obtain ⟨k, hk⟩ := pow_two_of_and_pred v.NumberOfValues (by omega) h2.2
      exact ⟨by omega, k + 1, by omega, by rw [hk, pow_succ]; omega⟩
    · left
      rw [if_neg h2]
      exact ⟨rfl, h1.1, h1.2, h2⟩

theorem take_succ_append_cons {α : Type} (l : List α) (n : Nat) (x : α) (t : List α)
    (h : n ≤ l.length) : (l.take n ++ x :: t).take (n + 1) = l.take n ++ [x] := by
  have hl : (l.take n).length = n := by simp [h]
  rw [List.take_append_eq_append_take, hl]
  simp [List.take_of_length_le, hl]

/-- One call of `AppendValue` on a well-formed sequence. -/
theorem AppendValue_step (emptyItem : Item) (heap : Heap Item Val) (p : Nat)
    (v : Value Item Val) (d : List Item) (item : Item)
    (hp : heap.deref p = some v) (hd : v.Data = .items d) (hwf : WellFormed v)
    (hn : v.NumberOfValues + 1 < UINT_RANGE) :
    ∃ (q : Nat) (heap1 : Heap Item Val) (v1 : Value Item Val) (d1 : List Item),
      AppendValue emptyItem heap (some p) item = some (some q, heap1) ∧
      heap1.deref q = some v1 ∧ v1.Data = .items d1 ∧ v1.VR = v.VR ∧
      v1.NumberOfValues = v.NumberOfValues + 1 ∧
      d1.take (v.NumberOfValues + 1) = d.take v.NumberOfValues ++ [item] ∧
      WellFormed v1 := by
  obtain ⟨hrc, hcap, hpow⟩ := hwf
  rw [hd] at hcap hpow
  simp only [ValueData.capacity] at hcap hpow
  rcases newCapacity_cases v with ⟨h0, h1, h2, h3⟩ | ⟨hgt, k, hk1, hk⟩
  · -- in place
    obtain ⟨k, hk1, hk⟩ := hpow h2
    have hlt : v.NumberOfValues < d.length := by
      rcases Nat.lt_or_ge v.NumberOfValues d.length with h | h
      · exact h
      · exfalso
        have heq : v.NumberOfValues = 2 ^ k := by omega
        apply h3
        have h2k : 2 ≤ 2 ^ k := by
          calc 2 = 2 ^ 1 := by norm_num
            _ ≤ 2 ^ k := Nat.pow_le_pow_right (by norm_num) hk1
        exact ⟨by omega, by rw [heq]; exact and_pred_pow_two k⟩
    have hlt' := deref_lt heap p v hp
    refine ⟨p, _, _, _, AppendValue_inplace emptyItem heap p v d item hp hd h0 hlt hn,
      deref_store_same heap p _ hlt', rfl, rfl, rfl, take_succ_append_cons d _ item _ hcap, ?_⟩
    refine ⟨hrc, ?_, fun _ => ⟨k, hk1, ?_⟩⟩
    · simp only [ValueData.capacity, List.length_append, List.length_take, List.length_cons,
        List.length_drop]
      omega
    · simp only [ValueData.capacity, List.length_append, List.length_take, List.length_cons,
        List.length_drop]
      omega
  · -- through a reallocation
    obtain ⟨heap1, e1, e2, _⟩ := AppendValue_realloc emptyItem heap p v d item hp hd hrc hcap
      hn hgt
    refine ⟨heap.length, heap1, _, _, e1, e2, rfl, rfl, rfl,
      take_succ_append_cons d _ item _ hcap, ?_⟩
    refine ⟨le_refl _, ?_, fun _ => ⟨k, hk1, ?_⟩⟩
    · simp only [ValueData.capacity, List.length_append, List.length_take, List.length_cons,
        List.length_replicate]
      omega
    · simp only [ValueData.capacity, List.length_append, List.length_take, List.length_cons,
        List.length_replicate]
      omega

/-- A run of appends on a well-formed sequence. -/
theorem AppendValues_spec (emptyItem : Item) : ∀ (xs : List Item) (heap : Heap Item Val)
    (p : Nat) (v : Value Item Val) (d : List Item),
    heap.deref p = some v → v.Data = .items d → WellFormed v →
    v.NumberOfValues + xs.length < UINT_RANGE →
    ∃ (q : Nat) (heap1 : Heap Item Val) (v1 : Value Item Val) (d1 : List Item),
      AppendValues emptyItem xs (some p, heap) = some (some q, heap1) ∧
      heap1.deref q = some v1 ∧ v1.Data = .items d1 ∧
      v1.NumberOfValues = v.NumberOfValues + xs.length ∧
      d1.take v1.NumberOfValues = d.take v.NumberOfValues ++ xs
  | [], heap, p, v, d, hp, hd, _, _ =>
    ⟨p, heap, v, d, rfl, hp, hd, rfl, by simp⟩
  | x :: xs, heap, p, v, d, hp, hd, hwf, hn => by
    simp only [List.length_cons] at hn
    obtain ⟨q, heap1, v1, d1, e1, e2, e3, _, e5, e6, e7⟩ :=
      AppendValue_step emptyItem heap p v d x hp hd hwf (by omega)
    obtain ⟨q2, heap2, v2, d2, f1, f2, f3, f4, f5⟩ :=
      AppendValues_spec emptyItem xs heap1 q v1 d1 e2 e3 e7 (by omega)
    refine ⟨q2, heap2, v2, d2, ?_, f2, f3, ?_, ?_⟩
    · simp only [AppendValues, e1, Option.some_bind]
      exact f1
    · rw [f4, e5, List.length_cons]; omega
    · rw [f5, e5, e6]; simp

theorem get?_of_take_eq {α : Type} (d1 d : List α) (n : Nat) (item : α) (hcap : n ≤ d.length)
    (h : d1.take (n + 1) = d.take n ++ [item]) :
    d1.get? n = some item ∧ ∀ j, j < n → d1.get? j = d.get? j := by
  have hl : (d.take n).length = n := by simp [hcap]
  constructor
  · have h1 : (d1.take (n + 1)).get? n = d1.get? n := by
      simp [List.getElem?_take]
    rw [← h1, h]
    have := get?_append_len0 (d.take n) item []
    rwa [hl] at this
  · intro j hj
    have h1 : (d1.take (n + 1)).get? j = d1.get? j := by
      simp only [List.get?_eq_getElem?]
      rw [List.getElem?_take]; simp; omega
    rw [← h1, h]
    simp only [List.get?_eq_getElem?]
    rw [List.getElem?_append_left (by omega), List.getElem?_take]
    simp [hj]

theorem AppendInit_fresh (emptyItem : Item) (heap : Heap Item Val) (vr : vtkDICOMVR) :
    ∃ v : Value Item Val,
      AppendInit emptyItem heap none vr =
        some (some heap.length, heap ++ [some v]) ∧
      (heap ++ [some v]).deref heap.length = some v ∧
      v.Data = .items [emptyItem, emptyItem] ∧ v.NumberOfValues = 0 ∧ v.VR = vr ∧
      v.VL = VL_UNDEFINED ∧ WellFormed v := by
  refine ⟨{ AllocateSequenceData emptyItem vr 2 with NumberOfValues := 0, VL := VL_UNDEFINED },
    ?_, ?_, rfl, rfl, rfl, rfl, ?_⟩
  · simp [AppendInit, Clear, Heap.alloc]
  · simp [Heap.deref]
  · refine ⟨le_refl _, Nat.zero_le _, fun _ => ⟨1, le_refl _, rfl⟩⟩

/-- A value that a backslash follows is found whatever lies behind the end
of the payload. -/
theorem findValue_inner : ∀ (i : Nat) (pre Q tail : List Nat) (ep : Nat),
    i + 1 < (segments Q).length → pre.length + Q.length ≤ ep →
    ∃ cp dp, findValue (pre ++ Q ++ tail) ep i pre.length = some (cp, dp) ∧ cp ≤ dp ∧
      dp ≤ pre.length + Q.length ∧
      slice (pre ++ Q ++ tail) cp dp = (segments Q).getD i []
  | i, pre, Q, tail, ep, hi, hep => by
    rcases split_first Q with hQ | ⟨a, Q1, hQ, ha⟩
    · rw [segments_of_not_mem Q hQ] at hi
      simp at hi
    · subst hQ
      rw [segments_append_backslash a Q1 ha] at hi ⊢
      have hlen : (a ++ BACKSLASH :: Q1).length = a.length + 1 + Q1.length := by
        simp only [List.length_append, List.length_cons]; omega
      rw [hlen] at hep
      have hd : List.drop pre.length (pre ++ (a ++ BACKSLASH :: Q1) ++ tail) =
          a ++ BACKSLASH :: (Q1 ++ tail) := by simp
      have hscan := scanValue_spec ep a pre.length BACKSLASH (Q1 ++ tail) ha
        (by omega) (Or.inl rfl)
      cases i with
      | zero =>
        refine ⟨pre.length, pre.length + a.length, ?_, by omega, by omega, ?_⟩
        · unfold findValue
          rw [hd, hscan]; rfl
        · have := slice_append_left pre a (BACKSLASH :: Q1 ++ tail)
          simpa using this
      | succ k =>
        have hbuf : pre ++ (a ++ BACKSLASH :: Q1) ++ tail =
            (pre ++ a ++ [BACKSLASH]) ++ Q1 ++ tail := by simp
        have hst : pre.length + a.length + 1 = (pre ++ a ++ [BACKSLASH]).length := by
          simp only [List.length_append, List.length_cons, List.length_nil]
        obtain ⟨cp, dp, h1, h2, h3, h4⟩ :=
          findValue_inner k (pre ++ a ++ [BACKSLASH]) Q1 tail ep (by simpa using hi)
            (by rw [← hst]; omega)
        refine ⟨cp, dp, ?_, h2, by rw [← hst] at h3; omega, ?_⟩
        · unfold findValue
          rw [hd, hscan]
          have hne : pre.length + a.length ≠ ep := by omega
          simp only [Option.some_bind, if_pos hne]
          rw [hbuf, hst]; exact h1
        · rw [hbuf]; simpa using h4

theorem rdropWhile_dropWhile_of_getLast (l : List Nat) (h : l.getLast? ≠ some SPACE) :
    trimSpaces l = l.dropWhile (· == SPACE) := by
  unfold trimSpaces
  rw [List.rdropWhile_eq_self_iff]
  intro hl
  obtain ⟨t, ht⟩ := List.dropWhile_suffix (· == SPACE) (l := l)
  have h1 : l.getLast? = some ((l.dropWhile (· == SPACE)).getLast hl) := by
    conv_lhs => rw [← ht]
    rw [List.getLast?_append_of_ne_nil _ hl, List.getLast?_eq_getLast _ hl]
  intro hsp
  apply h
  rw [h1]
  simpa using hsp

theorem takeWhile_space_append_nul : ∀ P : List Nat,
    (P ++ [0]).takeWhile (· == SPACE) = P.takeWhile (· == SPACE)
  | [] => by simp [SPACE]
  | c :: cs => by
    by_cases hc : c = SPACE
    · simp [hc, takeWhile_space_append_nul cs]
    · simp [hc]

/-- The string form of a value of a text allocation whose payload `P` is
followed by the NUL pad alone, which `VL` counts. -/
theorem GetString_text_nulpad (fe : FloatEnv) (nb : Nat → List Nat → Nat → Nat)
    (val : Value Item Val) (P : List Nat) (i : Nat)
    (hD : val.Data = .chars (P ++ [0])) (hVL : val.VL = P.length + 1)
    (hCS : val.CharacterSet = 0)
    (hvr : val.VR ≠ .ST ∧ val.VR ≠ .LT ∧ val.VR ≠ .UT)
    (hk : val.NumberOfValues = (segments P).length) (h0 : 0 ∉ P)
    (hi : i + 1 < val.NumberOfValues ∨
      (val.NumberOfValues = 1 ∧ i = 0 ∧ P.getLast? ≠ some SPACE)) :
    GetString fe nb (some val) i = some (trimSpaces ((segments P).getD i [])) := by
  rcases hi with hi | ⟨hone, hi0, hlast⟩
  · have hi1 : i < val.NumberOfValues := by omega
    have hk1 : val.NumberOfValues > 1 := by omega
    have h := findValue_inner i [] P [0] (P.length + 1) (by rw [← hk]; exact hi) (by simp)
    simp only [List.nil_append, List.length_nil, Nat.zero_add] at h
    obtain ⟨cp, dp, h1, h2, h3, h4⟩ := h
    have hlen : dp ≤ (P ++ [0]).length := by simp; omega
    obtain ⟨cp1, dp1, t1, t2, t3, t4⟩ := trim_spec (P ++ [0]) cp dp h2 hlen
    have hstrip := strip_substr (P ++ [0]) 0 cp1 dp1 t2 t3
    have hnul : (slice (P ++ [0]) cp1 dp1).rdropWhile (· == 0) = slice (P ++ [0]) cp1 dp1 := by
      apply rdropWhile_nul_of_not_mem
      rw [t4, h4]
      intro hmem
      have hm1 := trimSpaces_subset _ _ hmem
      rw [← h4] at hm1
      have hm2 : (0 : Nat) ∈ slice (P ++ [0]) 0 P.length := by
        have : slice (P ++ [0]) cp dp = (slice (P ++ [0]) 0 dp).drop cp := by
          have := slice_drop (P ++ [0]) 0 cp dp
          simpa using this
        rw [this] at hm1
        have hm3 := List.mem_of_mem_drop hm1
        unfold slice at hm3 ⊢
        simp only [List.drop_zero, Nat.sub_zero] at hm3 ⊢
        exact (List.take_subset_take_left _ h3) hm3
      have : slice (P ++ [0]) 0 P.length = P := by simp [slice]
      rw [this] at hm2
      exact h0 hm2
    simp only [GetString, if_pos hi1, AppendValueToString, hD, Substring, if_pos hvr]
    rw [if_pos ⟨hk1, Nat.succ_pos i⟩, if_pos hCS, hVL, h1]
    simp only [Option.some_bind]
    rw [t1]
    simp only [Option.map_some', Option.some_bind]
    rw [hstrip, hnul, t4, h4]
  · subst hi0
    have hnb : BACKSLASH ∉ P := by
      have := segments_length P
      rw [← hk, hone] at this
      exact List.count_eq_zero.1 (by omega)
    have hnot : ¬ (val.NumberOfValues > 1 ∧ 0 + 1 > 0) := by omega
    have hsk := skipSpaces_spec (P.length + 1) (P ++ [0]) 0 (Nat.zero_le _) (by simp)
    have htw : (List.take (P.length + 1 - 0) (P ++ [0])).takeWhile (· == SPACE) =
        P.takeWhile (· == SPACE) := by
      have e : List.take (P.length + 1 - 0) (P ++ [0]) = P ++ [0] :=
        List.take_of_length_le (by simp)
      rw [e, takeWhile_space_append_nul]
    rw [htw, Nat.zero_add] at hsk
    set t := (P.takeWhile (· == SPACE)).length with ht
    have htle : t ≤ P.length := (List.takeWhile_prefix _).length_le
    have hslice : slice (P ++ [0]) t (P.length + 1) = P.dropWhile (· == SPACE) ++ [0] := by
      unfold slice
      have e1 : P.length + 1 - t = (P ++ [0]).length - t := by simp
      rw [e1, ← List.length_drop, List.take_length, List.drop_append_of_le_length htle, ht,
        drop_takeWhile_length]
    have hdt := dropTrailing_spec (P ++ [0]) SPACE t (P.length + 1) (by omega) (by simp)
    rw [hslice, List.rdropWhile_concat_neg _ _ _ (by simp [SPACE])] at hdt
    have hdl : (P.dropWhile (· == SPACE)).length = P.length - t := by
      rw [← drop_takeWhile_length (· == SPACE) P, List.length_drop]
    have hdp : t + (P.dropWhile (· == SPACE) ++ [0]).length = P.length + 1 := by
      simp only [List.length_append, List.length_singleton, hdl]; omega
    rw [hdp] at hdt
    have hstrip := strip_substr (P ++ [0]) 0 t (P.length + 1) (by omega) (by simp)
    rw [hslice, List.rdropWhile_concat_pos _ _ _ (by simp)] at hstrip
    have hnul : (P.dropWhile (· == SPACE)).rdropWhile (· == 0) = P.dropWhile (· == SPACE) := by
      apply rdropWhile_nul_of_not_mem
      intro hmem
      exact h0 ((List.dropWhile_suffix _).subset hmem)
    rw [hnul] at hstrip
    simp only [GetString, hone, Nat.lt_one_iff, if_true, AppendValueToString, hD, Substring,
      if_pos hvr]
    rw [if_neg (by omega), hVL]
    simp only [Option.some_bind, List.drop_zero]
    rw [hsk]
    simp only [Option.some_bind]
    rw [hdt]
    simp only [Option.map_some', Option.some_bind]
    rw [hstrip, segments_of_not_mem P hnb]
    simp only [List.getD_cons_zero]
    rw [rdropWhile_dropWhile_of_getLast P hlast]


@[simp] theorem setData_VR (v : Value Item Val) (d : ValueData Item Val) :
    (v.setData d).VR = v.VR := rfl

@[simp] theorem fill_VR (v : Value Item Val) (d : ValueData Item Val) (c : Nat) :
    (v.fill d c).VR = v.VR := rfl

theorem finishText_VR (v0 : Value Item Val) (n : Nat) (buf : List Nat) (cp0 : Nat)
    (v : Value Item Val) (h : finishText v0 n buf cp0 = some (some v)) : v.VR = v0.VR := by
  rw [finishText] at h
  generalize (if cp0 ≠ 0 then cp0 - 1 else cp0) = cp at h
  by_cases hodd : cp % UINT_RANGE % 2 = 1
  · rw [if_pos hodd] at h
    simp only [Option.bind_eq_some, Option.map_eq_some', Option.some.injEq] at h
    obtain ⟨_, _, _, _, rfl⟩ := h
    rfl
  · rw [if_neg hodd] at h
    simp only [Option.map_eq_some', Option.some.injEq] at h
    obtain ⟨_, _, rfl⟩ := h
    rfl

/-- Every branch of `CreateValueAs` records the VR it was given. -/
theorem CreateValueAs_VR (fe : FloatEnv) (raw : Nat) (T : NumType) (vr : vtkDICOMVR)
    (data : List Int) (n : Nat) (v : Value Item Val)
    (h : CreateValueAs fe raw T vr data n = some (some v)) : v.VR = vr := by
  unfold CreateValueAs at h
  by_cases hFD : vr = .FD
  · rw [if_pos hFD] at h
    simp only [Option.bind_eq_some, Option.map_eq_some', Option.some.injEq] at h
    obtain ⟨_, _, _, _, rfl⟩ := h
    rfl
  rw [if_neg hFD] at h
  by_cases hFL : vr = .FL
  · rw [if_pos hFL] at h
    simp only [Option.bind_eq_some, Option.map_eq_some', Option.some.injEq] at h
    obtain ⟨_, _, _, _, rfl⟩ := h
    rfl
  rw [if_neg hFL] at h
  by_cases hUL : vr = .UL
  · rw [if_pos hUL] at h
    simp only [Option.bind_eq_some, Option.map_eq_some', Option.some.injEq] at h
    obtain ⟨_, _, _, _, rfl⟩ := h
    rfl
  rw [if_neg hUL] at h
  by_cases hSL : vr = .SL
  · rw [if_pos hSL] at h
    simp only [Option.bind_eq_some, Option.map_eq_some', Option.some.injEq] at h
    obtain ⟨_, _, _, _, rfl⟩ := h
    rfl
  rw [if_neg hSL] at h
  by_cases hUS : vr = .US
  · rw [if_pos hUS] at h
    simp only [Option.bind_eq_some, Option.map_eq_some', Option.some.injEq] at h
    obtain ⟨_, _, _, _, rfl⟩ := h
    rfl
  rw [if_neg hUS] at h
  by_cases hSS : vr = .SS
  · rw [if_pos hSS] at h
    simp only [Option.bind_eq_some, Option.map_eq_some', Option.some.injEq] at h
    obtain ⟨_, _, _, _, rfl⟩ := h
    rfl
  rw [if_neg hSS] at h
  by_cases hDS : vr = .DS
  · rw [if_pos hDS] at h
    simp only [Option.bind_eq_some, Option.map_eq_some', Option.some.injEq] at h
    obtain ⟨_, _, _, _, h3⟩ := h
    exact finishText_VR _ _ _ _ _ h3
  rw [if_neg hDS] at h
  by_cases hIS : vr = .IS
  · rw [if_pos hIS] at h
    simp only [Option.bind_eq_some, Option.map_eq_some', Option.some.injEq] at h
    obtain ⟨_, _, _, _, h3⟩ := h
    exact finishText_VR _ _ _ _ _ h3
  rw [if_neg hIS] at h
  by_cases hOB : vr = .OB ∨ vr = .UN
  · rw [if_pos hOB] at h
    simp only [Option.bind_eq_some, Option.map_eq_some', Option.some.injEq] at h
    obtain ⟨_, _, _, _, _, _, rfl⟩ := h
    rfl
  rw [if_neg hOB] at h
  by_cases hOW : vr = .OW
  · rw [if_pos hOW] at h
    split_ifs at h
    all_goals
      simp only [Option.bind_eq_some, Option.map_eq_some', Option.some.injEq] at h
      obtain ⟨_, _, _, _, rfl⟩ := h
      rfl
  rw [if_neg hOW] at h
  by_cases hOF : vr = .OF
  · rw [if_pos hOF] at h
    simp only [Option.bind_eq_some, Option.map_eq_some', Option.some.injEq] at h
    obtain ⟨_, _, _, _, rfl⟩ := h
    rfl
  rw [if_neg hOF] at h
  by_cases hAT : vr = .AT
  · rw [if_pos hAT] at h
    simp only [AllocateTagData, ValueT, Option.map_eq_some', Option.some.injEq] at h
    obtain ⟨_, _, rfl⟩ := h
    rfl
  rw [if_neg hAT] at h
  simp at h

/-- `CreateValueAs` has no branch for the two abstract VRs. -/
theorem CreateValueAs_abstract (fe : FloatEnv) (raw : Nat) (T : NumType) (vr : vtkDICOMVR)
    (data : List Int) (n : Nat) (hvr : vr = .OX ∨ vr = .XS) :
    (CreateValueAs fe raw T vr data n : Option (Option (Value Item Val))) = some none := by
  rcases hvr with rfl | rfl <;> simp [CreateValueAs]

/-- Every branch of `CreateValue<char>` records the VR it was given. -/
theorem CreateValue_char_VR (fe : FloatEnv) (raw : Nat) (vr : vtkDICOMVR)
    (data : List Nat) (m : Nat) (v : Value Item Val)
    (h : CreateValue_char fe raw vr data m = some (some v)) : v.VR = vr := by
  unfold CreateValue_char at h
  by_cases h1 : vr = .ST ∨ vr = .LT ∨ vr = .UT
  · rw [if_pos h1] at h
    simp only [Option.bind_eq_some, Option.map_eq_some', Option.some.injEq] at h
    obtain ⟨_, _, _, _, _, _, _, _, rfl⟩ := h
    rfl
  rw [if_neg h1] at h
  by_cases h2 : vr = .OW
  · rw [if_pos h2] at h
    simp only [Option.bind_eq_some, Option.map_eq_some', Option.some.injEq] at h
    obtain ⟨_, _, _, _, rfl⟩ := h
    rfl
  rw [if_neg h2] at h
  by_cases h3 : vr = .OF
  · rw [if_pos h3] at h
    simp only [Option.bind_eq_some, Option.map_eq_some', Option.some.injEq] at h
    obtain ⟨_, _, _, _, rfl⟩ := h
    rfl
  rw [if_neg h3] at h
  by_cases h4 : vr = .UN ∨ vr = .OB ∨ vr = .OX
  · rw [if_pos h4] at h
    simp only [Option.bind_eq_some, Option.map_eq_some', Option.some.injEq] at h
    obtain ⟨_, _, _, _, _, _, rfl⟩ := h
    rfl
  rw [if_neg h4] at h
  simp only [Option.bind_eq_some] at h
  obtain ⟨src, _, h⟩ := h
  by_cases h5 : vr = .AE ∨ vr = .AS ∨ vr = .CS ∨ vr = .DA ∨ vr = .DS ∨ vr = .DT ∨
       vr = .IS ∨ vr = .LO ∨ vr = .PN ∨ vr = .SH ∨ vr = .TM ∨ vr = .UI
  · rw [if_pos h5] at h
    simp only [Option.bind_eq_some, Option.map_eq_some', Option.some.injEq] at h
    obtain ⟨_, _, _, _, _, _, _, _, rfl⟩ := h
    rfl
  rw [if_neg h5] at h
  by_cases h6 : vr = .FD
  · rw [if_pos h6] at h
    simp only [Option.bind_eq_some, Option.map_eq_some', Option.some.injEq] at h
    obtain ⟨_, _, _, _, rfl⟩ := h
    rfl
  rw [if_neg h6] at h
  by_cases h7 : vr = .FL
  · rw [if_pos h7] at h
    simp only [Option.bind_eq_some, Option.map_eq_some', Option.some.injEq] at h
    obtain ⟨_, _, _, _, rfl⟩ := h
    rfl
  rw [if_neg h7] at h
  by_cases h8 : vr = .UL
  · rw [if_pos h8] at h
    simp only [Option.bind_eq_some, Option.map_eq_some', Option.some.injEq] at h
    obtain ⟨_, _, _, _, rfl⟩ := h
    rfl
  rw [if_neg h8] at h
  by_cases h9 : vr = .SL
  · rw [if_pos h9] at h
    simp only [Option.bind_eq_some, Option.map_eq_some', Option.some.injEq] at h
    obtain ⟨_, _, _, _, rfl⟩ := h
    rfl
  rw [if_neg h9] at h
  by_cases h10 : vr = .US
  · rw [if_pos h10] at h
    simp only [Option.bind_eq_some, Option.map_eq_some', Option.some.injEq] at h
    obtain ⟨_, _, _, _, rfl⟩ := h
    rfl
  rw [if_neg h10] at h
  by_cases h11 : vr = .SS ∨ vr = .XS
  · rw [if_pos h11] at h
    simp only [Option.bind_eq_some, Option.map_eq_some', Option.some.injEq] at h
    obtain ⟨_, _, _, _, rfl⟩ := h
    rfl
  rw [if_neg h11] at h
  simp at h

theorem CreateValue_Tag_VR (raw : Nat) (vr : vtkDICOMVR)
    (data : List vtkDICOMTag) (n : Nat) (v : Value Item Val)
    (h : CreateValue_Tag raw vr data n = some (some v)) : v.VR = vr ∧ vr = .AT := by
  unfold CreateValue_Tag at h
  by_cases hAT : vr = .AT
  · rw [if_pos hAT] at h
    simp only [AllocateTagData, ValueT, Option.bind_eq_some, Option.map_eq_some',
      Option.some.injEq] at h
    obtain ⟨_, _, _, _, rfl⟩ := h
    exact ⟨rfl, hAT⟩
  · rw [if_neg hAT] at h
    simp at h

theorem resolveVR_concrete (T : NumType) (vr : vtkDICOMVR) (h : vr ≠ .OX) (h2 : vr ≠ .XS) :
    resolveVR T vr = vr := by
  simp [resolveVR, h, h2]

theorem fixExponent_length_le (t : List Nat) : (fixExponent t).length ≤ t.length := by
  simp only [fixExponent]
  split_ifs with h
  · simp only [List.length_append, List.length_take, List.length_drop]
    omega
  · exact le_refl _

theorem textDS_length_le (fe : FloatEnv) (T : NumType) : ∀ (data : List Int),
    (∀ x ∈ data, (fe.sprintf 0 (clampDS (castTo fe .double T x).toNat)).length ≤ 16) →
    (textDS fe T data).length ≤ 17 * data.length
  | [], _ => by simp [textDS]
  | x :: xs, hfmt => by
    have h1 := hfmt x (by simp)
    have h2 := fixExponent_length_le (fe.sprintf 0 (clampDS (castTo fe .double T x).toNat))
    have h3 := textDS_length_le fe T xs (fun y hy => hfmt y (by simp [hy]))
    simp only [textDS, textDSElement, List.length_append, List.length_cons]
    omega

theorem textDS_eq_join (fe : FloatEnv) (T : NumType) : ∀ (data : List Int), data ≠ [] →
    textDS fe T data = joinBackslash (data.map (textDSElement fe T)) ++ [BACKSLASH]
  | [], h => absurd rfl h
  | [x], _ => by simp [textDS, joinBackslash]
  | x :: y :: ys, _ => by
    have ih := textDS_eq_join fe T (y :: ys) (by simp)
    simp only [textDS, List.map_cons, joinBackslash, List.append_assoc, List.cons_append] at ih ⊢
    rw [ih]

theorem joinBackslash_length_ge : ∀ (ts : List (List Nat)),
    ts.length ≤ (joinBackslash ts).length + 1
  | [] => by simp
  | [t] => by simp
  | t :: u :: ts => by
    have ih := joinBackslash_length_ge (u :: ts)
    simp only [joinBackslash, List.length_append, List.length_cons] at ih ⊢
    omega

/-- The loop of the DS branch writes the text of the elements, each followed
by a backslash, and leaves the rest of the buffer at its length. -/
theorem writeDS_spec (fe : FloatEnv) (T : NumType) : ∀ (data : List Int) (pre fill : List Nat),
    (∀ x ∈ data, (fe.sprintf 0 (clampDS (castTo fe .double T x).toNat)).length ≤ 16) →
    17 * data.length ≤ fill.length →
    ∃ left, writeDS fe T data (pre ++ fill) pre.length =
        some (pre ++ textDS fe T data ++ left, pre.length + (textDS fe T data).length) ∧
      left.length + (textDS fe T data).length = fill.length
  | [], pre, fill, _, _ => ⟨fill, by simp [writeDS, textDS], by simp [textDS]⟩
  | x :: xs, pre, fill, hfmt, hfill => by
    have hx := hfmt x (by simp)
    generalize ht : fe.sprintf 0 (clampDS (castTo fe .double T x).toNat) = t at hx
    have hf := fixExponent_length_le t
    generalize hfe : fixExponent t = f at hf
    simp only [List.length_cons] at hfill
    have hl0 : (t ++ [0]).length = t.length + 1 := by simp
    have hl1 : (f ++ [0]).length = f.length + 1 := by simp
    have e1 := overwrite_mid pre fill (t ++ [0]) (by rw [hl0]; omega)
    rw [hl0] at e1
    have hfill1 : ((t ++ [0]) ++ List.drop (t.length + 1) fill).length = fill.length := by
      simp only [List.length_append, List.length_drop, List.length_cons, List.length_nil]
      omega
    generalize hF1 : (t ++ [0]) ++ List.drop (t.length + 1) fill = fill1 at hfill1
    have e1' : overwrite (pre ++ fill) pre.length (t ++ [0]) = some (pre ++ fill1) := by
      rw [e1, ← hF1]; simp
    have e2 := overwrite_mid pre fill1 (f ++ [0]) (by rw [hl1]; omega)
    rw [hl1] at e2
    have e2' : overwrite (pre ++ fill1) pre.length (f ++ [0]) =
        some ((pre ++ f) ++ 0 :: List.drop (f.length + 1) fill1) := by
      rw [e2]; simp
    have e3 := overwrite_at_end BACKSLASH (pre ++ f) 0 (List.drop (f.length + 1) fill1)
    have hl2 : (pre ++ f).length = pre.length + f.length := by simp
    rw [hl2] at e3
    have hl3 : (pre ++ f ++ [BACKSLASH]).length = pre.length + f.length + 1 := by
      simp only [List.length_append, List.length_cons, List.length_nil]
    obtain ⟨left, ih1, ih2⟩ := writeDS_spec fe T xs (pre ++ f ++ [BACKSLASH])
      (List.drop (f.length + 1) fill1) (fun y hy => hfmt y (by simp [hy]))
      (by simp only [List.length_drop]; omega)
    rw [hl3] at ih1
    have e5 : (pre ++ f) ++ BACKSLASH :: List.drop (f.length + 1) fill1 =
        (pre ++ f ++ [BACKSLASH]) ++ List.drop (f.length + 1) fill1 := by simp
    refine ⟨left, ?_, ?_⟩
    · simp only [writeDS, ht, hfe, e1', Option.some_bind, e2', e3]
      rw [e5, ih1]
      simp only [textDS, textDSElement, ht, hfe, List.length_append, List.length_cons,
        Option.some.injEq, Prod.mk.injEq, List.append_assoc, List.cons_append, List.nil_append]
      exact ⟨trivial, by omega⟩
    · simp only [List.length_drop] at ih2
      simp only [textDS, textDSElement, ht, hfe, List.length_append, List.length_cons]
      omega

/-- The end of the DS and IS branches for a text `B` of less than 2^32 - 1
bytes that a backslash follows. -/
theorem finishText_payload (v0 : Value Item Val) (n : Nat) (B : List Nat) (j : Nat)
    (J : List Nat) (hB : B.length + 1 < UINT_RANGE) :
    ∃ (v : Value Item Val) (junk : List Nat),
      finishText v0 n (B ++ BACKSLASH :: j :: J) (B.length + 1) = some (some v) ∧
      v.VR = v0.VR ∧ v.CharacterSet = v0.CharacterSet ∧
      v.NumberOfValues = n % UINT_RANGE ∧ v.VL = (B ++ evenPad B).length ∧
      v.Data = .chars (B ++ evenPad B ++ 0 :: junk) := by
  have hcp : (if B.length + 1 ≠ 0 then B.length + 1 - 1 else B.length + 1) = B.length := by
    simp
  have hmod : B.length % UINT_RANGE = B.length := Nat.mod_eq_of_lt (by omega)
  rw [finishText]
  simp only [hcp, hmod]
  by_cases hodd : B.length % 2 = 1
  · rw [if_pos hodd, overwrite_at_end SPACE B BACKSLASH (j :: J)]
    simp only [Option.some_bind]
    rw [overwrite_at_end1 0 B SPACE j J]
    refine ⟨_, J, rfl, rfl, rfl, rfl, ?_, ?_⟩
    · simp only [evenPad, if_pos hodd, List.length_append, List.length_singleton]
      exact Nat.mod_eq_of_lt hB
    · simp [evenPad, hodd]
  · rw [if_neg hodd, overwrite_at_end 0 B BACKSLASH (j :: J)]
    refine ⟨_, j :: J, rfl, rfl, rfl, rfl, ?_, ?_⟩
    · simp [evenPad, hodd]
    · simp [evenPad, hodd]

/-- The allocation that the DS branch of `CreateValue<T>` builds from at
least one element. -/
theorem CreateValue_DS (fe : FloatEnv) (raw : Nat) (T : NumType) (data rest : List Int)
    (hne : data ≠ [])
    (hfmt : ∀ x ∈ data, (fe.sprintf 0 (clampDS (castTo fe .double T x).toNat)).length ≤ 16)
    (hvl : (joinBackslash (data.map (textDSElement fe T))).length + 1 < UINT_RANGE) :
    ∃ (v : Value Item Val) (junk : List Nat),
      CreateValue fe raw T .DS (data ++ rest) data.length = some (some v) ∧
      v.VR = .DS ∧ v.CharacterSet = 0 ∧ v.NumberOfValues = data.length ∧
      v.VL = (joinBackslash (data.map (textDSElement fe T)) ++
        evenPad (joinBackslash (data.map (textDSElement fe T)))).length ∧
      v.Data = .chars (joinBackslash (data.map (textDSElement fe T)) ++
        evenPad (joinBackslash (data.map (textDSElement fe T))) ++ 0 :: junk) := by
  have hread : readArray (data ++ rest) data.length = some data := readArray_append data rest
  have hn := joinBackslash_length_ge (data.map (textDSElement fe T))
  rw [List.length_map] at hn
  have hmod : data.length % UINT_RANGE = data.length := Nat.mod_eq_of_lt (by omega)
  obtain ⟨left, hw, hleft⟩ := writeDS_spec fe T data [] (charSlots raw .DS (17 * data.length))
    hfmt (by simp only [charSlots, List.length_replicate]; omega)
  simp only [List.nil_append, List.length_nil, Nat.zero_add] at hw
  have hB := textDS_eq_join fe T data hne
  have hleft1 : 1 ≤ left.length := by
    have hpos : 0 < data.length := List.length_pos.2 hne
    simp only [charSlots, List.length_replicate] at hleft
    have h17 := textDS_length_le fe T data hfmt
    omega
  obtain ⟨j, J, hJ⟩ := List.exists_cons_of_ne_nil (List.ne_nil_of_length_pos hleft1)
  obtain ⟨v, junk, h1, h2, h3, h4, h5, h6⟩ := finishText_payload
    (AllocateCharData raw .DS (17 * data.length) : Value Item Val) data.length
    (joinBackslash (data.map (textDSElement fe T))) j J hvl
  refine ⟨v, junk, ?_, h2, h3, by rw [h4, hmod], h5, h6⟩
  simp only [CreateValue, resolveVR, CreateValueAs, reduceCtorEq, if_false, if_true, hread,
    Option.some_bind, hw]
  rw [hJ, hB]
  simp only [List.length_append, List.length_cons, List.length_nil, List.append_assoc,
    List.singleton_append, Nat.zero_add]
  exact h1

theorem isNanDouble_iff (d : Nat) :
    isNanDouble d = true ↔
      d / 4503599627370496 % 2048 = 2047 ∧ d % 4503599627370496 ≠ 0 := by
  simp [isNanDouble, ieeeIsNan, Nat.shiftRight_eq_div_pow]

/-- The clamping of the DS branch on the sign `q`, the magnitude `m` and the
NaN test `nan` of a double. -/
theorem clampDS_eq (d : Nat) :
    clampDS d =
      if isNanDouble d = false ∧ d / 2 ^ 63 % 2 ≠ 1 ∧ d % 2 ^ 63 > DS_MAX then DS_MAX
      else if isNanDouble d = false ∧ d / 2 ^ 63 % 2 = 1 ∧ d % 2 ^ 63 > DS_MAX then DS_MIN
      else if d % 2 ^ 63 < DS_TINY ∨ isNanDouble d = true then 0
      else d := by
  simp [clampDS, DS_MIN]

/-- The clamping of the DS branch in terms of the comparisons of the
source. -/
theorem clampDS_cases (d : Nat) :
    (doubleLt DS_MAX d = true → clampDS d = DS_MAX) ∧
    (doubleLt d DS_MIN = true → clampDS d = DS_MIN) ∧
    (doubleLt (d % 2 ^ 63) DS_TINY = true ∨ isNanDouble d = true → clampDS d = 0) ∧
    (doubleLt DS_MAX d = false → doubleLt d DS_MIN = false →
      doubleLt (d % 2 ^ 63) DS_TINY = false → isNanDouble d = false → clampDS d = d) := by
  have hmax : isNanDouble DS_MAX = false := by decide
  have hmin : isNanDouble DS_MIN = false := by decide
  have htiny : isNanDouble DS_TINY = false := by decide
  have kmax : doubleKey DS_MAX = 6103021453048604857 := by decide
  have kmin : doubleKey DS_MIN = -6103021453048604857 := by decide
  have ktiny : doubleKey DS_TINY = 3125919792542303038 := by decide
  have hfabs : isNanDouble (d % 2 ^ 63) = true → 9218868437227405312 ≤ d % 2 ^ 63 := by
    intro h
    rw [isNanDouble_iff] at h
    omega
  have hkey : doubleKey (d % 2 ^ 63) = ((d % 2 ^ 63 : Nat) : Int) := by
    unfold doubleKey
    have : d % 2 ^ 63 / 2 ^ 63 % 2 = 0 := by omega
    rw [if_neg (by omega)]
    congr 1
    omega
  have hk : doubleKey d =
      if d / 2 ^ 63 % 2 = 1 then -((d % 2 ^ 63 : Nat) : Int) else ((d % 2 ^ 63 : Nat) : Int) :=
    rfl
  rw [clampDS_eq]
  simp only [doubleLt, hmax, hmin, htiny, kmax, kmin, ktiny, hkey, hk, Bool.not_false,
    Bool.true_and, Bool.and_true, Bool.and_eq_true, Bool.not_eq_true', decide_eq_true_eq,
    Bool.and_eq_false_iff, Bool.not_eq_false', decide_eq_false_iff_not]
  simp only [DS_MAX, DS_MIN, DS_TINY]
  generalize d % 2 ^ 63 = m at *
  generalize d / 2 ^ 63 % 2 = q at *
  generalize isNanDouble d = nan at *
  generalize isNanDouble m = nanm at *
  cases nan
  · by_cases hs : q = 1
    · subst hs
      have e : (if (1 : Nat) = 1 then -((m : Nat) : Int) else ((m : Nat) : Int)) = -(m : Int) :=
        if_pos rfl
      rw [e]
      refine ⟨?_, ?_, ?_, ?_⟩
      · intro h; omega
      · intro h
        rw [if_neg (by simp), if_pos ⟨rfl, rfl, by omega⟩]
      · rintro (h | h)
        · rw [if_neg (by simp), if_neg (by omega), if_pos (Or.inl (by omega))]
        · simp at h
      · intro h1 h2 h3 _
        simp only [Bool.false_eq_true, false_or, not_lt] at h1 h2
        have h3' : ¬ m < 3125919792542303038 := by
          rcases h3 with h3 | h3
          · have := hfabs h3; omega
          · omega
        rw [if_neg (by simp), if_neg (by omega), if_neg (by simp [h3'])]
    · have e : (if q = 1 then -((m : Nat) : Int) else ((m : Nat) : Int)) = (m : Int) :=
        if_neg hs
      rw [e]
      refine ⟨?_, ?_, ?_, ?_⟩
      · intro h
        rw [if_pos ⟨rfl, hs, by omega⟩]
      · intro h; omega
      · rintro (h | h)
        · rw [if_neg (by omega), if_neg (by simp [hs]), if_pos (Or.inl (by omega))]
        · simp at h
      · intro h1 h2 h3 _
        simp only [Bool.false_eq_true, false_or, not_lt] at h1 h2
        have h3' : ¬ m < 3125919792542303038 := by
          rcases h3 with h3 | h3
          · have := hfabs h3; omega
          · omega
        rw [if_neg (by omega), if_neg (by simp [hs]), if_neg (by simp [h3'])]
  · refine ⟨by simp, by simp, ?_, by simp⟩
    intro _
    rw [if_neg (by simp), if_neg (by simp), if_pos (Or.inr rfl)]

theorem tag_group_element (g e : Nat) (hg : g < 65536) (he : e < 65536) :
    (vtkDICOMTag.ofGroupElement g e).GetGroup = g ∧
    (vtkDICOMTag.ofGroupElement g e).GetElement = e := by
  have h1 : (g <<< 16) ||| e = 65536 * g + e := by
    rw [Nat.shiftLeft_eq, Nat.mul_comm]
    exact (@Nat.mul_add_lt_is_or 16 e he g).symm
  simp only [vtkDICOMTag.ofGroupElement, vtkDICOMTag.GetGroup, vtkDICOMTag.GetElement, h1,
    UINT_RANGE, Nat.shiftRight_eq_div_pow]
  constructor <;> omega

/-- The allocation that `CreateValue<vtkDICOMTag>` builds for VR AT. -/
theorem CreateValue_Tag_AT (raw : Nat) (tags trest : List vtkDICOMTag)
    (hn : tags.length * 4 < 4294967295) :
    (CreateValue_Tag raw .AT (tags ++ trest) tags.length : Option (Option (Value Item Val))) =
      some (some { ReferenceCount := 1, CharacterSet := 0, VR := .AT, VL := 4 * tags.length,
                   NumberOfValues := tags.length,
                   Data := .tags (tags ++
                     List.replicate (slotCount tags.length - tags.length)
                       ⟨rawSlot 4 raw⟩) }) := by
  have hmod : tags.length % UINT_RANGE = tags.length :=
    Nat.mod_eq_of_lt (by simp only [UINT_RANGE]; omega)
  have hmod4 : tags.length * 4 % UINT_RANGE = 4 * tags.length := by
    rw [Nat.mod_eq_of_lt (by simp only [UINT_RANGE]; omega)]; omega
  have hov := overwrite_mid ([] : List vtkDICOMTag)
    (List.replicate tags.length vtkDICOMTag.zero ++
      List.replicate (slotCount tags.length - tags.length) (⟨rawSlot 4 raw⟩ : vtkDICOMTag))
    tags (by simp)
  have hdrop : List.drop tags.length (List.replicate tags.length vtkDICOMTag.zero ++
      List.replicate (slotCount tags.length - tags.length) (⟨rawSlot 4 raw⟩ : vtkDICOMTag)) =
      List.replicate (slotCount tags.length - tags.length) ⟨rawSlot 4 raw⟩ := by
    rw [List.drop_append_of_le_length (by simp)]
    simp
  simp only [List.nil_append, List.length_nil, hdrop] at hov
  simp only [CreateValue_Tag, if_true, AllocateTagData, ValueT, hmod, hmod4,
    readArray_append, Option.some_bind, hov, Option.map_some']

theorem digitsValue_all : ∀ (ds : List Nat) (acc c : Nat) (more : List Nat),
    ds.all isdigit = true → isdigit c = false →
    digitsValue acc (ds ++ c :: more) = ds.foldl (fun a ch => a * 10 + (ch - 48)) acc
  | [], acc, c, more, _, hc => by simp [digitsValue, hc]
  | d :: ds, acc, c, more, h, hc => by
    simp only [List.all_cons, Bool.and_eq_true] at h
    simp only [List.cons_append, digitsValue, h.1, if_true, List.foldl_cons]
    exact digitsValue_all ds _ c more h.2 hc

theorem digitsNumber_some (ds : List Nat) (n : Nat) (h : digitsNumber ds = some n) :
    ds ≠ [] ∧ ds.all isdigit = true ∧ n = ds.foldl (fun a ch => a * 10 + (ch - 48)) 0 := by
  unfold digitsNumber at h
  split_ifs at h with hc
  simp only [Option.some.injEq] at h
  exact ⟨hc.1, hc.2, h.symm⟩

/-- The three shapes of a decimal integer literal. -/
theorem literalValue_some (seg : List Nat) (x : Int) (h : literalValue seg = some x) :
    (∃ ds n, seg = 45 :: ds ∧ digitsNumber ds = some n ∧ x = -(n : Int)) ∨
    (∃ ds n, seg = 43 :: ds ∧ digitsNumber ds = some n ∧ x = (n : Int)) ∨
    (∃ n, seg ≠ [] ∧ seg.head? ≠ some 45 ∧ seg.head? ≠ some 43 ∧
      digitsNumber seg = some n ∧ x = (n : Int)) := by
  unfold literalValue at h
  split at h
  · simp only [Option.map_eq_some'] at h
    obtain ⟨n, h1, h2⟩ := h
    exact Or.inl ⟨_, n, rfl, h1, h2.symm⟩
  · simp only [Option.map_eq_some'] at h
    obtain ⟨n, h1, h2⟩ := h
    exact Or.inr (Or.inl ⟨_, n, rfl, h1, h2.symm⟩)
  · rename_i h45 h43
    simp only [Option.map_eq_some'] at h
    obtain ⟨n, h1, h2⟩ := h
    have hne := (digitsNumber_some _ n h1).1
    refine Or.inr (Or.inr ⟨n, hne, ?_, ?_, h1, h2.symm⟩)
    · intro hh
      obtain ⟨c, t, rfl⟩ := List.exists_cons_of_ne_nil hne
      simp only [List.head?_cons, Option.some.injEq] at hh
      subst hh
      exact h45 t rfl
    · intro hh
      obtain ⟨c, t, rfl⟩ := List.exists_cons_of_ne_nil hne
      simp only [List.head?_cons, Option.some.injEq] at hh
      subst hh
      exact h43 t rfl

theorem isdigit_chars (ds : List Nat) (h : ds.all isdigit = true) :
    ∀ y ∈ ds, y ≠ BACKSLASH ∧ y ≠ 0 ∧ isspace y = false ∧ y ≠ 45 ∧ y ≠ 43 := by
  intro y hy
  have := List.all_eq_true.1 h y hy
  simp only [isdigit, Bool.and_eq_true, decide_eq_true_eq] at this
  simp only [BACKSLASH, isspace]
  refine ⟨by omega, by omega, ?_, by omega, by omega⟩
  simp
  omega

/-- A literal is not empty and holds neither a backslash nor a NUL. -/
theorem literal_chars (seg : List Nat) (x : Int) (h : literalValue seg = some x) :
    seg ≠ [] ∧ ∀ y ∈ seg, y ≠ BACKSLASH ∧ y ≠ 0 := by
  rcases literalValue_some seg x h with ⟨ds, n, rfl, h1, _⟩ | ⟨ds, n, rfl, h1, _⟩ |
    ⟨n, hne, _, _, h1, _⟩
  · have hd := isdigit_chars ds (digitsNumber_some ds n h1).2.1
    refine ⟨by simp, ?_⟩
    intro y hy
    rcases List.mem_cons.1 hy with rfl | hy
    · decide
    · exact ⟨(hd y hy).1, (hd y hy).2.1⟩
  · have hd := isdigit_chars ds (digitsNumber_some ds n h1).2.1
    refine ⟨by simp, ?_⟩
    intro y hy
    rcases List.mem_cons.1 hy with rfl | hy
    · decide
    · exact ⟨(hd y hy).1, (hd y hy).2.1⟩
  · have hd := isdigit_chars seg (digitsNumber_some seg n h1).2.1
    exact ⟨hne, fun y hy => ⟨(hd y hy).1, (hd y hy).2.1⟩⟩

/-- The function `strtol` reads a literal that a character other than a
digit follows. -/
theorem strtol_literal (seg : List Nat) (x : Int) (c : Nat) (more : List Nat)
    (h : literalValue seg = some x) (hc : isdigit c = false)
    (h1 : LONG_MIN ≤ x) (h2 : x ≤ LONG_MAX) :
    strtol (seg ++ c :: more) = x := by
  rcases literalValue_some seg x h with ⟨ds, n, rfl, hn, rfl⟩ | ⟨ds, n, rfl, hn, rfl⟩ |
    ⟨n, hne, h45, h43, hn, rfl⟩
  · obtain ⟨_, hall, hv⟩ := digitsNumber_some ds n hn
    rw [List.cons_append, strtol_minus, digitsValue_all ds 0 c more hall hc, ← hv]
    simp only [LONG_MIN] at h1 ⊢
    omega
  · obtain ⟨_, hall, hv⟩ := digitsNumber_some ds n hn
    have e : strtol (43 :: (ds ++ c :: more)) =
        min (digitsValue 0 (ds ++ c :: more) : Int) LONG_MAX := by
      unfold strtol
      rw [List.dropWhile_cons_of_neg (by decide)]
    rw [List.cons_append, e, digitsValue_all ds 0 c more hall hc, ← hv]
    simp only [LONG_MAX] at h2 ⊢
    omega
  · obtain ⟨_, hall, hv⟩ := digitsNumber_some seg n hn
    obtain ⟨hd, tl, rfl⟩ := List.exists_cons_of_ne_nil hne
    have hch := isdigit_chars (hd :: tl) hall hd (by simp)
    have hdv := digitsValue_all (hd :: tl) 0 c more hall hc
    rw [List.cons_append] at hdv ⊢
    rw [strtol_cons hd _ hch.2.2.1 hch.2.2.2.1 hch.2.2.2.2, hdv, ← hv]
    simp only [LONG_MAX] at h2 ⊢
    omega

/-- The second loop of `StringConversion` on a NUL-terminated string whose
segments are not empty and hold no NUL: one value per segment. -/
theorem convertValues_segments (conv : List Nat → Int) (val : List Nat → Int)
    (P : List Nat → Prop)
    (hconv : ∀ seg c more, P seg → (c = BACKSLASH ∨ c = 0) →
      conv (seg ++ c :: more) = val seg) :
    ∀ (k : Nat) (s rest : List Nat), (segments s).length = k →
      (∀ seg ∈ segments s, (seg ≠ [] ∧ ∀ y ∈ seg, y ≠ BACKSLASH ∧ y ≠ 0) ∧ P seg) →
      convertValues conv k (s ++ 0 :: rest) = some ((segments s).map val)
  | 0, s, _, hk, _ => absurd (List.length_eq_zero.1 hk) (segments_ne_nil s)
  | k + 1, s, rest, hk, hs => by
    rcases split_first s with hQ | ⟨a, s1, rfl, ha⟩
    · have hseg := segments_of_not_mem s hQ
      rw [hseg] at hk hs ⊢
      have hk0 : k = 0 := by simpa using hk
      subst hk0
      obtain ⟨⟨hne, hch⟩, hP⟩ := hs s (by simp)
      obtain ⟨c, t, rfl⟩ := List.exists_cons_of_ne_nil hne
      have hc0 : c ≠ 0 := (hch c (by simp)).2
      have hskip := skipValue_spec (c :: t) 0 rest hne hch (Or.inr rfl)
      rw [List.cons_append] at hskip
      have hv := hconv (c :: t) 0 rest hP (Or.inr rfl)
      rw [List.cons_append] at hv
      simp only [List.cons_append, convertValues, ne_eq, hc0, not_false_eq_true, if_true,
        hskip, Option.some_bind, Option.map_some', hv, List.map_cons, List.map_nil]
    · have hseg := segments_append_backslash a s1 ha
      rw [hseg] at hk hs ⊢
      obtain ⟨⟨hne, hch⟩, hP⟩ := hs a (by simp)
      obtain ⟨c, t, rfl⟩ := List.exists_cons_of_ne_nil hne
      have hc0 : c ≠ 0 := (hch c (by simp)).2
      have hskip := skipValue_spec (c :: t) BACKSLASH (s1 ++ 0 :: rest) hne hch (Or.inl rfl)
      rw [if_pos rfl, List.cons_append] at hskip
      have hv := hconv (c :: t) BACKSLASH (s1 ++ 0 :: rest) hP (Or.inl rfl)
      rw [List.cons_append] at hv
      have ih := convertValues_segments conv val P hconv k s1 rest (by simpa using hk)
        (fun seg hseg => hs seg (by simp [hseg]))
      have e : (c :: t ++ BACKSLASH :: s1) ++ 0 :: rest =
          c :: (t ++ BACKSLASH :: (s1 ++ 0 :: rest)) := by simp
      rw [e]
      simp only [convertValues, ne_eq, hc0, not_false_eq_true, if_true, hskip,
        Option.some_bind, ih, Option.map_some', hv, List.map_cons]

theorem castTo_long_inRange (fe : FloatEnv) (T : NumType) (x : Int)
    (hT : T = .ushort ∨ T = .short ∨ T = .uint ∨ T = .int) (h : T.inRange x) :
    castTo fe T .long x = x := by
  rcases hT with rfl | rfl | rfl | rfl <;>
    simp [NumType.inRange, NumType.isSigned, NumType.sizeof] at h <;>
    simp only [castTo, reduceCtorEq, if_false, NumType.isFloating, NumType.isSigned,
      Bool.false_eq_true, if_true, toSigned, toUnsigned, NumType.sizeof] <;>
    norm_num <;> (try split_ifs) <;> omega

theorem nativeType_cases (vr : vtkDICOMVR) (T : NumType) (h : nativeType vr = some T) :
    (vr = .US ∧ T = .ushort) ∨ (vr = .SS ∧ T = .short) ∨ (vr = .UL ∧ T = .uint) ∨
    (vr = .SL ∧ T = .int) := by
  cases vr <;> simp [nativeType] at h <;> subst h <;> simp

theorem inRange_long (T : NumType) (x : Int)
    (hT : T = .ushort ∨ T = .short ∨ T = .uint ∨ T = .int) (h : T.inRange x) :
    LONG_MIN ≤ x ∧ x ≤ LONG_MAX := by
  rcases hT with rfl | rfl | rfl | rfl <;>
    simp [NumType.inRange, NumType.isSigned, NumType.sizeof] at h <;>
    simp only [LONG_MIN, LONG_MAX] <;> omega

/-- The conversion of a NUL-terminated string of integer literals. -/
theorem StringConversion_literals (fe : FloatEnv) (T : NumType) (s rest : List Nat)
    (hT : T = .ushort ∨ T = .short ∨ T = .uint ∨ T = .int)
    (hlit : ∀ seg ∈ segments s, ∃ x, literalValue seg = some x ∧ T.inRange x) :
    StringConversion fe T (s ++ 0 :: rest) .IS 0 (segments s).length =
      some ((segments s).map fun seg => (literalValue seg).getD 0) := by
  have hconv : ∀ seg c more, (∃ x, literalValue seg = some x ∧ T.inRange x) →
      (c = BACKSLASH ∨ c = 0) →
      (fun cp2 => castTo fe T .long (strtol cp2)) (seg ++ c :: more) =
        (fun seg => (literalValue seg).getD 0) seg := by
    rintro seg c more ⟨x, hx, hr⟩ hc
    have hd : isdigit c = false := by rcases hc with rfl | rfl <;> decide
    have hl := inRange_long T x hT hr
    simp only [strtol_literal seg x c more hx hd hl.1 hl.2, hx, Option.getD_some]
    exact castTo_long_inRange fe T x hT hr
  have h := convertValues_segments (fun cp2 => castTo fe T .long (strtol cp2))
    (fun seg => (literalValue seg).getD 0)
    (fun seg => ∃ x, literalValue seg = some x ∧ T.inRange x) hconv
    (segments s).length s rest rfl
    (fun seg hseg => by
      obtain ⟨x, hx, hr⟩ := hlit seg hseg
      exact ⟨literal_chars seg x hx, x, hx, hr⟩)
  simp only [StringConversion, true_or, if_true, skipValues, Option.some_bind, reduceCtorEq,
    if_false]
  exact h

theorem literal_string_ne_nil (T : NumType) (s : List Nat)
    (hlit : ∀ seg ∈ segments s, ∃ x, literalValue seg = some x ∧ T.inRange x) : s ≠ [] := by
  rintro rfl
  obtain ⟨x, hx, _⟩ := hlit [] (by simp [segments])
  simp [literalValue, digitsNumber] at hx

theorem map_toNat_getD (T : NumType) (hT : T = .ushort ∨ T = .uint) (l : List (List Nat))
    (hlit : ∀ seg ∈ l, ∃ x, literalValue seg = some x ∧ T.inRange x) :
    ((l.map fun seg => (literalValue seg).getD 0).map Int.toNat).map Int.ofNat =
      l.map fun seg => (literalValue seg).getD 0 := by
  rw [List.map_map, List.map_map]
  apply List.map_congr_left
  intro seg hseg
  obtain ⟨x, hx, hr⟩ := hlit seg hseg
  have h0 : 0 ≤ x := by
    rcases hT with rfl | rfl <;>
      simp [NumType.inRange, NumType.isSigned, NumType.sizeof] at hr <;> omega
  simp only [Function.comp, hx, Option.getD_some]
  exact Int.toNat_of_nonneg h0

theorem Agree.mono {α : Type} {k j : Nat} {a b : List α} (h : Agree k a b) (hj : j ≤ k) :
    Agree j a b :=
  ⟨by have := h.1; omega, by have := h.2.1; omega, fun i hi => h.2.2 i (by omega)⟩

theorem Agree.zero {α : Type} (a b : List α) : Agree 0 a b :=
  ⟨Nat.zero_le _, Nat.zero_le _, fun i hi => absurd hi (Nat.not_lt_zero i)⟩

theorem Agree.refl {α : Type} (k : Nat) (a : List α) (h : k ≤ a.length) : Agree k a a :=
  ⟨h, h, fun _ _ => rfl⟩

theorem Agree.map {α β : Type} (f : α → β) {k : Nat} {a b : List α} (h : Agree k a b) :
    Agree k (a.map f) (b.map f) := by
  refine ⟨by simpa using h.1, by simpa using h.2.1, fun i hi => ?_⟩
  have := h.2.2 i hi
  simp only [List.get?_eq_getElem?] at this ⊢
  rw [List.getElem?_map, List.getElem?_map, this]

theorem overwrite_length {α : Type} (buf : List α) (p : Nat) (w c : List α)
    (h : overwrite buf p w = some c) : c.length = buf.length ∧ p + w.length ≤ buf.length := by
  unfold overwrite at h
  split_ifs at h with hle
  simp only [Option.some.injEq] at h
  subst h
  simp only [List.length_append, List.length_take, List.length_drop]
  omega

theorem overwrite_get? {α : Type} (buf : List α) (p : Nat) (w c : List α)
    (h : overwrite buf p w = some c) (i : Nat) :
    c.get? i = if i < p then buf.get? i else if i < p + w.length then w.get? (i - p)
      else buf.get? i := by
  unfold overwrite at h
  split_ifs at h with hle
  simp only [Option.some.injEq] at h
  subst h
  simp only [List.get?_eq_getElem?]
  by_cases h1 : i < p
  · rw [if_pos h1, List.append_assoc, List.getElem?_append_left (by simp; omega),
      List.getElem?_take_of_lt h1]
  · rw [if_neg h1, List.append_assoc,
      List.getElem?_append_right (by simp; omega)]
    have hl : (List.take p buf).length = p := by simp; omega
    rw [hl]
    by_cases h2 : i < p + w.length
    · rw [if_pos h2, List.getElem?_append_left (by omega)]
    · rw [if_neg h2, List.getElem?_append_right (by omega), List.getElem?_drop]
      congr 1
      omega

/-- Writing the same elements at the same place into two arrays that agree
up to `k`, where the place is not behind `k`, extends the agreement. -/
theorem overwrite_agree {α : Type} {k p : Nat} {b1 b2 w c1 c2 : List α}
    (h : Agree k b1 b2) (hp : p ≤ k)
    (h1 : overwrite b1 p w = some c1) (h2 : overwrite b2 p w = some c2) :
    Agree (max k (p + w.length)) c1 c2 := by
  have l1 := overwrite_length b1 p w c1 h1
  have l2 := overwrite_length b2 p w c2 h2
  refine ⟨?_, ?_, ?_⟩
  · rw [l1.1]; exact max_le h.1 l1.2
  · rw [l2.1]; exact max_le h.2.1 l2.2
  · intro i hi
    rw [overwrite_get? b1 p w c1 h1, overwrite_get? b2 p w c2 h2]
    by_cases ha : i < p
    · rw [if_pos ha, if_pos ha]; exact h.2.2 i (by omega)
    · rw [if_neg ha, if_neg ha]
      by_cases hb : i < p + w.length
      · rw [if_pos hb, if_pos hb]
      · rw [if_neg hb, if_neg hb]
        exact h.2.2 i (by
          rcases Nat.lt_or_ge i k with hk | hk
          · exact hk
          · have := lt_max_iff.1 hi
            omega)

/-- The same elements written into two fresh arrays. -/
theorem fresh_agree {α : Type} {b1 b2 w c1 c2 : List α}
    (h1 : overwrite b1 0 w = some c1) (h2 : overwrite b2 0 w = some c2) :
    Agree w.length c1 c2 := by
  have h := overwrite_agree (Agree.zero b1 b2) (le_refl 0) h1 h2
  exact h.mono (by simp)

theorem CompareLoop_agree {T : Type} (eq : T → T → Bool) :
    ∀ (n : Nat) (a b : List T), Agree (n + 1) a b →
      (∀ x ∈ a.take (n + 1), eq x x = true) → CompareLoop eq n a b = some true
  | n, [], _, h, _ => by have := h.1; simp at this
  | n, _ :: _, [], h, _ => by have := h.2.1; simp at this
  | n, x :: a, y :: b, h, hr => by
    have h0 := h.2.2 0 (by omega)
    simp only [List.get?_cons_zero, Option.some.injEq] at h0
    subst h0
    have hx : eq x x = true := hr x (by simp)
    cases n with
    | zero => simp [CompareLoop, hx]
    | succ k =>
      have ih := CompareLoop_agree eq k a b
        ⟨by have := h.1; simp at this; omega, by have := h.2.1; simp at this; omega,
          fun i hi => by
            have := h.2.2 (i + 1) (by omega)
            simpa using this⟩
        (fun z hz => hr z (by simp [List.take_succ_cons, hz]))
      simp only [CompareLoop, hx, if_true]
      exact ih

theorem Compare_agree {T : Type} (eq : T → T → Bool) (n : Nat) (a b : List T)
    (h : Agree n a b) (hr : ∀ x ∈ a.take n, eq x x = true) :
    Compare eq n a b = some true := by
  unfold Compare
  by_cases hn : n = 0
  · simp [hn]
  · rw [if_pos hn]
    obtain ⟨k, rfl⟩ := Nat.exists_eq_succ_of_ne_zero hn
    exact CompareLoop_agree eq k a b h hr

theorem ieeeEq_self (e m x : Nat) (h : ieeeIsNan e m x = false) : ieeeEq e m x x = true := by
  simp [ieeeEq, h]

/-- Two allocations with the same content, none of whose compared floating
point elements is a NaN, compare equal. -/
theorem equalTo_of_same (itemEq : Item → Item → Bool) (valEq : Val → Val → Bool)
    (v1 v2 : Value Item Val) (h : SameContent v1 v2) (hnan : v1.hasNaN = false) :
    v1.equalTo itemEq valEq v2 = some true := by
  obtain ⟨rc1, cs1, vr1, vl1, n1, d1⟩ := v1
  obtain ⟨rc2, cs2, vr2, vl2, n2, d2⟩ := v2
  obtain ⟨h1, h2, h3, h4⟩ := h
  dsimp only at h1 h2 h3
  subst h1 h2 h3
  have hbeq : ∀ {α : Type} [DecidableEq α] (l : List α), ∀ x ∈ l, (x == x) = true := by
    intro α _ l x _; simp
  cases d1 <;> cases d2 <;> simp only [SameElements] at h4 <;>
    simp only [Value.equalTo, Value.Type, ValueData.Type, and_self, if_true, reduceCtorEq,
      Nat.div_one]
  · exact Compare_agree _ _ _ _ h4 (hbeq _)
  · exact Compare_agree _ _ _ _ h4 (hbeq _)
  · exact Compare_agree _ _ _ _ h4 (hbeq _)
  · exact Compare_agree _ _ _ _ h4 (hbeq _)
  · exact Compare_agree _ _ _ _ h4 (hbeq _)
  · exact Compare_agree _ _ _ _ h4 (hbeq _)
  · refine Compare_agree _ _ _ _ h4 (fun x hx => ieeeEq_self _ _ _ ?_)
    simp only [Value.hasNaN, List.any_eq_false] at hnan
    simpa using hnan x hx
  · refine Compare_agree _ _ _ _ h4 (fun x hx => ieeeEq_self _ _ _ ?_)
    simp only [Value.hasNaN, List.any_eq_false] at hnan
    simpa using hnan x hx

theorem readArray_length {α : Type} (mem : List α) (n : Nat) (src : List α)
    (h : readArray mem n = some src) : src.length = n ∧ src = mem.take n := by
  unfold readArray at h
  split_ifs at h with hle
  simp only [Option.some.injEq] at h
  subst h
  exact ⟨by simp; omega, rfl⟩

theorem Agree.take_eq {α : Type} {k : Nat} {a b : List α} (h : Agree k a b) :
    a.take k = b.take k := by
  apply List.ext_get?
  intro i
  simp only [List.get?_eq_getElem?]
  by_cases hi : i < k
  · rw [List.getElem?_take_of_lt hi, List.getElem?_take_of_lt hi]
    have := h.2.2 i hi
    simpa [List.get?_eq_getElem?] using this
  · rw [List.getElem?_eq_none (by simp; omega), List.getElem?_eq_none (by simp; omega)]

theorem Agree.drop {α : Type} {k j : Nat} {a b : List α} (h : Agree (j + k) a b) :
    Agree k (a.drop j) (b.drop j) := by
  refine ⟨by have := h.1; simp; omega, by have := h.2.1; simp; omega, fun i hi => ?_⟩
  have := h.2.2 (j + i) (by omega)
  simpa [List.get?_eq_getElem?, List.getElem?_drop] using this

theorem ofByteArray_length (w : Nat) : ∀ (cap : Nat) (bs : List Nat),
    (ofByteArray w cap bs).length = cap
  | 0, _ => rfl
  | cap + 1, bs => by simp [ofByteArray, ofByteArray_length w cap]

/-- The elements that lie within the bytes on which two buffers agree are
the same. -/
theorem ofByteArray_agree (w : Nat) : ∀ (cap j : Nat) (b1 b2 : List Nat),
    Agree (w * j) b1 b2 → j ≤ cap → Agree j (ofByteArray w cap b1) (ofByteArray w cap b2)
  | _, 0, _, _, _, _ => Agree.zero _ _
  | 0, j + 1, _, _, _, hj => by omega
  | cap + 1, j + 1, b1, b2, h, hj => by
    have hw : Agree w b1 b2 := h.mono (by rw [Nat.mul_succ]; omega)
    have hd : Agree (w * j) (b1.drop w) (b2.drop w) :=
      Agree.drop (h.mono (by rw [Nat.mul_succ]; omega))
    have ih := ofByteArray_agree w cap j (b1.drop w) (b2.drop w) hd (by omega)
    refine ⟨by simp [ofByteArray_length]; omega, by simp [ofByteArray_length]; omega,
      fun i hi => ?_⟩
    cases i with
    | zero => simp [ofByteArray, hw.take_eq]
    | succ i =>
      simp only [ofByteArray, List.get?_cons_succ]
      exact ih.2.2 i (by omega)

theorem toBytes_length : ∀ (w x : Nat), (toBytes w x).length = w
  | 0, _ => rfl
  | w + 1, x => by simp [toBytes, toBytes_length w]

theorem objectBytes_length (T : NumType) : ∀ (data : List Int),
    (objectBytes T data).length = data.length * T.sizeof
  | [] => by simp [objectBytes]
  | x :: xs => by
    have ih := objectBytes_length T xs
    simp only [objectBytes, List.flatMap_cons, List.length_append, toBytes_length,
      List.length_cons] at ih ⊢
    rw [ih, Nat.succ_mul]; omega

/-- The loop of the DS branch extends the agreement of two text buffers to
its new write position, which is the same for both. -/
theorem writeDS_agree (fe : FloatEnv) (T : NumType) :
    ∀ (data : List Int) (b1 b2 : List Nat) (cp : Nat) (c1 c2 : List Nat) (p1 p2 : Nat),
    Agree cp b1 b2 → writeDS fe T data b1 cp = some (c1, p1) →
    writeDS fe T data b2 cp = some (c2, p2) → p1 = p2 ∧ Agree p1 c1 c2
  | [], b1, b2, cp, c1, c2, p1, p2, h, h1, h2 => by
    simp only [writeDS, Option.some.injEq, Prod.mk.injEq] at h1 h2
    obtain ⟨rfl, rfl⟩ := h1
    obtain ⟨rfl, rfl⟩ := h2
    exact ⟨rfl, h⟩
  | x :: xs, b1, b2, cp, c1, c2, p1, p2, h, h1, h2 => by
    simp only [writeDS, Option.bind_eq_some] at h1 h2
    obtain ⟨u1, hu1, u2, hu2, u3, hu3, h1⟩ := h1
    obtain ⟨w1, hw1, w2, hw2, w3, hw3, h2⟩ := h2
    have a1 := overwrite_agree h (le_refl _) hu1 hw1
    have a2 := overwrite_agree a1 (le_max_left _ _) hu2 hw2
    have a3 := overwrite_agree a2 (by
      have := fixExponent_length_le (fe.sprintf 0 (clampDS (castTo fe .double T x).toNat))
      simp only [List.length_append, List.length_singleton]
      omega) hu3 hw3
    exact writeDS_agree fe T xs u3 w3 _ c1 c2 p1 p2
      (a3.mono (by simp only [List.length_singleton]; omega)) h1 h2

/-- The loop of the IS branch extends the agreement of two text buffers to
its new write position, which is the same for both. -/
theorem writeIS_agree (fe : FloatEnv) (T : NumType) :
    ∀ (data : List Int) (b1 b2 : List Nat) (cp : Nat) (c1 c2 : List Nat) (p1 p2 : Nat),
    Agree cp b1 b2 → writeIS fe T data b1 cp = some (c1, p1) →
    writeIS fe T data b2 cp = some (c2, p2) → p1 = p2 ∧ Agree p1 c1 c2
  | [], b1, b2, cp, c1, c2, p1, p2, h, h1, h2 => by
    simp only [writeIS, Option.some.injEq, Prod.mk.injEq] at h1 h2
    obtain ⟨rfl, rfl⟩ := h1
    obtain ⟨rfl, rfl⟩ := h2
    exact ⟨rfl, h⟩
  | x :: xs, b1, b2, cp, c1, c2, p1, p2, h, h1, h2 => by
    simp only [writeIS, Option.bind_eq_some] at h1 h2
    obtain ⟨u1, hu1, u2, hu2, h1⟩ := h1
    obtain ⟨w1, hw1, w2, hw2, h2⟩ := h2
    have a1 := overwrite_agree h (le_refl _) hu1 hw1
    have a2 := overwrite_agree a1 (by
      simp only [List.length_append, List.length_singleton]; omega) hu2 hw2
    exact writeIS_agree fe T xs u2 w2 _ c1 c2 p1 p2
      (a2.mono (by simp only [List.length_singleton]; omega)) h1 h2

/-- The end of the DS and IS branches on two buffers that agree up to the
write position gives two allocations with the same content. -/
theorem finishText_same (v01 v02 : Value Item Val) (n : Nat) (b1 b2 : List Nat) (cp0 : Nat)
    (v1 v2 : Value Item Val) (hvr : v01.VR = v02.VR) (h : Agree cp0 b1 b2)
    (h1 : finishText v01 n b1 cp0 = some (some v1))
    (h2 : finishText v02 n b2 cp0 = some (some v2)) : SameContent v1 v2 := by
  rw [finishText] at h1 h2
  have hcp : (if cp0 ≠ 0 then cp0 - 1 else cp0) ≤ cp0 := by split_ifs <;> omega
  generalize (if cp0 ≠ 0 then cp0 - 1 else cp0) = cp at h1 h2 hcp
  by_cases hodd : cp % UINT_RANGE % 2 = 1
  · rw [if_pos hodd] at h1 h2
    simp only [Option.bind_eq_some, Option.map_eq_some', Option.some.injEq] at h1 h2
    obtain ⟨u1, hu1, u2, hu2, rfl⟩ := h1
    obtain ⟨w1, hw1, w2, hw2, rfl⟩ := h2
    have a1 := overwrite_agree h hcp hu1 hw1
    have a2 := overwrite_agree a1 (by simp only [List.length_singleton]; omega) hu2 hw2
    refine ⟨hvr, rfl, rfl, ?_⟩
    simp only [SameElements]
    refine a2.mono ?_
    have : (cp % UINT_RANGE + 1) % UINT_RANGE ≤ cp + 1 := by
      have h3 := Nat.mod_le (cp % UINT_RANGE + 1) UINT_RANGE
      have h4 := Nat.mod_le cp UINT_RANGE
      omega
    simp only [List.length_singleton]
    omega
  · rw [if_neg hodd] at h1 h2
    simp only [Option.map_eq_some', Option.some.injEq] at h1 h2
    obtain ⟨u1, hu1, rfl⟩ := h1
    obtain ⟨w1, hw1, rfl⟩ := h2
    have a1 := overwrite_agree h hcp hu1 hw1
    refine ⟨hvr, rfl, rfl, ?_⟩
    simp only [SameElements]
    refine a1.mono ?_
    have h4 := Nat.mod_le cp UINT_RANGE
    omega

theorem getLast?_append_backslash (a s1 : List Nat) (h : s1 ≠ []) :
    (a ++ BACKSLASH :: s1).getLast? = s1.getLast? := by
  obtain ⟨c, t, rfl⟩ := List.exists_cons_of_ne_nil h
  rw [List.getLast?_append_of_ne_nil _ (by simp), List.getLast?_cons_cons]

/-- The second loop of `StringConversion` on a NUL-terminated string without
a NUL inside that does not end in a backslash: one value per segment. -/
theorem convertValues_count (conv : List Nat → Int) :
    ∀ (k : Nat) (s rest : List Nat), s ≠ [] → (segments s).length = k → 0 ∉ s →
      s.getLast? ≠ some BACKSLASH →
      ∃ w, convertValues conv k (s ++ 0 :: rest) = some w ∧ w.length = k
  | 0, s, _, _, hk, _, _ => absurd (List.length_eq_zero.1 hk) (segments_ne_nil s)
  | k + 1, s, rest, hne, hk, h0, hlast => by
    rcases split_first s with hQ | ⟨a, s1, rfl, ha⟩
    · rw [segments_of_not_mem s hQ] at hk
      have hk0 : k = 0 := by simpa using hk
      subst hk0
      obtain ⟨c, t, rfl⟩ := List.exists_cons_of_ne_nil hne
      have hch : ∀ y ∈ c :: t, y ≠ BACKSLASH ∧ y ≠ 0 := fun y hy =>
        ⟨fun e => hQ (e ▸ hy), fun e => h0 (e ▸ hy)⟩
      have hc0 : c ≠ 0 := (hch c (by simp)).2
      have hskip := skipValue_spec (c :: t) 0 rest hne hch (Or.inr rfl)
      rw [List.cons_append] at hskip
      refine ⟨[conv (c :: (t ++ 0 :: rest))], ?_, rfl⟩
      simp only [List.cons_append, convertValues, ne_eq, hc0, not_false_eq_true, if_true,
        hskip, Option.some_bind, Option.map_some']
    · rw [segments_append_backslash a s1 ha] at hk
      have hs1 : s1 ≠ [] := by
        rintro rfl
        apply hlast
        simp
      have h01 : 0 ∉ s1 := fun h => h0 (by simp [h])
      have hl1 : s1.getLast? ≠ some BACKSLASH := by
        rw [← getLast?_append_backslash a s1 hs1]; exact hlast
      obtain ⟨w, hw, hwl⟩ := convertValues_count conv k s1 rest hs1 (by simpa using hk) h01 hl1
      have e : (a ++ BACKSLASH :: s1) ++ 0 :: rest = a ++ BACKSLASH :: (s1 ++ 0 :: rest) := by
        simp
      rw [e]
      cases a with
      | nil =>
        have hb : BACKSLASH ≠ 0 := by decide
        refine ⟨conv (BACKSLASH :: (s1 ++ 0 :: rest)) :: w, ?_, by simp [hwl]⟩
        simp only [List.nil_append, convertValues, ne_eq, hb, not_false_eq_true, if_true,
          skipValue_backslash, Option.some_bind, hw, Option.map_some']
      | cons c t =>
        have hch : ∀ y ∈ c :: t, y ≠ BACKSLASH ∧ y ≠ 0 := fun y hy =>
          ⟨fun e => ha (e ▸ hy), fun e => h0 (List.mem_append_left _ (e ▸ hy))⟩
        have hc0 : c ≠ 0 := (hch c (by simp)).2
        have hskip := skipValue_spec (c :: t) BACKSLASH (s1 ++ 0 :: rest) (by simp) hch
          (Or.inl rfl)
        rw [if_pos rfl, List.cons_append] at hskip
        refine ⟨conv (c :: (t ++ BACKSLASH :: (s1 ++ 0 :: rest))) :: w, ?_, by simp [hwl]⟩
        simp only [List.cons_append, convertValues, ne_eq, hc0, not_false_eq_true, if_true,
          hskip, Option.some_bind, hw, Option.map_some']

/-- From a NUL-terminated string without a NUL inside that does not end in a
backslash, `StringConversion` writes every one of the values that
`CreateValue<char>` counted. -/
theorem StringConversion_full (fe : FloatEnv) (OT : NumType) (vr : vtkDICOMVR)
    (hvr : vr = .IS ∨ vr = .DS) (data : List Nat) (m : Nat) (src : List Nat)
    (hsrc : readArray data m = some src)
    (hwt : ∃ s rest, data = s ++ 0 :: rest ∧ s.length = m ∧ 0 ∉ s ∧
      s.getLast? ≠ some BACKSLASH)
    (w : List Int)
    (h : StringConversion fe OT data vr 0
      ((if m > 0 then 1 else 0) + src.count BACKSLASH) = some w) :
    w.length = (if m > 0 then 1 else 0) + src.count BACKSLASH := by
  obtain ⟨s, rest, rfl, rfl, h0, hlast⟩ := hwt
  have hs : src = s := by
    have := (readArray_length _ _ _ hsrc).2
    simpa using this
  subst hs
  simp only [StringConversion, hvr, if_true, skipValues, Option.some_bind] at h
  by_cases hne : src = []
  · subst hne
    simp only [List.length_nil, gt_iff_lt, Nat.lt_irrefl, if_false, List.count_nil,
      Nat.add_zero, convertValues, Option.some.injEq] at h ⊢
    rw [← h]; rfl
  · have hpos : 0 < src.length := List.length_pos.2 hne
    have hn : (if src.length > 0 then 1 else 0) + src.count BACKSLASH =
        (segments src).length := by
      rw [segments_length, if_pos hpos]; omega
    rw [hn] at h ⊢
    obtain ⟨w', hw', hwl'⟩ := convertValues_count
      (fun cp2 => if vr = .DS then castTo fe OT .double (fe.strtod cp2)
                  else castTo fe OT .long (strtol cp2))
      (segments src).length src rest hne rfl h0 hlast
    rw [hw'] at h
    simp only [Option.some.injEq] at h
    rw [← h]; exact hwl'

theorem same_doubles (vr : vtkDICOMVR) (vn : Nat) (d1 d2 : List Nat)
    (h : Agree vn d1 d2) :
    SameContent (ValueT 8 vr vn (.doubles d1) : Value Item Val)
      (ValueT 8 vr vn (.doubles d2)) := by
  refine ⟨rfl, rfl, rfl, ?_⟩
  simp only [SameElements, ValueT]
  exact h.mono (by simp only [UINT_RANGE]; omega)

theorem same_floats (vr : vtkDICOMVR) (vn : Nat) (d1 d2 : List Nat)
    (h : Agree vn d1 d2) :
    SameContent (ValueT 4 vr vn (.floats d1) : Value Item Val)
      (ValueT 4 vr vn (.floats d2)) := by
  refine ⟨rfl, rfl, rfl, ?_⟩
  simp only [SameElements, ValueT]
  exact h.mono (by simp only [UINT_RANGE]; omega)

theorem same_uints (vr : vtkDICOMVR) (vn : Nat) (d1 d2 : List Nat)
    (h : Agree vn d1 d2) :
    SameContent (ValueT 4 vr vn (.uints d1) : Value Item Val)
      (ValueT 4 vr vn (.uints d2)) := by
  refine ⟨rfl, rfl, rfl, ?_⟩
  simp only [SameElements, ValueT]
  exact h.mono (by simp only [UINT_RANGE]; omega)

theorem same_ints (vr : vtkDICOMVR) (vn : Nat) (d1 d2 : List Int)
    (h : Agree vn d1 d2) :
    SameContent (ValueT 4 vr vn (.ints d1) : Value Item Val)
      (ValueT 4 vr vn (.ints d2)) := by
  refine ⟨rfl, rfl, rfl, ?_⟩
  simp only [SameElements, ValueT]
  exact h.mono (by simp only [UINT_RANGE]; omega)

theorem same_ushorts (vr : vtkDICOMVR) (vn : Nat) (d1 d2 : List Nat)
    (h : Agree vn d1 d2) :
    SameContent (ValueT 2 vr vn (.ushorts d1) : Value Item Val)
      (ValueT 2 vr vn (.ushorts d2)) := by
  refine ⟨rfl, rfl, rfl, ?_⟩
  simp only [SameElements, ValueT]
  exact h.mono (by simp only [UINT_RANGE]; omega)

theorem same_shorts (vr : vtkDICOMVR) (vn : Nat) (d1 d2 : List Int)
    (h : Agree vn d1 d2) :
    SameContent (ValueT 2 vr vn (.shorts d1) : Value Item Val)
      (ValueT 2 vr vn (.shorts d2)) := by
  refine ⟨rfl, rfl, rfl, ?_⟩
  simp only [SameElements, ValueT]
  exact h.mono (by simp only [UINT_RANGE]; omega)

theorem same_uchars (r1 r2 : Nat) (vr : vtkDICOMVR) (vn c : Nat) (d1 d2 : List Nat)
    (h : Agree (vn + vn % 2) d1 d2) :
    SameContent ((AllocateUnsignedCharData r1 vr vn : Value Item Val).fill (.uchars d1) c)
      ((AllocateUnsignedCharData r2 vr vn : Value Item Val).fill (.uchars d2) c) := by
  refine ⟨rfl, rfl, rfl, ?_⟩
  simp only [SameElements, Value.fill, AllocateUnsignedCharData]
  exact h.mono (by simp only [UINT_RANGE]; omega)

theorem same_chars (r1 r2 : Nat) (vr : vtkDICOMVR) (vn c : Nat) (d1 d2 : List Nat)
    (h : Agree (vn + vn % 2) d1 d2) :
    SameContent ((AllocateCharData r1 vr vn : Value Item Val).fill (.chars d1) c)
      ((AllocateCharData r2 vr vn : Value Item Val).fill (.chars d2) c) := by
  refine ⟨rfl, rfl, rfl, ?_⟩
  simp only [SameElements, Value.fill, AllocateCharData]
  exact h.mono (by simp only [UINT_RANGE]; omega)

/-- The elements of a fresh array after `memcpy`: those that lie within the
copied bytes do not depend on what the memory held. -/
theorem memcpy_agree (w cap r1 r2 : Nat) (bytes d1 d2 : List Nat) (j : Nat)
    (h1 : memcpyToSlots w cap r1 bytes = some d1)
    (h2 : memcpyToSlots w cap r2 bytes = some d2)
    (hj : w * j ≤ bytes.length) (hc : j ≤ cap) : Agree j d1 d2 := by
  simp only [memcpyToSlots, Option.map_eq_some'] at h1 h2
  obtain ⟨b1, hb1, rfl⟩ := h1
  obtain ⟨b2, hb2, rfl⟩ := h2
  exact ofByteArray_agree w cap j b1 b2 ((fresh_agree hb1 hb2).mono hj) hc

theorem slotCount_ge (n : Nat) : n ≤ slotCount n := by
  simp only [slotCount]; omega

/-- Two runs of `CreateValueAs` on the same source give allocations with
the same content, whatever the fresh memory held. -/
theorem CreateValueAs_same (fe : FloatEnv) (r1 r2 : Nat) (T : NumType) (vr : vtkDICOMVR)
    (data : List Int) (n : Nat) (v1 v2 : Value Item Val)
    (h1 : CreateValueAs fe r1 T vr data n = some (some v1))
    (h2 : CreateValueAs fe r2 T vr data n = some (some v2)) : SameContent v1 v2 := by
  unfold CreateValueAs at h1 h2
  by_cases hFD : vr = .FD
  · rw [if_pos hFD] at h1 h2
    simp only [Option.bind_eq_some, Option.map_eq_some', Option.some.injEq] at h1 h2
    obtain ⟨s1, hs1, d1, hd1, rfl⟩ := h1
    obtain ⟨s2, hs2, d2, hd2, rfl⟩ := h2
    rw [hs1] at hs2
    cases hs2
    have hl := (readArray_length _ _ _ hs1).1
    exact same_doubles vr n d1 d2
      ((fresh_agree hd1 hd2).mono (by simp [NumericalConversion, hl]))
  rw [if_neg hFD] at h1 h2
  by_cases hFL : vr = .FL
  · rw [if_pos hFL] at h1 h2
    simp only [Option.bind_eq_some, Option.map_eq_some', Option.some.injEq] at h1 h2
    obtain ⟨s1, hs1, d1, hd1, rfl⟩ := h1
    obtain ⟨s2, hs2, d2, hd2, rfl⟩ := h2
    rw [hs1] at hs2
    cases hs2
    have hl := (readArray_length _ _ _ hs1).1
    exact same_floats vr n d1 d2
      ((fresh_agree hd1 hd2).mono (by simp [NumericalConversion, hl]))
  rw [if_neg hFL] at h1 h2
  by_cases hUL : vr = .UL
  · rw [if_pos hUL] at h1 h2
    simp only [Option.bind_eq_some, Option.map_eq_some', Option.some.injEq] at h1 h2
    obtain ⟨s1, hs1, d1, hd1, rfl⟩ := h1
    obtain ⟨s2, hs2, d2, hd2, rfl⟩ := h2
    rw [hs1] at hs2
    cases hs2
    have hl := (readArray_length _ _ _ hs1).1
    exact same_uints vr n d1 d2
      ((fresh_agree hd1 hd2).mono (by simp [NumericalConversion, hl]))
  rw [if_neg hUL] at h1 h2
  by_cases hSL : vr = .SL
  · rw [if_pos hSL] at h1 h2
    simp only [Option.bind_eq_some, Option.map_eq_some', Option.some.injEq] at h1 h2
    obtain ⟨s1, hs1, d1, hd1, rfl⟩ := h1
    obtain ⟨s2, hs2, d2, hd2, rfl⟩ := h2
    rw [hs1] at hs2
    cases hs2
    have hl := (readArray_length _ _ _ hs1).1
    exact same_ints vr n d1 d2
      ((fresh_agree hd1 hd2).mono (by simp [NumericalConversion, hl]))
  rw [if_neg hSL] at h1 h2
  by_cases hUS : vr = .US
  · rw [if_pos hUS] at h1 h2
    simp only [Option.bind_eq_some, Option.map_eq_some', Option.some.injEq] at h1 h2
    obtain ⟨s1, hs1, d1, hd1, rfl⟩ := h1
    obtain ⟨s2, hs2, d2, hd2, rfl⟩ := h2
    rw [hs1] at hs2
    cases hs2
    have hl := (readArray_length _ _ _ hs1).1
    exact same_ushorts vr n d1 d2
      ((fresh_agree hd1 hd2).mono (by simp [NumericalConversion, hl]))
  rw [if_neg hUS] at h1 h2
  by_cases hSS : vr = .SS
  · rw [if_pos hSS] at h1 h2
    simp only [Option.bind_eq_some, Option.map_eq_some', Option.some.injEq] at h1 h2
    obtain ⟨s1, hs1, d1, hd1, rfl⟩ := h1
    obtain ⟨s2, hs2, d2, hd2, rfl⟩ := h2
    rw [hs1] at hs2
    cases hs2
    have hl := (readArray_length _ _ _ hs1).1
    exact same_shorts vr n d1 d2
      ((fresh_agree hd1 hd2).mono (by simp [NumericalConversion, hl]))
  rw [if_neg hSS] at h1 h2
  by_cases hDS : vr = .DS
  · rw [if_pos hDS] at h1 h2
    simp only [Option.bind_eq_some] at h1 h2
    obtain ⟨s1, hs1, ⟨c1, p1⟩, hw1, hf1⟩ := h1
    obtain ⟨s2, hs2, ⟨c2, p2⟩, hw2, hf2⟩ := h2
    rw [hs1] at hs2
    cases hs2
    obtain ⟨rfl, ha⟩ := writeDS_agree fe T s1 _ _ 0 c1 c2 p1 p2 (Agree.zero _ _) hw1 hw2
    exact finishText_same _ _ n c1 c2 p1 v1 v2 rfl ha hf1 hf2
  rw [if_neg hDS] at h1 h2
  by_cases hIS : vr = .IS
  · rw [if_pos hIS] at h1 h2
    simp only [Option.bind_eq_some] at h1 h2
    obtain ⟨s1, hs1, ⟨c1, p1⟩, hw1, hf1⟩ := h1
    obtain ⟨s2, hs2, ⟨c2, p2⟩, hw2, hf2⟩ := h2
    rw [hs1] at hs2
    cases hs2
    obtain ⟨rfl, ha⟩ := writeIS_agree fe T s1 _ _ 0 c1 c2 p1 p2 (Agree.zero _ _) hw1 hw2
    exact finishText_same _ _ n c1 c2 p1 v1 v2 rfl ha hf1 hf2
  rw [if_neg hIS] at h1 h2
  by_cases hOB : vr = .OB ∨ vr = .UN
  · rw [if_pos hOB] at h1 h2
    simp only [Option.bind_eq_some, Option.map_eq_some', Option.some.injEq] at h1 h2
    obtain ⟨s1, hs1, b1, hb1, c1, hc1, rfl⟩ := h1
    obtain ⟨s2, hs2, b2, hb2, c2, hc2, rfl⟩ := h2
    rw [hs1] at hs2
    cases hs2
    have hl := (readArray_length _ _ _ hs1).1
    have ha := fresh_agree hb1 hb2
    rw [objectBytes_length, hl] at ha
    apply same_uchars
    by_cases hpad : n * T.sizeof % 2 ≠ 0
    · rw [if_pos hpad] at hc1 hc2
      have ha2 := overwrite_agree ha (le_refl _) hc1 hc2
      exact ha2.mono (by simp only [List.length_singleton]; omega)
    · rw [if_neg hpad] at hc1 hc2
      simp only [Option.some.injEq] at hc1 hc2
      subst hc1 hc2
      exact ha.mono (by omega)
  rw [if_neg hOB] at h1 h2
  by_cases hOW : vr = .OW
  · rw [if_pos hOW] at h1 h2
    by_cases hvt : T.VTKTypeID = some .VTK_UNSIGNED_SHORT
    · rw [if_pos hvt] at h1 h2
      simp only [Option.bind_eq_some, Option.map_eq_some', Option.some.injEq] at h1 h2
      obtain ⟨s1, hs1, d1, hd1, rfl⟩ := h1
      obtain ⟨s2, hs2, d2, hd2, rfl⟩ := h2
      rw [hs1] at hs2
      cases hs2
      have hl := (readArray_length _ _ _ hs1).1
      have hT : T.sizeof = 2 := by cases T <;> simp [NumType.VTKTypeID] at hvt; rfl
      exact same_ushorts vr n d1 d2 (memcpy_agree 2 _ r1 r2 _ d1 d2 n hd1 hd2
        (by rw [objectBytes_length, hl, hT]; omega) (slotCount_ge n))
    · rw [if_neg hvt] at h1 h2
      simp only [Option.bind_eq_some, Option.map_eq_some', Option.some.injEq] at h1 h2
      obtain ⟨s1, hs1, d1, hd1, rfl⟩ := h1
      obtain ⟨s2, hs2, d2, hd2, rfl⟩ := h2
      rw [hs1] at hs2
      cases hs2
      have hl := (readArray_length _ _ _ hs1).1
      have ha := memcpy_agree 2 _ r1 r2 _ d1 d2 (n * T.sizeof / 2) hd1 hd2
        (by rw [objectBytes_length, hl]; omega) (slotCount_ge _)
      have hm := @same_shorts Item Val vr (n * T.sizeof / 2) _ _
        (Agree.map (fun (x : Nat) => toSigned 16 x) ha)
      exact hm
  rw [if_neg hOW] at h1 h2
  by_cases hOF : vr = .OF
  · rw [if_pos hOF] at h1 h2
    simp only [Option.bind_eq_some, Option.map_eq_some', Option.some.injEq] at h1 h2
    obtain ⟨s1, hs1, d1, hd1, rfl⟩ := h1
    obtain ⟨s2, hs2, d2, hd2, rfl⟩ := h2
    rw [hs1] at hs2
    cases hs2
    have hl := (readArray_length _ _ _ hs1).1
    exact same_floats vr (n * T.sizeof / 4) d1 d2
      (memcpy_agree 4 _ r1 r2 _ d1 d2 (n * T.sizeof / 4) hd1 hd2
        (by rw [objectBytes_length, hl]; omega) (slotCount_ge _))
  rw [if_neg hOF] at h1 h2
  by_cases hAT : vr = .AT
  · rw [if_pos hAT] at h1 h2
    simp only [AllocateTagData, ValueT, Option.map_eq_some', Option.some.injEq] at h1 h2
    obtain ⟨d1, _, rfl⟩ := h1
    obtain ⟨d2, _, rfl⟩ := h2
    exact ⟨rfl, rfl, rfl, trivial⟩
  rw [if_neg hAT] at h1 h2
  simp at h1

theorem CreateValue_Tag_same (r1 r2 : Nat) (vr : vtkDICOMVR)
    (data : List vtkDICOMTag) (n : Nat) (v1 v2 : Value Item Val)
    (h1 : CreateValue_Tag r1 vr data n = some (some v1))
    (h2 : CreateValue_Tag r2 vr data n = some (some v2)) : SameContent v1 v2 := by
  unfold CreateValue_Tag at h1 h2
  by_cases hAT : vr = .AT
  · rw [if_pos hAT] at h1 h2
    simp only [AllocateTagData, ValueT, Option.bind_eq_some, Option.map_eq_some',
      Option.some.injEq] at h1 h2
    obtain ⟨_, _, _, _, rfl⟩ := h1
    obtain ⟨_, _, _, _, rfl⟩ := h2
    exact ⟨rfl, rfl, rfl, trivial⟩
  · rw [if_neg hAT] at h1
    simp at h1

/-- Two runs of `CreateValue<char>` on the same source give allocations
with the same content, whatever the fresh memory held, when every element
is written. -/
theorem CreateValue_char_same (fe : FloatEnv) (r1 r2 : Nat) (vr : vtkDICOMVR)
    (data : List Nat) (m : Nat) (v1 v2 : Value Item Val)
    (hwt : isNumericVR vr = true →
      ∃ s rest, data = s ++ 0 :: rest ∧ s.length = m ∧ 0 ∉ s ∧
        s.getLast? ≠ some BACKSLASH)
    (h1 : CreateValue_char fe r1 vr data m = some (some v1))
    (h2 : CreateValue_char fe r2 vr data m = some (some v2)) : SameContent v1 v2 := by
  unfold CreateValue_char at h1 h2
  by_cases c1 : vr = .ST ∨ vr = .LT ∨ vr = .UT
  · rw [if_pos c1] at h1 h2
    simp only [Option.bind_eq_some, Option.map_eq_some', Option.some.injEq] at h1 h2
    obtain ⟨s1, hs1, b1, hb1, b2, hb2, b3, hb3, rfl⟩ := h1
    obtain ⟨s2, hs2, e1, he1, e2, he2, e3, he3, rfl⟩ := h2
    rw [hs1] at hs2
    cases hs2
    have hl := (readArray_length _ _ _ hs1).1
    have a1 := fresh_agree hb1 he1
    rw [hl] at a1
    apply same_chars
    by_cases hpad : m % 2 ≠ 0
    · rw [if_pos hpad] at hb2 he2
      have a2 := overwrite_agree a1 (le_refl _) hb2 he2
      have a3 := overwrite_agree a2 (by simp only [List.length_singleton]; omega) hb3 he3
      exact a3.mono (by simp only [List.length_singleton]; omega)
    · rw [if_neg hpad] at hb2 he2
      simp only [Option.some.injEq] at hb2 he2
      subst hb2 he2
      have a3 := overwrite_agree a1 (by omega) hb3 he3
      exact a3.mono (by simp only [List.length_singleton]; omega)
  rw [if_neg c1] at h1 h2
  by_cases c2 : vr = .OW
  · rw [if_pos c2] at h1 h2
    simp only [Option.bind_eq_some, Option.map_eq_some', Option.some.injEq] at h1 h2
    obtain ⟨s1, hs1, d1, hd1, rfl⟩ := h1
    obtain ⟨s2, hs2, d2, hd2, rfl⟩ := h2
    rw [hs1] at hs2
    cases hs2
    have hl := (readArray_length _ _ _ hs1).1
    have ha := memcpy_agree 2 _ r1 r2 _ d1 d2 (m / 2) hd1 hd2 (by rw [hl]; omega)
      (slotCount_ge _)
    exact @same_shorts Item Val vr (m / 2) _ _ (Agree.map (fun (x : Nat) => toSigned 16 x) ha)
  rw [if_neg c2] at h1 h2
  by_cases c3 : vr = .OF
  · rw [if_pos c3] at h1 h2
    simp only [Option.bind_eq_some, Option.map_eq_some', Option.some.injEq] at h1 h2
    obtain ⟨s1, hs1, d1, hd1, rfl⟩ := h1
    obtain ⟨s2, hs2, d2, hd2, rfl⟩ := h2
    rw [hs1] at hs2
    cases hs2
    have hl := (readArray_length _ _ _ hs1).1
    exact same_floats vr (m / 4) d1 d2
      (memcpy_agree 4 _ r1 r2 _ d1 d2 (m / 4) hd1 hd2 (by rw [hl]; omega) (slotCount_ge _))
  rw [if_neg c3] at h1 h2
  by_cases c4 : vr = .UN ∨ vr = .OB ∨ vr = .OX
  · rw [if_pos c4] at h1 h2
    simp only [Option.bind_eq_some, Option.map_eq_some', Option.some.injEq] at h1 h2
    obtain ⟨s1, hs1, b1, hb1, b2, hb2, rfl⟩ := h1
    obtain ⟨s2, hs2, e1, he1, e2, he2, rfl⟩ := h2
    rw [hs1] at hs2
    cases hs2
    have hl := (readArray_length _ _ _ hs1).1
    have a1 := fresh_agree hb1 he1
    rw [hl] at a1
    apply same_uchars
    by_cases hpad : m % 2 ≠ 0
    · rw [if_pos hpad] at hb2 he2
      have a2 := overwrite_agree a1 (le_refl _) hb2 he2
      exact a2.mono (by simp only [List.length_singleton]; omega)
    · rw [if_neg hpad] at hb2 he2
      simp only [Option.some.injEq] at hb2 he2
      subst hb2 he2
      exact a1.mono (by omega)
  rw [if_neg c4] at h1 h2
  simp only [Option.bind_eq_some] at h1 h2
  obtain ⟨src, hsrc, h1⟩ := h1
  obtain ⟨src2, hsrc2, h2⟩ := h2
  rw [hsrc] at hsrc2
  cases hsrc2
  by_cases c5 : vr = .AE ∨ vr = .AS ∨ vr = .CS ∨ vr = .DA ∨ vr = .DS ∨ vr = .DT ∨
       vr = .IS ∨ vr = .LO ∨ vr = .PN ∨ vr = .SH ∨ vr = .TM ∨ vr = .UI
  · rw [if_pos c5] at h1 h2
    simp only [Option.bind_eq_some, Option.map_eq_some', Option.some.injEq] at h1 h2
    obtain ⟨cpy, hcpy, b1, hb1, b2, hb2, b3, hb3, rfl⟩ := h1
    obtain ⟨cpy2, hcpy2, e1, he1, e2, he2, e3, he3, rfl⟩ := h2
    rw [hcpy] at hcpy2
    cases hcpy2
    have hl := strncpy_length _ _ _ hcpy
    have a1 := fresh_agree hb1 he1
    rw [hl] at a1
    apply same_chars
    by_cases hpad : m % 2 ≠ 0 ∧ vr ≠ .UI
    · rw [if_pos hpad] at hb2 he2 hb3 he3
      have a2 := overwrite_agree a1 (le_refl _) hb2 he2
      have a3 := overwrite_agree a2 (by simp only [List.length_singleton]; omega) hb3 he3
      exact a3.mono (by simp only [List.length_singleton]; omega)
    · rw [if_neg hpad] at hb2 he2 hb3 he3
      simp only [Option.some.injEq] at hb2 he2
      subst hb2 he2
      have a3 := overwrite_agree a1 (le_refl _) hb3 he3
      exact a3.mono (by simp only [List.length_singleton]; omega)
  rw [if_neg c5] at h1 h2
  by_cases hFD : vr = .FD
  · rw [if_pos hFD] at h1 h2
    simp only [Option.bind_eq_some, Option.map_eq_some', Option.some.injEq] at h1 h2
    obtain ⟨w1, hw1, d1, hd1, rfl⟩ := h1
    obtain ⟨w2, hw2, d2, hd2, rfl⟩ := h2
    rw [hw1] at hw2
    cases hw2
    have hfull := StringConversion_full fe _ _ (by simp) data m src hsrc
      (hwt (by simp [isNumericVR, hFD])) w1 hw1
    exact same_doubles vr _ d1 d2 ((fresh_agree hd1 hd2).mono (by simp [hfull]))
  rw [if_neg hFD] at h1 h2
  by_cases hFL : vr = .FL
  · rw [if_pos hFL] at h1 h2
    simp only [Option.bind_eq_some, Option.map_eq_some', Option.some.injEq] at h1 h2
    obtain ⟨w1, hw1, d1, hd1, rfl⟩ := h1
    obtain ⟨w2, hw2, d2, hd2, rfl⟩ := h2
    rw [hw1] at hw2
    cases hw2
    have hfull := StringConversion_full fe _ _ (by simp) data m src hsrc
      (hwt (by simp [isNumericVR, hFL])) w1 hw1
    exact same_floats vr _ d1 d2 ((fresh_agree hd1 hd2).mono (by simp [hfull]))
  rw [if_neg hFL] at h1 h2
  by_cases hUL : vr = .UL
  · rw [if_pos hUL] at h1 h2
    simp only [Option.bind_eq_some, Option.map_eq_some', Option.some.injEq] at h1 h2
    obtain ⟨w1, hw1, d1, hd1, rfl⟩ := h1
    obtain ⟨w2, hw2, d2, hd2, rfl⟩ := h2
    rw [hw1] at hw2
    cases hw2
    have hfull := StringConversion_full fe _ _ (by simp) data m src hsrc
      (hwt (by simp [isNumericVR, hUL])) w1 hw1
    exact same_uints vr _ d1 d2 ((fresh_agree hd1 hd2).mono (by simp [hfull]))
  rw [if_neg hUL] at h1 h2
  by_cases hSL : vr = .SL
  · rw [if_pos hSL] at h1 h2
    simp only [Option.bind_eq_some, Option.map_eq_some', Option.some.injEq] at h1 h2
    obtain ⟨w1, hw1, d1, hd1, rfl⟩ := h1
    obtain ⟨w2, hw2, d2, hd2, rfl⟩ := h2
    rw [hw1] at hw2
    cases hw2
    have hfull := StringConversion_full fe _ _ (by simp) data m src hsrc
      (hwt (by simp [isNumericVR, hSL])) w1 hw1
    exact same_ints vr _ d1 d2 ((fresh_agree hd1 hd2).mono (by simp [hfull]))
  rw [if_neg hSL] at h1 h2
  by_cases hUS : vr = .US
  · rw [if_pos hUS] at h1 h2
    simp only [Option.bind_eq_some, Option.map_eq_some', Option.some.injEq] at h1 h2
    obtain ⟨w1, hw1, d1, hd1, rfl⟩ := h1
    obtain ⟨w2, hw2, d2, hd2, rfl⟩ := h2
    rw [hw1] at hw2
    cases hw2
    have hfull := StringConversion_full fe _ _ (by simp) data m src hsrc
      (hwt (by simp [isNumericVR, hUS])) w1 hw1
    exact same_ushorts vr _ d1 d2 ((fresh_agree hd1 hd2).mono (by simp [hfull]))
  rw [if_neg hUS] at h1 h2
  by_cases hSS : vr = .SS ∨ vr = .XS
  · rw [if_pos hSS] at h1 h2
    simp only [Option.bind_eq_some, Option.map_eq_some', Option.some.injEq] at h1 h2
    obtain ⟨w1, hw1, d1, hd1, rfl⟩ := h1
    obtain ⟨w2, hw2, d2, hd2, rfl⟩ := h2
    rw [hw1] at hw2
    cases hw2
    have hfull := StringConversion_full fe _ _ (by simp) data m src hsrc
      (hwt (by simp [isNumericVR, hSS])) w1 hw1
    exact same_shorts vr _ d1 d2 ((fresh_agree hd1 hd2).mono (by simp [hfull]))
  rw [if_neg hSS] at h1 h2
  simp at h1

/-- The constructor results of the conversion constructors on the same
source have the same content. -/
theorem createFrom_same (fe : FloatEnv) (r1 r2 : Nat) (vr : vtkDICOMVR) (src : Source)
    (v1 v2 : Value Item Val) (hwt : src.wellTerminated vr)
    (h1 : createFrom fe r1 vr src = some (some v1))
    (h2 : createFrom fe r2 vr src = some (some v2)) : SameContent v1 v2 := by
  cases src with
  | numeric T data n => exact CreateValueAs_same fe r1 r2 T _ data n v1 v2 h1 h2
  | tags data n => exact CreateValue_Tag_same r1 r2 vr data n v1 v2 h1 h2
  | chars data m => exact CreateValue_char_same fe r1 r2 vr data m v1 v2 hwt h1 h2

/-- Two allocations made one after the other have distinct addresses and
both are live. -/
theorem construct_two (heap : Heap Item Val) (v1 v2 : Value Item Val) :
    (construct heap (some v1)).1 = some heap.length ∧
    construct (construct heap (some v1)).2 (some v2) =
      (some (heap.length + 1), heap ++ [some v1] ++ [some v2]) ∧
    Heap.deref (heap ++ [some v1] ++ [some v2]) heap.length = some v1 ∧
    Heap.deref (heap ++ [some v1] ++ [some v2]) (heap.length + 1) = some v2 := by
  refine ⟨rfl, ?_, ?_, ?_⟩
  · simp [construct, Heap.alloc]
  · have e : (heap ++ [some v1] ++ [some v2]).get? heap.length = some (some v1) := by
      rw [List.append_assoc, List.get?_eq_getElem?,
        List.getElem?_append_right (le_refl _)]
      simp
    simp only [Heap.deref, e, Option.join, Option.some_bind, id]
  · have e : (heap ++ [some v1] ++ [some v2]).get? (heap.length + 1) = some (some v2) := by
      rw [List.append_assoc, List.get?_eq_getElem?,
        List.getElem?_append_right (by omega)]
      simp
    simp only [Heap.deref, e, Option.join, Option.some_bind, id]

theorem ieeeEq_comm (e m x y : Nat) : ieeeEq e m x y = ieeeEq e m y x := by
  unfold ieeeEq
  have h1 : (x == y) = (y == x) := by
    by_cases h : x = y
    · subst h; rfl
    · have h2 : ¬ y = x := fun e => h e.symm
      simp [h, h2]
  rw [h1]
  cases ieeeIsNan e m x <;> cases ieeeIsNan e m y <;> simp [Bool.and_comm]

theorem CompareLoop_comm {T : Type} (eq : T → T → Bool) (heq : ∀ x y, eq x y = eq y x) :
    ∀ (n : Nat) (a b : List T), CompareLoop eq n a b = CompareLoop eq n b a
  | _, [], [] => by simp [CompareLoop]
  | _, [], _ :: _ => by simp [CompareLoop]
  | _, _ :: _, [] => by simp [CompareLoop]
  | 0, x :: a, y :: b => by simp [CompareLoop, heq x y]
  | n + 1, x :: a, y :: b => by
    simp only [CompareLoop, heq x y, CompareLoop_comm eq heq n a b]

theorem Compare_comm {T : Type} (eq : T → T → Bool) (heq : ∀ x y, eq x y = eq y x)
    (n : Nat) (a b : List T) : Compare eq n a b = Compare eq n b a := by
  unfold Compare
  rw [CompareLoop_comm eq heq]

theorem beq_comm_fun {T : Type} [DecidableEq T] (x y : T) : (x == y) = (y == x) := by
  by_cases h : x = y
  · subst h; rfl
  · have h2 : ¬ y = x := fun e => h e.symm
    simp [h, h2]

/-- The comparison of two allocations does not depend on the order of the
operands when the comparisons of items and of nested values do not. -/
theorem equalTo_comm (itemEq : Item → Item → Bool) (valEq : Val → Val → Bool)
    (hitem : ∀ x y, itemEq x y = itemEq y x) (hval : ∀ x y, valEq x y = valEq y x)
    (a b : Value Item Val) : a.equalTo itemEq valEq b = b.equalTo itemEq valEq a := by
  obtain ⟨rc1, cs1, vr1, vl1, n1, d1⟩ := a
  obtain ⟨rc2, cs2, vr2, vl2, n2, d2⟩ := b
  unfold Value.equalTo
  dsimp only [Value.Type]
  by_cases h : vr1 = vr2 ∧ vl1 = vl2 ∧ d1.Type = d2.Type ∧ n1 = n2
  · obtain ⟨rfl, rfl, ht, rfl⟩ := h
    have h2 : vr1 = vr1 ∧ vl1 = vl1 ∧ d2.Type = d1.Type ∧ n1 = n1 := ⟨rfl, rfl, ht.symm, rfl⟩
    rw [if_pos ⟨rfl, rfl, ht, rfl⟩, if_pos h2]
    cases d1 <;> cases d2 <;> simp only [ValueData.Type] at ht <;>
      first
      | rfl
      | exact Compare_comm _ beq_comm_fun _ _ _
      | exact Compare_comm _ (ieeeEq_comm _ _) _ _ _
      | exact Compare_comm _ hitem _ _ _
      | exact Compare_comm _ hval _ _ _
  · have h2 : ¬ (vr2 = vr1 ∧ vl2 = vl1 ∧ d2.Type = d1.Type ∧ n2 = n1) := by
      rintro ⟨e1, e2, e3, e4⟩
      exact h ⟨e1.symm, e2.symm, e3.symm, e4.symm⟩
    rw [if_neg h, if_neg h2]

theorem tag_key (g e : Nat) (hg : g < 65536) (he : e < 65536) :
    (vtkDICOMTag.ofGroupElement g e).Key = 65536 * g + e := by
  have h1 : (g <<< 16) ||| e = 65536 * g + e := by
    rw [Nat.shiftLeft_eq, Nat.mul_comm]
    exact (@Nat.mul_add_lt_is_or 16 e he g).symm
  simp only [vtkDICOMTag.ofGroupElement, h1, UINT_RANGE]
  omega

/-- A 32-bit key is its group times 2^16 plus its element. -/
theorem tag_key_split (a : vtkDICOMTag) (ha : a.Key < UINT_RANGE) :
    a.Key = 65536 * a.GetGroup + a.GetElement ∧ a.GetGroup < 65536 ∧ a.GetElement < 65536 := by
  simp only [vtkDICOMTag.GetGroup, vtkDICOMTag.GetElement, Nat.shiftRight_eq_div_pow,
    UINT_RANGE] at ha ⊢
  omega

theorem fillTags_length (fe : FloatEnv) (T : NumType) (data : List Int) :
    ∀ (k j : Nat) (ptr d : List vtkDICOMTag),
    fillTags fe T data k j ptr = some d → d.length = ptr.length
  | 0, _, ptr, d, h => by
    simp only [fillTags, Option.some.injEq] at h
    rw [h]
  | k + 1, j, ptr, d, h => by
    simp only [fillTags] at h
    cases hg : data.get? (2 * j) with
    | none => rw [hg] at h; simp at h
    | some g =>
      cases he : data.get? (2 * j + 1) with
      | none => rw [hg, he] at h; simp at h
      | some e =>
        rw [hg, he] at h
        simp only [Option.bind_eq_some] at h
        obtain ⟨p1, hp1, h2⟩ := h
        rw [fillTags_length fe T data k (j + 1) p1 d h2]
        exact (overwrite_length _ _ _ _ hp1).1

/-- Every valid value that a conversion constructor builds for VR AT stores
tags, at least as many as its element count. -/
theorem createFrom_AT_tags (fe : FloatEnv) (raw : Nat) (src : Source) (v : Value Item Val)
    (h : createFrom fe raw .AT src = some (some v)) :
    ∃ d, v.Data = .tags d ∧ v.NumberOfValues ≤ d.length ∧ v.VR = .AT := by
  have hslot : ∀ n : Nat, n % UINT_RANGE ≤ slotCount n := by
    intro n
    have := Nat.mod_le n UINT_RANGE
    simp only [slotCount]
    omega
  cases src with
  | numeric T data n =>
    simp only [createFrom, CreateValue, resolveVR, CreateValueAs, reduceCtorEq, if_false,
      if_true, AllocateTagData, ValueT, or_self, Option.map_eq_some', Option.some.injEq,
      Value.setData] at h
    obtain ⟨d, hd, rfl⟩ := h
    refine ⟨d, rfl, ?_, rfl⟩
    have hl := fillTags_length fe T data _ _ _ _ hd
    have := hslot (n / 2)
    simp only [List.length_append, List.length_replicate] at hl
    dsimp only
    omega
  | tags data n =>
    simp only [createFrom, CreateValue_Tag, if_true, AllocateTagData, ValueT,
      Option.bind_eq_some, Option.map_eq_some', Option.some.injEq] at h
    obtain ⟨s, _, d, hd, rfl⟩ := h
    refine ⟨d, rfl, ?_, rfl⟩
    have hl := (overwrite_length _ _ _ _ hd).1
    have := hslot n
    simp only [List.length_append, List.length_replicate] at hl
    dsimp only
    omega
  | chars data m =>
    simp only [createFrom, CreateValue_char, reduceCtorEq, if_false, or_self,
      Option.bind_eq_some, Option.some.injEq] at h
    obtain ⟨_, _, h2⟩ := h
    cases h2

theorem hexDigitValue_hexChar (c : Nat) (h : c < 16) : hexDigitValue (hexChar c) = some c := by
  unfold hexChar hexDigitValue
  by_cases h1 : c < 10
  · rw [if_pos h1, if_pos (by omega)]
    congr 1; omega
  · rw [if_neg h1, if_neg (by omega), if_pos (by omega)]
    congr 1; omega

theorem hexChar_upper (c : Nat) (h : c < 16) :
    (48 ≤ hexChar c ∧ hexChar c ≤ 57) ∨ (65 ≤ hexChar c ∧ hexChar c ≤ 70) := by
  unfold hexChar
  by_cases h1 : c < 10
  · rw [if_pos h1]; omega
  · rw [if_neg h1]; omega

/-- The four digits that the tag branch prints for a 16-bit number denote
that number. -/
theorem hex4_value (t : Nat) (ht : t < 65536) :
    hexValue [hexChar ((t >>> 12) % 16), hexChar ((t >>> 8) % 16), hexChar ((t >>> 4) % 16),
      hexChar (t % 16)] = some t := by
  simp only [hexValue, List.foldl, Option.some_bind,
    hexDigitValue_hexChar _ (Nat.mod_lt _ (by norm_num : 16 > 0)), Option.map_some',
    Nat.shiftRight_eq_div_pow]
  congr 1
  omega

/-- The text of element `i` of a value that stores tags. -/
theorem GetString_tag (fe : FloatEnv) (nextBackslash : Nat → List Nat → Nat → Nat)
    (v : Value Item Val) (d : List vtkDICOMTag) (i : Nat) (a : vtkDICOMTag)
    (hd : v.Data = .tags d) (hi : i < v.NumberOfValues) (ha : d.get? i = some a) :
    GetString fe nextBackslash (some v) i = some (tagToText a) ∧
    AppendValueToString fe nextBackslash (some v) i = some (tagToText a) := by
  simp only [GetString, hi, if_true, AppendValueToString, hd, ha, Option.map_some', and_self]

theorem overwrite_one {α : Type} (buf : List α) (i : Nat) (x : α) (h : i < buf.length) :
    ∃ c, overwrite buf i [x] = some c ∧ c.length = buf.length ∧ c.get? i = some x ∧
      ∀ j, j ≠ i → c.get? j = buf.get? j := by
  have hle : i + [x].length ≤ buf.length := by simpa using h
  refine ⟨_, if_pos hle, ?_, ?_, ?_⟩
  · simp only [List.length_append, List.length_take, List.length_drop, List.length_singleton]
    omega
  · have := overwrite_get? buf i [x] _ (if_pos hle) i
    rw [this, if_neg (by omega), if_pos (by simp)]
    simp
  · intro j hj
    have := overwrite_get? buf i [x] _ (if_pos hle) j
    rw [this]
    by_cases h1 : j < i
    · rw [if_pos h1]
    · rw [if_neg h1, if_neg (by simp; omega)]

theorem isDoublingPoint_iff (k : Nat) :
    isDoublingPoint k = true ↔ ∃ j, 1 ≤ j ∧ k = 2 ^ j := by
  simp only [isDoublingPoint, decide_eq_true_eq]
  constructor
  · rintro ⟨h1, h2⟩
    refine ⟨Nat.log 2 k, ?_, h2.symm⟩
    exact Nat.log_pos (by norm_num) (by omega)
  · rintro ⟨j, hj, rfl⟩
    refine ⟨?_, by rw [Nat.log_pow (by norm_num)]⟩
    calc 1 < 2 ^ 1 := by norm_num
      _ ≤ 2 ^ j := Nat.pow_le_pow_right (by norm_num) hj

theorem two_le_pow (j : Nat) (hj : 1 ≤ j) : 2 ≤ 2 ^ j :=
  calc 2 = 2 ^ 1 := by norm_num
    _ ≤ 2 ^ j := Nat.pow_le_pow_right (by norm_num) hj

/-- One append to a growing sequence: it moves the value exactly when the
count is one of 2, 4, 8, ..., and then the capacity doubles. -/
theorem AppendValue_growing (emptyItem : Item) (heap : Heap Item Val) (p : Nat)
    (v : Value Item Val) (d : List Item) (k : Nat) (item : Item)
    (hp : heap.deref p = some v) (hg : Growing k v d) (hn : k + 1 < UINT_RANGE) :
    ∃ (q : Nat) (heap1 : Heap Item Val) (v1 : Value Item Val) (d1 : List Item),
      AppendValue emptyItem heap (some p) item = some (some q, heap1) ∧
      heap1.deref q = some v1 ∧ Growing (k + 1) v1 d1 ∧
      (q ≠ p ↔ ∃ j, 1 ≤ j ∧ k = 2 ^ j) ∧
      (q ≠ p → d1.length = 2 * d.length) ∧ (q = p → d1.length = d.length) := by
  obtain ⟨hrc, hvl, hd, hk, hcap, j, hj, hlen, hhalf⟩ := hg
  have hlt := deref_lt heap p v hp
  have h2j := two_le_pow j hj
  by_cases hpow : v.NumberOfValues > 1 ∧ (v.NumberOfValues - 1) &&& v.NumberOfValues = 0
  · -- the count is a power of two: the array is full and is doubled
    obtain ⟨i, hi⟩ := pow_two_of_and_pred v.NumberOfValues (by omega) hpow.2
    have hi1 : 1 ≤ i := by
      rcases Nat.eq_zero_or_pos i with h0 | h0
      · rw [h0] at hi; simp at hi; omega
      · exact h0
    have hfull : d.length = k := by
      rcases hhalf with h1 | h1
      · rw [h1] at hlen; simp at hlen; omega
      · have e1 : 2 ^ (j - 1) < 2 ^ i := by rw [← hi, hk]; exact h1
        have e2 : 2 ^ i ≤ 2 ^ j := by rw [← hi, ← hlen, hk]; exact hcap
        have e3 : j - 1 < i := (Nat.pow_lt_pow_iff_right (by norm_num)).1 e1
        have e4 : i ≤ j := (Nat.pow_le_pow_iff_right (by norm_num)).1 e2
        have e5 : i = j := by omega
        rw [hlen, ← e5, ← hi, hk]
    have hnc : newCapacity v = 2 * v.NumberOfValues := by
      unfold newCapacity
      dsimp only
      rw [if_neg (by simp [hrc, hvl]), if_pos hpow]
    obtain ⟨heap1, e1, e2, _⟩ := AppendValue_realloc emptyItem heap p v d item hp hd
      (by omega) (by omega) (by omega) (by omega)
    rw [hnc] at e2
    refine ⟨heap.length, heap1, _, _, e1, e2, ⟨rfl, rfl, rfl, by dsimp only; omega, ?_,
      j + 1, by omega, ?_, Or.inr ?_⟩, ?_, ?_, ?_⟩
    · simp only [List.length_append, List.length_take, List.length_cons, List.length_replicate]
      omega
    · simp only [List.length_append, List.length_take, List.length_cons, List.length_replicate,
        pow_succ]
      omega
    · simp only [Nat.add_sub_cancel]
      omega
    · constructor
      · intro _
        exact ⟨i, hi1, by omega⟩
      · intro _
        omega
    · intro _
      simp only [List.length_append, List.length_take, List.length_cons, List.length_replicate]
      omega
    · intro h
      omega
  · -- there is room: the item is added in place
    have hnc : newCapacity v = 0 := by
      unfold newCapacity
      dsimp only
      rw [if_neg (by simp [hrc, hvl]), if_neg hpow]
    have hroom : v.NumberOfValues < d.length := by
      rcases Nat.lt_or_ge v.NumberOfValues d.length with h | h
      · exact h
      · exfalso
        have heq : v.NumberOfValues = 2 ^ j := by omega
        exact hpow ⟨by omega, by rw [heq]; exact and_pred_pow_two j⟩
    have e1 := AppendValue_inplace emptyItem heap p v d item hp hd hnc hroom (by omega)
    have hl1 : (d.take v.NumberOfValues ++ item :: d.drop (v.NumberOfValues + 1)).length
        = d.length := by
      simp only [List.length_append, List.length_take, List.length_cons, List.length_drop]
      omega
    refine ⟨p, _, _, _, e1, deref_store_same heap p _ hlt,
      ⟨hrc, rfl, rfl, by dsimp only; omega, by rw [hl1]; omega, j, hj, by rw [hl1]; exact hlen,
        ?_⟩, ?_, fun h => absurd rfl h, fun _ => hl1⟩
    · rcases hhalf with h1 | h1
      · exact Or.inl h1
      · exact Or.inr (by omega)
    · constructor
      · intro h
        exact absurd rfl h
      · rintro ⟨i, hi1, hi⟩
        exfalso
        have := two_le_pow i hi1
        exact hpow ⟨by omega, by rw [hk, hi]; exact and_pred_pow_two i⟩

/-- The events of a run of appends to a growing sequence. -/
theorem AppendValuesTrace_growing (emptyItem : Item) :
    ∀ (xs : List Item) (heap : Heap Item Val) (p : Nat) (v : Value Item Val) (d : List Item)
      (k : Nat),
    heap.deref p = some v → Growing k v d → k + xs.length < UINT_RANGE →
    ∃ t, AppendValuesTrace emptyItem xs (some p, heap) = some t ∧
      t.map (fun e => e.count) = List.range' k xs.length ∧
      ∀ e ∈ t, (e.moved = true ↔ ∃ j, 1 ≤ j ∧ e.count = 2 ^ j) ∧
        (e.moved = true → e.capAfter = 2 * e.capBefore) ∧
        (e.moved = false → e.capAfter = e.capBefore)
  | [], _, _, _, _, _, _, _, _ => ⟨[], rfl, rfl, by simp⟩
  | x :: xs, heap, p, v, d, k, hp, hg, hn => by
    simp only [List.length_cons] at hn
    obtain ⟨q, heap1, v1, d1, e1, e2, e3, e4, e5, e6⟩ :=
      AppendValue_growing emptyItem heap p v d k x hp hg (by omega)
    obtain ⟨t, f1, f2, f3⟩ :=
      AppendValuesTrace_growing emptyItem xs heap1 q v1 d1 (k + 1) e2 e3 (by omega)
    have hv0 : stateValue ((some p : Handle), heap) = some v := hp
    have hv1 : stateValue ((some q : Handle), heap1) = some v1 := e2
    have hcnt : v.NumberOfValues = k := hg.2.2.2.1
    have hc0 : v.Data.capacity = d.length := by rw [hg.2.2.1]; rfl
    have hc1 : v1.Data.capacity = d1.length := by rw [e3.2.2.1]; rfl
    refine ⟨{ count := v.NumberOfValues, capBefore := v.Data.capacity,
              capAfter := v1.Data.capacity,
              moved := decide ((some q : Handle) ≠ some p) } :: t, ?_, ?_, ?_⟩
    · simp only [AppendValuesTrace, hv0, Option.some_bind, e1, hv1, f1, Option.map_some']
    · simp only [List.map_cons, f2, hcnt, List.length_cons, List.range'_succ]
    · intro e he
      rcases List.mem_cons.1 he with rfl | he
      · have hm : decide ((some q : Handle) ≠ some p) = true ↔ q ≠ p := by
          simp
        dsimp only
        rw [hcnt, hc0, hc1]
        refine ⟨hm.trans e4, fun h => e5 (hm.1 h), fun h => e6 ?_⟩
        by_contra hne
        have := hm.2 hne
        rw [this] at h
        cases h
      · exact f3 e he

theorem filter_moved_length (Q : Nat → Bool) :
    ∀ t : List AppendEvent, (∀ e ∈ t, e.moved = Q e.count) →
    (t.filter fun e => e.moved).length = ((t.map fun e => e.count).filter Q).length
  | [], _ => rfl
  | e :: t, h => by
    have ih := filter_moved_length Q t (fun e he => h e (List.mem_cons_of_mem _ he))
    have he := h e (List.mem_cons_self _ _)
    simp only [List.filter_cons, List.map_cons, ← he]
    cases e.moved <;> simp [ih]

/-- The logarithm goes up by one exactly at the powers of two. -/
theorem log_two_step (n : Nat) (hn : 1 ≤ n) :
    Nat.log 2 n = Nat.log 2 (n - 1) + (if isDoublingPoint n = true then 1 else 0) := by
  rcases Nat.lt_or_ge n 2 with h1 | h2
  · have e : n = 1 := by omega
    subst e
    simp [isDoublingPoint]
  · have hj : 1 ≤ Nat.log 2 n := Nat.log_pos (by norm_num) h2
    have hlo := Nat.pow_log_le_self 2 (by omega : n ≠ 0)
    have hhi := Nat.lt_pow_succ_log_self (by norm_num : 1 < 2) n
    generalize Nat.log 2 n = j at hj hlo hhi ⊢
    by_cases hq : isDoublingPoint n = true
    · rw [if_pos hq]
      obtain ⟨i, hi1, hi⟩ := (isDoublingPoint_iff n).1 hq
      have hij : i = j := by
        have e1 : 2 ^ i < 2 ^ (j + 1) := by rw [← hi]; exact hhi
        have e2 : 2 ^ j ≤ 2 ^ i := by rw [← hi]; exact hlo
        have e3 := (Nat.pow_lt_pow_iff_right (by norm_num : 1 < 2)).1 e1
        have e4 := (Nat.pow_le_pow_iff_right (by norm_num : 1 < 2)).1 e2
        omega
      subst hij
      have hlog : Nat.log 2 (n - 1) = i - 1 := by
        rw [Nat.log_eq_iff (Or.inr ⟨by norm_num, by omega⟩)]
        have e : i - 1 + 1 = i := by omega
        rw [e]
        have hp : 2 ^ i = 2 * 2 ^ (i - 1) := by
          rw [← pow_succ', e]
        have := Nat.one_le_two_pow (n := i - 1)
        omega
      omega
    · rw [if_neg hq]
      have hne : 2 ^ j ≠ n := by
        intro h
        apply hq
        exact (isDoublingPoint_iff n).2 ⟨j, hj, h.symm⟩
      have hlog : Nat.log 2 (n - 1) = j := by
        rw [Nat.log_eq_iff (Or.inr ⟨by norm_num, by omega⟩)]
        exact ⟨by omega, by omega⟩
      omega

/-- Below `n` there are `log2 (n - 1)` doubling points. -/
theorem count_doubling_points : ∀ n : Nat,
    ((List.range n).filter isDoublingPoint).length = Nat.log 2 (n - 1)
  | 0 => by simp
  | n + 1 => by
    rw [List.range_succ, List.filter_append, List.length_append, count_doubling_points n]
    simp only [Nat.add_sub_cancel]
    rcases Nat.eq_zero_or_pos n with h0 | hpos
    · subst h0
      simp [isDoublingPoint]
    · rw [log_two_step n hpos]
      by_cases hq : isDoublingPoint n = true
      · simp [hq]
      · simp [hq]

/-- The loop of `AppendValue` runs at least once, so its result is 2 or at
most twice the count. -/
theorem growLoop_least (n : Nat) : ∀ (fuel nn : Nat),
    growLoop n fuel nn = 2 * nn ∨ growLoop n fuel nn ≤ 2 * n
  | 0, nn => Or.inl rfl
  | fuel + 1, nn => by
    unfold growLoop
    split_ifs with hle
    · rcases growLoop_least n fuel (2 * nn) with h | h
      · right; omega
      · right; exact h
    · left; rfl

/-- The capacity that `AppendValue` chooses for a value that is shared or
not growable. -/
theorem newCapacity_shared (v : Value Item Val)
    (hs : v.ReferenceCount ≠ 1 ∨ v.VL ≠ VL_UNDEFINED) :
    (∃ k, 1 ≤ k ∧ newCapacity v = 2 ^ k) ∧ v.NumberOfValues < newCapacity v ∧
    (∀ k, 1 ≤ k → v.NumberOfValues < 2 ^ k → newCapacity v ≤ 2 ^ k) := by
  have hnc : newCapacity v = growLoop v.NumberOfValues v.NumberOfValues 1 := by
    unfold newCapacity
    dsimp only
    rw [if_pos hs]
  obtain ⟨h1, k, hk, h2⟩ := growLoop_start v.NumberOfValues
  have h3 := growLoop_least v.NumberOfValues v.NumberOfValues 1
  rw [← hnc] at h1 h2 h3
  refine ⟨⟨k, hk, h2⟩, h1, ?_⟩
  intro j hj hlt
  rcases h3 with h3 | h3
  · rw [h3]
    exact two_le_pow j hj
  · rw [h2]
    by_contra hcon
    have e1 : 2 ^ j < 2 ^ k := by omega
    have e2 : j < k := (Nat.pow_lt_pow_iff_right (by norm_num : 1 < 2)).1 e1
    have e3 : 2 ^ j ≤ 2 ^ (k - 1) := Nat.pow_le_pow_right (by norm_num) (by omega)
    have e4 : 2 ^ k = 2 * 2 ^ (k - 1) := by
      rw [← pow_succ']
      congr 1
      omega
    omega

/-- What `strncpy` writes when the source memory holds at least `m` bytes:
the bytes before the first NUL among the `m`, then NUL bytes. -/
theorem strncpy_spec : ∀ (data : List Nat) (m : Nat), m ≤ data.length →
    strncpy data m = some ((data.take m).takeWhile (fun c => c != 0) ++
      List.replicate (m - ((data.take m).takeWhile (fun c => c != 0)).length) 0)
  | _, 0, _ => by simp [strncpy]
  | [], _ + 1, h => by simp at h
  | c :: cs, k + 1, h => by
    simp only [strncpy]
    by_cases hc : c = 0
    · subst hc
      simp
    · have ih := strncpy_spec cs k (by simpa using h)
      rw [if_neg hc, ih]
      simp [List.takeWhile_cons, hc]

theorem takeWhile_no_nul (s : List Nat) (h : 0 ∉ s) : s.takeWhile (fun c => c != 0) = s := by
  rw [List.takeWhile_eq_self_iff]
  intro c hc
  have : c ≠ 0 := fun e => h (e ▸ hc)
  simpa using this

theorem joinComma_snoc : ∀ (xs : List (List Nat)) (t : List Nat),
    joinComma (xs ++ [t]) = joinComma xs ++ (if xs.length = 0 then [] else [44]) ++ t
  | [], t => by simp [joinComma]
  | [a], t => by simp [joinComma]
  | a :: b :: xs, t => by
    have ih := joinComma_snoc (b :: xs) t
    show a ++ 44 :: joinComma ((b :: xs) ++ [t]) = _
    rw [ih]
    simp [joinComma]

theorem joinComma_no_nul : ∀ (xs : List (List Nat)), (∀ t ∈ xs, 0 ∉ t) → 0 ∉ joinComma xs
  | [], _ => by simp [joinComma]
  | [a], h => by simpa [joinComma] using h
  | a :: b :: xs, h => by
    have ih := joinComma_no_nul (b :: xs) (fun t ht => h t (List.mem_cons_of_mem _ ht))
    have ha := h a (List.mem_cons_self _ _)
    simp only [joinComma, List.mem_append, List.mem_cons, not_or]
    exact ⟨ha, by decide, ih⟩

theorem c_str_no_nul (s : List Nat) (h : 0 ∉ s) : c_str s = s := by
  unfold c_str
  rw [List.takeWhile_eq_self_iff]
  intro c hc
  have : c ≠ 0 := fun e => h (e ▸ hc)
  simpa using this

/-- The loop of `operator<<` joins the texts of the elements with commas. -/
theorem renderValues_spec (fe : FloatEnv) (nextBackslash : Nat → List Nat → Nat → Nat)
    (toUTF8 : Nat → List Nat → List Nat) (v : Option (Value Item Val))
    (texts : List (List Nat))
    (h : ∀ i, i < texts.length →
      AppendValueToUTF8String fe nextBackslash toUTF8 v i = some (texts.getD i [])) :
    ∀ k, k ≤ texts.length →
      renderValues fe nextBackslash toUTF8 v texts.length k
        (joinComma (texts.take (texts.length - k))) = some (joinComma texts)
  | 0, _ => by simp [renderValues]
  | k + 1, hk => by
    have hi : texts.length - (k + 1) < texts.length := by omega
    have ih := renderValues_spec fe nextBackslash toUTF8 v texts h k (by omega)
    have e1 : texts.length - k = texts.length - (k + 1) + 1 := by omega
    have e2 : texts.take (texts.length - (k + 1) + 1) =
        texts.take (texts.length - (k + 1)) ++ [texts.getD (texts.length - (k + 1)) []] := by
      rw [List.take_succ, List.getD_eq_getElem?_getD, List.getElem?_eq_getElem hi]
      simp
    have e3 : (texts.take (texts.length - (k + 1))).length = texts.length - (k + 1) := by
      simp
    rw [e1, e2, joinComma_snoc, e3] at ih
    simp only [renderValues, h _ hi, Option.some_bind]
    exact ih

theorem testBit_32 (x : Nat) (hx : x < UINT_RANGE) (i : Nat) (hi : 32 ≤ i) :
    x.testBit i = false := by
  apply Nat.testBit_eq_false_of_lt
  calc x < 2 ^ 32 := hx
    _ ≤ 2 ^ i := Nat.pow_le_pow_right (by norm_num) hi

/-- The second step of the hash, `h ^ (h >> 16)`, is injective on 32 bits. -/
theorem fold16_injective (x y : Nat) (hx : x < UINT_RANGE) (hy : y < UINT_RANGE)
    (h : x ^^^ (x >>> 16) = y ^^^ (y >>> 16)) : x = y := by
  have hb : ∀ i, (x.testBit i ^^ x.testBit (16 + i)) = (y.testBit i ^^ y.testBit (16 + i)) := by
    intro i
    have := congrArg (fun z => z.testBit i) h
    simpa [Nat.testBit_xor, Nat.testBit_shiftRight] using this
  have hhi : ∀ i, 16 ≤ i → x.testBit i = y.testBit i := by
    intro i hi
    have := hb i
    rw [testBit_32 x hx (16 + i) (by omega), testBit_32 y hy (16 + i) (by omega)] at this
    simpa using this
  apply Nat.eq_of_testBit_eq
  intro i
  by_cases hi : 16 ≤ i
  · exact hhi i hi
  · have := hb i
    rw [hhi (16 + i) (by omega)] at this
    cases hxi : x.testBit i <;> cases hyi : y.testBit i <;> cases hz : y.testBit (16 + i) <;>
      simp [hxi, hyi, hz] at this ⊢

/-- The first step of the hash, `((k >> 6) & 0xFFFF03FF) ^ k`, is injective
on 32 bits: each bit is determined by the result and the bits above it. -/
theorem mix6_injective (x y : Nat) (hx : x < UINT_RANGE) (hy : y < UINT_RANGE)
    (h : ((x >>> 6) &&& 0xFFFF03FF) ^^^ x = ((y >>> 6) &&& 0xFFFF03FF) ^^^ y) : x = y := by
  have hb : ∀ i, ((x.testBit (6 + i) && Nat.testBit 0xFFFF03FF i) ^^ x.testBit i) =
      ((y.testBit (6 + i) && Nat.testBit 0xFFFF03FF i) ^^ y.testBit i) := by
    intro i
    have := congrArg (fun z => z.testBit i) h
    simpa [Nat.testBit_xor, Nat.testBit_and, Nat.testBit_shiftRight] using this
  have hall : ∀ n i, 32 ≤ i + n → x.testBit i = y.testBit i := by
    intro n
    induction n with
    | zero =>
      intro i hi
      rw [testBit_32 x hx i (by omega), testBit_32 y hy i (by omega)]
    | succ n ih =>
      intro i hi
      have h6 := ih (6 + i) (by omega)
      have := hb i
      rw [h6] at this
      cases hxi : x.testBit i <;> cases hyi : y.testBit i <;>
        cases hz : y.testBit (6 + i) <;> cases hm : Nat.testBit 0xFFFF03FF i <;>
        simp [hxi, hyi, hz, hm] at this ⊢
  apply Nat.eq_of_testBit_eq
  intro i
  exact hall 32 i (by omega)

theorem mix6_lt (x : Nat) (hx : x < UINT_RANGE) :
    ((x >>> 6) &&& 0xFFFF03FF) ^^^ x < UINT_RANGE := by
  apply Nat.xor_lt_two_pow (n := 32)
  · exact lt_of_le_of_lt Nat.and_le_right (by norm_num)
  · exact hx

theorem negate_int_min : toUnsigned 64 (toSigned 32 2147483648) = 18446744071562067968 := by
  decide

theorem negate_int_min_succ : toUnsigned 64 (toSigned 32 2147483647) = 2147483647 := by
  decide

/-- The integer branch of `AppendValueToString` at the smallest int: the
digits do not fit the buffer. -/
theorem integerToText_int_min : integerToText (-2147483648) 0 = none := by
  simp [integerToText, negate_int_min, decimalDigits]

theorem CreateValue_int_min :
    (CreateValue FloatEnv.trivial 0 .int .SL [-2147483648] 1 :
      Option (Option (Value Nat Nat))) =
      some (some ((AllocateIntData 0 .SL 1).setData (.ints [-2147483648]))) := by
  decide

/-- The string form of element `i` of a value that stores ints. -/
theorem GetString_int (fe : FloatEnv) (nextBackslash : Nat → List Nat → Nat → Nat)
    (v : Value Item Val) (d : List Int) (i : Nat) (x : Int)
    (hd : v.Data = .ints d) (hi : i < v.NumberOfValues) (hx : d.get? i = some x) :
    GetString fe nextBackslash (some v) i = integerToText x 0 := by
  simp only [GetString, hi, if_true, AppendValueToString, hd, hx, Option.some_bind]

theorem takeWhile_append_nul (T R : List Nat) :
    (T ++ 0 :: R).takeWhile (fun c => c != 0) = T.takeWhile (fun c => c != 0) := by
  induction T with
  | nil => simp
  | cons x T ih =>
    by_cases hx : x = 0
    · subst hx; simp
    · simp [List.takeWhile_cons, hx, ih]

theorem takeWhile_append_of_nul_mem (T R : List Nat) (h : 0 ∈ T) :
    (T ++ R).takeWhile (fun c => c != 0) = T.takeWhile (fun c => c != 0) := by
  induction T with
  | nil => simp at h
  | cons x T ih =>
    by_cases hx : x = 0
    · subst hx; simp
    · have hT : 0 ∈ T := by
        rcases List.mem_cons.1 h with h | h
        · exact absurd h.symm hx
        · exact h
      simp [List.takeWhile_cons, hx, ih hT]

theorem getLast?_dropWhile (p : Nat → Bool) (x : Nat) (hx : p x = false) :
    ∀ l : List Nat, l.getLast? = some x → (l.dropWhile p).getLast? = some x
  | [], h => by simp at h
  | [y], h => by
    simp only [List.getLast?_singleton, Option.some.injEq] at h
    subst h
    simp [List.dropWhile, hx]
  | y :: z :: l, h => by
    have h2 : (z :: l).getLast? = some x := by
      rwa [List.getLast?_cons_cons] at h
    have ih := getLast?_dropWhile p x hx (z :: l) h2
    by_cases hy : p y = true
    · rw [List.dropWhile_cons_of_pos hy]; exact ih
    · rw [List.dropWhile_cons_of_neg hy]; exact h

/-- The text that a C string ending in NUL padding denotes is the string
without the padding, when no NUL comes before the padding. -/
theorem c_str_eq_rdropWhile (T : List Nat) :
    0 ∉ T.rdropWhile (· == 0) → c_str T = T.rdropWhile (· == 0) := by
  induction T using List.reverseRecOn with
  | nil => intro _; rfl
  | append_singleton T x ih =>
    intro h
    by_cases hx : x = 0
    · subst hx
      rw [List.rdropWhile_concat_pos _ _ _ (by simp)] at h ⊢
      rw [← ih h]
      exact takeWhile_append_nul T []
    · rw [List.rdropWhile_concat_neg _ _ _ (by simpa using hx)] at h ⊢
      exact c_str_no_nul _ h

/-- The last part of the text branch of `operator<<`: with the trimmed
payload `T` at `cp` and either more memory behind it or a NUL at its end,
the characters written are those of `T` before its first NUL. -/
theorem render_cstring (buf : List Nat) (cp : Nat) (T R : List Nat)
    (hbuf : buf.drop cp = T ++ R) (hcp : cp ≤ buf.length)
    (hR : R ≠ [] ∨ T.getLast? = some 0) :
    ((if cp ≠ cp + T.length then (buf.get? (cp + T.length - 1)).map fun (c : Nat) => c == 0
      else some false).bind fun (nulBefore : Bool) =>
     (if nulBefore then some true
      else (buf.get? (cp + T.length)).map fun (c : Nat) => c == 0).bind fun (whole : Bool) =>
     if whole then cstring (buf.drop cp) else (substr buf cp (cp + T.length)).map c_str) =
      some (c_str T) := by
  have hget : ∀ i, buf.get? (cp + i) = (T ++ R).get? i := by
    intro i
    rw [← hbuf]
    simp [List.getElem?_drop]
  have hlen : cp + T.length ≤ buf.length := by
    have := congrArg List.length hbuf
    simp only [List.length_drop, List.length_append] at this
    omega
  have hsub : substr buf cp (cp + T.length) = some T := by
    rw [substr_eq_slice buf cp _ (by omega) hlen]
    simp only [slice, hbuf, Nat.add_sub_cancel_left]
    simp
  have hnext : buf.get? (cp + T.length) = R.head? := by
    rw [hget]
    cases R with
    | nil => simp
    | cons r R1 => rw [get?_append_len0]; rfl
  rcases List.eq_nil_or_concat T with hT | ⟨T0, x, hT⟩
  · -- nothing is left of the payload
    subst hT
    simp only [List.length_nil, Nat.add_zero, ne_eq, not_true_eq_false, if_false,
      Option.some_bind, Bool.false_eq_true] at hnext hsub ⊢
    rcases hR with hR | hR
    · obtain ⟨r, R1, rfl⟩ := List.exists_cons_of_ne_nil hR
      simp only [List.nil_append] at hbuf
      rw [hnext, hsub, hbuf]
      by_cases hr : r = 0
      · subst hr
        simp [cstring, c_str]
      · simp [hr, c_str]
    · simp at hR
  · have hlast : buf.get? (cp + T.length - 1) = some x := by
      have e : cp + T.length - 1 = cp + T0.length := by rw [hT]; simp
      rw [e, hget, hT, List.concat_eq_append, List.append_assoc]
      exact get?_append_len0 T0 x _
    have hne : cp ≠ cp + T.length := by rw [hT]; simp
    rw [if_pos hne, hlast]
    simp only [Option.map_some', Option.some_bind]
    by_cases hx : x = 0
    · -- the payload ends in a NUL: it is printed as a C string
      have hmem : 0 ∈ T := by rw [hT, hx]; simp
      have hmem2 : 0 ∈ T ++ R := List.mem_append_left _ hmem
      simp only [hx, beq_self_eq_true, if_true, Option.some_bind, cstring, hbuf, hmem2]
      rw [takeWhile_append_of_nul_mem T R hmem]
      rfl
    · have hx2 : (x == 0) = false := by simpa using hx
      have hR2 : R ≠ [] := by
        rcases hR with hR | hR
        · exact hR
        · rw [hT] at hR
          simp at hR
          exact absurd hR hx
      obtain ⟨r, R1, rfl⟩ := List.exists_cons_of_ne_nil hR2
      simp only [hx2, Bool.false_eq_true, if_false, hnext, List.head?_cons, Option.map_some',
        Option.some_bind]
      by_cases hr : r = 0
      · subst hr
        have hmem2 : 0 ∈ T ++ 0 :: R1 := by simp
        simp only [beq_self_eq_true, if_true, cstring, hbuf, hmem2]
        rw [takeWhile_append_nul]
        rfl
      · have hr2 : (r == 0) = false := by simpa using hr
        simp only [hr2, Bool.false_eq_true, if_false, hsub, Option.map_some']

/-- The text branch of `operator<<` for the text VRs other than ST, LT and
UT: the payload `P` of `VL` bytes is trimmed of spaces and written up to its
first NUL. -/
theorem operator_shl_text (fe : FloatEnv) (nextBackslash : Nat → List Nat → Nat → Nat)
    (toUTF8 : Nat → List Nat → List Nat) (tagText : vtkDICOMTag → List Nat)
    (val : Value Item Val) (P tail : List Nat)
    (hD : val.Data = .chars (P ++ tail)) (hVL : val.VL = P.length)
    (hvr : isShortTextVR val.VR = true)
    (hend : tail ≠ [] ∨ P.getLast? = some 0) :
    operator_shl fe nextBackslash toUTF8 tagText (some val) = some (c_str (trimSpaces P)) := by
  have hUN : val.VR ≠ .UN := by
    intro h; rw [h] at hvr; revert hvr; decide
  have hLT : ¬ (val.VR = .ST ∨ val.VR = .LT ∨ val.VR = .UT) := by
    rintro (h | h | h) <;> rw [h] at hvr <;> revert hvr <;> decide
  -- the two trimming loops
  have hskip := skipSpaces_spec P.length (P ++ tail) 0 (Nat.zero_le _) (by simp)
  simp only [Nat.sub_zero, Nat.zero_add, List.take_left'] at hskip
  have hale : (P.takeWhile (· == SPACE)).length ≤ P.length :=
    (List.takeWhile_sublist _).length_le
  have hdrop := dropTrailing_spec (P ++ tail) SPACE (P.takeWhile (· == SPACE)).length P.length
    hale (by simp)
  have hslice : slice (P ++ tail) (P.takeWhile (· == SPACE)).length P.length =
      P.dropWhile (· == SPACE) := by
    simp only [slice]
    rw [List.drop_append_of_le_length hale, drop_takeWhile_length,
      List.take_append_of_le_length (by
        rw [← drop_takeWhile_length, List.length_drop])]
    apply List.take_of_length_le
    rw [← drop_takeWhile_length, List.length_drop]
  rw [hslice] at hdrop
  -- what lies at and behind the trimmed payload
  obtain ⟨S, hS⟩ : ∃ S, trimSpaces P ++ S = P.dropWhile (· == SPACE) :=
    List.rdropWhile_prefix _ _
  have hbuf : (P ++ tail).drop (P.takeWhile (· == SPACE)).length =
      trimSpaces P ++ (S ++ tail) := by
    rw [List.drop_append_of_le_length hale, drop_takeWhile_length, ← hS, List.append_assoc]
  have hR : S ++ tail ≠ [] ∨ (trimSpaces P).getLast? = some 0 := by
    by_cases hS0 : S = []
    · rcases hend with h | h
      · left; simp [h]
      · right
        subst hS0
        rw [List.append_nil] at hS
        rw [hS]
        exact getLast?_dropWhile _ 0 (by decide) P h
    · left; simp [hS0]
  have hfin := render_cstring (P ++ tail) (P.takeWhile (· == SPACE)).length (trimSpaces P)
    (S ++ tail) hbuf (by simp only [List.length_append]; omega) hR
  unfold operator_shl
  simp only [if_neg hUN, if_neg hLT, hD, hVL, hskip, Option.some_bind, hdrop]
  exact hfin

/-- The loop of the IS branch formats the elements cast to `int`. -/
theorem writeIS_cast (fe : FloatEnv) (T : NumType) : ∀ (data : List Int) (buf : List Nat)
    (cp : Nat),
    writeIS fe T data buf cp = writeIS fe .int (data.map (castTo fe .int T)) buf cp
  | [], _, _ => rfl
  | x :: xs, buf, cp => by
    have hc : castTo fe .int .int (castTo fe .int T x) = castTo fe .int T x := by
      simp [castTo]
    simp only [writeIS, List.map_cons, hc]
    congr 1
    funext b1
    congr 1
    funext b2
    exact writeIS_cast fe T xs b2 _

/-- The end of the DS and IS branches keeps the size of the buffer: the
text `B`, an optional pad space, the NUL, and what was there before. -/
theorem finishText_layout (v0 : Value Item Val) (n : Nat) (B : List Nat) (j : Nat)
    (J : List Nat) :
    ∃ (v : Value Item Val) (pad junk : List Nat),
      finishText v0 n (B ++ BACKSLASH :: j :: J) (B.length + 1) = some (some v) ∧
      v.Data = .chars (B ++ pad ++ 0 :: junk) ∧ (pad = [] ∨ pad = [SPACE]) ∧
      (B ++ pad ++ 0 :: junk).length = (B ++ BACKSLASH :: j :: J).length := by
  have hcp : (if B.length + 1 ≠ 0 then B.length + 1 - 1 else B.length + 1) = B.length := by
    simp
  rw [finishText]
  simp only [hcp]
  by_cases hodd : B.length % UINT_RANGE % 2 = 1
  · rw [if_pos hodd, overwrite_at_end SPACE B BACKSLASH (j :: J)]
    simp only [Option.some_bind]
    rw [overwrite_at_end1 0 B SPACE j J]
    exact ⟨_, [SPACE], J, rfl, by simp, Or.inr rfl, by simp⟩
  · rw [if_neg hodd, overwrite_at_end 0 B BACKSLASH (j :: J)]
    exact ⟨_, [], j :: J, rfl, by simp, Or.inl rfl, by simp⟩

theorem set_same {α : Type} (a : α) : ∀ (l : List α) (i : Nat), l.get? i = some a →
    l.set i a = l
  | [], _, h => by simp at h
  | x :: xs, 0, h => by
    simp only [List.get?_cons_zero, Option.some.injEq] at h
    subst h
    rfl
  | x :: xs, i + 1, h => by
    simp only [List.get?_cons_succ] at h
    simp only [List.set_cons_succ, set_same a xs i h]

/-- Replacing one handle in a list of handles changes two counts. -/
theorem count_set (a b c : Handle) :
    ∀ (l : List Handle) (i : Nat), l.get? i = some a →
      (l.set i b).count c + (if a = c then 1 else 0) =
        l.count c + (if b = c then 1 else 0)
  | [], _, h => by simp at h
  | x :: xs, 0, h => by
    simp only [List.get?_cons_zero, Option.some.injEq] at h
    subst h
    simp only [List.set_cons_zero, List.count_cons, beq_iff_eq]
    omega
  | x :: xs, i + 1, h => by
    simp only [List.get?_cons_succ] at h
    have ih := count_set a b c xs i h
    simp only [List.set_cons_succ, List.count_cons]
    omega

theorem CapacityFits.spec {n c : Nat} (h : CapacityFits n c) :
    n ≤ c ∧ (n ≤ 2 → c = 2) ∧
    (2 < n → (∃ k, c = 2 ^ k) ∧ ∀ k, n ≤ 2 ^ k → c ≤ 2 ^ k) := by
  obtain ⟨j, hj, rfl, hle, hmin⟩ := h
  refine ⟨hle, fun h2 => ?_, fun h2 => ⟨⟨j, rfl⟩, fun k hk => ?_⟩⟩
  · rcases hmin with rfl | hmin
    · rfl
    · by_cases hj1 : j = 1
      · subst hj1; rfl
      · have := two_le_pow (j - 1) (by omega)
        exfalso
        omega
  · rcases hmin with rfl | hmin
    · omega
    · by_contra hc
      have e1 : 2 ^ k < 2 ^ j := by omega
      have e2 : k < j := (Nat.pow_lt_pow_iff_right (by norm_num : 1 < 2)).1 e1
      have e3 : 2 ^ k ≤ 2 ^ (j - 1) := Nat.pow_le_pow_right (by norm_num) (by omega)
      omega

/-- The reallocating branch of `AppendValue` leaves the other allocations
as they are and takes one new address. -/
theorem AppendValue_realloc_frame (emptyItem : Item) (heap : Heap Item Val) (p : Nat)
    (v : Value Item Val) (d : List Item) (item : Item)
    (hp : heap.deref p = some v) (hd : v.Data = .items d) (hrc : 1 ≤ v.ReferenceCount)
    (hcap : v.NumberOfValues ≤ d.length) (hn : v.NumberOfValues + 1 < UINT_RANGE)
    (hgt : v.NumberOfValues < newCapacity v) :
    ∃ heap1, AppendValue emptyItem heap (some p) item = some (some heap.length, heap1) ∧
      heap1.length = heap.length + 1 ∧
      ∀ q, q ≠ p → q < heap.length → heap1.deref q = heap.deref q := by
  have hlt := deref_lt heap p v hp
  obtain ⟨rc, cs, vr, vl, n, dat⟩ := v
  dsimp only at hd hrc hcap hn hgt ⊢
  subst hd
  generalize hcapn : newCapacity
    ({ ReferenceCount := rc, CharacterSet := cs, VR := vr, VL := vl, NumberOfValues := n,
       Data := .items d } : Value Item Val) = nn at hgt ⊢
  have hnn : nn ≠ 0 := by omega
  have hmod : n % UINT_RANGE = n := Nat.mod_eq_of_lt (by omega)
  have hmod1 : (n + 1) % UINT_RANGE = n + 1 := Nat.mod_eq_of_lt hn
  have h1 := deref_store_same heap p
    ({ ReferenceCount := rc + 1, CharacterSet := cs, VR := vr, VL := vl, NumberOfValues := n,
       Data := .items d } : Value Item Val) hlt
  obtain ⟨heap2, r1, l1, d1, f1⟩ := release_spec _ p _ h1
  simp only [Nat.add_sub_cancel] at d1
  rw [if_neg (by omega)] at d1
  obtain ⟨heap3, r2, l2, d2, f2⟩ := release_spec heap2 p _ d1
  rw [length_store] at l1
  have hread : readArray d n = some (d.take n) := by
    simp [readArray, hcap]
  have hlen : (d.take n).length = n := by
    simp [hcap]
  have hslots : slots nn emptyItem =
      List.replicate ((d.take n).length + ((nn - n - 1) + 1)) emptyItem := by
    rw [hlen]
    simp only [slots, slotCount, if_neg hnn]
    congr 1; omega
  have hcopy := overwrite_replicate_succ emptyItem (d.take n) ((nn - n - 1) + 1)
  rw [← hslots, List.replicate_succ] at hcopy
  have hput := overwrite_at_end item (d.take n) emptyItem
    (List.replicate (nn - n - 1) emptyItem)
  rw [hlen] at hput
  obtain ⟨nv, hnv⟩ : ∃ nv : Value Item Val, nv =
      { ReferenceCount := 1, CharacterSet := 0, VR := vr, VL := VL_UNDEFINED,
        NumberOfValues := n + 1,
        Data := .items (d.take n ++ item :: List.replicate (nn - n - 1) emptyItem) } :=
    ⟨_, rfl⟩
  refine ⟨(heap3.alloc nv).2, ?_, ?_, ?_⟩
  · simp only [AppendValue, hp, Option.some_bind, hcapn, ne_eq, hnn, not_false_eq_true, if_true,
      Clear, r1, hread, hcopy, r2, hmod, hput, Option.map_some', hmod1, Heap.alloc, l2, l1,
      AllocateSequenceData, ValueT, hnv]
  · simp [Heap.alloc, l2, l1]
  · intro q hq hql
    rw [deref_alloc_old heap3 _ q (by omega), f2 q hq, f1 q hq, deref_store_ne heap p q _ hq]

/-- One append through a handle whose allocation has a fitting capacity: the allocation the handle has afterwards is not shared and
has a fitting capacity again; either it is the old one, which was not
shared, or a new one, and then the old one has lost one reference. -/
theorem AppendValue_tracked (emptyItem : Item) (heap : Heap Item Val) (p : Nat)
    (v : Value Item Val) (d : List Item) (item : Item)
    (hp : heap.deref p = some v) (hd : v.Data = .items d)
    (hrc : 1 ≤ v.ReferenceCount) (hfit : CapacityFits v.NumberOfValues d.length)
    (hn : v.NumberOfValues + 1 < UINT_RANGE) :
    ∃ (q : Nat) (heap1 : Heap Item Val) (v1 : Value Item Val) (d1 : List Item),
      AppendValue emptyItem heap (some p) item = some (some q, heap1) ∧
      heap.length ≤ heap1.length ∧
      heap1.deref q = some v1 ∧ v1.Data = .items d1 ∧ v1.VL = VL_UNDEFINED ∧
      v1.ReferenceCount = 1 ∧ v1.NumberOfValues = v.NumberOfValues + 1 ∧
      CapacityFits (v.NumberOfValues + 1) d1.length ∧
      ((q = p ∧ v.ReferenceCount = 1) ∨
       (q = heap.length ∧ heap1.deref p = (if v.ReferenceCount = 1 then none
          else some { v with ReferenceCount := v.ReferenceCount - 1 }))) ∧
      (∀ r, r ≠ p → r < heap.length → heap1.deref r = heap.deref r) ∧
      d1.get? v.NumberOfValues = some item := by
  obtain ⟨j, hj, hlen, hle, hmin⟩ := hfit
  have hlt := deref_lt heap p v hp
  have h2j := two_le_pow j hj
  rcases newCapacity_cases v with ⟨h0, hrc1, _, hnp⟩ | ⟨hgt, k, hk, hpow⟩
  · -- in place
    have hlt2 : v.NumberOfValues < d.length := by
      rcases Nat.lt_or_ge v.NumberOfValues d.length with h | h
      · exact h
      · exfalso
        have e : v.NumberOfValues = 2 ^ j := by omega
        apply hnp
        refine ⟨by omega, ?_⟩
        rw [e]
        exact and_pred_pow_two j
    refine ⟨p, _, _, _, AppendValue_inplace emptyItem heap p v d item hp hd h0 hlt2 hn,
      by rw [length_store], deref_store_same heap p _ hlt, rfl, rfl, hrc1, rfl, ?_,
      Or.inl ⟨rfl, hrc1⟩, fun r hr _ => deref_store_ne heap p r _ hr, by
        have h := get?_append_len0 (d.take v.NumberOfValues) item
          (d.drop (v.NumberOfValues + 1))
        rwa [List.length_take, Nat.min_eq_left (by omega)] at h⟩
    refine ⟨j, hj, ?_, ?_, ?_⟩
    · simp only [List.length_append, List.length_take, List.length_cons, List.length_drop]
      omega
    · simp only [List.length_append, List.length_take, List.length_cons, List.length_drop]
      omega
    · rcases hmin with h | h
      · exact Or.inl h
      · exact Or.inr (by omega)
  · -- moved to a new allocation
    have hcap : v.NumberOfValues ≤ d.length := by omega
    obtain ⟨heap1, e1, e2, e3⟩ := AppendValue_realloc emptyItem heap p v d item hp hd hrc hcap
      hn hgt
    obtain ⟨heap1', e1', l1, f1⟩ := AppendValue_realloc_frame emptyItem heap p v d item hp hd
      hrc hcap hn hgt
    have hh : heap1' = heap1 := by
      rw [e1] at e1'
      simp only [Option.some.injEq, Prod.mk.injEq, true_and] at e1'
      exact e1'.symm
    subst hh
    have hc : (d.take v.NumberOfValues ++ item ::
        List.replicate (newCapacity v - v.NumberOfValues - 1) emptyItem).length
          = newCapacity v := by
      simp only [List.length_append, List.length_take, List.length_cons, List.length_replicate]
      omega
    refine ⟨heap.length, heap1', _, _, e1, by omega, e2, rfl, rfl, rfl, rfl, ?_,
      Or.inr ⟨rfl, e3⟩, f1, by
        have h := get?_append_len0 (d.take v.NumberOfValues) item
          (List.replicate (newCapacity v - v.NumberOfValues - 1) emptyItem)
        rwa [List.length_take, Nat.min_eq_left hcap] at h⟩
    rw [hc]
    refine ⟨k, hk, hpow, by omega, ?_⟩
    by_cases hs : v.ReferenceCount ≠ 1 ∨ v.VL ≠ VL_UNDEFINED
    · obtain ⟨_, _, hleast⟩ := newCapacity_shared v hs
      by_cases hk1 : k = 1
      · exact Or.inl hk1
      · right
        by_contra hc2
        have h3 := hleast (k - 1) (by omega) (by omega)
        have e4 : 2 ^ k = 2 * 2 ^ (k - 1) := by
          rw [← pow_succ']
          congr 1
          omega
        have := Nat.one_le_two_pow (n := k - 1)
        omega
    · push_neg at hs
      have hnc : newCapacity v = 2 * v.NumberOfValues := by
        unfold newCapacity at hgt ⊢
        dsimp only at hgt ⊢
        rw [if_neg (by simp [hs.1, hs.2])] at hgt ⊢
        split_ifs at hgt ⊢ with hc3
        · rfl
        · omega
      right
      have e4 : 2 ^ k = 2 * 2 ^ (k - 1) := by
        rw [← pow_succ']
        congr 1
        omega
      omega

theorem tracked_succ {k : Nat} {st : List Handle × Heap Item Val} (h : Tracked k st) :
    Tracked (k + 1) st := by
  intro x hx
  obtain ⟨p, v, d, e1, e2, e3, e4, e5, e6⟩ := h x hx
  exact ⟨p, v, d, e1, e2, e3, e4, by omega, e6⟩

/-- One operation keeps the handles tracked; it cannot fail. -/
theorem stepOp_tracked (emptyItem : Item) (k : Nat) (st : List Handle × Heap Item Val)
    (op : SeqOp Item) (h : Tracked k st) (hk : k + 1 < UINT_RANGE) :
    ∃ st1, stepOp emptyItem st op = some st1 ∧ Tracked (k + 1) st1 := by
  obtain ⟨hs, heap⟩ := st
  cases op with
  | copy i =>
    cases hget : hs.get? i with
    | none => exact ⟨(hs, heap), by simp only [stepOp, hget], tracked_succ h⟩
    | some x =>
      obtain ⟨p, v, d, rfl, hp, hd, hrc, hn, hfit⟩ := h x (List.get?_mem hget)
      have hlt := deref_lt heap p v hp
      refine ⟨(hs ++ [some p],
        heap.store p { v with ReferenceCount := v.ReferenceCount + 1 }), ?_, ?_⟩
      · dsimp only at hp
        simp only [stepOp, hget, copyHandle, hp, Option.map_some']
      · intro y hy
        have hy1 : y ∈ hs := by
          rcases List.mem_append.1 hy with hy | hy
          · exact hy
          · simp only [List.mem_singleton] at hy
            rw [hy]
            exact List.get?_mem hget
        obtain ⟨q, w, e, rfl, hq, he, hrcq, hnq, hfitq⟩ := h y hy1
        by_cases hqp : q = p
        · subst hqp
          rw [hp] at hq
          simp only [Option.some.injEq] at hq
          subst hq
          refine ⟨q, _, e, rfl, deref_store_same heap q _ hlt, he, ?_, by
            show v.NumberOfValues ≤ k + 1
            omega, hfitq⟩
          show v.ReferenceCount + 1 = List.count (some q) (hs ++ [some q])
          rw [List.count_append, List.count_singleton_self]
          dsimp only at hrcq
          omega
        · refine ⟨q, w, e, rfl, ?_, he, ?_, by omega, hfitq⟩
          · exact (deref_store_ne heap p q _ hqp).trans hq
          · show w.ReferenceCount = List.count (some q) (hs ++ [some p])
            rw [List.count_append, List.count_singleton]
            have : ((some p : Handle) == some q) = false := by
              simp only [beq_eq_false_iff_ne, ne_eq, Option.some.injEq]
              exact fun e => hqp e.symm
            rw [this]
            dsimp only at hrcq
            simp only [Bool.false_eq_true, if_false, Nat.add_zero]
            exact hrcq
  | append i x =>
    cases hget : hs.get? i with
    | none => exact ⟨(hs, heap), by simp only [stepOp, hget], tracked_succ h⟩
    | some y =>
      obtain ⟨p, v, d, rfl, hp, hd, hrc, hn, hfit⟩ := h y (List.get?_mem hget)
      dsimp only at hp hrc
      have hmem : (some p : Handle) ∈ hs := List.get?_mem hget
      have hpos : 0 < hs.count (some p) := List.count_pos_iff.2 hmem
      obtain ⟨q, heap1, v1, d1, e1, hlen, hq, hd1, _, hrc1, hn1, hfit1, hcase, hframe, _⟩ :=
        AppendValue_tracked emptyItem heap p v d x hp hd (by omega) hfit (by omega)
      refine ⟨(hs.set i (some q), heap1), by simp only [stepOp, hget, e1, Option.map_some'], ?_⟩
      rcases hcase with ⟨rfl, hone⟩ | ⟨rfl, hold⟩
      · -- in place
        rw [set_same (some q) hs i hget]
        intro z hz
        obtain ⟨r, w, e, rfl, hr, he, hrcr, hnr, hfitr⟩ := h z hz
        dsimp only at hr hrcr
        by_cases hrq : r = q
        · subst hrq
          exact ⟨r, v1, d1, rfl, hq, hd1, by
            show v1.ReferenceCount = hs.count (some r)
            omega, by omega, by rw [hn1]; exact hfit1⟩
        · exact ⟨r, w, e, rfl, (hframe r hrq (deref_lt heap r w hr)).trans hr, he, hrcr,
            by omega, hfitr⟩
      · -- moved
        have hnew : (some heap.length : Handle) ∉ hs := by
          intro hm
          obtain ⟨r, w, e, er, hr, _⟩ := h _ hm
          simp only [Option.some.injEq] at er
          subst er
          have := deref_lt heap _ w hr
          omega
        have hpl := deref_lt heap p v hp
        intro z hz
        have hcount := fun c => count_set (some p : Handle) (some heap.length) c hs i hget
        rcases List.mem_or_eq_of_mem_set hz with hz1 | rfl
        · obtain ⟨r, w, e, rfl, hr, he, hrcr, hnr, hfitr⟩ := h z hz1
          dsimp only at hr hrcr
          have hrl := deref_lt heap r w hr
          have hc := hcount (some r)
          have hzpos : 0 < (hs.set i (some heap.length)).count (some r) :=
            List.count_pos_iff.2 hz
          have hb : ¬ ((some heap.length : Handle) = some r) := by
            simp only [Option.some.injEq]; omega
          rw [if_neg hb] at hc
          by_cases hrp : r = p
          · subst hrp
            rw [hp] at hr
            simp only [Option.some.injEq] at hr
            subst hr
            rw [if_pos rfl] at hc
            rw [if_neg (by omega)] at hold
            exact ⟨r, _, e, rfl, hold, he, by
              show v.ReferenceCount - 1 = (hs.set i (some heap.length)).count (some r)
              omega, by
              show v.NumberOfValues ≤ k + 1
              omega, hfitr⟩
          · have ha : ¬ ((some p : Handle) = some r) := by
              simp only [Option.some.injEq]; exact fun e => hrp e.symm
            rw [if_neg ha] at hc
            exact ⟨r, w, e, rfl, (hframe r hrp hrl).trans hr, he, by
              show w.ReferenceCount = (hs.set i (some heap.length)).count (some r)
              omega, by omega, hfitr⟩
        · have hc := hcount (some heap.length)
          have ha : ¬ ((some p : Handle) = some heap.length) := by
            simp only [Option.some.injEq]; omega
          rw [if_neg ha, if_pos rfl, List.count_eq_zero.2 hnew] at hc
          exact ⟨heap.length, v1, d1, rfl, hq, hd1, by
            show v1.ReferenceCount = (hs.set i (some heap.length)).count (some heap.length)
            omega, by omega, by rw [hn1]; exact hfit1⟩

/-- A run of operations keeps the handles tracked; it cannot fail. -/
theorem runOps_tracked (emptyItem : Item) : ∀ (ops : List (SeqOp Item)) (k : Nat)
    (st : List Handle × Heap Item Val), Tracked k st → k + ops.length < UINT_RANGE →
    ∃ st1, runOps emptyItem ops st = some st1 ∧ Tracked (k + ops.length) st1
  | [], k, st, h, _ => ⟨st, rfl, h⟩
  | op :: ops, k, st, h, hk => by
    simp only [List.length_cons] at hk
    obtain ⟨st1, e1, h1⟩ := stepOp_tracked emptyItem k st op h (by omega)
    obtain ⟨st2, e2, h2⟩ := runOps_tracked emptyItem ops (k + 1) st1 h1 (by omega)
    refine ⟨st2, by simp [runOps, e1, e2], ?_⟩
    simp only [List.length_cons]
    have e : k + (ops.length + 1) = k + 1 + ops.length := by omega
    rw [e]
    exact h2

/-- The state after `AppendInit` is tracked. -/
theorem AppendInit_tracked (emptyItem : Item) (heap : Heap Item Val) (h0 : Handle)
    (vr : vtkDICOMVR) (st0 : Handle × Heap Item Val)
    (hinit : AppendInit emptyItem heap h0 vr = some st0) :
    Tracked 0 ([st0.1], st0.2) := by
  simp only [AppendInit, Option.map_eq_some'] at hinit
  obtain ⟨heap1, _, rfl⟩ := hinit
  intro x hx
  simp only [List.mem_singleton] at hx
  subst hx
  refine ⟨heap1.length, _, _, rfl, deref_alloc_new heap1 _, rfl, ?_, le_refl _, ?_⟩
  · simp [AllocateSequenceData, ValueT, Heap.alloc]
  · exact ⟨1, le_refl _, by simp [slots, slotCount], by simp, Or.inl rfl⟩

theorem trimSpaces_no_nul (s : List Nat) (h : 0 ∉ s) :
    (trimSpaces s).rdropWhile (· == 0) = trimSpaces s :=
  rdropWhile_nul_of_not_mem _ fun hm => h (trimSpaces_subset s 0 hm)

theorem dropWhile_concat_neg (p : Nat → Bool) (x : Nat) (hx : p x = false) :
    ∀ l : List Nat, (l ++ [x]).dropWhile p = l.dropWhile p ++ [x]
  | [] => by simp [List.dropWhile, hx]
  | a :: l => by
    by_cases ha : p a = true
    · simp only [List.cons_append, List.dropWhile_cons_of_pos ha]
      exact dropWhile_concat_neg p x hx l
    · simp only [List.cons_append, List.dropWhile_cons_of_neg ha]

/-- A payload that ends in a pad NUL: the spaces in front of the NUL are not
trailing spaces of the payload, so they stay. -/
theorem trimSpaces_nul_pad (s : List Nat) (h : 0 ∉ s) :
    (trimSpaces (s ++ [0])).rdropWhile (· == 0) = s.dropWhile (· == SPACE) := by
  unfold trimSpaces
  rw [dropWhile_concat_neg (· == SPACE) 0 (by decide) s,
    List.rdropWhile_concat_neg _ _ _ (by decide),
    List.rdropWhile_concat_pos _ _ _ (by decide)]
  exact rdropWhile_nul_of_not_mem _ fun hm => h ((List.dropWhile_suffix _).subset hm)

/-- The loop of `skipValue` on memory that holds a NUL further on: it stops
at the latest there. -/
theorem skipValue_nul : ∀ (c : Nat) (cp : List Nat), c ≠ 0 → 0 ∈ cp →
    ∃ cp1, skipValue (c :: cp) = some cp1 ∧ 0 ∈ cp1
  | c, [], _, h => by simp at h
  | c, d :: t, hc, h => by
    by_cases hb : c = BACKSLASH
    · exact ⟨d :: t, by simp [skipValue, hb], h⟩
    · by_cases hd : d = 0
      · exact ⟨d :: t, by simp [skipValue, hb, hd], h⟩
      · have ht : 0 ∈ t := by
          rcases List.mem_cons.1 h with h0 | h0
          · exact absurd h0.symm hd
          · exact h0
        obtain ⟨cp1, e, h1⟩ := skipValue_nul d t hd ht
        exact ⟨cp1, by rw [skipValue]; simp only [hb, if_false, ne_eq, hd, not_false_eq_true,
          if_true, e], h1⟩

/-- The second loop of `StringConversion` on memory that holds a NUL: it
ends, with at most `k` values written. -/
theorem convertValues_nul (conv : List Nat → Int) : ∀ (k : Nat) (cp : List Nat), 0 ∈ cp →
    ∃ w, convertValues conv k cp = some w ∧ w.length ≤ k
  | 0, _, _ => ⟨[], by simp [convertValues], le_refl _⟩
  | k + 1, [], h => by simp at h
  | k + 1, c :: t, h => by
    by_cases hc : c = 0
    · exact ⟨[], by simp [convertValues, hc], Nat.zero_le _⟩
    · have ht : 0 ∈ t := by
        rcases List.mem_cons.1 h with h0 | h0
        · exact absurd h0.symm hc
        · exact h0
      obtain ⟨cp1, e, h1⟩ := skipValue_nul c t hc ht
      obtain ⟨w, ew, hw⟩ := convertValues_nul conv k cp1 h1
      refine ⟨conv (c :: t) :: w, ?_, by simp only [List.length_cons]; omega⟩
      rw [convertValues]
      simp only [ne_eq, hc, not_false_eq_true, if_true, e, Option.some_bind, ew,
        Option.map_some']

theorem overwrite_slots_le {α : Type} (x : α) (n : Nat) (w : List α) (h : w.length ≤ n) :
    ∃ c, overwrite (slots n x) 0 w = some c :=
  ⟨_, overwrite_zero_replicate x (slotCount n) w (by unfold slotCount; split_ifs <;> omega)⟩

/-- The array constructor builds a value for the resolved forms of OX and XS:
bytes (OB), words (OW, for an element type of even size), US and SS. -/
theorem CreateValueAs_exists (fe : FloatEnv) (raw : Nat) (T : NumType) (vr : vtkDICOMVR)
    (data : List Int) (n : Nat) (hn : n ≤ data.length)
    (hvr : vr = .OB ∨ (vr = .OW ∧ T ≠ .uchar) ∨ vr = .US ∨ vr = .SS) :
    ∃ v : Value Item Val, CreateValueAs fe raw T vr data n = some (some v) := by
  have hread : readArray data n = some (data.take n) := by simp [readArray, hn]
  have hlen : (data.take n).length = n := by simp [hn]
  have hbytes : (objectBytes T (data.take n)).length = n * T.sizeof := by
    rw [objectBytes_length, hlen]
  rcases hvr with rfl | ⟨rfl, hT⟩ | rfl | rfl
  · obtain ⟨b1, hb1⟩ := overwrite_slots_le raw (n * T.sizeof + n * T.sizeof % 2)
      (objectBytes T (data.take n)) (by omega)
    have hb1l := (overwrite_length _ _ _ _ hb1).1
    by_cases hpad : n * T.sizeof % 2 ≠ 0
    · obtain ⟨b2, hb2, _⟩ := overwrite_one b1 (n * T.sizeof) 0 (by
        rw [hb1l]; simp only [slots, List.length_replicate, slotCount]; split_ifs <;> omega)
      exact ⟨_, by simp only [CreateValueAs, reduceCtorEq, if_false, true_or, if_true, hread,
        Option.some_bind, hb1, hpad, ne_eq, not_false_eq_true, hb2, Option.map_some']; rfl⟩
    · exact ⟨_, by simp only [CreateValueAs, reduceCtorEq, if_false, true_or, if_true, hread,
        Option.some_bind, hb1, hpad, Option.map_some']; rfl⟩
  · by_cases hvt : T.VTKTypeID = some .VTK_UNSIGNED_SHORT
    · have hsz : T.sizeof = 2 := by
        cases T <;> simp [NumType.VTKTypeID] at hvt
        rfl
      obtain ⟨c, hc⟩ : ∃ c, overwrite (List.replicate (2 * slotCount n) raw) 0
          (objectBytes T (data.take n)) = some c :=
        ⟨_, overwrite_zero_replicate raw _ _ (by
          rw [hbytes, hsz]; unfold slotCount; split_ifs <;> omega)⟩
      exact ⟨_, by simp only [CreateValueAs, reduceCtorEq, if_false, false_or, or_false,
        if_true, hvt, hread, Option.some_bind, memcpyToSlots, hc, Option.map_some']; rfl⟩
    · have hsz : T.sizeof % 2 = 0 := by cases T <;> first | rfl | exact absurd rfl hT
      obtain ⟨c, hc⟩ : ∃ c, overwrite
          (List.replicate (2 * slotCount (n * T.sizeof / 2)) raw) 0
          (objectBytes T (data.take n)) = some c :=
        ⟨_, overwrite_zero_replicate raw _ _ (by
          rw [hbytes]
          have : n * T.sizeof % 2 = 0 := by
            rw [Nat.mul_mod, hsz]; simp
          unfold slotCount; split_ifs <;> omega)⟩
      exact ⟨_, by simp only [CreateValueAs, reduceCtorEq, if_false, false_or, or_false,
        if_true, hvt, hread, Option.some_bind, memcpyToSlots, hc, Option.map_some']; rfl⟩
  · obtain ⟨c, hc⟩ := overwrite_slots_le (rawSlot 2 raw) n
      ((NumericalConversion fe .ushort T (data.take n)).map Int.toNat)
      (by simp [NumericalConversion, hlen])
    exact ⟨_, by simp only [CreateValueAs, reduceCtorEq, if_false, if_true, hread,
      Option.some_bind, hc, Option.map_some']; rfl⟩
  · obtain ⟨c, hc⟩ := overwrite_slots_le (toSigned 16 (rawSlot 2 raw)) n
      (NumericalConversion fe .short T (data.take n))
      (by simp [NumericalConversion, hlen])
    exact ⟨_, by simp only [CreateValueAs, reduceCtorEq, if_false, if_true, hread,
      Option.some_bind, hc, Option.map_some']; rfl⟩

/-- The storage that `CreateValue<char>` gives the abstract VRs: bytes for
OX, shorts for XS. -/
theorem CreateValue_char_abstract (fe : FloatEnv) (raw : Nat) (vr : vtkDICOMVR)
    (data : List Nat) (m : Nat) (v : Value Item Val)
    (h : CreateValue_char fe raw vr data m = some (some v)) :
    (vr = .OX → ∃ d, v.Data = .uchars d) ∧ (vr = .XS → ∃ d, v.Data = .shorts d) := by
  refine ⟨?_, ?_⟩
  · rintro rfl
    simp only [CreateValue_char, reduceCtorEq, false_or, or_false, or_true, if_false, if_true,
      Option.bind_eq_some, Option.map_eq_some', Option.some.injEq] at h
    obtain ⟨_, _, _, _, _, _, rfl⟩ := h
    exact ⟨_, rfl⟩
  · rintro rfl
    simp only [CreateValue_char, reduceCtorEq, false_or, or_false, or_true, if_false, if_true,
      Option.bind_eq_some, Option.map_eq_some', Option.some.injEq] at h
    obtain ⟨_, _, _, _, _, _, rfl⟩ := h
    exact ⟨_, rfl⟩

/-- The constructor from characters builds a value for OX from any `m`
bytes, and for XS when the memory holds a NUL, at which the conversion
ends. -/
theorem CreateValue_char_exists (fe : FloatEnv) (raw : Nat) (data : List Nat) (m : Nat)
    (hm : m ≤ data.length) :
    (∃ v : Value Item Val, CreateValue_char fe raw .OX data m = some (some v)) ∧
    (0 ∈ data → ∃ v : Value Item Val, CreateValue_char fe raw .XS data m = some (some v)) := by
  have hread : readArray data m = some (data.take m) := by simp [readArray, hm]
  have hlen : (data.take m).length = m := by simp [hm]
  refine ⟨?_, fun h0 => ?_⟩
  · obtain ⟨b1, hb1⟩ := overwrite_slots_le raw (m + m % 2) (data.take m) (by omega)
    have hb1l := (overwrite_length _ _ _ _ hb1).1
    by_cases hpad : m % 2 ≠ 0
    · obtain ⟨b2, hb2, _⟩ := overwrite_one b1 m 0 (by
        rw [hb1l]; simp only [slots, List.length_replicate, slotCount]; split_ifs <;> omega)
      exact ⟨_, by simp only [CreateValue_char, reduceCtorEq, false_or, or_false, or_true,
        if_false, if_true, hread, Option.some_bind, hb1, hpad, ne_eq, not_false_eq_true, hb2,
        Option.map_some']; rfl⟩
    · exact ⟨_, by simp only [CreateValue_char, reduceCtorEq, false_or, or_false, or_true,
        if_false, if_true, hread, Option.some_bind, hb1, hpad, Option.map_some']; rfl⟩
  · obtain ⟨w, hw, hwl⟩ := convertValues_nul
      (fun cp2 => castTo fe .short .long (strtol cp2))
      ((if m > 0 then 1 else 0) + (data.take m).count BACKSLASH) data h0
    obtain ⟨c, hc⟩ := overwrite_slots_le (toSigned 16 (rawSlot 2 raw))
      ((if m > 0 then 1 else 0) + (data.take m).count BACKSLASH) w hwl
    exact ⟨_, by simp only [CreateValue_char, reduceCtorEq, false_or, or_false, or_true,
      if_false, if_true, hread, Option.some_bind, StringConversion, true_or, skipValues, hw,
      hc, Option.map_some']; rfl⟩

/-! ## The claims -/

/-- C1 (evaluation at the failing input): two values with VR AT, each built
from one tag and held in its own allocation, agree on VR, VL, storage type
and element count and differ in their single element, (0008,0018) against
(0008,0019); `operator==` nevertheless returns true, because its switch on
the storage type has no case for tags. -/
theorem C1_tag_elements_not_compared :
    operator_eq (fun (_ _ : Unit) => true) (fun (_ _ : Unit) => true)
      (construct (construct ([] : Heap Unit Unit)
          (CreateValue_Tag 0 .AT [vtkDICOMTag.ofGroupElement 8 0x18] 1).join).2
        (CreateValue_Tag 0 .AT [vtkDICOMTag.ofGroupElement 8 0x19] 1).join).2
      (some 0) (some 1) = some true := by
  decide

/-- C2: for every array `data` of 32-bit signed ints (with `n*sizeof(int)`
below 0xffffffff, as `CreateValue` asserts), the value built with VR IS is
valid, has element count `n`, and `GetInt(i)` returns `data[i]` for every
`i < n`; the IS value built from `[7]` read at index 0 with
`GetUnsignedShort` gives 7. -/
theorem C2_integer_string_roundtrip (fe : FloatEnv) (raw : Nat) (data rest : List Int)
    (hr : ∀ x ∈ data, NumType.inRange .int x) (hn : data.length * 4 < 4294967295) :
    ∃ v : Value Item Val,
      CreateValue fe raw .int .IS (data ++ rest) data.length = some (some v) ∧
      v.VR = .IS ∧ v.NumberOfValues = data.length ∧
      (∀ (i : Nat) (hi : i < data.length), GetInt fe (some v) i = some data[i]) ∧
      (data = [7] → GetUnsignedShort fe (some v) 0 = some 7) := by
  obtain ⟨v, tail, h1, h2, _, h4, h5, h6⟩ := @CreateValue_IS Item Val
    fe raw data rest hr hn
  have hlong : ∀ (i : Nat) (hi : i < data.length),
      LONG_MIN ≤ data[i] ∧ data[i] ≤ LONG_MAX := fun i hi => by
    have := hr data[i] (List.getElem_mem hi)
    simp [NumType.inRange, NumType.isSigned, NumType.sizeof] at this
    simp only [LONG_MIN, LONG_MAX]
    omega
  refine ⟨v, h1, h2, h4, ?_, ?_⟩
  · intro i hi
    rw [GetInt, GetScalar_IS fe .int v data tail h2 h4 h5 h6 i hi (hlong i hi).1 (hlong i hi).2,
      castTo_int_long fe _ (hr _ (List.getElem_mem hi))]
  · intro h7
    subst h7
    rw [GetUnsignedShort, GetScalar_IS fe .ushort v [7] tail h2 h4 h5 h6 0 (by simp)
      (by decide) (by decide)]
    simp [castTo, NumType.isFloating, NumType.isSigned, toUnsigned, NumType.sizeof]

/-- Witness for C2 at the array `[7, -12]`. -/
theorem C2_integer_string_roundtrip_witness :
    (∀ x ∈ ([7, -12] : List Int), NumType.inRange .int x) ∧
    ([7, -12] : List Int).length * 4 < 4294967295 ∧
    ∃ v : Value Unit Unit,
      CreateValue FloatEnv.trivial 0 .int .IS ([7, -12] ++ []) 2 = some (some v) ∧
      v.NumberOfValues = 2 ∧ GetInt FloatEnv.trivial (some v) 1 = some (-12) :=
  have hr : ∀ x ∈ ([7, -12] : List Int), NumType.inRange .int x := by
    intro x hx
    simp only [List.mem_cons, List.mem_singleton, List.not_mem_nil, or_false] at hx
    rcases hx with rfl | rfl <;>
      simp [NumType.inRange, NumType.isSigned, NumType.sizeof]
  ⟨hr, by decide,
    (C2_integer_string_roundtrip FloatEnv.trivial 0 [7, -12] [] hr (by decide)).elim
      fun v h => ⟨v, h.1, h.2.2.1, h.2.2.2.1 1 (by decide)⟩⟩

/-- C3: for each of the VRs US, SS, UL, SL and a source array of the native
type of that VR (unsigned short, short, unsigned int, int) with `n`
elements, the constructed value has that VR and storage type, element count
`n` and `VL = n * sizeof(T)`, and `GetValues` into an array of the same type
with start 0 and count `n` gives back the source array. -/
theorem C3_binary_integer_roundtrip (fe : FloatEnv) (raw : Nat) (vr : vtkDICOMVR)
    (T : NumType) (data rest out : List Int)
    (hvr : nativeType vr = some T)
    (hr : ∀ x ∈ data, T.inRange x)
    (hn : data.length * T.sizeof < 4294967295)
    (hout : out.length = data.length) :
    ∃ v : Value Item Val,
      CreateValue fe raw T vr (data ++ rest) data.length = some (some v) ∧
      v.VR = vr ∧ some v.Type = T.VTKTypeID ∧
      v.NumberOfValues = data.length ∧ v.VL = data.length * T.sizeof ∧
      GetValues fe T (some v) out data.length 0 = some data := by
  have hcases : (vr = .US ∧ T = .ushort) ∨ (vr = .SS ∧ T = .short) ∨
      (vr = .UL ∧ T = .uint) ∨ (vr = .SL ∧ T = .int) := by
    cases vr <;> simp [nativeType] at hvr <;> simp [hvr]
  rcases hcases with ⟨rfl, rfl⟩ | ⟨rfl, rfl⟩ | ⟨rfl, rfl⟩ | ⟨rfl, rfl⟩
  · exact roundtrip_US fe raw data rest out hr hn hout
  · exact roundtrip_SS fe raw data rest out hn hout
  · exact roundtrip_UL fe raw data rest out hr hn hout
  · exact roundtrip_SL fe raw data rest out hn hout

/-- Witness for C3: VR US and the unsigned shorts `[7, 65535]`. -/
theorem C3_binary_integer_roundtrip_witness :
    nativeType .US = some .ushort ∧
    (∀ x ∈ ([7, 65535] : List Int), NumType.inRange .ushort x) ∧
    ∃ v : Value Unit Unit,
      CreateValue FloatEnv.trivial 0 .ushort .US ([7, 65535] ++ []) 2 = some (some v) ∧
      v.NumberOfValues = 2 ∧ v.VL = 4 ∧
      GetValues FloatEnv.trivial .ushort (some v) [0, 0] 2 0 = some [7, 65535] :=
  have hr : ∀ x ∈ ([7, 65535] : List Int), NumType.inRange .ushort x := by
    intro x hx
    simp only [List.mem_cons, List.mem_singleton, List.not_mem_nil, or_false] at hx
    rcases hx with rfl | rfl <;>
      simp [NumType.inRange, NumType.isSigned, NumType.sizeof]
  ⟨rfl, hr,
    (C3_binary_integer_roundtrip FloatEnv.trivial 0 .US .ushort [7, 65535] [] [0, 0] rfl hr
      (by decide) rfl).elim
      fun v h => ⟨v, h.1, h.2.2.2.1, h.2.2.2.2.1, h.2.2.2.2.2⟩⟩

/-- C4: on a sequence value that satisfies the representation invariant and
holds `n` items (`n + 1` within the 32-bit count), `AppendValue` succeeds and
leaves the handle on an allocation with element count `n + 1` whose element
`n` is the appended item and whose elements `0..n-1` are the old ones, in
place as well as through a reallocation, and the invariant holds again; so
after `AppendInit` and five appends the count is 5 and the elements are the
five appended items in order. -/
theorem C4_append_value (emptyItem : Item) (heap : Heap Item Val) (p : Nat)
    (v : Value Item Val) (d : List Item) (item : Item)
    (hp : heap.deref p = some v) (hd : v.Data = .items d) (hwf : WellFormed v)
    (hn : v.NumberOfValues + 1 < UINT_RANGE) :
    (∃ (q : Nat) (heap1 : Heap Item Val) (v1 : Value Item Val) (d1 : List Item),
      AppendValue emptyItem heap (some p) item = some (some q, heap1) ∧
      heap1.deref q = some v1 ∧ v1.Data = .items d1 ∧
      v1.NumberOfValues = v.NumberOfValues + 1 ∧
      d1.get? v.NumberOfValues = some item ∧
      (∀ j, j < v.NumberOfValues → d1.get? j = d.get? j) ∧
      WellFormed v1) ∧
    (∀ (vr : vtkDICOMVR) (a b c e f : Item),
      ∃ (q : Nat) (heap1 : Heap Item Val) (v1 : Value Item Val) (d1 : List Item),
        (AppendInit emptyItem heap none vr).bind (AppendValues emptyItem [a, b, c, e, f]) =
          some (some q, heap1) ∧
        heap1.deref q = some v1 ∧ v1.Data = .items d1 ∧ v1.NumberOfValues = 5 ∧
        d1.take 5 = [a, b, c, e, f]) := by
  constructor
  · obtain ⟨q, heap1, v1, d1, e1, e2, e3, _, e5, e6, e7⟩ :=
      AppendValue_step emptyItem heap p v d item hp hd hwf hn
    have hcap : v.NumberOfValues ≤ d.length := by
      have := hwf.2.1
      rw [hd] at this
      exact this
    obtain ⟨g1, g2⟩ := get?_of_take_eq d1 d v.NumberOfValues item hcap e6
    exact ⟨q, heap1, v1, d1, e1, e2, e3, e5, g1, g2, e7⟩
  · intro vr a b c e f
    obtain ⟨v0, i1, i2, i3, i4, _, _, i7⟩ := AppendInit_fresh emptyItem heap vr
    obtain ⟨q, heap1, v1, d1, f1, f2, f3, f4, f5⟩ :=
      AppendValues_spec emptyItem [a, b, c, e, f] (heap ++ [some v0]) heap.length v0 _ i2 i3 i7
        (by rw [i4]; simp [UINT_RANGE])
    refine ⟨q, heap1, v1, d1, ?_, f2, f3, ?_, ?_⟩
    · rw [i1]; exact f1
    · rw [f4, i4]; rfl
    · rw [f4, i4] at f5
      simpa using f5

/-- Witness for C4: an append to the empty growable sequence that `AppendInit`
leaves at address 0. -/
theorem C4_append_value_witness :
    WellFormed ({ ReferenceCount := 1, CharacterSet := 0, VR := .SQ, VL := VL_UNDEFINED,
                  NumberOfValues := 0, Data := .items [0, 0] } : Value Nat Unit) ∧
    ∃ (q : Nat) (heap1 : Heap Nat Unit) (v1 : Value Nat Unit) (d1 : List Nat),
      AppendValue 0
        [some { ReferenceCount := 1, CharacterSet := 0, VR := .SQ, VL := VL_UNDEFINED,
                NumberOfValues := 0, Data := .items [0, 0] }] (some 0) 11 =
          some (some q, heap1) ∧
      heap1.deref q = some v1 ∧ v1.Data = .items d1 ∧ v1.NumberOfValues = 1 ∧
      d1.get? 0 = some 11 :=
  have hwf : WellFormed
      ({ ReferenceCount := 1, CharacterSet := 0, VR := .SQ, VL := VL_UNDEFINED,
         NumberOfValues := 0, Data := .items [0, 0] } : Value Nat Unit) :=
    ⟨le_refl _, Nat.zero_le _, fun _ => ⟨1, le_refl _, rfl⟩⟩
  ⟨hwf,
    (C4_append_value 0
      [some { ReferenceCount := 1, CharacterSet := 0, VR := .SQ, VL := VL_UNDEFINED,
              NumberOfValues := 0, Data := .items [0, 0] }] 0 _ [0, 0] 11 rfl rfl hwf
      (by decide)).1.elim
      fun q h => h.elim fun heap1 h => h.elim fun v1 h => h.elim fun d1 h =>
        ⟨q, heap1, v1, d1, h.1, h.2.1, h.2.2.1, h.2.2.2.1, h.2.2.2.2.1⟩⟩

/-- C5: when the allocation of a sequence value is shared (reference count
at least 2, the handles `a` and `b` both pointing to it) and `AppendValue` is
applied through `b`, then `b` moves to a new allocation, distinct from the
one `a` keeps; the allocation of `a` has its VR, VL, element count and
elements unchanged (its reference count drops by one), and `b` holds the
former elements followed by the appended item. -/
theorem C5_append_to_shared (emptyItem : Item) (heap : Heap Item Val) (p : Nat)
    (v : Value Item Val) (d : List Item) (item : Item)
    (hp : heap.deref p = some v) (hd : v.Data = .items d)
    (hshared : 2 ≤ v.ReferenceCount) (hcap : v.NumberOfValues ≤ d.length)
    (hn : v.NumberOfValues + 1 < UINT_RANGE) :
    ∃ (q : Nat) (heap1 : Heap Item Val) (va vb : Value Item Val) (db : List Item),
      AppendValue emptyItem heap (some p) item = some (some q, heap1) ∧ q ≠ p ∧
      heap1.deref p = some va ∧
      va.VR = v.VR ∧ va.VL = v.VL ∧ va.NumberOfValues = v.NumberOfValues ∧
      va.Data = v.Data ∧ va.ReferenceCount = v.ReferenceCount - 1 ∧
      heap1.deref q = some vb ∧ vb.ReferenceCount = 1 ∧ vb.VR = v.VR ∧
      vb.Data = .items db ∧ vb.NumberOfValues = v.NumberOfValues + 1 ∧
      db.take (v.NumberOfValues + 1) = d.take v.NumberOfValues ++ [item] := by
  have hlt := deref_lt heap p v hp
  have hgt : v.NumberOfValues < newCapacity v := by
    rcases newCapacity_cases v with ⟨_, h1, _, _⟩ | ⟨h, _⟩
    · omega
    · exact h
  obtain ⟨heap1, e1, e2, e3⟩ := AppendValue_realloc emptyItem heap p v d item hp hd
    (by omega) hcap hn hgt
  rw [if_neg (by omega)] at e3
  exact ⟨heap.length, heap1, _, _, _, e1, by omega, e3, rfl, rfl, rfl, rfl, rfl, e2, rfl, rfl,
    rfl, rfl, take_succ_append_cons d _ item _ hcap⟩

/-- Witness for C5: a sequence of one item with two handles. -/
theorem C5_append_to_shared_witness :
    ∃ (q : Nat) (heap1 : Heap Nat Unit) (va vb : Value Nat Unit) (db : List Nat),
      AppendValue 0
        [some { ReferenceCount := 2, CharacterSet := 0, VR := .SQ, VL := VL_UNDEFINED,
                NumberOfValues := 1, Data := .items [5, 0] }] (some 0) 6 =
          some (some q, heap1) ∧ q ≠ 0 ∧
      heap1.deref 0 = some va ∧ va.NumberOfValues = 1 ∧ va.Data = .items [5, 0] ∧
      heap1.deref q = some vb ∧ vb.Data = .items db ∧ vb.NumberOfValues = 2 ∧
      db.take 2 = [5, 6] :=
  by
  obtain ⟨q, heap1, va, vb, db, h1, h2, h3, _, _, h6, h7, _, h9, _, _, h12, h13, h14⟩ :=
    C5_append_to_shared 0
      [some { ReferenceCount := 2, CharacterSet := 0, VR := .SQ, VL := VL_UNDEFINED,
              NumberOfValues := 1, Data := .items [5, 0] }] 0
      ({ ReferenceCount := 2, CharacterSet := 0, VR := .SQ, VL := VL_UNDEFINED,
         NumberOfValues := 1, Data := .items [5, 0] } : Value Nat Unit) [5, 0] 6 rfl rfl
      (by decide) (by decide) (by decide)
  exact ⟨q, heap1, va, vb, db, h1, h2, h3, h6, h7, h9, h12, h13, h14⟩

/-- C6: whenever a conversion constructor (from a numeric array of any
element type, from an array of tags, or from characters) leaves a valid
value, its VL is even.  This holds for every requested VR, UI included, and
for empty sources as well. -/
theorem C6_byte_length_even (fe : FloatEnv) (raw : Nat) (vr : vtkDICOMVR) (src : Source)
    (v : Value Item Val) (h : createFrom fe raw vr src = some (some v)) :
    v.VL % 2 = 0 := by
  cases src with
  | numeric T data n => exact CreateValueAs_VL_even fe raw T _ data n v h
  | tags data n => exact CreateValue_Tag_VL_even raw vr data n v h
  | chars data m => exact CreateValue_char_VL_even fe raw vr data m v h

/-- Witness for C6: the value with VR LO built from the one character `A`. -/
theorem C6_byte_length_even_witness :
    createFrom FloatEnv.trivial 0 .LO (.chars [65, 0] 1) =
      some (some ({ ReferenceCount := 1, CharacterSet := 0, VR := .LO, VL := 2,
                    NumberOfValues := 1, Data := .chars [65, 32, 0] } : Value Unit Unit)) ∧
    (2 : Nat) % 2 = 0 :=
  ⟨rfl, @C6_byte_length_even Unit Unit FloatEnv.trivial 0 .LO (.chars [65, 0] 1)
    { ReferenceCount := 1, CharacterSet := 0, VR := .LO, VL := 2,
      NumberOfValues := 1, Data := .chars [65, 32, 0] } rfl⟩

/-- C7: a text value built from a string of odd length `m` (below
0xffffffff, as `CreateValue` asserts) has `VL = m + 1` and one pad byte at
index `m`: a space for AE, AS, CS, DA, DS, DT, IS, LO, PN, SH, TM, ST, LT and
UT, which the terminating NUL follows, and for UI the NUL itself, which ends
the buffer; for even `m` there is no pad byte, `VL = m` and the byte at
index `m` is the terminating NUL. -/
theorem C7_text_padding (fe : FloatEnv) (raw : Nat) (vr : vtkDICOMVR) (s rest : List Nat)
    (hvr : isShortTextVR vr = true ∨ isLongTextVR vr = true)
    (hm : s.length < 4294967295) :
    ∃ (v : Value Item Val) (buf : List Nat),
      CreateValue_char fe raw vr (s ++ rest) s.length = some (some v) ∧
      v.Data = .chars buf ∧
      (s.length % 2 = 1 →
        v.VL = s.length + 1 ∧
        buf.get? s.length = some (if vr = .UI then 0 else SPACE) ∧
        (vr ≠ .UI → buf.get? (s.length + 1) = some 0) ∧
        buf.length = (if vr = .UI then s.length + 1 else s.length + 2)) ∧
      (s.length % 2 = 0 →
        v.VL = s.length ∧ buf.get? s.length = some 0 ∧ buf.length = s.length + 1) := by
  rcases hvr with hvr | hvr
  · obtain ⟨cpy, hcpy, hlen⟩ := strncpy_append s rest
    have hlay := text_layout vr cpy s.length hlen
    refine ⟨_, _, CreateValue_char_shortText fe raw vr (s ++ rest) s.length s cpy hvr hm
      (readArray_append s rest) hcpy, rfl, ?_, ?_⟩
    · intro hodd
      exact ⟨by simp only [hodd], hlay.1 hodd⟩
    · intro hev
      exact ⟨by simp only [hev, Nat.add_zero], hlay.2 hev⟩
  · have hlay := text_layout vr s s.length rfl
    refine ⟨_, _, CreateValue_char_longText fe raw vr s rest hvr hm, rfl, ?_, ?_⟩
    · intro hodd
      exact ⟨by simp only [hodd], hlay.1 hodd⟩
    · intro hev
      exact ⟨by simp only [hev, Nat.add_zero], hlay.2 hev⟩

/-- Witness for C7: VR UI and the string `1.2`. -/
theorem C7_text_padding_witness :
    ∃ (v : Value Unit Unit) (buf : List Nat),
      CreateValue_char FloatEnv.trivial 0 .UI ([49, 46, 50] ++ [0]) 3 = some (some v) ∧
      v.Data = .chars buf ∧ v.VL = 4 ∧ buf.get? 3 = some 0 ∧ buf.length = 4 :=
  (C7_text_padding FloatEnv.trivial 0 .UI [49, 46, 50] [0] (Or.inl rfl) (by decide)).elim
    fun v h => h.elim fun buf h =>
      ⟨v, buf, h.1, h.2.1, (h.2.2.1 rfl).1, (h.2.2.1 rfl).2.1, (h.2.2.1 rfl).2.2.2⟩

/-- C8: for each of the VRs AE, AS, CS, DA, DS, DT, IS, LO, PN, SH, TM, UI and
every source string `s` of length `m` (below 0xffffffff), the element count
of the constructed value is 0 when `m = 0` and otherwise 1 plus the number
of backslashes among the `m` bytes, which is the number of
backslash-delimited segments of `s`. -/
theorem C8_text_element_count (fe : FloatEnv) (raw : Nat) (vr : vtkDICOMVR)
    (s rest : List Nat) (hvr : isShortTextVR vr = true) (hm : s.length < 4294967295) :
    ∃ v : Value Item Val,
      CreateValue_char fe raw vr (s ++ rest) s.length = some (some v) ∧
      v.NumberOfValues = (if s.length = 0 then 0 else 1 + s.count BACKSLASH) ∧
      (s ≠ [] → v.NumberOfValues = (segments s).length) := by
  obtain ⟨cpy, hcpy, _⟩ := strncpy_append s rest
  refine ⟨_, CreateValue_char_shortText fe raw vr (s ++ rest) s.length s cpy hvr hm
    (readArray_append s rest) hcpy, ?_, ?_⟩
  · by_cases hs : s = []
    · subst hs; simp [UINT_RANGE]
    · have h2 : s.length ≠ 0 := fun h => hs (List.length_eq_zero.1 h)
      simp only [h2, if_false]
      exact count_lt_range s hm hs
  · intro hs
    simp only
    rw [count_lt_range s hm hs, segments_length]
    omega

/-- Witness for C8: VR LO and the string `A\B\`. -/
theorem C8_text_element_count_witness :
    ∃ v : Value Unit Unit,
      CreateValue_char FloatEnv.trivial 0 .LO ([65, 92, 66, 92] ++ [0]) 4 = some (some v) ∧
      v.NumberOfValues = 3 :=
  (C8_text_element_count FloatEnv.trivial 0 .LO [65, 92, 66, 92] [0] rfl (by decide)).elim
    fun v h => ⟨v, h.1, h.2.1⟩

/-- C9 (as stated, refuted): the UI value built from the three characters
`12` and a space has one value, and `GetString(0)` returns those three
characters, trailing space included, whereas the segment with its spaces
removed is `12`.  The NUL that pads a UI value of odd length stops the loop
that removes trailing spaces. -/
theorem C9_counterexample :
    ∃ v : Value Unit Unit,
      CreateValue_char FloatEnv.trivial 0 .UI [49, 50, 32, 0] 3 = some (some v) ∧
      v.CharacterSet = 0 ∧ v.NumberOfValues = 1 ∧ (segments [49, 50, 32]).length = 1 ∧
      GetString FloatEnv.trivial (fun _ _ _ => 0) (some v) 0 = some [49, 50, 32] ∧
      trimSpaces ((segments [49, 50, 32]).getD 0 []) = [49, 50] := by
  refine ⟨_, rfl, ?_⟩
  decide

/-- C9 (amended): for a text value with the default character set, built
from a non-empty string `s` without NUL bytes (of length below 0xffffffff)
that has `k` backslash-delimited segments, the element count is `k` and
`GetString(i)`, for `i < k`, is the `i`-th segment of `s` with all leading
and all trailing spaces removed, in each of these cases: the VR is one of AE,
AS, CS, DA, DS, DT, IS, LO, PN, SH, TM; the VR is UI and the length of `s` is
even; the VR is UI, the length of `s` is odd and segment `i` is not the last
one; the VR is UI, the length of `s` is odd, `s` has no backslash and does
not end in a space. -/
theorem C9_getString_trimmed_segment (fe : FloatEnv) (nb : Nat → List Nat → Nat → Nat)
    (raw : Nat) (vr : vtkDICOMVR) (s rest : List Nat) (i : Nat)
    (hvr : isShortTextVR vr = true)
    (hui : vr = .UI → s.length % 2 = 1 →
      i + 1 < (segments s).length ∨
        ((segments s).length = 1 ∧ s.getLast? ≠ some SPACE))
    (h0 : 0 ∉ s) (hm : s.length < 4294967295) (hne : s ≠ [])
    (hi : i < (segments s).length) :
    ∃ v : Value Item Val,
      CreateValue_char fe raw vr (s ++ rest) s.length = some (some v) ∧
      v.CharacterSet = 0 ∧ v.NumberOfValues = (segments s).length ∧
      GetString fe nb (some v) i = some (trimSpaces ((segments s).getD i [])) := by
  have hcpy := strncpy_no_nul s rest h0
  have hk : ((if s.length > 0 then 1 else 0) + s.count BACKSLASH) % UINT_RANGE =
      (segments s).length := by
    rw [count_lt_range s hm hne, segments_length]; omega
  have hnl : vr ≠ .ST ∧ vr ≠ .LT ∧ vr ≠ .UT := by
    revert hvr; cases vr <;> simp [isShortTextVR]
  refine ⟨_, CreateValue_char_shortText fe raw vr (s ++ rest) s.length s s hvr hm
    (readArray_append s rest) hcpy, rfl, hk, ?_⟩
  by_cases hcase : vr = .UI ∧ s.length % 2 = 1
  · -- the payload is followed by the NUL pad alone
    have hpad : textPad vr s.length = [] := by simp [textPad, hcase.1]
    apply GetString_text_nulpad fe nb _ s i
    · simp only [hpad, List.append_nil]
    · simp only [hcase.2]
    · rfl
    · exact hnl
    · simp only [hk]
    · exact h0
    · simp only [hk]
      rcases hui hcase.1 hcase.2 with h | ⟨h1, h2⟩
      · exact Or.inl h
      · exact Or.inr ⟨h1, by omega, h2⟩
  · have hui2 : vr = .UI → s.length % 2 = 0 := by
      intro h
      rcases Nat.mod_two_eq_zero_or_one s.length with h2 | h2
      · exact h2
      · exact absurd ⟨h, h2⟩ hcase
    have hpad0 : (0 : Nat) ∉ s ++ textPad vr s.length := by
      unfold textPad
      split_ifs <;> simp [h0, SPACE]
    rw [← trimSpaces_segments_pad vr s i]
    apply GetString_text fe nb _ (s ++ textPad vr s.length) i
    · rfl
    · simp only [List.length_append, textPad_length vr s.length hui2]
    · rfl
    · exact hnl
    · simp only [hk, segments_pad_length]
    · exact hpad0
    · simp only [hk]; exact hi

/-- Witness for C9 (amended): VR UI, the string `1.2\3.4 \56` of odd length,
second value. -/
theorem C9_getString_trimmed_segment_witness :
    (0 : Nat) ∉ [49, 46, 50, 92, 51, 46, 52, 32, 92, 53, 54] ∧
    1 < (segments [49, 46, 50, 92, 51, 46, 52, 32, 92, 53, 54]).length ∧
    ∃ v : Value Unit Unit,
      CreateValue_char FloatEnv.trivial 0 .UI
        ([49, 46, 50, 92, 51, 46, 52, 32, 92, 53, 54] ++ [0]) 11 = some (some v) ∧
      GetString FloatEnv.trivial (fun _ _ _ => 0) (some v) 1 = some [51, 46, 52] :=
  ⟨by decide, by decide,
    (C9_getString_trimmed_segment FloatEnv.trivial (fun _ _ _ => 0) 0 .UI
      [49, 46, 50, 92, 51, 46, 52, 32, 92, 53, 54] [0] 1 rfl
      (fun _ _ => Or.inl (by decide)) (by decide) (by decide) (by decide)
      (by decide)).elim
      fun v h => ⟨v, h.1, h.2.2.2⟩⟩

/-- C10: for VR ST, LT or UT and any source string `s` (of length below
0xffffffff; backslashes, spaces and NUL bytes allowed), the constructed
value has element count 1, its payload of `VL` bytes is `s` followed by one
pad space when the length of `s` is odd, and `GetString(0)` is that whole
payload with only its trailing NUL bytes removed: it is not split at
backslashes and no space is removed. -/
theorem C10_long_text_single_value (fe : FloatEnv) (nb : Nat → List Nat → Nat → Nat)
    (raw : Nat) (vr : vtkDICOMVR) (s rest : List Nat)
    (hvr : isLongTextVR vr = true) (hm : s.length < 4294967295) :
    ∃ (v : Value Item Val) (buf : List Nat),
      CreateValue_char fe raw vr (s ++ rest) s.length = some (some v) ∧
      v.Data = .chars buf ∧ v.NumberOfValues = 1 ∧
      buf.take v.VL = s ++ (if s.length % 2 = 1 then [SPACE] else []) ∧
      GetString fe nb (some v) 0 = some ((buf.take v.VL).rdropWhile (· == 0)) := by
  have hui : vr ≠ .UI := by revert hvr; cases vr <;> simp [isLongTextVR]
  have hl : ¬ (vr ≠ .ST ∧ vr ≠ .LT ∧ vr ≠ .UT) := by
    revert hvr; cases vr <;> simp [isLongTextVR]
  have hpl : (textPad vr s.length).length = s.length % 2 :=
    textPad_length vr s.length (fun h => absurd h hui)
  have htake : List.take (s.length + s.length % 2) (s ++ textPad vr s.length ++ [0]) =
      s ++ textPad vr s.length := by
    rw [List.take_append_of_le_length (by simp [hpl])]
    exact List.take_of_length_le (by simp [hpl])
  refine ⟨_, _, CreateValue_char_longText fe raw vr s rest hvr hm, rfl, rfl, ?_, ?_⟩
  · simp only [htake]
    unfold textPad
    simp [hui]
  · have hs := strip_substr (s ++ textPad vr s.length ++ [0]) 0 0 (s.length + s.length % 2)
      (Nat.zero_le _) (by simp [hpl])
    simp only [GetString, Nat.lt_one_iff, if_true, AppendValueToString, if_neg hl,
      Option.some_bind]
    rw [hs]
    simp [slice]

/-- Witness for C10: VR ST and the string ` a\b`. -/
theorem C10_long_text_single_value_witness :
    ∃ (v : Value Unit Unit) (buf : List Nat),
      CreateValue_char FloatEnv.trivial 0 .ST ([32, 97, 92, 98] ++ [0]) 4 = some (some v) ∧
      v.NumberOfValues = 1 ∧
      GetString FloatEnv.trivial (fun _ _ _ => 0) (some v) 0 =
        some ((buf.take v.VL).rdropWhile (· == 0)) ∧
      buf.take v.VL = [32, 97, 92, 98] ++ (if 4 % 2 = 1 then [SPACE] else []) :=
  (C10_long_text_single_value FloatEnv.trivial (fun _ _ _ => 0) 0 .ST [32, 97, 92, 98] [0]
    rfl (by decide)).elim
    fun v h => h.elim fun buf h => ⟨v, buf, h.1, h.2.2.1, h.2.2.2.2, h.2.2.2.1⟩

/-- C11: for each of the VRs UL, SL, US, SS and a NUL-terminated source
string (of length below 0xffffffff) whose backslash-delimited segments are
decimal integer literals (an optional sign and at least one digit) within
the range of the storage type of the VR, the constructed value has that VR
and its binary storage type (unsigned int, int, unsigned short, short), its
element count is the number `k` of segments, and its elements are the
integers that the segments denote, in order. -/
theorem C11_integer_strings (fe : FloatEnv) (raw : Nat) (vr : vtkDICOMVR) (T : NumType)
    (s rest : List Nat) (hvr : nativeType vr = some T)
    (hlit : ∀ seg ∈ segments s, ∃ x, literalValue seg = some x ∧ T.inRange x)
    (hm : s.length < 4294967295) :
    ∃ v : Value Item Val,
      CreateValue_char fe raw vr (s ++ 0 :: rest) s.length = some (some v) ∧
      v.VR = vr ∧ some v.Type = T.VTKTypeID ∧
      v.NumberOfValues = (segments s).length ∧ 1 ≤ v.NumberOfValues ∧
      v.Data.integers = (segments s).map fun seg => (literalValue seg).getD 0 := by
  have hne := literal_string_ne_nil T s hlit
  have hpos : 0 < s.length := List.length_pos.2 hne
  have hread : readArray (s ++ 0 :: rest) s.length = some s := readArray_append s _
  have hn : (if s.length > 0 then 1 else 0) + s.count BACKSLASH = (segments s).length := by
    rw [segments_length, if_pos hpos]; omega
  have hcnt : s.count BACKSLASH ≤ s.length := List.count_le_length _ _
  have hk1 : 1 ≤ (segments s).length := by rw [segments_length]; omega
  have hmod : (segments s).length % UINT_RANGE = (segments s).length := by
    rw [segments_length]
    exact Nat.mod_eq_of_lt (by simp only [UINT_RANGE]; omega)
  have hsc : slotCount (segments s).length - (segments s).length = 0 := by
    simp only [slotCount]; split_ifs <;> omega
  generalize hw : ((segments s).map fun seg => (literalValue seg).getD 0) = w
  have hwl : w.length = (segments s).length := by rw [← hw]; simp
  have hovI : ∀ x : Int, overwrite (slots (segments s).length x) 0 w = some w := by
    intro x
    have h := overwrite_slots x w
    rw [hwl, hsc] at h
    simpa using h
  have hovN : ∀ x : Nat, overwrite (slots (segments s).length x) 0 (w.map Int.toNat) =
      some (w.map Int.toNat) := by
    intro x
    have h := overwrite_slots x (w.map Int.toNat)
    rw [List.length_map, hwl, hsc] at h
    simpa using h
  rcases nativeType_cases vr T hvr with ⟨rfl, rfl⟩ | ⟨rfl, rfl⟩ | ⟨rfl, rfl⟩ | ⟨rfl, rfl⟩
  · have hs := StringConversion_literals fe .ushort s rest (by simp) hlit
    have hint := map_toNat_getD .ushort (by simp) (segments s) hlit
    rw [hw] at hs hint
    refine ⟨(AllocateUnsignedShortData raw .US (segments s).length).fill
        (.ushorts (w.map Int.toNat))
        (AllocateUnsignedShortData raw .US (segments s).length : Value Item Val).NumberOfValues,
      ?_, ?_, ?_, ?_, ?_, ?_⟩
    · simp only [CreateValue_char, reduceCtorEq, false_or, or_self, or_false, if_false,
        if_true, hread, Option.some_bind, hn, hs, hovN, Option.map_some']
    · rfl
    · rfl
    · simp only [Value.fill, AllocateUnsignedShortData, ValueT, hmod]
    · simp only [Value.fill, AllocateUnsignedShortData, ValueT, hmod]; exact hk1
    · simp only [Value.fill, ValueData.integers, hint]
  · have hs := StringConversion_literals fe .short s rest (by simp) hlit
    rw [hw] at hs
    refine ⟨(AllocateShortData raw .SS (segments s).length).fill (.shorts w)
        (AllocateShortData raw .SS (segments s).length : Value Item Val).NumberOfValues,
      ?_, ?_, ?_, ?_, ?_, ?_⟩
    · simp only [CreateValue_char, reduceCtorEq, false_or, or_self, or_false, if_false,
        if_true, true_or, hread, Option.some_bind, hn, hs, hovI, Option.map_some']
    · rfl
    · rfl
    · simp only [Value.fill, AllocateShortData, ValueT, hmod]
    · simp only [Value.fill, AllocateShortData, ValueT, hmod]; exact hk1
    · simp only [Value.fill, ValueData.integers]
  · have hs := StringConversion_literals fe .uint s rest (by simp) hlit
    have hint := map_toNat_getD .uint (by simp) (segments s) hlit
    rw [hw] at hs hint
    refine ⟨(AllocateUnsignedIntData raw .UL (segments s).length).fill
        (.uints (w.map Int.toNat))
        (AllocateUnsignedIntData raw .UL (segments s).length : Value Item Val).NumberOfValues,
      ?_, ?_, ?_, ?_, ?_, ?_⟩
    · simp only [CreateValue_char, reduceCtorEq, false_or, or_self, or_false, if_false,
        if_true, hread, Option.some_bind, hn, hs, hovN, Option.map_some']
    · rfl
    · rfl
    · simp only [Value.fill, AllocateUnsignedIntData, ValueT, hmod]
    · simp only [Value.fill, AllocateUnsignedIntData, ValueT, hmod]; exact hk1
    · simp only [Value.fill, ValueData.integers, hint]
  · have hs := StringConversion_literals fe .int s rest (by simp) hlit
    rw [hw] at hs
    refine ⟨(AllocateIntData raw .SL (segments s).length).fill (.ints w)
        (AllocateIntData raw .SL (segments s).length : Value Item Val).NumberOfValues,
      ?_, ?_, ?_, ?_, ?_, ?_⟩
    · simp only [CreateValue_char, reduceCtorEq, false_or, or_self, or_false, if_false,
        if_true, hread, Option.some_bind, hn, hs, hovI, Option.map_some']
    · rfl
    · rfl
    · simp only [Value.fill, AllocateIntData, ValueT, hmod]
    · simp only [Value.fill, AllocateIntData, ValueT, hmod]; exact hk1
    · simp only [Value.fill, ValueData.integers]

/-- Witness for C11: VR SS and the string `12\-5\+7`. -/
theorem C11_integer_strings_witness :
    (∀ seg ∈ segments [49, 50, 92, 45, 53, 92, 43, 55],
      ∃ x, literalValue seg = some x ∧ NumType.inRange .short x) ∧
    ∃ v : Value Unit Unit,
      CreateValue_char FloatEnv.trivial 0 .SS ([49, 50, 92, 45, 53, 92, 43, 55] ++ 0 :: []) 8 =
        some (some v) ∧
      v.NumberOfValues = 3 ∧ v.Data.integers = [12, -5, 7] :=
  have hlit : ∀ seg ∈ segments [49, 50, 92, 45, 53, 92, 43, 55],
      ∃ x, literalValue seg = some x ∧ NumType.inRange .short x := by
    intro seg hseg
    have e : segments [49, 50, 92, 45, 53, 92, 43, 55] = [[49, 50], [45, 53], [43, 55]] := by
      decide
    rw [e] at hseg
    simp only [List.mem_cons, List.mem_singleton, List.not_mem_nil, or_false] at hseg
    rcases hseg with rfl | rfl | rfl
    · exact ⟨12, by decide, by simp [NumType.inRange, NumType.isSigned, NumType.sizeof]⟩
    · exact ⟨-5, by decide, by simp [NumType.inRange, NumType.isSigned, NumType.sizeof]⟩
    · exact ⟨7, by decide, by simp [NumType.inRange, NumType.isSigned, NumType.sizeof]⟩
  ⟨hlit, (C11_integer_strings FloatEnv.trivial 0 .SS .short [49, 50, 92, 45, 53, 92, 43, 55] []
    rfl hlit (by decide)).elim fun v h => ⟨v, h.1, h.2.2.2.1, h.2.2.2.2.2⟩⟩

/-- C12 (evaluation at the failing input): the value with VR US built from
the NUL-terminated string `1\`, whose second segment is empty, has element
count 2, and its second element is whatever the fresh allocation held: 0 when
the memory was zero, 0xAAAA when every byte was 0xAA.  The conversion loop of
`StringConversion` stops at the NUL before it has written the element. -/
theorem C12_empty_last_segment_unwritten :
    (segments [49, 92]).length = 2 ∧ (segments [49, 92]).getD 1 [0] = [] ∧
    (CreateValue_char FloatEnv.trivial 0 .US [49, 92, 0] 2 :
        Option (Option (Value Unit Unit))) =
      some (some { ReferenceCount := 1, CharacterSet := 0, VR := .US, VL := 4,
                   NumberOfValues := 2, Data := .ushorts [1, 0] }) ∧
    (CreateValue_char FloatEnv.trivial 170 .US [49, 92, 0] 2 :
        Option (Option (Value Unit Unit))) =
      some (some { ReferenceCount := 1, CharacterSet := 0, VR := .US, VL := 4,
                   NumberOfValues := 2, Data := .ushorts [1, 43690] }) := by
  decide

/-- C13 (as stated, refuted): the double +infinity is not finite, and the DS
branch replaces it by 9.999999999e+99, not by 0: the DS value built from the
one element +infinity has the payload `9.999999999e+99` and a pad space. -/
theorem C13_counterexample :
    isInfDouble DOUBLE_INF = true ∧ clampDS DOUBLE_INF = DS_MAX ∧ DS_MAX ≠ 0 ∧
    (CreateValue FloatEnv.sample 0 .double .DS [(9218868437227405312 : Int)] 1 :
        Option (Option (Value Unit Unit))) =
      some (some { ReferenceCount := 1, CharacterSet := 0, VR := .DS, VL := 16,
                   NumberOfValues := 1,
                   Data := .chars [57, 46, 57, 57, 57, 57, 57, 57, 57, 57, 57, 101, 43, 57, 57,
                                   32, 0, 0, 0] }) := by
  decide

/-- C13 (amended): when a DS value is constructed from a numeric element,
the text that is stored is the `%.10g` format of the sanitised element: the
element is converted to a double `d`, and `d > 9.999999999e+99` (+infinity
included) is replaced by 9.999999999e+99, `d < -9.999999999e+99` (-infinity
included) by -9.999999999e+99, a `d` with `fabs(d) < 1e-99` and a NaN by 0,
and every other `d` is left as it is. -/
theorem C13_ds_clamping (fe : FloatEnv) (raw : Nat) (T : NumType) (x : Int)
    (hlen : (fe.sprintf 0 (clampDS (castTo fe .double T x).toNat)).length ≤ 16) :
    (∃ (v : Value Item Val) (junk : List Nat),
      CreateValue fe raw T .DS [x] 1 = some (some v) ∧
      v.Data = .chars
        (fixExponent (fe.sprintf 0 (clampDS (castTo fe .double T x).toNat)) ++
          evenPad (fixExponent (fe.sprintf 0 (clampDS (castTo fe .double T x).toNat))) ++
          0 :: junk)) ∧
    (∀ d : Nat,
      (doubleLt DS_MAX d = true → clampDS d = DS_MAX) ∧
      (doubleLt d DS_MIN = true → clampDS d = DS_MIN) ∧
      (doubleLt (d % 2 ^ 63) DS_TINY = true ∨ isNanDouble d = true → clampDS d = 0) ∧
      (doubleLt DS_MAX d = false → doubleLt d DS_MIN = false →
        doubleLt (d % 2 ^ 63) DS_TINY = false → isNanDouble d = false → clampDS d = d)) ∧
    clampDS DOUBLE_INF = DS_MAX ∧ clampDS DOUBLE_NEG_INF = DS_MIN ∧
    clampDS DOUBLE_NAN = 0 := by
  refine ⟨?_, clampDS_cases, by decide, by decide, by decide⟩
  have hf := fixExponent_length_le (fe.sprintf 0 (clampDS (castTo fe .double T x).toNat))
  obtain ⟨v, junk, h1, _, _, _, _, h6⟩ := @CreateValue_DS Item Val fe raw T [x] []
    (by simp) (by simpa using hlen)
    (by simp only [List.map_cons, List.map_nil, joinBackslash, textDSElement, UINT_RANGE]
        omega)
  refine ⟨v, junk, by simpa using h1, ?_⟩
  simpa [joinBackslash, textDSElement] using h6

/-- Witness for C13 (amended): the element -infinity in the sample
environment. -/
theorem C13_ds_clamping_witness :
    (FloatEnv.sample.sprintf 0
      (clampDS (castTo FloatEnv.sample .double .double (DOUBLE_NEG_INF : Int)).toNat)).length
        ≤ 16 ∧
    clampDS DOUBLE_NEG_INF = DS_MIN ∧
    ∃ (v : Value Unit Unit) (junk : List Nat),
      CreateValue FloatEnv.sample 0 .double .DS [(DOUBLE_NEG_INF : Int)] 1 = some (some v) ∧
      v.Data = .chars ([45, 57, 46, 57, 57, 57, 57, 57, 57, 57, 57, 57, 101, 43, 57, 57] ++
        [] ++ 0 :: junk) :=
  ⟨by decide, by decide,
    (C13_ds_clamping FloatEnv.sample 0 .double (DOUBLE_NEG_INF : Int) (by decide)).1⟩

/-- C15 (evaluation at the failing input): built from the three characters
`abc`, the value with VR OB keeps the element count 4 that the allocation
of the padded array set, whereas the same three bytes given as an unsigned
byte array give the element count 3. -/
theorem C15_char_source_counts_pad :
    (CreateValue_char FloatEnv.trivial 0 .OB [97, 98, 99] 3 :
        Option (Option (Value Unit Unit))) =
      some (some { ReferenceCount := 1, CharacterSet := 0, VR := .OB, VL := 4,
                   NumberOfValues := 4, Data := .uchars [97, 98, 99, 0] }) ∧
    (CreateValue FloatEnv.trivial 0 .uchar .OB [97, 98, 99] 3 :
        Option (Option (Value Unit Unit))) =
      some (some { ReferenceCount := 1, CharacterSet := 0, VR := .OB, VL := 4,
                   NumberOfValues := 3, Data := .uchars [97, 98, 99, 0] }) := by
  decide

/-- C17 (as stated, refuted): built from a character string, a value
requested with VR OX is stored as bytes and a value requested with VR XS as
shorts, and each is valid and carries the abstract VR it was requested
with. -/
theorem C17_counterexample :
    (CreateValue_char FloatEnv.trivial 0 .OX [97, 98] 2 :
        Option (Option (Value Unit Unit))) =
      some (some { ReferenceCount := 1, CharacterSet := 0, VR := .OX, VL := 2,
                   NumberOfValues := 2, Data := .uchars [97, 98] }) ∧
    (CreateValue_char FloatEnv.trivial 0 .XS [49, 50, 0] 2 :
        Option (Option (Value Unit Unit))) =
      some (some { ReferenceCount := 1, CharacterSet := 0, VR := .XS, VL := 2,
                   NumberOfValues := 1, Data := .shorts [12] }) := by
  decide

/-- C17 (amended): a construction from a numeric array with the requested
VR OX gives a valid value that records OB when the elements are unsigned
chars and OW otherwise, and with the requested VR XS one that records US
when the elements are unsigned shorts and SS otherwise; every valid value
constructed from a numeric array records the resolved VR (every other VR as
requested), so that none carries OX or XS.  A valid value constructed from
an array of tags or from a character string records the VR as requested: a
character string with the requested VR OX does give a valid value, which
carries OX and stores bytes, and with the requested VR XS (and a NUL in the
memory, where the conversion ends) one that carries XS and stores shorts. -/
theorem C17_recorded_vr (fe : FloatEnv) (raw : Nat) :
    (∀ (vr : vtkDICOMVR) (T : NumType) (data : List Int) (n : Nat) (v : Value Item Val),
      createFrom fe raw vr (.numeric T data n) = some (some v) →
      v.VR = resolveVR T vr ∧ v.VR ≠ .OX ∧ v.VR ≠ .XS ∧
      (vr = .OX → v.VR = if T = .uchar then .OB else .OW) ∧
      (vr = .XS → v.VR = if T = .ushort then .US else .SS) ∧
      (vr ≠ .OX → vr ≠ .XS → v.VR = vr)) ∧
    (∀ (T : NumType) (data : List Int) (n : Nat), n ≤ data.length →
      n * T.sizeof < 4294967295 →
      (∃ v : Value Item Val, createFrom fe raw .OX (.numeric T data n) = some (some v) ∧
        v.VR = if T = .uchar then .OB else .OW) ∧
      (∃ v : Value Item Val, createFrom fe raw .XS (.numeric T data n) = some (some v) ∧
        v.VR = if T = .ushort then .US else .SS)) ∧
    (∀ (vr : vtkDICOMVR) (data : List vtkDICOMTag) (n : Nat) (v : Value Item Val),
      createFrom fe raw vr (.tags data n) = some (some v) → v.VR = vr) ∧
    (∀ (vr : vtkDICOMVR) (data : List Nat) (m : Nat) (v : Value Item Val),
      createFrom fe raw vr (.chars data m) = some (some v) →
      v.VR = vr ∧ (vr = .OX → ∃ d, v.Data = .uchars d) ∧
      (vr = .XS → ∃ d, v.Data = .shorts d)) ∧
    (∀ (data : List Nat) (m : Nat), m ≤ data.length → m < 4294967295 →
      (∃ (v : Value Item Val) (d : List Nat),
        createFrom fe raw .OX (.chars data m) = some (some v) ∧
        v.VR = .OX ∧ v.Data = .uchars d) ∧
      (0 ∈ data → ∃ (v : Value Item Val) (d : List Int),
        createFrom fe raw .XS (.chars data m) = some (some v) ∧
        v.VR = .XS ∧ v.Data = .shorts d)) := by
  have hnum : ∀ (vr : vtkDICOMVR) (T : NumType) (data : List Int) (n : Nat)
      (v : Value Item Val), createFrom fe raw vr (.numeric T data n) = some (some v) →
      v.VR = resolveVR T vr ∧ v.VR ≠ .OX ∧ v.VR ≠ .XS ∧
      (vr = .OX → v.VR = if T = .uchar then .OB else .OW) ∧
      (vr = .XS → v.VR = if T = .ushort then .US else .SS) ∧
      (vr ≠ .OX → vr ≠ .XS → v.VR = vr) := by
    intro vr T data n v h
    simp only [createFrom, CreateValue] at h
    have hv := CreateValueAs_VR fe raw T (resolveVR T vr) data n v h
    have hne : ¬ (resolveVR T vr = .OX ∨ resolveVR T vr = .XS) := by
      intro hc
      rw [CreateValueAs_abstract fe raw T _ data n hc] at h
      simp at h
    refine ⟨hv, fun hc => hne (Or.inl (hv ▸ hc)), fun hc => hne (Or.inr (hv ▸ hc)), ?_, ?_, ?_⟩
    · rintro rfl
      rw [hv]
      cases T <;> simp [resolveVR, NumType.VTKTypeID]
    · rintro rfl
      rw [hv]
      cases T <;> simp [resolveVR, NumType.VTKTypeID]
    · intro h1 h2
      rw [hv, resolveVR_concrete T vr h1 h2]
  refine ⟨hnum, ?_, ?_, ?_, ?_⟩
  · intro T data n hn _
    constructor
    · have hres : resolveVR T .OX = .OB ∨ (resolveVR T .OX = .OW ∧ T ≠ .uchar) := by
        cases T <;> simp [resolveVR, NumType.VTKTypeID]
      obtain ⟨v, hv⟩ := @CreateValueAs_exists Item Val fe raw T (resolveVR T .OX) data n hn
        (by rcases hres with h | h
            · exact Or.inl h
            · exact Or.inr (Or.inl h))
      exact ⟨v, hv, (hnum .OX T data n v hv).2.2.2.1 rfl⟩
    · have hres : resolveVR T .XS = .US ∨ resolveVR T .XS = .SS := by
        cases T <;> simp [resolveVR, NumType.VTKTypeID]
      obtain ⟨v, hv⟩ := @CreateValueAs_exists Item Val fe raw T (resolveVR T .XS) data n hn
        (by rcases hres with h | h
            · exact Or.inr (Or.inr (Or.inl h))
            · exact Or.inr (Or.inr (Or.inr h)))
      exact ⟨v, hv, (hnum .XS T data n v hv).2.2.2.2.1 rfl⟩
  · intro vr data n v h
    exact (CreateValue_Tag_VR raw vr data n v h).1
  · intro vr data m v h
    exact ⟨CreateValue_char_VR fe raw vr data m v h,
      CreateValue_char_abstract fe raw vr data m v h⟩
  · intro data m hm _
    obtain ⟨⟨v1, h1⟩, hxs⟩ := @CreateValue_char_exists Item Val fe raw data m hm
    refine ⟨?_, fun h0 => ?_⟩
    · obtain ⟨d, hd⟩ := (CreateValue_char_abstract fe raw .OX data m v1 h1).1 rfl
      exact ⟨v1, d, h1, CreateValue_char_VR fe raw .OX data m v1 h1, hd⟩
    · obtain ⟨v2, h2⟩ := hxs h0
      obtain ⟨d, hd⟩ := (CreateValue_char_abstract fe raw .XS data m v2 h2).2 rfl
      exact ⟨v2, d, h2, CreateValue_char_VR fe raw .XS data m v2 h2, hd⟩

/-- Witness for C17 (amended): the VR OX requested for two unsigned chars
gives OB, and the VR XS requested for two shorts gives a valid value with
VR SS. -/
theorem C17_recorded_vr_witness :
    (createFrom FloatEnv.trivial 0 .OX (.numeric .uchar [97, 98] 2) =
      some (some ({ ReferenceCount := 1, CharacterSet := 0, VR := .OB, VL := 2,
                    NumberOfValues := 2, Data := .uchars [97, 98] } : Value Unit Unit)) ∧
    vtkDICOMVR.OB = resolveVR .uchar .OX) ∧
    ∃ v : Value Unit Unit,
      createFrom FloatEnv.trivial 0 .XS (.numeric .short [1, 2] 2) = some (some v) ∧
      v.VR = .SS :=
  ⟨⟨rfl, ((@C17_recorded_vr Unit Unit FloatEnv.trivial 0).1 .OX .uchar [97, 98] 2
    { ReferenceCount := 1, CharacterSet := 0, VR := .OB, VL := 2,
      NumberOfValues := 2, Data := .uchars [97, 98] } rfl).1⟩,
   ((@C17_recorded_vr Unit Unit FloatEnv.trivial 0).2.1 .short [1, 2] 2 (by decide)
    (by decide)).2⟩

/-- C18 (evaluation at the failing input): for the value with VR AT built
from the two tags (0008,0018) and (0008,0019), `GetTag(0)` and `GetTag(1)`
both return the zero tag, because `GetTag` tests `NumberOfValues == 1`;
`AsTag()` returns the first tag. -/
theorem C18_getTag_of_two_tags :
    (CreateValue_Tag 0 .AT [vtkDICOMTag.ofGroupElement 8 0x18,
        vtkDICOMTag.ofGroupElement 8 0x19] 2 : Option (Option (Value Unit Unit))) =
      some (some { ReferenceCount := 1, CharacterSet := 0, VR := .AT, VL := 8,
                   NumberOfValues := 2,
                   Data := .tags [vtkDICOMTag.ofGroupElement 8 0x18,
                                  vtkDICOMTag.ofGroupElement 8 0x19] }) ∧
    GetTag (some ({ ReferenceCount := 1, CharacterSet := 0, VR := .AT, VL := 8,
                    NumberOfValues := 2,
                    Data := .tags [vtkDICOMTag.ofGroupElement 8 0x18,
                                   vtkDICOMTag.ofGroupElement 8 0x19] } : Value Unit Unit)) 0 =
      some vtkDICOMTag.zero ∧
    GetTag (some ({ ReferenceCount := 1, CharacterSet := 0, VR := .AT, VL := 8,
                    NumberOfValues := 2,
                    Data := .tags [vtkDICOMTag.ofGroupElement 8 0x18,
                                   vtkDICOMTag.ofGroupElement 8 0x19] } : Value Unit Unit)) 1 =
      some vtkDICOMTag.zero ∧
    AsTag (some ({ ReferenceCount := 1, CharacterSet := 0, VR := .AT, VL := 8,
                   NumberOfValues := 2,
                   Data := .tags [vtkDICOMTag.ofGroupElement 8 0x18,
                                  vtkDICOMTag.ofGroupElement 8 0x19] } : Value Unit Unit)) =
      some (vtkDICOMTag.ofGroupElement 8 0x18) := by
  decide

/-- C19: when the value is invalid (the handle is null), or its element
count is 0, or the index `i` is not below the element count, each of
`GetUnsignedChar(i)`, `GetShort(i)`, `GetUnsignedShort(i)`, `GetInt(i)`,
`GetUnsignedInt(i)`, `GetFloat(i)`, `GetDouble(i)` returns zero and
`GetString(i)` the empty string; when the value is invalid or its element
count is 0, each of `AsUnsignedChar()`, `AsShort()`, `AsUnsignedShort()`,
`AsInt()`, `AsUnsignedInt()`, `AsFloat()`, `AsDouble()` returns zero and
`AsString()` the empty string (a text value without elements has `VL = 0`).
Every one of these calls returns. -/
theorem C19_default_results (fe : FloatEnv) (nb : Nat → List Nat → Nat → Nat)
    (v : Option (Value Item Val)) (i : Nat) :
    ((v = none ∨ ∃ val, v = some val ∧ (val.NumberOfValues = 0 ∨ val.NumberOfValues ≤ i)) →
      GetUnsignedChar fe v i = some 0 ∧ GetShort fe v i = some 0 ∧
      GetUnsignedShort fe v i = some 0 ∧ GetInt fe v i = some 0 ∧
      GetUnsignedInt fe v i = some 0 ∧ GetFloat fe v i = some 0 ∧
      GetDouble fe v i = some 0 ∧ GetString fe nb v i = some []) ∧
    ((v = none ∨ ∃ val, v = some val ∧ val.NumberOfValues = 0 ∧
        (val.Type = .VTK_CHAR → val.VL = 0)) →
      AsUnsignedChar fe v = some 0 ∧ AsShort fe v = some 0 ∧
      AsUnsignedShort fe v = some 0 ∧ AsInt fe v = some 0 ∧
      AsUnsignedInt fe v = some 0 ∧ AsFloat fe v = some 0 ∧
      AsDouble fe v = some 0 ∧ AsString fe nb v = some []) := by
  constructor
  · rintro (rfl | ⟨val, rfl, h⟩)
    · simp [GetUnsignedChar, GetShort, GetUnsignedShort, GetInt, GetUnsignedInt, GetFloat,
        GetDouble, GetScalar, GetString]
    · have hi : ¬ i < val.NumberOfValues := by omega
      simp [GetUnsignedChar, GetShort, GetUnsignedShort, GetInt, GetUnsignedInt, GetFloat,
        GetDouble, GetScalar, GetString, hi]
  · rintro (rfl | ⟨val, rfl, h0, hvl⟩)
    · simp [AsUnsignedChar, AsShort, AsUnsignedShort, AsInt, AsUnsignedInt, AsFloat,
        AsDouble, AsScalar, AsString, GetCharData]
    · refine ⟨?_, ?_, ?_, ?_, ?_, ?_, ?_, ?_⟩
      any_goals simp [AsUnsignedChar, AsShort, AsUnsignedShort, AsInt, AsUnsignedInt, AsFloat,
        AsDouble, AsScalar, h0]
      obtain ⟨rc, cs, vr, vl, n, dat⟩ := val
      dsimp only at h0
      subst h0
      cases dat with
      | chars buf =>
        have hz : vl = 0 := hvl rfl
        subst hz
        simp only [AsString, GetCharData]
        split_ifs <;> simp [trimLength, substr]
      | _ =>
        simp only [AsString, GetCharData]
        split_ifs <;> simp [appendValues]

/-- Witness for C19: the invalid value, and the empty value with VR US. -/
theorem C19_default_results_witness :
    GetInt FloatEnv.trivial (none : Option (Value Unit Unit)) 3 = some 0 ∧
    AsString FloatEnv.trivial (fun _ _ _ => 0)
      (some ({ ReferenceCount := 1, CharacterSet := 0, VR := .US, VL := 0,
               NumberOfValues := 0, Data := .ushorts [0] } : Value Unit Unit)) = some [] :=
  ⟨((@C19_default_results Unit Unit FloatEnv.trivial (fun _ _ _ => 0) none 3).1
      (Or.inl rfl)).2.2.2.1,
   ((@C19_default_results Unit Unit FloatEnv.trivial (fun _ _ _ => 0)
      (some { ReferenceCount := 1, CharacterSet := 0, VR := .US, VL := 0,
              NumberOfValues := 0, Data := .ushorts [0] }) 0).2
      (Or.inr ⟨_, rfl, rfl, fun h => by cases h⟩)).2.2.2.2.2.2.2⟩

/-- C20 (as stated, refuted): two FD values constructed independently from
the same array of one double, the NaN, both valid, compare unequal: the
elements are compared with `==`, and a NaN is not equal to itself. -/
theorem C20_counterexample :
    operator_eq (fun (_ _ : Unit) => true) (fun (_ _ : Unit) => true)
      (construct (construct ([] : Heap Unit Unit)
        (CreateValue FloatEnv.trivial 0 .double .FD [0x7ff8000000000000] 1).join).2
        (CreateValue FloatEnv.trivial 0 .double .FD [0x7ff8000000000000] 1).join).2
      (some 0) (some 1) = some false ∧
    (CreateValue FloatEnv.trivial 0 .double .FD [0x7ff8000000000000] 1 :
        Option (Option (Value Unit Unit))) =
      some (some { ReferenceCount := 1, CharacterSet := 0, VR := .FD, VL := 8,
                   NumberOfValues := 1, Data := .doubles [0x7ff8000000000000] }) := by
  decide

/-- C20 (amended): two values constructed independently (in two
allocations, whatever the fresh memory of each held) from the same VR and
the same source data, both valid, compare equal under `operator==`, provided
that none of the floating point elements compared is a NaN and that, for a
character string converted to numbers (VR FD, FL, UL, SL, US, SS, XS), the
string is NUL-terminated, has no NUL inside and does not end in a backslash;
every value compares equal to itself and to each of its copies. -/
theorem C20_equal_constructions (fe : FloatEnv) (itemEq : Item → Item → Bool)
    (valEq : Val → Val → Bool) (r1 r2 : Nat) (vr : vtkDICOMVR) (src : Source)
    (heap : Heap Item Val) (v1 v2 : Value Item Val)
    (h1 : createFrom fe r1 vr src = some (some v1))
    (h2 : createFrom fe r2 vr src = some (some v2))
    (hwt : src.wellTerminated vr) (hnan : v1.hasNaN = false) :
    (∃ (a b : Nat) (heap2 : Heap Item Val),
      (construct heap (some v1)).1 = some a ∧
      construct (construct heap (some v1)).2 (some v2) = (some b, heap2) ∧ a ≠ b ∧
      heap2.deref a = some v1 ∧ heap2.deref b = some v2 ∧
      operator_eq itemEq valEq heap2 (some a) (some b) = some true) ∧
    (∀ (hp : Heap Item Val) (a : Handle), operator_eq itemEq valEq hp a a = some true) ∧
    (∀ (hp hp' : Heap Item Val) (a b : Handle), copyHandle hp a = some (b, hp') →
      operator_eq itemEq valEq hp' a b = some true) := by
  refine ⟨?_, ?_, ?_⟩
  · obtain ⟨e1, e2, e3, e4⟩ := construct_two heap v1 v2
    refine ⟨heap.length, heap.length + 1, _, e1, e2, by omega, e3, e4, ?_⟩
    have hs := createFrom_same fe r1 r2 vr src v1 v2 hwt h1 h2
    have hne : (some heap.length : Handle) ≠ some (heap.length + 1) := by simp
    simp only [operator_eq, ne_eq, hne, not_false_eq_true, if_true, e3, e4]
    exact equalTo_of_same itemEq valEq v1 v2 hs hnan
  · intro hp a
    simp [operator_eq]
  · intro hp hp' a b h
    cases a with
    | none =>
      simp only [copyHandle, Option.some.injEq, Prod.mk.injEq] at h
      rw [← h.1]
      simp [operator_eq]
    | some p =>
      simp only [copyHandle, Option.map_eq_some', Prod.mk.injEq] at h
      obtain ⟨_, _, hb, _⟩ := h
      rw [← hb]
      simp [operator_eq]

/-- Witness for C20 (amended): the US value of the string `1\2`, built twice
in memory of different content. -/
theorem C20_equal_constructions_witness :
    Source.wellTerminated .US (.chars [49, 92, 50, 0] 3) ∧
    ∃ (a b : Nat) (heap2 : Heap Unit Unit),
      a ≠ b ∧
      heap2.deref a = some { ReferenceCount := 1, CharacterSet := 0, VR := .US, VL := 4,
                             NumberOfValues := 2, Data := .ushorts [1, 2] } ∧
      heap2.deref b = some { ReferenceCount := 1, CharacterSet := 0, VR := .US, VL := 4,
                             NumberOfValues := 2, Data := .ushorts [1, 2] } ∧
      operator_eq (fun _ _ => true) (fun _ _ => true) heap2 (some a) (some b) = some true :=
  have hwt : Source.wellTerminated .US (.chars [49, 92, 50, 0] 3) :=
    fun _ => ⟨[49, 92, 50], [], rfl, rfl, by decide, by decide⟩
  ⟨hwt,
    (C20_equal_constructions FloatEnv.trivial (fun (_ _ : Unit) => true)
      (fun (_ _ : Unit) => true) 0 170 .US
      (.chars [49, 92, 50, 0] 3) []
      { ReferenceCount := 1, CharacterSet := 0, VR := .US, VL := 4,
        NumberOfValues := 2, Data := .ushorts [1, 2] }
      { ReferenceCount := 1, CharacterSet := 0, VR := .US, VL := 4,
        NumberOfValues := 2, Data := .ushorts [1, 2] } rfl rfl hwt rfl).1.elim
      fun a h => h.elim fun b h => h.elim fun heap2 h =>
        ⟨a, b, heap2, h.2.2.1, h.2.2.2.1, h.2.2.2.2.1, h.2.2.2.2.2⟩⟩

/-- Claim C21: `operator==` is symmetric.  For all handles `a` and `b`
(valid or null, sharing an allocation or not) and every heap, `a == b` and
`b == a` give the same result, provided the `operator==` of the items and
of the nested values that the elements are compared with is symmetric. -/
theorem C21_equality_symmetric (itemEq : Item → Item → Bool) (valEq : Val → Val → Bool)
    (heap : Heap Item Val) (a b : Handle)
    (hitem : ∀ x y, itemEq x y = itemEq y x) (hval : ∀ x y, valEq x y = valEq y x) :
    operator_eq itemEq valEq heap a b = operator_eq itemEq valEq heap b a := by
  unfold operator_eq
  by_cases h : a = b
  · subst h; rfl
  · have h2 : b ≠ a := fun e => h e.symm
    rw [if_pos h, if_pos h2]
    cases a with
    | none => cases b <;> rfl
    | some p =>
      cases b with
      | none => rfl
      | some q =>
        dsimp only
        cases heap.deref p with
        | none => cases heap.deref q <;> rfl
        | some va =>
          cases heap.deref q with
          | none => rfl
          | some vb => exact equalTo_comm itemEq valEq hitem hval va vb

theorem C21_equality_symmetric_witness :
    operator_eq (fun (x y : Nat) => x == y) (fun (x y : Nat) => x == y)
        [some (AllocateUnsignedShortData 0 .US 1), some (AllocateShortData 0 .SS 1)]
        (some 0) (some 1) =
      operator_eq (fun (x y : Nat) => x == y) (fun (x y : Nat) => x == y)
        [some (AllocateUnsignedShortData 0 .US 1), some (AllocateShortData 0 .SS 1)]
        (some 1) (some 0) :=
  C21_equality_symmetric _ _ _ _ _ (fun x y => beq_comm_fun x y) (fun x y => beq_comm_fun x y)

/-- Claim C22: two values in distinct allocations that differ in VR, in VL,
in storage type or in element count are unequal under `operator==` whatever
their contents; a valid value is never equal to an invalid one, in either
order; two invalid values are equal. -/
theorem C22_header_mismatch (itemEq : Item → Item → Bool) (valEq : Val → Val → Bool)
    (heap : Heap Item Val) (p q : Nat) (va vb : Value Item Val)
    (hpq : p ≠ q) (ha : heap.deref p = some va) (hb : heap.deref q = some vb)
    (hdiff : va.VR ≠ vb.VR ∨ va.VL ≠ vb.VL ∨ va.Type ≠ vb.Type ∨
      va.NumberOfValues ≠ vb.NumberOfValues) :
    operator_eq itemEq valEq heap (some p) (some q) = some false ∧
    operator_eq itemEq valEq heap (some p) none = some false ∧
    operator_eq itemEq valEq heap none (some p) = some false ∧
    operator_eq itemEq valEq heap none none = some true := by
  refine ⟨?_, ?_, ?_, ?_⟩
  · have hne : (some p : Handle) ≠ some q := fun e => hpq (Option.some.inj e)
    unfold operator_eq
    rw [if_pos hne]
    dsimp only
    rw [ha, hb]
    dsimp only
    unfold Value.equalTo
    rw [if_neg]
    rintro ⟨e1, e2, e3, e4⟩
    rcases hdiff with h | h | h | h
    · exact h e1
    · exact h e2
    · exact h e3
    · exact h e4
  · simp [operator_eq]
  · simp [operator_eq]
  · simp [operator_eq]

theorem C22_header_mismatch_witness :
    operator_eq (fun (x y : Nat) => x == y) (fun (x y : Nat) => x == y)
        [some (AllocateUnsignedShortData 0 .US 1), some (AllocateShortData 0 .SS 1)]
        (some 0) (some 1) = some false ∧
    operator_eq (fun (x y : Nat) => x == y) (fun (x y : Nat) => x == y)
        [some (AllocateUnsignedShortData 0 .US 1), some (AllocateShortData 0 .SS 1)]
        (some 0) none = some false ∧
    operator_eq (fun (x y : Nat) => x == y) (fun (x y : Nat) => x == y)
        [some (AllocateUnsignedShortData 0 .US 1), some (AllocateShortData 0 .SS 1)]
        none (some 0) = some false ∧
    operator_eq (fun (x y : Nat) => x == y) (fun (x y : Nat) => x == y)
        [some (AllocateUnsignedShortData 0 .US 1), some (AllocateShortData 0 .SS 1)]
        none none = some true :=
  C22_header_mismatch _ _ _ 0 1 (AllocateUnsignedShortData 0 .US 1) (AllocateShortData 0 .SS 1)
    (by decide) rfl rfl (Or.inl (by decide))

/-- Claim C23, as the claim states it, fails on a shared allocation when the
assertions are compiled in: `SetValue(1, 9)` on a sequence of two items with
reference count 2 is stopped by `assert(this->V->ReferenceCount == 1)`, so
no fresh allocation is written.  Held by one handle, the same sequence is
written in place. -/
theorem C23_counterexample :
    SetValue true (0 : Nat)
        [some
          ({ ReferenceCount := 2, CharacterSet := 0, VR := .SQ, VL := 0, NumberOfValues := 2,
             Data := .items [7, 8] } : Value Nat Nat)]
        (some 0) 1 9 = none ∧
    SetValue true (0 : Nat)
        [some
          ({ ReferenceCount := 1, CharacterSet := 0, VR := .SQ, VL := 0, NumberOfValues := 2,
             Data := .items [7, 8] } : Value Nat Nat)]
        (some 0) 1 9 =
      some (some 0,
        [some
          ({ ReferenceCount := 1, CharacterSet := 0, VR := .SQ, VL := 0, NumberOfValues := 2,
             Data := .items [7, 9] } : Value Nat Nat)]) := by
  decide

/-- Claim C23 (amended): for a valid sequence value with element count `n`
that this handle holds alone and every index `i < n`, `SetValue(i, item)`
writes in place: it leaves the element count and the VR unchanged, makes
element `i` equal to `item` and leaves every element `j ≠ i` and every other
allocation unchanged, with and without assertions.  On a shared allocation
the call is stopped by `assert(this->V->ReferenceCount == 1)`; only when the
assertions are compiled out does the write go to a fresh allocation, held by
this handle alone, with the same element count and VR and a copy of all `n`
elements but for element `i`, which is `item`, while the old allocation
keeps its elements, count and VR for the other handles, with one reference
less, and no other allocation changes. -/
theorem C23_set_value (assertions : Bool) (emptyItem : Item) (heap : Heap Item Val) (p : Nat)
    (v : Value Item Val) (d : List Item) (i : Nat) (item : Item)
    (hp : heap.deref p = some v) (hd : v.Data = .items d) (hrc : 1 ≤ v.ReferenceCount)
    (hcap : v.NumberOfValues ≤ d.length) (hn : v.NumberOfValues < UINT_RANGE)
    (hi : i < v.NumberOfValues) :
    (v.ReferenceCount = 1 →
      ∃ (heap1 : Heap Item Val) (v1 : Value Item Val) (d1 : List Item),
        SetValue assertions emptyItem heap (some p) i item = some (some p, heap1) ∧
        heap1.deref p = some v1 ∧ v1.Data = .items d1 ∧
        v1.NumberOfValues = v.NumberOfValues ∧ v1.VR = v.VR ∧ v1.ReferenceCount = 1 ∧
        d1.get? i = some item ∧
        (∀ j, j < v.NumberOfValues → j ≠ i → d1.get? j = d.get? j) ∧
        ∀ r, r ≠ p → heap1.deref r = heap.deref r) ∧
    (v.ReferenceCount ≠ 1 →
      (assertions = true → SetValue assertions emptyItem heap (some p) i item = none) ∧
      (assertions = false →
        ∃ (q : Nat) (heap1 : Heap Item Val) (v1 : Value Item Val) (d1 : List Item),
          SetValue assertions emptyItem heap (some p) i item = some (some q, heap1) ∧
          heap1.deref q = some v1 ∧ v1.Data = .items d1 ∧
          v1.NumberOfValues = v.NumberOfValues ∧ v1.VR = v.VR ∧
          d1.get? i = some item ∧
          (∀ j, j < v.NumberOfValues → j ≠ i → d1.get? j = d.get? j) ∧
          q = heap.length ∧ q ≠ p ∧ heap.deref q = none ∧ v1.ReferenceCount = 1 ∧
          heap1.deref p = some { v with ReferenceCount := v.ReferenceCount - 1 } ∧
          ∀ r, r ≠ p → r ≠ q → heap1.deref r = heap.deref r)) := by
  have hlt := deref_lt heap p v hp
  refine ⟨fun h1 => ?_, fun h1 => ⟨fun ha => ?_, fun ha => ?_⟩⟩
  · -- in place
    obtain ⟨c, hc, _, hci, hcj⟩ := overwrite_one d i item (by omega)
    refine ⟨heap.store p (v.setData (.items c)), v.setData (.items c), c, ?_,
      deref_store_same heap p _ hlt, rfl, rfl, rfl, h1, hci, fun j _ hj => hcj j hj,
      fun r hr => deref_store_ne heap p r _ hr⟩
    simp only [SetValue, hp, Option.some_bind, hd, h1, hi, ne_eq, not_true_eq_false, if_false,
      and_false, hc, Option.map_some']
  · -- stopped by the assertion
    simp only [SetValue, hp, Option.some_bind, hd, h1, hi, ha, ne_eq, not_true_eq_false,
      not_false_eq_true, and_false, and_self, if_false, if_true]
  · -- through a copy
    obtain ⟨heap1, r1, l1, d1, o1⟩ := release_spec heap p v hp
    rw [if_neg (by omega)] at d1
    have hread : readArray d v.NumberOfValues = some (d.take v.NumberOfValues) := by
      simp [readArray, hcap]
    have hlen : (d.take v.NumberOfValues).length = v.NumberOfValues := by
      simp [hcap]
    have hcopy := overwrite_slots emptyItem (d.take v.NumberOfValues)
    rw [hlen] at hcopy
    obtain ⟨c, hc, _, hci, hcj⟩ := overwrite_one
      (d.take v.NumberOfValues ++
        List.replicate (slotCount v.NumberOfValues - v.NumberOfValues) emptyItem) i item
      (by simp only [List.length_append, hlen]; omega)
    obtain ⟨nv, hnv⟩ : ∃ nv : Value Item Val,
        nv = (AllocateSequenceData emptyItem v.VR v.NumberOfValues).setData (.items c) :=
      ⟨_, rfl⟩
    have hq : heap.length ≠ p := by omega
    have hnone : heap.deref heap.length = none := by
      simp [Heap.deref]
    refine ⟨heap.length, (heap1.alloc nv).2, nv, c, ?_, ?_, by rw [hnv]; rfl, ?_,
      by rw [hnv]; rfl, hci, ?_, rfl, hq, hnone, ?_, ?_, ?_⟩
    · simp only [SetValue, hp, Option.some_bind, hd, ne_eq, h1, ha, hi, not_false_eq_true,
        if_true, if_false, Bool.false_eq_true, false_and, not_true_eq_false, and_false,
        Clear, r1, hread, hcopy, hc, Option.map_some', ← hnv, Heap.alloc, l1]
    · have := deref_alloc_new heap1 nv
      simp only [Heap.alloc, l1] at this ⊢
      exact this
    · rw [hnv]
      simp only [Value.setData, AllocateSequenceData, ValueT]
      exact Nat.mod_eq_of_lt hn
    · intro j hj hji
      rw [hcj j hji]
      simp only [List.get?_eq_getElem?]
      rw [List.getElem?_append_left (by omega), List.getElem?_take_of_lt hj]
    · rw [hnv]; rfl
    · rw [deref_alloc_old heap1 nv p (by omega), d1]
    · intro r hr hrq
      by_cases hrl : r < heap.length
      · rw [deref_alloc_old heap1 nv r (by omega), o1 r hr]
      · have e1 : (heap1.alloc nv).2.deref r = none := by
          simp only [Heap.deref, Heap.alloc]
          rw [List.get?_eq_none.2 (by simp only [List.length_append, List.length_singleton]; omega)]
          rfl
        have e2 : heap.deref r = none := by
          simp only [Heap.deref]
          rw [List.get?_eq_none.2 (by omega)]
          rfl
        rw [e1, e2]

/-- Witness for C23 (amended): a sequence of two items held by one handle is
written in place, with assertions; with reference count 2 and without
assertions the write goes to a fresh allocation and the old one keeps its
items. -/
theorem C23_set_value_witness :
    (∃ (heap1 : Heap Nat Nat) (v1 : Value Nat Nat) (d1 : List Nat),
      SetValue true 0
        [some
          ({ ReferenceCount := 1, CharacterSet := 0, VR := .SQ, VL := 0, NumberOfValues := 2,
             Data := .items [7, 8] } : Value Nat Nat)]
        (some 0) 1 9 = some (some 0, heap1) ∧
      heap1.deref 0 = some v1 ∧ v1.Data = .items d1 ∧
      v1.NumberOfValues = 2 ∧ v1.VR = .SQ ∧ d1.get? 1 = some 9 ∧ d1.get? 0 = some 7) ∧
    ∃ (q : Nat) (heap1 : Heap Nat Nat) (v1 : Value Nat Nat) (d1 : List Nat),
      SetValue false 0
        [some
          ({ ReferenceCount := 2, CharacterSet := 0, VR := .SQ, VL := 0, NumberOfValues := 2,
             Data := .items [7, 8] } : Value Nat Nat)]
        (some 0) 1 9 = some (some q, heap1) ∧
      heap1.deref q = some v1 ∧ v1.Data = .items d1 ∧
      v1.NumberOfValues = 2 ∧ v1.VR = .SQ ∧ d1.get? 1 = some 9 ∧ d1.get? 0 = some 7 ∧
      q = 1 ∧ v1.ReferenceCount = 1 ∧
      heap1.deref 0 = some
          { ReferenceCount := 1, CharacterSet := 0, VR := .SQ, VL := 0, NumberOfValues := 2,
            Data := .items [7, 8] } := by
  constructor
  · obtain ⟨heap1, v1, d1, h1, h2, h3, h4, h5, _, h6, h7, _⟩ :=
      (C23_set_value true (0 : Nat)
        [some
            ({ ReferenceCount := 1, CharacterSet := 0, VR := .SQ, VL := 0, NumberOfValues := 2,
               Data := .items [7, 8] } : Value Nat Nat)] 0
        { ReferenceCount := 1, CharacterSet := 0, VR := .SQ, VL := 0, NumberOfValues := 2,
          Data := .items [7, 8] }
        [7, 8] 1 9 rfl rfl (by decide) (by decide) (by decide) (by decide)).1 rfl
    exact ⟨heap1, v1, d1, h1, h2, h3, h4, h5, h6, h7 0 (by decide) (by decide)⟩
  · obtain ⟨q, heap1, v1, d1, h1, h2, h3, h4, h5, h6, h7, k1, _, _, k4, k5, _⟩ :=
      ((C23_set_value false (0 : Nat)
        [some
            ({ ReferenceCount := 2, CharacterSet := 0, VR := .SQ, VL := 0, NumberOfValues := 2,
               Data := .items [7, 8] } : Value Nat Nat)] 0
        { ReferenceCount := 2, CharacterSet := 0, VR := .SQ, VL := 0, NumberOfValues := 2,
          Data := .items [7, 8] }
        [7, 8] 1 9 rfl rfl (by decide) (by decide) (by decide) (by decide)).2 (by decide)).2 rfl
    exact ⟨q, heap1, v1, d1, h1, h2, h3, h4, h5, h6, h7 0 (by decide) (by decide), k1, k4, k5⟩

/-- Claim C24: starting from `AppendInit` and appending `n` items through
the one handle of the value, the appends that reallocate (move the value to
a new allocation) are exactly those made at an element count that is a
power of two greater than 1 (2, 4, 8, ...), and each of them doubles the
capacity, while the others keep it; so `n` appends reallocate
`log2 (n - 1)` times (rounded down), which is at most `log2 n` and is 0 for
`n ≤ 2`. -/
theorem C24_append_reallocations (emptyItem : Item) (heap : Heap Item Val) (vr : vtkDICOMVR)
    (xs : List Item) (hn : xs.length < UINT_RANGE) :
    ∃ (st : Handle × Heap Item Val) (t : List AppendEvent),
      AppendInit emptyItem heap none vr = some st ∧
      AppendValuesTrace emptyItem xs st = some t ∧
      t.map (fun e => e.count) = List.range xs.length ∧
      (∀ e ∈ t, (e.moved = true ↔ ∃ j, 1 ≤ j ∧ e.count = 2 ^ j) ∧
        (e.moved = true → e.capAfter = 2 * e.capBefore) ∧
        (e.moved = false → e.capAfter = e.capBefore)) ∧
      (t.filter fun e => e.moved).length = Nat.log 2 (xs.length - 1) ∧
      (t.filter fun e => e.moved).length ≤ Nat.log 2 xs.length ∧
      (xs.length ≤ 2 → (t.filter fun e => e.moved).length = 0) := by
  obtain ⟨v, h1, h2, h3, h4, _, h6, _⟩ := AppendInit_fresh emptyItem heap vr
  have hg : Growing 0 v [emptyItem, emptyItem] :=
    ⟨by
      have := h1
      simp only [AppendInit, Clear, Option.map_some', Heap.alloc, Option.some.injEq,
        Prod.mk.injEq, List.append_cancel_left_eq, List.cons.injEq, and_true, true_and] at this
      rw [← this]; rfl,
     h6, h3, h4, Nat.zero_le _, 1, le_refl _, rfl, Or.inl rfl⟩
  obtain ⟨t, f1, f2, f3⟩ := AppendValuesTrace_growing emptyItem xs _ _ v _ 0 h2 hg (by omega)
  have hcount : (t.filter fun e => e.moved).length = Nat.log 2 (xs.length - 1) := by
    rw [filter_moved_length isDoublingPoint t, f2, ← List.range_eq_range',
      count_doubling_points]
    intro e he
    have := (f3 e he).1
    cases hm : e.moved
    · cases hq : isDoublingPoint e.count
      · rfl
      · rw [hm] at this
        have := this.2 ((isDoublingPoint_iff _).1 hq)
        cases this
    · rw [hm] at this
      exact ((isDoublingPoint_iff _).2 (this.1 rfl)).symm
  refine ⟨_, t, h1, f1, by rw [f2, List.range_eq_range'], f3, hcount, ?_, ?_⟩
  · rw [hcount]
    exact Nat.log_mono_right (Nat.sub_le _ _)
  · intro h
    rw [hcount]
    exact Nat.log_of_lt (by omega)

theorem C24_append_reallocations_witness :
    ∃ (st : Handle × Heap Nat Nat) (t : List AppendEvent),
      AppendInit 0 [] none .SQ = some st ∧
      AppendValuesTrace 0 [1, 2, 3, 4, 5] st = some t ∧
      t.map (fun e => e.count) = List.range [1, 2, 3, 4, 5].length ∧
      (∀ e ∈ t, (e.moved = true ↔ ∃ j, 1 ≤ j ∧ e.count = 2 ^ j) ∧
        (e.moved = true → e.capAfter = 2 * e.capBefore) ∧
        (e.moved = false → e.capAfter = e.capBefore)) ∧
      (t.filter fun e => e.moved).length = Nat.log 2 ([1, 2, 3, 4, 5].length - 1) ∧
      (t.filter fun e => e.moved).length ≤ Nat.log 2 [1, 2, 3, 4, 5].length ∧
      ([1, 2, 3, 4, 5].length ≤ 2 → (t.filter fun e => e.moved).length = 0) :=
  C24_append_reallocations 0 [] .SQ [1, 2, 3, 4, 5] (by decide)

/-- Claim C25, as the claim states it, fails for the count 0: a sequence
that `AppendInit` has made and that a second handle shares has no elements;
the append moves it to an allocation of capacity 2, while the smallest power
of two that exceeds 0 is 1. -/
theorem C25_counterexample :
    ((AppendInit (0 : Nat) ([] : Heap Nat Nat) none .SQ).bind fun st =>
      (copyHandle st.2 st.1).bind fun st2 =>
      (AppendValue 0 st2.2 st.1 5).map fun st3 =>
        ((stateValue st2).map fun v => (v.ReferenceCount, v.NumberOfValues),
         (stateValue st3).map fun v => v.Data.capacity)) = some (some (2, 0), some 2) ∧
    ¬ IsLeastPowerOfTwoAbove 0 2 ∧ IsLeastPowerOfTwoAbove 0 1 := by
  refine ⟨by decide, ?_, ⟨0, rfl⟩, by norm_num, ?_⟩
  · rintro ⟨_, _, h⟩
    have := h 0 (by norm_num)
    omega
  · intro k _
    exact Nat.one_le_two_pow

/-- Claim C25 (amended): when `AppendValue` is applied to a sequence that is
shared (reference count not 1) or not marked growable (VL not 0xFFFFFFFF)
and holds `n` items, the value moves to a new allocation whose capacity is
the smallest power of two that is at least 2 and exceeds `n`: 2 for
`n = 0`, and for every `n ≥ 1` the smallest power of two that exceeds `n`. -/
theorem C25_shared_append_capacity (emptyItem : Item) (heap : Heap Item Val) (p : Nat)
    (v : Value Item Val) (d : List Item) (item : Item)
    (hp : heap.deref p = some v) (hd : v.Data = .items d) (hrc : 1 ≤ v.ReferenceCount)
    (hcap : v.NumberOfValues ≤ d.length) (hn : v.NumberOfValues + 1 < UINT_RANGE)
    (hs : v.ReferenceCount ≠ 1 ∨ v.VL ≠ VL_UNDEFINED) :
    ∃ (heap1 : Heap Item Val) (v1 : Value Item Val),
      AppendValue emptyItem heap (some p) item = some (some heap.length, heap1) ∧
      heap.length ≠ p ∧ heap1.deref heap.length = some v1 ∧
      (∃ k, 1 ≤ k ∧ v1.Data.capacity = 2 ^ k) ∧ v.NumberOfValues < v1.Data.capacity ∧
      (∀ k, 1 ≤ k → v.NumberOfValues < 2 ^ k → v1.Data.capacity ≤ 2 ^ k) ∧
      (v.NumberOfValues = 0 → v1.Data.capacity = 2) ∧
      (1 ≤ v.NumberOfValues → IsLeastPowerOfTwoAbove v.NumberOfValues v1.Data.capacity) := by
  obtain ⟨⟨k, hk, hpow⟩, hgt, hmin⟩ := newCapacity_shared v hs
  obtain ⟨heap1, e1, e2, _⟩ := AppendValue_realloc emptyItem heap p v d item hp hd hrc hcap
    hn hgt
  have hlt := deref_lt heap p v hp
  have hc : (d.take v.NumberOfValues ++ item ::
      List.replicate (newCapacity v - v.NumberOfValues - 1) emptyItem).length
        = newCapacity v := by
    simp only [List.length_append, List.length_take, List.length_cons, List.length_replicate]
    omega
  refine ⟨heap1, _, e1, by omega, e2, ?_, ?_, ?_, ?_, ?_⟩
  · exact ⟨k, hk, by simp only [ValueData.capacity]; rw [hc, hpow]⟩
  · simp only [ValueData.capacity]; rw [hc]; exact hgt
  · intro j hj hlt2
    simp only [ValueData.capacity]; rw [hc]
    exact hmin j hj hlt2
  · intro h0
    simp only [ValueData.capacity]; rw [hc]
    have h2 := hmin 1 (le_refl _) (by rw [h0]; norm_num)
    have h3 := two_le_pow k hk
    rw [hpow] at h2 ⊢
    simp only [pow_one] at h2
    omega
  · intro h1
    simp only [ValueData.capacity]; rw [hc]
    refine ⟨⟨k, hpow⟩, hgt, ?_⟩
    intro j hlt2
    apply hmin j ?_ hlt2
    rcases Nat.eq_zero_or_pos j with h0 | h0
    · rw [h0] at hlt2; simp at hlt2; omega
    · exact h0

theorem C25_shared_append_capacity_witness :
    ∃ (heap1 : Heap Nat Nat) (v1 : Value Nat Nat),
      AppendValue 0
        [some
          ({ ReferenceCount := 2, CharacterSet := 0, VR := .SQ, VL := 0, NumberOfValues := 3,
             Data := .items [7, 8, 9] } : Value Nat Nat)]
        (some 0) 5 = some (some 1, heap1) ∧
      heap1.deref 1 = some v1 ∧ v1.Data.capacity = 4 := by
  obtain ⟨heap1, v1, h1, _, h3, _, h5, h6, _, _⟩ :=
    C25_shared_append_capacity (0 : Nat)
      [some
          ({ ReferenceCount := 2, CharacterSet := 0, VR := .SQ, VL := 0, NumberOfValues := 3,
             Data := .items [7, 8, 9] } : Value Nat Nat)] 0
      { ReferenceCount := 2, CharacterSet := 0, VR := .SQ, VL := 0, NumberOfValues := 3,
        Data := .items [7, 8, 9] }
      [7, 8, 9] 5 rfl rfl (by decide) (by decide) (by decide) (Or.inl (by decide))
  refine ⟨heap1, v1, h1, h3, ?_⟩
  have h7 := h6 2 (by decide) (by decide)
  have h8 : 3 < v1.Data.capacity := h5
  have h9 : (2 : Nat) ^ 2 = 4 := by norm_num
  omega

/-- Claim C26, as the claim states it, fails for a source with a NUL byte
inside: for VR LO and the four source bytes `a`, NUL, `b`, `c` the stored
payload is `a` followed by NUL bytes. -/
theorem C26_counterexample :
    ((CreateValue_char FloatEnv.trivial 0 .LO [97, 0, 98, 99] 4 :
        Option (Option (Value Nat Nat))).map fun o => o.map fun v => v.Data) =
      some (some (.chars [97, 0, 0, 0, 0])) ∧
    List.take 4 [97, 0, 0, 0, 0] ≠ [97, 0, 98, 99] := by
  constructor <;> decide

/-- Claim C26 (amended): for every text VR and every source range of `m`
bytes, the first `m` bytes of the stored payload are: for ST, LT and UT the
`m` source bytes, whatever they are; for the other text VRs (AE, AS, CS, DA,
DS, DT, IS, LO, PN, SH, TM, UI) the source bytes before the first NUL byte of
the range, followed by NUL bytes.  So a range without a NUL byte is stored
unchanged for every text VR. -/
theorem C26_text_bytes (fe : FloatEnv) (raw : Nat) (vr : vtkDICOMVR) (data : List Nat)
    (m : Nat) (htext : isShortTextVR vr = true ∨ isLongTextVR vr = true)
    (hm : m < 4294967295) (hlen : m ≤ data.length) :
    ∃ (v : Value Item Val) (buf : List Nat),
      CreateValue_char fe raw vr data m = some (some v) ∧ v.Data = .chars buf ∧ v.VR = vr ∧
      (isLongTextVR vr = true → buf.take m = data.take m) ∧
      (isShortTextVR vr = true → buf.take m =
        (data.take m).takeWhile (fun c => c != 0) ++
          List.replicate (m - ((data.take m).takeWhile (fun c => c != 0)).length) 0) ∧
      (0 ∉ data.take m → buf.take m = data.take m) := by
  have hsplit : data = data.take m ++ data.drop m := (List.take_append_drop m data).symm
  have hl : (data.take m).length = m := by simp [hlen]
  by_cases hlong : isLongTextVR vr = true
  · have hshort : ¬ isShortTextVR vr = true := by
      simp only [isLongTextVR, decide_eq_true_eq] at hlong
      rcases hlong with h | h | h <;> subst h <;> decide
    have hc := @CreateValue_char_longText Item Val fe raw vr (data.take m) (data.drop m) hlong
      (by rw [hl]; exact hm)
    rw [← hsplit, hl] at hc
    have htake : (data.take m ++ textPad vr m ++ [0]).take m = data.take m := by
      rw [List.append_assoc, List.take_append_of_le_length (by omega), List.take_of_length_le
        (by omega)]
    exact ⟨_, _, hc, rfl, rfl, fun _ => htake, fun h => absurd h hshort, fun _ => htake⟩
  · have hshort : isShortTextVR vr = true := by
      rcases htext with h | h
      · exact h
      · exact absurd h hlong
    have hcpy := strncpy_spec data m hlen
    have hread : readArray data m = some (data.take m) := by
      simp [readArray, hlen]
    have hc := @CreateValue_char_shortText Item Val fe raw vr data m _ _ hshort hm hread hcpy
    have hcl := strncpy_length data m _ hcpy
    have htake : ∀ cpy : List Nat, cpy.length = m →
        (cpy ++ textPad vr m ++ [0]).take m = cpy := by
      intro cpy h
      rw [List.append_assoc, List.take_append_of_le_length (by omega), List.take_of_length_le
        (by omega)]
    refine ⟨_, _, hc, rfl, rfl, fun h => absurd h hlong, fun _ => htake _ hcl, ?_⟩
    intro hn
    rw [htake _ hcl, takeWhile_no_nul _ hn, hl]
    simp

theorem C26_text_bytes_witness :
    ∃ (v : Value Nat Nat) (buf : List Nat),
      CreateValue_char FloatEnv.trivial 0 .ST [97, 0, 98, 99] 3 = some (some v) ∧
      v.Data = .chars buf ∧ v.VR = .ST ∧ buf.take 3 = [97, 0, 98] := by
  obtain ⟨v, buf, h1, h2, h3, h4, _, _⟩ :=
    @C26_text_bytes Nat Nat FloatEnv.trivial 0 .ST [97, 0, 98, 99] 3 (Or.inr (by decide))
      (by decide) (by decide)
  exact ⟨v, buf, h1, h2, h3, h4 (by decide)⟩

/-- Claim C27: for all `g` and `e` in 0..65535 the tag constructed from
`(g, e)` has `GetGroup() = g` and `GetElement() = e`; two constructed tags
are `==` exactly when their groups are equal and their elements are equal,
and `!=` otherwise; the same holds for any two tags (32-bit keys) in terms
of their accessors. -/
theorem C27_tag_accessors_equality (g e g2 e2 : Nat) (hg : g < 65536) (he : e < 65536)
    (hg2 : g2 < 65536) (he2 : e2 < 65536) :
    (vtkDICOMTag.ofGroupElement g e).GetGroup = g ∧
    (vtkDICOMTag.ofGroupElement g e).GetElement = e ∧
    ((vtkDICOMTag.ofGroupElement g e).operator_eq (vtkDICOMTag.ofGroupElement g2 e2) = true ↔
      g = g2 ∧ e = e2) ∧
    ((vtkDICOMTag.ofGroupElement g e).operator_ne (vtkDICOMTag.ofGroupElement g2 e2) = true ↔
      ¬ (g = g2 ∧ e = e2)) ∧
    ∀ a b : vtkDICOMTag, a.Key < UINT_RANGE → b.Key < UINT_RANGE →
      (a.operator_eq b = true ↔ a.GetGroup = b.GetGroup ∧ a.GetElement = b.GetElement) ∧
      a.operator_ne b = !a.operator_eq b := by
  have k1 := tag_key g e hg he
  have k2 := tag_key g2 e2 hg2 he2
  refine ⟨(tag_group_element g e hg he).1, (tag_group_element g e hg he).2, ?_, ?_, ?_⟩
  · simp only [vtkDICOMTag.operator_eq, beq_iff_eq, k1, k2]
    omega
  · simp only [vtkDICOMTag.operator_ne, bne_iff_ne, ne_eq, k1, k2]
    omega
  · intro a b ha hb
    obtain ⟨ka, ga, ea⟩ := tag_key_split a ha
    obtain ⟨kb, gb, eb⟩ := tag_key_split b hb
    refine ⟨?_, rfl⟩
    simp only [vtkDICOMTag.operator_eq, beq_iff_eq]
    generalize a.GetGroup = x1 at *
    generalize a.GetElement = y1 at *
    generalize b.GetGroup = x2 at *
    generalize b.GetElement = y2 at *
    omega

theorem C27_tag_accessors_equality_witness :
    (vtkDICOMTag.ofGroupElement 8 24).GetGroup = 8 ∧
    (vtkDICOMTag.ofGroupElement 8 24).GetElement = 24 ∧
    ((vtkDICOMTag.ofGroupElement 8 24).operator_eq (vtkDICOMTag.ofGroupElement 65535 65535)
      = true ↔ 8 = 65535 ∧ 24 = 65535) ∧
    ((vtkDICOMTag.ofGroupElement 8 24).operator_ne (vtkDICOMTag.ofGroupElement 65535 65535)
      = true ↔ ¬ (8 = 65535 ∧ 24 = 65535)) ∧
    ∀ a b : vtkDICOMTag, a.Key < UINT_RANGE → b.Key < UINT_RANGE →
      (a.operator_eq b = true ↔ a.GetGroup = b.GetGroup ∧ a.GetElement = b.GetElement) ∧
      a.operator_ne b = !a.operator_eq b :=
  C27_tag_accessors_equality 8 24 65535 65535 (by decide) (by decide) (by decide) (by decide)

/-- Claim C28: the comparison operators of tags form a total order that is
lexicographic on (group, element) read as unsigned 16-bit numbers: `a < b`
exactly when the group of `a` is smaller, or the groups are equal and the
element of `a` is smaller; exactly one of `a < b`, `a == b`, `a > b` holds;
`a <= b` is the negation of `a > b` and `a >= b` the negation of `a < b`;
`<=` is reflexive, antisymmetric, transitive and total. -/
theorem C28_tag_order (a b c : vtkDICOMTag) (ha : a.Key < UINT_RANGE)
    (hb : b.Key < UINT_RANGE) :
    (a.operator_lt b = true ↔
      a.GetGroup < b.GetGroup ∨ (a.GetGroup = b.GetGroup ∧ a.GetElement < b.GetElement)) ∧
    ((a.operator_lt b = true ∧ a.operator_eq b = false ∧ a.operator_gt b = false) ∨
     (a.operator_lt b = false ∧ a.operator_eq b = true ∧ a.operator_gt b = false) ∨
     (a.operator_lt b = false ∧ a.operator_eq b = false ∧ a.operator_gt b = true)) ∧
    a.operator_le b = !a.operator_gt b ∧
    a.operator_ge b = !a.operator_lt b ∧
    a.operator_gt b = b.operator_lt a ∧
    a.operator_le a = true ∧
    (a.operator_le b = true → b.operator_le a = true → a.operator_eq b = true) ∧
    (a.operator_le b = true → b.operator_le c = true → a.operator_le c = true) ∧
    (a.operator_le b = true ∨ b.operator_le a = true) := by
  obtain ⟨ka, ga, ea⟩ := tag_key_split a ha
  obtain ⟨kb, gb, eb⟩ := tag_key_split b hb
  simp only [vtkDICOMTag.operator_lt, vtkDICOMTag.operator_eq, vtkDICOMTag.operator_gt,
    vtkDICOMTag.operator_le, vtkDICOMTag.operator_ge, decide_eq_true_eq, decide_eq_false_iff_not,
    beq_iff_eq, beq_eq_false_iff_ne, ne_eq]
  generalize a.GetGroup = x1 at *
  generalize a.GetElement = y1 at *
  generalize b.GetGroup = x2 at *
  generalize b.GetElement = y2 at *
  refine ⟨by omega, by omega, ?_, ?_, ?_, by omega, by omega, by omega, by omega⟩
  · by_cases h : a.Key ≤ b.Key
    · have h2 : ¬ a.Key > b.Key := by omega
      simp [h, h2]
    · have h2 : a.Key > b.Key := by omega
      simp [h, h2]
  · by_cases h : a.Key ≥ b.Key
    · have h2 : ¬ a.Key < b.Key := by omega
      simp [h, h2]
    · have h2 : a.Key < b.Key := by omega
      simp [h, h2]
  · trivial

theorem C28_tag_order_witness :
    ((vtkDICOMTag.ofGroupElement 8 65535).operator_lt (vtkDICOMTag.ofGroupElement 9 0) = true ↔
      (vtkDICOMTag.ofGroupElement 8 65535).GetGroup < (vtkDICOMTag.ofGroupElement 9 0).GetGroup ∨
      ((vtkDICOMTag.ofGroupElement 8 65535).GetGroup = (vtkDICOMTag.ofGroupElement 9 0).GetGroup ∧
       (vtkDICOMTag.ofGroupElement 8 65535).GetElement <
         (vtkDICOMTag.ofGroupElement 9 0).GetElement)) ∧
    (vtkDICOMTag.ofGroupElement 8 65535).operator_lt (vtkDICOMTag.ofGroupElement 9 0) = true :=
  ⟨(C28_tag_order (vtkDICOMTag.ofGroupElement 8 65535) (vtkDICOMTag.ofGroupElement 9 0)
      vtkDICOMTag.zero (by decide) (by decide)).1, by decide⟩

/-- Claim C29: for a value built with VR AT and every index `i` below its
element count, the string form of element `i` (`GetString(i)` and
`AppendValueToString`) has exactly 11 characters: `(`, four hexadecimal
digits that denote the group (zero-padded, digits above 9 in upper case),
`,`, four hexadecimal digits that denote the element, and `)`.  An AT value
built from the single tag (0008,0018) gives `(0008,0018)`. -/
theorem C29_tag_string (fe : FloatEnv) (nextBackslash : Nat → List Nat → Nat → Nat)
    (raw : Nat) (src : Source) (v : Value Item Val) (i : Nat)
    (h : createFrom fe raw .AT src = some (some v)) (hi : i < v.NumberOfValues) :
    (∃ (d : List vtkDICOMTag) (a : vtkDICOMTag) (G E : List Nat),
      v.Data = .tags d ∧ d.get? i = some a ∧
      GetString fe nextBackslash (some v) i = some ([40] ++ G ++ [44] ++ E ++ [41]) ∧
      AppendValueToString fe nextBackslash (some v) i = some ([40] ++ G ++ [44] ++ E ++ [41]) ∧
      ([40] ++ G ++ [44] ++ E ++ [41]).length = 11 ∧ G.length = 4 ∧ E.length = 4 ∧
      hexValue G = some a.GetGroup ∧ hexValue E = some a.GetElement ∧
      ∀ c ∈ G ++ E, (48 ≤ c ∧ c ≤ 57) ∨ (65 ≤ c ∧ c ≤ 70)) ∧
    ∃ w : Value Item Val,
      createFrom fe raw .AT (.tags [vtkDICOMTag.ofGroupElement 8 24] 1) = some (some w) ∧
      GetString fe nextBackslash (some w) 0 =
        some [40, 48, 48, 48, 56, 44, 48, 48, 49, 56, 41] := by
  constructor
  · obtain ⟨d, hd, hcap, _⟩ := createFrom_AT_tags fe raw src v h
    have hlt : i < d.length := by omega
    have ha : d.get? i = some d[i] := by
      rw [List.get?_eq_getElem?, List.getElem?_eq_getElem hlt]
    obtain ⟨g1, g2⟩ := GetString_tag fe nextBackslash v d i d[i] hd hi ha
    have hG : d[i].GetGroup < 65536 := Nat.mod_lt _ (by norm_num)
    have hE : d[i].GetElement < 65536 := Nat.mod_lt _ (by norm_num)
    refine ⟨d, d[i], _, _, hd, ha, g1, g2, rfl, rfl, rfl, hex4_value _ hG, hex4_value _ hE, ?_⟩
    intro c hc
    simp only [List.cons_append, List.nil_append, List.mem_cons, List.mem_singleton,
      List.not_mem_nil, or_false] at hc
    have h16 : ∀ x : Nat, x % 16 < 16 := fun x => Nat.mod_lt _ (by norm_num)
    rcases hc with rfl | rfl | rfl | rfl | rfl | rfl | rfl | rfl <;>
      exact hexChar_upper _ (h16 _)
  · have hc := @CreateValue_Tag_AT Item Val raw [vtkDICOMTag.ofGroupElement 8 24] []
      (by decide)
    simp only [List.append_nil, List.length_singleton] at hc
    refine ⟨_, hc, ?_⟩
    have hg := (GetString_tag fe nextBackslash
      ({ ReferenceCount := 1, CharacterSet := 0, VR := .AT, VL := 4 * 1, NumberOfValues := 1,
         Data := .tags ([vtkDICOMTag.ofGroupElement 8 24] ++
           List.replicate (slotCount 1 - 1) ⟨rawSlot 4 raw⟩) } : Value Item Val)
      _ 0 (vtkDICOMTag.ofGroupElement 8 24) rfl Nat.zero_lt_one rfl).1
    rw [hg]
    decide

theorem C29_tag_string_witness :
    (∃ (d : List vtkDICOMTag) (a : vtkDICOMTag) (G E : List Nat),
      (AllocateTagData 0 .AT 1 : Value Nat Nat).Data = .tags d ∧ d.get? 0 = some a ∧
      GetString FloatEnv.trivial (fun _ _ _ => 0) (some (AllocateTagData 0 .AT 1 : Value Nat Nat)) 0
        = some ([40] ++ G ++ [44] ++ E ++ [41]) ∧
      AppendValueToString FloatEnv.trivial (fun _ _ _ => 0)
        (some (AllocateTagData 0 .AT 1 : Value Nat Nat)) 0
        = some ([40] ++ G ++ [44] ++ E ++ [41]) ∧
      ([40] ++ G ++ [44] ++ E ++ [41]).length = 11 ∧ G.length = 4 ∧ E.length = 4 ∧
      hexValue G = some a.GetGroup ∧ hexValue E = some a.GetElement ∧
      ∀ c ∈ G ++ E, (48 ≤ c ∧ c ≤ 57) ∨ (65 ≤ c ∧ c ≤ 70)) ∧
    ∃ w : Value Nat Nat,
      createFrom FloatEnv.trivial 0 .AT (.tags [vtkDICOMTag.ofGroupElement 8 24] 1)
        = some (some w) ∧
      GetString FloatEnv.trivial (fun _ _ _ => 0) (some w) 0 =
        some [40, 48, 48, 48, 56, 44, 48, 48, 49, 56, 41] :=
  C29_tag_string FloatEnv.trivial (fun _ _ _ => 0) 0 (.tags [vtkDICOMTag.zero] 1)
    (AllocateTagData 0 .AT 1) 0 (by decide) (by decide)

/-- Claim C30, as the claim states it, fails on the suffix: a US value with
17 elements, all zero, is written as sixteen `0` joined by commas followed
by `,...`, a comma and three dots, not by `...` alone. -/
theorem C30_counterexample :
    operator_shl FloatEnv.trivial (fun _ _ _ => 0) (fun _ b => b) tagToText
      (some (AllocateUnsignedShortData 0 .US 17 : Value Nat Nat)) =
        some (joinComma (List.replicate 16 [48]) ++ [44, 46, 46, 46]) ∧
    operator_shl FloatEnv.trivial (fun _ _ _ => 0) (fun _ b => b) tagToText
      (some (AllocateUnsignedShortData 0 .US 17 : Value Nat Nat)) ≠
        some (joinComma (List.replicate 16 [48]) ++ [46, 46, 46]) := by
  constructor <;> decide

/-- Claim C30 (amended): for a valid value of a binary numeric VR (US, SS,
UL, SL, FL, FD) that is not multiplexed and does not store text, with `m`
elements, the text that `operator<<` writes is the string forms of the
first `min(m, 16)` elements joined by `,`, followed by the suffix `,...`
(a comma and three dots) exactly when `m > 16`; with `m ≤ 16` all elements
are printed and nothing is appended. -/
theorem C30_numeric_rendering (fe : FloatEnv) (nextBackslash : Nat → List Nat → Nat → Nat)
    (toUTF8 : Nat → List Nat → List Nat) (tagText : vtkDICOMTag → List Nat)
    (val : Value Item Val) (texts : List (List Nat))
    (hvr : val.VR = .US ∨ val.VR = .SS ∨ val.VR = .UL ∨ val.VR = .SL ∨ val.VR = .FL ∨
      val.VR = .FD)
    (hchar : val.Type ≠ .VTK_CHAR) (hmux : val.Type ≠ .VTK_DICOM_VALUE)
    (hlen : texts.length = min val.NumberOfValues 16)
    (htexts : ∀ i, i < texts.length →
      AppendValueToString fe nextBackslash (some val) i = some (texts.getD i []))
    (hnul : ∀ t ∈ texts, 0 ∉ t) :
    operator_shl fe nextBackslash toUTF8 tagText (some val) =
      some (joinComma texts ++ (if 16 < val.NumberOfValues then [44, 46, 46, 46] else [])) := by
  have hn : (if val.NumberOfValues ≤ 16 then val.NumberOfValues else 16) = texts.length := by
    rw [hlen]
    by_cases h : val.NumberOfValues ≤ 16
    · rw [if_pos h, Nat.min_eq_left h]
    · rw [if_neg h, Nat.min_eq_right (by omega)]
  have hutf : ∀ i, i < texts.length →
      AppendValueToUTF8String fe nextBackslash toUTF8 (some val) i = some (texts.getD i []) := by
    intro i hi
    rw [← htexts i hi]
    have hd : ∀ buf, val.Data ≠ .chars buf := by
      intro buf h
      apply hchar
      simp [Value.Type, h, ValueData.Type]
    simp only [AppendValueToUTF8String]
  have hloop := renderValues_spec fe nextBackslash toUTF8 (some val) texts hutf texts.length
    (le_refl _)
  simp only [Nat.sub_self, List.take_zero, joinComma] at hloop
  have hj := joinComma_no_nul texts hnul
  have hout : c_str (if val.NumberOfValues > texts.length then joinComma texts ++ [44, 46, 46, 46]
      else joinComma texts) =
      joinComma texts ++ (if 16 < val.NumberOfValues then [44, 46, 46, 46] else []) := by
    by_cases h : 16 < val.NumberOfValues
    · have h2 : val.NumberOfValues > texts.length := by
        rw [hlen, Nat.min_eq_right (by omega)]; exact h
      rw [if_pos h2, if_pos h]
      apply c_str_no_nul
      simp only [List.mem_append, not_or]
      exact ⟨hj, by decide⟩
    · have h2 : ¬ val.NumberOfValues > texts.length := by
        rw [hlen, Nat.min_eq_left (by omega)]; omega
      rw [if_neg h2, if_neg h, List.append_nil]
      exact c_str_no_nul _ hj
  have hUN : val.VR ≠ .UN := by rcases hvr with h | h | h | h | h | h <;> rw [h] <;> decide
  have hLT : ¬ (val.VR = .ST ∨ val.VR = .LT ∨ val.VR = .UT) := by
    rcases hvr with h | h | h | h | h | h <;> rw [h] <;> decide
  have hAT : val.VR ≠ .AT := by rcases hvr with h | h | h | h | h | h <;> rw [h] <;> decide
  have hSQ : val.VR ≠ .SQ := by rcases hvr with h | h | h | h | h | h <;> rw [h] <;> decide
  have hOB : val.VR ≠ .OB := by rcases hvr with h | h | h | h | h | h <;> rw [h] <;> decide
  have hOW : val.VR ≠ .OW := by rcases hvr with h | h | h | h | h | h <;> rw [h] <;> decide
  have hOF : val.VR ≠ .OF := by rcases hvr with h | h | h | h | h | h <;> rw [h] <;> decide
  unfold operator_shl
  simp only [if_neg hUN, if_neg hLT, if_neg hAT, if_neg hSQ, if_neg hOB, if_neg hOW, if_neg hOF]
  cases hd : val.Data <;>
    first
    | (exfalso; apply hchar; simp [Value.Type, hd, ValueData.Type]; done)
    | (exfalso; apply hmux; simp [Value.Type, hd, ValueData.Type]; done)
    | (simp only [hn, hloop, Option.map_some', hout])

theorem C30_numeric_rendering_witness :
    operator_shl FloatEnv.trivial (fun _ _ _ => 0) (fun _ b => b) tagToText
      (some (AllocateUnsignedShortData 0 .US 2 : Value Nat Nat)) =
      some (joinComma [[48], [48]] ++ (if 16 < 2 then [44, 46, 46, 46] else [])) :=
  C30_numeric_rendering FloatEnv.trivial (fun _ _ _ => 0) (fun _ b => b) tagToText
    (AllocateUnsignedShortData 0 .US 2) [[48], [48]] (by decide) (by decide) (by decide)
    (by decide) (by decide) (by decide)

/-- Claim C31, as the claim states it, fails in two ways.  The ST value
built from `ab` is written as `text[2]`, not as `ab`.  The UI value built
from `12` followed by a space, which is padded with a NUL, is written with
its trailing space: the spaces are trimmed from the VL bytes, which end in
the NUL. -/
theorem C31_counterexample :
    (∃ v : Value Nat Nat,
      CreateValue_char FloatEnv.trivial 0 .ST [97, 98] 2 = some (some v) ∧
      v.Data = .chars [97, 98, 0] ∧ v.VL = 2 ∧
      operator_shl FloatEnv.trivial (fun _ _ _ => 0) (fun _ b => b) tagToText (some v) =
        some [116, 101, 120, 116, 91, 50, 93] ∧
      operator_shl FloatEnv.trivial (fun _ _ _ => 0) (fun _ b => b) tagToText (some v) ≠
        some [97, 98]) ∧
    (∃ v : Value Nat Nat,
      CreateValue_char FloatEnv.trivial 0 .UI [49, 50, 32] 3 = some (some v) ∧
      v.Data = .chars [49, 50, 32, 0] ∧ v.VL = 4 ∧
      operator_shl FloatEnv.trivial (fun _ _ _ => 0) (fun _ b => b) tagToText (some v) =
        some [49, 50, 32] ∧
      operator_shl FloatEnv.trivial (fun _ _ _ => 0) (fun _ b => b) tagToText (some v) ≠
        some [49, 50]) := by
  have hv : (CreateValue_char FloatEnv.trivial 0 .ST [97, 98] 2 :
      Option (Option (Value Nat Nat))) =
      some (some { ReferenceCount := 1, CharacterSet := 0, VR := .ST, VL := 2,
                   NumberOfValues := 1, Data := .chars [97, 98, 0] }) := by
    decide
  have ho : operator_shl FloatEnv.trivial (fun _ _ _ => 0) (fun _ b => b) tagToText
      (some ({ ReferenceCount := 1, CharacterSet := 0, VR := .ST, VL := 2,
               NumberOfValues := 1, Data := .chars [97, 98, 0] } : Value Nat Nat)) =
      some [116, 101, 120, 116, 91, 50, 93] := by
    simp [operator_shl, sprintf_i, decimalDigits]
  have hv2 : (CreateValue_char FloatEnv.trivial 0 .UI [49, 50, 32] 3 :
      Option (Option (Value Nat Nat))) =
      some (some { ReferenceCount := 1, CharacterSet := 0, VR := .UI, VL := 4,
                   NumberOfValues := 1, Data := .chars [49, 50, 32, 0] }) := by
    decide
  have ho2 : operator_shl FloatEnv.trivial (fun _ _ _ => 0) (fun _ b => b) tagToText
      (some ({ ReferenceCount := 1, CharacterSet := 0, VR := .UI, VL := 4,
               NumberOfValues := 1, Data := .chars [49, 50, 32, 0] } : Value Nat Nat)) =
      some [49, 50, 32] := by
    rw [operator_shl_text _ _ _ _ _ [49, 50, 32, 0] [] rfl rfl (by decide)
      (Or.inr (by decide))]
    decide
  refine ⟨⟨_, hv, rfl, rfl, ho, ?_⟩, ⟨_, hv2, rfl, rfl, ho2, ?_⟩⟩
  · rw [ho]
    decide
  · rw [ho2]
    decide

/-- Claim C31 (amended): for a valid value of a text VR other than ST, LT and
UT (AE, AS, CS, DA, DS, DT, IS, LO, PN, SH, TM, UI) whose payload has no
embedded NUL before the padding, the text that `operator<<` writes is the
`VL` stored bytes with leading and trailing spaces removed and, after that,
trailing NULs removed.  For a payload `s` without NUL that is stored as it
is or with a pad space, this is `s` without its leading and trailing spaces;
for a payload `s` stored with a pad NUL it is `s` without its leading spaces,
the spaces in front of the pad NUL being kept.  For ST, LT and UT the text
is `text[`, the VL in decimal and `]`; an invalid value is written as
`empty[0]`. -/
theorem C31_text_rendering (fe : FloatEnv) (nextBackslash : Nat → List Nat → Nat → Nat)
    (toUTF8 : Nat → List Nat → List Nat) (tagText : vtkDICOMTag → List Nat)
    (val : Value Item Val) (P tail : List Nat)
    (hD : val.Data = .chars (P ++ tail)) (hVL : val.VL = P.length)
    (hend : tail ≠ [] ∨ P.getLast? = some 0)
    (hnul : 0 ∉ (trimSpaces P).rdropWhile (· == 0)) :
    (isShortTextVR val.VR = true →
      operator_shl fe nextBackslash toUTF8 tagText (some val) =
        some ((trimSpaces P).rdropWhile (· == 0)) ∧
      (∀ s, 0 ∉ s → P = s ∨ P = s ++ [SPACE] →
        operator_shl fe nextBackslash toUTF8 tagText (some val) = some (trimSpaces s)) ∧
      (∀ s, 0 ∉ s → P = s ++ [0] →
        operator_shl fe nextBackslash toUTF8 tagText (some val) =
          some (s.dropWhile (· == SPACE)))) ∧
    (isLongTextVR val.VR = true →
      operator_shl fe nextBackslash toUTF8 tagText (some val) =
        some ([116, 101, 120, 116, 91] ++ sprintf_i (val.VL : Int) ++ [93])) ∧
    operator_shl fe nextBackslash toUTF8 tagText (none : Option (Value Item Val)) =
      some [101, 109, 112, 116, 121, 91, 48, 93] := by
  refine ⟨?_, ?_, rfl⟩
  · intro hvr
    have hmain : operator_shl fe nextBackslash toUTF8 tagText (some val) =
        some ((trimSpaces P).rdropWhile (· == 0)) := by
      rw [operator_shl_text fe nextBackslash toUTF8 tagText val P tail hD hVL hvr hend,
        c_str_eq_rdropWhile _ hnul]
    refine ⟨hmain, fun s hs hP => ?_, fun s hs hP => ?_⟩
    · rcases hP with h | h
      · rw [hmain, h, trimSpaces_no_nul s hs]
      · rw [hmain, h, trimSpaces_append_space, trimSpaces_no_nul s hs]
    · rw [hmain, hP, trimSpaces_nul_pad s hs]
  · intro hvr
    have hUN : val.VR ≠ .UN := by
      intro h; rw [h] at hvr; revert hvr; decide
    have hLT : val.VR = .ST ∨ val.VR = .LT ∨ val.VR = .UT := by
      simpa [isLongTextVR] using hvr
    unfold operator_shl
    simp only [if_neg hUN, if_pos hLT]

/-- Witness for C31 (amended): the LO value stored as a space, `12`, a space
and the pad space is written as `12`; the UI value stored as a space, `1.`
and the pad NUL is written as `1.`. -/
theorem C31_text_rendering_witness :
    operator_shl FloatEnv.trivial (fun _ _ _ => 0) (fun _ b => b) tagToText
      (some ({ ReferenceCount := 1, CharacterSet := 0, VR := .LO, VL := 4, NumberOfValues := 1,
               Data := .chars [32, 49, 50, 32, 0] } : Value Nat Nat)) = some [49, 50] ∧
    operator_shl FloatEnv.trivial (fun _ _ _ => 0) (fun _ b => b) tagToText
      (some ({ ReferenceCount := 1, CharacterSet := 0, VR := .UI, VL := 4, NumberOfValues := 1,
               Data := .chars [32, 49, 46, 0] } : Value Nat Nat)) = some [49, 46] :=
  ⟨((C31_text_rendering FloatEnv.trivial (fun _ _ _ => 0) (fun _ b => b) tagToText
      ({ ReferenceCount := 1, CharacterSet := 0, VR := .LO, VL := 4, NumberOfValues := 1,
         Data := .chars [32, 49, 50, 32, 0] } : Value Nat Nat) [32, 49, 50, 32] [0] rfl rfl
      (Or.inl (by decide)) (by decide)).1 (by decide)).2.1 [32, 49, 50] (by decide)
      (Or.inr rfl),
   ((C31_text_rendering FloatEnv.trivial (fun _ _ _ => 0) (fun _ b => b) tagToText
      ({ ReferenceCount := 1, CharacterSet := 0, VR := .UI, VL := 4, NumberOfValues := 1,
         Data := .chars [32, 49, 46, 0] } : Value Nat Nat) [32, 49, 46, 0] [] rfl rfl
      (Or.inr (by decide)) (by decide)).1 (by decide)).2.2 [32, 49, 46] (by decide) rfl⟩

/-- Claim C32: when an IS value is constructed from `n` numeric elements,
each element, cast to `int`, is formatted in at most 11 characters, and the
construction stays inside the buffer of `13*n + 1` bytes (one more when
`13*n` is odd) that is allocated for it: the buffer holds the formatted
elements joined by backslashes, the optional pad space and the terminating
NUL, together at most `12*n + 1` bytes, for every `n ≥ 0`. -/
theorem C32_integer_string_fits (fe : FloatEnv) (raw : Nat) (T : NumType)
    (data rest : List Int)
    (hint : ∀ x ∈ data, NumType.inRange .int (castTo fe .int T x)) :
    (∀ x ∈ data, (sprintf_i (castTo fe .int T x)).length ≤ 11) ∧
    ∃ (v : Value Item Val) (pad junk : List Nat),
      CreateValue fe raw T .IS (data ++ rest) data.length = some (some v) ∧
      v.Data = .chars (numberList (data.map (castTo fe .int T)) [] ++ pad ++ 0 :: junk) ∧
      (pad = [] ∨ pad = [SPACE]) ∧
      (numberList (data.map (castTo fe .int T)) []).length + pad.length + 1 ≤
        12 * data.length + 1 ∧
      (numberList (data.map (castTo fe .int T)) [] ++ pad ++ 0 :: junk).length =
        13 * data.length + (13 * data.length) % 2 + 1 := by
  have hr : ∀ y ∈ data.map (castTo fe .int T), -2147483648 ≤ y ∧ y < 2147483648 := by
    intro y hy
    obtain ⟨x, hx, rfl⟩ := List.mem_map.1 hy
    have := hint x hx
    simp [NumType.inRange, NumType.isSigned, NumType.sizeof] at this
    exact this
  refine ⟨fun x hx => ?_, ?_⟩
  · have := hr _ (List.mem_map_of_mem _ hx)
    exact sprintf_i_length _ this.1 this.2
  generalize hd' : data.map (castTo fe .int T) = data' at hr
  have hlen' : data'.length = data.length := by rw [← hd']; simp
  have hread : readArray (data ++ rest) data.length = some data := readArray_append data rest
  have hL := textIS_length_le data' hr
  have hslots : (charSlots raw .IS (13 * data.length)).length =
      13 * data.length + (13 * data.length) % 2 + 1 := by
    simp [charSlots]
  have hw := writeIS_spec fe data' [] (charSlots raw .IS (13 * data.length))
    (by rw [hslots]; omega)
  simp only [List.nil_append, List.length_nil, Nat.zero_add] at hw
  simp only [CreateValue, resolveVR, CreateValueAs, reduceCtorEq, if_false, if_true, hread,
    Option.some_bind, writeIS_cast fe T data, hd', hw]
  by_cases hd : data' = []
  · subst hd
    have hz : data.length = 0 := by rw [← hlen']; rfl
    obtain ⟨v, h1, _, _, _, h5⟩ := finishText_empty
      (AllocateCharData raw .IS (13 * 0) : Value Item Val) raw
    refine ⟨v, [], [], ?_, by simpa [numberList] using h5, Or.inl rfl, by simp [numberList],
      by simp [numberList, hz]⟩
    rw [hz]
    simpa [textIS, charSlots] using h1
  · have hB := textIS_eq_numberList data' hd
    have hpos : 0 < data'.length := List.length_pos.2 hd
    have hJ : 2 ≤ (List.drop (textIS data').length
        (charSlots raw .IS (13 * data.length))).length := by
      rw [List.length_drop, hslots]; omega
    obtain ⟨j, j2, J2, hJ2⟩ := exists_two_of_length _ hJ
    obtain ⟨v, pad, junk, h1, h2, h3, h4⟩ := finishText_layout
      (AllocateCharData raw .IS (13 * data.length) : Value Item Val) data.length
      (numberList data' []) j (j2 :: J2)
    have hBl : (textIS data').length = (numberList data' []).length + 1 := by
      rw [hB]; simp
    have htot : (numberList data' [] ++ BACKSLASH :: j :: j2 :: J2).length =
        13 * data.length + (13 * data.length) % 2 + 1 := by
      have := congrArg List.length hJ2
      rw [List.length_drop, hslots] at this
      simp only [List.length_append, List.length_cons] at this ⊢
      omega
    refine ⟨v, pad, junk, ?_, h2, h3, ?_, by rw [h4, htot]⟩
    · rw [hJ2, hB]
      simp only [List.length_append, List.length_cons, List.length_nil, List.append_assoc,
        List.singleton_append, Nat.zero_add]
      exact h1
    · have hp : pad.length ≤ 1 := by
        rcases h3 with h | h <;> rw [h] <;> simp
      omega

theorem C32_integer_string_fits_witness :
    (∀ x ∈ ([-2147483648, 7] : List Int),
      (sprintf_i (castTo FloatEnv.trivial .int .int x)).length ≤ 11) ∧
    ∃ (v : Value Unit Unit) (pad junk : List Nat),
      CreateValue FloatEnv.trivial 0 .int .IS ([-2147483648, 7] ++ []) 2 = some (some v) ∧
      v.Data = .chars
        (numberList (([-2147483648, 7] : List Int).map (castTo FloatEnv.trivial .int .int)) [] ++
          pad ++ 0 :: junk) ∧
      (pad = [] ∨ pad = [SPACE]) ∧
      (numberList (([-2147483648, 7] : List Int).map (castTo FloatEnv.trivial .int .int))
        []).length + pad.length + 1 ≤ 12 * 2 + 1 ∧
      (numberList (([-2147483648, 7] : List Int).map (castTo FloatEnv.trivial .int .int)) [] ++
        pad ++ 0 :: junk).length = 13 * 2 + (13 * 2) % 2 + 1 :=
  C32_integer_string_fits FloatEnv.trivial 0 .int [-2147483648, 7] []
    (by
      intro x hx
      simp only [List.mem_cons, List.mem_singleton, List.not_mem_nil, or_false] at hx
      rcases hx with rfl | rfl <;>
        simp [NumType.inRange, NumType.isSigned, NumType.sizeof, castTo])

/-- C33 (evaluation at the failing input): the SL value built from the one
int -2147483648 has that element, and its string form does not exist: the
negation `u = -d` wraps around to 18446744071562067968, whose twenty digits
and sign do not fit the sixteen characters of `text`, so the digits are
written before the start of the buffer.  The neighbouring value -2147483647
and the largest unsigned int 4294967295 are formatted as the claim says. -/
theorem C33_int_min_overflows_buffer :
    (∃ v : Value Nat Nat,
      CreateValue FloatEnv.trivial 0 .int .SL [-2147483648] 1 = some (some v) ∧
      v.NumberOfValues = 1 ∧ v.Data = .ints [-2147483648] ∧
      GetString FloatEnv.trivial (fun _ _ _ => 0) (some v) 0 = none) ∧
    integerToText (-2147483647) 0 =
      some [45, 50, 49, 52, 55, 52, 56, 51, 54, 52, 55] ∧
    integerToText 0 4294967295 = some [52, 50, 57, 52, 57, 54, 55, 50, 57, 53] := by
  refine ⟨⟨_, CreateValue_int_min, by decide, rfl, ?_⟩, ?_, ?_⟩
  · rw [GetString_int _ _ _ [-2147483648] 0 (-2147483648) rfl (by decide) rfl]
    exact integerToText_int_min
  · simp [integerToText, negate_int_min_succ, decimalDigits]
  · simp [integerToText, decimalDigits]

/-- Claim C34: a sequence is created by `AppendInit` and then used through
its handle and copies of it in any order: a handle is copied, or an item is
appended through one of the handles (so some appends happen while the
allocation is shared).  No operation of such a run fails, and afterwards
every handle has an allocation whose element count is within its capacity,
the capacity being 2 when the count is at most 2 and the smallest power of
two not below the count otherwise; and a further `AppendValue` through any
of the handles writes its item at an index strictly below the capacity of
the allocation it writes to. -/
theorem C34_capacity_invariant (emptyItem : Item) (heap : Heap Item Val) (h0 : Handle)
    (vr : vtkDICOMVR) (st0 : Handle × Heap Item Val) (ops : List (SeqOp Item))
    (hinit : AppendInit emptyItem heap h0 vr = some st0)
    (hops : ops.length + 1 < UINT_RANGE) :
    ∃ (hs : List Handle) (heap1 : Heap Item Val),
      runOps emptyItem ops ([st0.1], st0.2) = some (hs, heap1) ∧
      (∀ h ∈ hs, ∃ p v d, h = some p ∧ heap1.deref p = some v ∧ v.Data = .items d ∧
        v.NumberOfValues ≤ d.length ∧ (v.NumberOfValues ≤ 2 → d.length = 2) ∧
        (2 < v.NumberOfValues →
          (∃ k, d.length = 2 ^ k) ∧ ∀ k, v.NumberOfValues ≤ 2 ^ k → d.length ≤ 2 ^ k)) ∧
      (∀ h ∈ hs, ∀ x : Item, ∃ p v q heap2 v1 d1,
        h = some p ∧ heap1.deref p = some v ∧
        AppendValue emptyItem heap1 h x = some (some q, heap2) ∧
        heap2.deref q = some v1 ∧ v1.Data = .items d1 ∧
        v.NumberOfValues < d1.length ∧ d1.get? v.NumberOfValues = some x) := by
  have h0t := AppendInit_tracked emptyItem heap h0 vr st0 hinit
  obtain ⟨⟨hs, heap1⟩, hrun, ht⟩ := runOps_tracked emptyItem ops 0 _ h0t (by omega)
  refine ⟨hs, heap1, hrun, fun h hh => ?_, fun h hh x => ?_⟩
  · obtain ⟨p, v, d, e1, e2, e3, _, _, hfit⟩ := ht h hh
    exact ⟨p, v, d, e1, e2, e3, hfit.spec⟩
  · obtain ⟨p, v, d, rfl, e2, e3, hrc, hn, hfit⟩ := ht _ hh
    dsimp only at e2 hrc
    have hpos : 0 < hs.count (some p) := List.count_pos_iff.2 hh
    obtain ⟨q, heap2, v1, d1, a1, _, a2, a3, _, _, a4, a5, _, _, a6⟩ :=
      AppendValue_tracked emptyItem heap1 p v d x e2 e3 (by omega) hfit (by omega)
    have hle := a5.spec.1
    exact ⟨p, v, q, heap2, v1, d1, rfl, e2, a1, a2, a3, by omega, a6⟩

/-- Witness for C34: after `AppendInit` on a null handle, two appends, a copy
of the handle, an append through the original (while shared) and two appends
through the copy, the run has succeeded and every handle has a fitting
capacity; evaluated, the original has 3 items and the copy 4, both in a
capacity of 4 and neither shared. -/
theorem C34_capacity_invariant_witness :
    (∃ (st0 : Handle × Heap Nat Unit) (hs : List Handle) (heap1 : Heap Nat Unit),
      AppendInit 0 [] none .SQ = some st0 ∧
      runOps 0 [.append 0 10, .append 0 11, .copy 0, .append 0 12, .append 1 13, .append 1 14]
        ([st0.1], st0.2) = some (hs, heap1) ∧
      ∀ h ∈ hs, ∃ p v d, h = some p ∧ heap1.deref p = some v ∧ v.Data = .items d ∧
        v.NumberOfValues ≤ d.length ∧ (v.NumberOfValues ≤ 2 → d.length = 2) ∧
        (2 < v.NumberOfValues →
          (∃ k, d.length = 2 ^ k) ∧ ∀ k, v.NumberOfValues ≤ 2 ^ k → d.length ≤ 2 ^ k)) ∧
    ((AppendInit (0 : Nat) ([] : Heap Nat Unit) none .SQ).bind fun st0 =>
      (runOps 0 [.append 0 10, .append 0 11, .copy 0, .append 0 12, .append 1 13,
        .append 1 14] ([st0.1], st0.2)).map fun st =>
        st.1.map fun h => (h.bind st.2.deref).map fun v =>
          (v.NumberOfValues, v.Data.capacity, v.ReferenceCount)) =
      some [some (3, 4, 1), some (4, 4, 1)] := by
  refine ⟨?_, by decide⟩
  obtain ⟨v, hinit, _⟩ := AppendInit_fresh (0 : Nat) ([] : Heap Nat Unit) .SQ
  obtain ⟨hs, heap1, h1, h2, _⟩ := C34_capacity_invariant (0 : Nat) ([] : Heap Nat Unit) none
    .SQ _ [.append 0 10, .append 0 11, .copy 0, .append 0 12, .append 1 13, .append 1 14]
    hinit (by decide)
  exact ⟨_, hs, heap1, hinit, h1, h2⟩

/-- C35 (evaluation at the failing input): the ST value built from the empty
string has the element count 1, and `ComputeNumberOfValuesForCharData`
changes it to 0, because VL is 0.  For the empty string with VR LO the count
is 0 before and after, for the string `a` with VR ST it is 1 before and
after. -/
theorem C35_recount_of_empty_long_text :
    ((CreateValue_char FloatEnv.trivial 0 .ST [] 0 : Option (Option (Value Nat Nat))).map
      fun o => o.map fun v => v.NumberOfValues) = some (some 1) ∧
    (((CreateValue_char FloatEnv.trivial 0 .ST [] 0 : Option (Option (Value Nat Nat))).bind
      fun o => ComputeNumberOfValuesForCharData (fun _ _ _ => 0) o).map
      fun o => o.map fun v => v.NumberOfValues) = some (some 0) ∧
    ((CreateValue_char FloatEnv.trivial 0 .LO [] 0 : Option (Option (Value Nat Nat))).map
      fun o => o.map fun v => v.NumberOfValues) = some (some 0) ∧
    (((CreateValue_char FloatEnv.trivial 0 .LO [] 0 : Option (Option (Value Nat Nat))).bind
      fun o => ComputeNumberOfValuesForCharData (fun _ _ _ => 0) o).map
      fun o => o.map fun v => v.NumberOfValues) = some (some 0) ∧
    ((CreateValue_char FloatEnv.trivial 0 .ST [97] 1 : Option (Option (Value Nat Nat))).map
      fun o => o.map fun v => v.NumberOfValues) = some (some 1) ∧
    (((CreateValue_char FloatEnv.trivial 0 .ST [97] 1 : Option (Option (Value Nat Nat))).bind
      fun o => ComputeNumberOfValuesForCharData (fun _ _ _ => 0) o).map
      fun o => o.map fun v => v.NumberOfValues) = some (some 1) := by
  decide

/-- C36 (evaluation at the failing input): the constructor from a VR alone
has no branch for OB and leaves the value invalid, while for each of the
other 26 VRs of the claim it gives a valid value with that VR, element
count 0 and VL 0; the constructor from a string does build an empty OB
value. -/
theorem C36_no_branch_for_OB :
    (constructVR 0 0 .OB : Option (Value Nat Nat)) = none ∧
    (∀ vr ∈ [vtkDICOMVR.AE, .AS, .AT, .CS, .DA, .DS, .DT, .FD, .FL, .IS, .LO, .LT, .OF, .OW,
        .PN, .SH, .SL, .SQ, .SS, .ST, .TM, .UI, .UL, .UN, .US, .UT],
      ((constructVR 0 0 vr : Option (Value Nat Nat)).map fun v =>
        (v.VR, v.NumberOfValues, v.VL)) = some (vr, 0, 0)) ∧
    ((CreateValue_char FloatEnv.trivial 0 .OB [] 0 : Option (Option (Value Nat Nat))).map
      fun o => o.map fun v => (v.VR, v.NumberOfValues, v.VL)) = some (some (.OB, 0, 0)) := by
  decide

/-- C38 (evaluation at the failing input): two character sources that agree
on their first two bytes, `12` followed by `3` and `12` followed by the NUL,
both passed with the length 2 and VR US, give one element each, but the
elements differ: 123 and 12.  The conversion reads on to the NUL. -/
theorem C38_conversion_reads_past_the_range :
    List.take 2 [49, 50, 51, 0] = List.take 2 [49, 50, 0] ∧
    ((CreateValue_char FloatEnv.trivial 0 .US [49, 50, 51, 0] 2 :
        Option (Option (Value Nat Nat))).map fun o => o.map fun v =>
      (v.NumberOfValues, v.Data)) = some (some (1, .ushorts [123])) ∧
    ((CreateValue_char FloatEnv.trivial 0 .US [49, 50, 0] 2 :
        Option (Option (Value Nat Nat))).map fun o => o.map fun v =>
      (v.NumberOfValues, v.Data)) = some (some (1, .ushorts [12])) := by
  decide

/-- Claim C39: for a valid byte value (as every OB or UN value is) with
element count `n` and any new size `vn < 2^32 - 1`,
`ReallocateUnsignedCharData(vn)` leaves the handle with a new byte value of
the same VR, element count `vn` and VL 0xFFFFFFFF, whose first `min(n, vn)`
bytes are the first `min(n, vn)` bytes it held before.  The old allocation
loses this one reference (it is freed when there was no other) and keeps its
contents, count and VL for the other handles; no other allocation
changes. -/
theorem C39_reallocate_bytes (raw : Nat) (heap : Heap Item Val) (p : Nat)
    (v : Value Item Val) (d : List Nat) (vn : Nat)
    (hp : heap.deref p = some v) (hd : v.Data = .uchars d) (hrc : 1 ≤ v.ReferenceCount)
    (hcap : v.NumberOfValues ≤ d.length) (hvn : vn < 4294967295) :
    ∃ (heap1 : Heap Item Val) (v1 : Value Item Val) (d1 : List Nat),
      ReallocateUnsignedCharData raw heap (some p) vn = some (some heap.length, heap1) ∧
      heap.length ≠ p ∧ heap1.deref heap.length = some v1 ∧
      v1.Data = .uchars d1 ∧ v1.VR = v.VR ∧ v1.NumberOfValues = vn ∧
      v1.VL = VL_UNDEFINED ∧ v1.ReferenceCount = 1 ∧ vn ≤ d1.length ∧
      d1.take (min v.NumberOfValues vn) = d.take (min v.NumberOfValues vn) ∧
      heap1.deref p = (if v.ReferenceCount = 1 then none
        else some { v with ReferenceCount := v.ReferenceCount - 1 }) ∧
      ∀ r, r ≠ p → r ≠ heap.length → heap1.deref r = heap.deref r := by
  have hlt := deref_lt heap p v hp
  obtain ⟨rc, cs, vr, vl, n, dat⟩ := v
  dsimp only at hd hrc hcap ⊢
  subst hd
  have hmod : vn % UINT_RANGE = vn := Nat.mod_eq_of_lt (by simp only [UINT_RANGE]; omega)
  have hmin : (if n < vn then n else vn) = min n vn := by
    by_cases h : n < vn
    · rw [if_pos h, Nat.min_eq_left (by omega)]
    · rw [if_neg h, Nat.min_eq_right (by omega)]
  -- the reference count goes up and down again around the allocation
  have h1 := deref_store_same heap p
    ({ ReferenceCount := rc + 1, CharacterSet := cs, VR := vr, VL := vl, NumberOfValues := n,
       Data := .uchars d } : Value Item Val) hlt
  obtain ⟨heap2, r1, l1, d1, o1⟩ := release_spec _ p _ h1
  simp only [Nat.add_sub_cancel] at d1
  rw [if_neg (by omega)] at d1
  obtain ⟨heap3, r2, l2, d2, o2⟩ := release_spec heap2 p _ d1
  rw [length_store] at l1
  dsimp only at d2
  -- the copy of the old bytes
  have hread : readArray d (min n vn) = some (d.take (min n vn)) := by
    have : min n vn ≤ d.length := le_trans (Nat.min_le_left _ _) hcap
    simp [readArray, this]
  have hlen : (d.take (min n vn)).length = min n vn := by
    have : min n vn ≤ d.length := le_trans (Nat.min_le_left _ _) hcap
    simp [this]
  have hk : slotCount vn = (d.take (min n vn)).length + (slotCount vn - min n vn) := by
    rw [hlen]
    have : min n vn ≤ vn := Nat.min_le_right _ _
    simp only [slotCount]
    omega
  have hcopy := overwrite_replicate_succ raw (d.take (min n vn)) (slotCount vn - min n vn)
  rw [← hk] at hcopy
  obtain ⟨nv, hnv⟩ : ∃ nv : Value Item Val, nv =
      { ReferenceCount := 1, CharacterSet := 0, VR := vr, VL := VL_UNDEFINED,
        NumberOfValues := vn,
        Data := .uchars (d.take (min n vn) ++ List.replicate (slotCount vn - min n vn) raw) } :=
    ⟨_, rfl⟩
  refine ⟨(heap3.alloc nv).2, nv, _, ?_, by omega, ?_, by rw [hnv], by rw [hnv], by rw [hnv],
    by rw [hnv], by rw [hnv], ?_, ?_, ?_, ?_⟩
  · simp only [ReallocateUnsignedCharData, hp, Option.some_bind, Clear, r1, hmin, hread, slots,
      hcopy, r2, Option.map_some', AllocateUnsignedCharData, hmod, Heap.alloc, l2, l1, hnv]
  · have := deref_alloc_new heap3 nv
    simp only [Heap.alloc, l2, l1] at this ⊢
    exact this
  · simp only [List.length_append, hlen, List.length_replicate, slotCount]
    have : min n vn ≤ vn := Nat.min_le_right _ _
    omega
  · rw [List.take_append_of_le_length (by rw [hlen]), List.take_of_length_le (by rw [hlen])]
  · rw [deref_alloc_old heap3 _ p (by omega), d2]
    by_cases h1 : rc = 1
    · simp [h1]
    · rw [if_neg (by omega), if_neg h1]
  · intro r hr hrq
    by_cases hrl : r < heap.length
    · rw [deref_alloc_old heap3 nv r (by omega), o2 r hr, o1 r hr, deref_store_ne heap p r _ hr]
    · have e1 : (heap3.alloc nv).2.deref r = none := by
        simp only [Heap.deref, Heap.alloc]
        rw [List.get?_eq_none.2 (by simp only [List.length_append, List.length_singleton]; omega)]
        rfl
      have e2 : heap.deref r = none := by
        simp only [Heap.deref]
        rw [List.get?_eq_none.2 (by omega)]
        rfl
      rw [e1, e2]

theorem C39_reallocate_bytes_witness :
    ∃ (heap1 : Heap Nat Nat) (v1 : Value Nat Nat) (d1 : List Nat),
      ReallocateUnsignedCharData 0
        [some
          ({ ReferenceCount := 2, CharacterSet := 0, VR := .OB, VL := 4, NumberOfValues := 4,
             Data := .uchars [1, 2, 3, 4] } : Value Nat Nat)]
        (some 0) 2 = some (some 1, heap1) ∧
      heap1.deref 1 = some v1 ∧ v1.Data = .uchars d1 ∧ v1.VR = .OB ∧
      v1.NumberOfValues = 2 ∧ v1.VL = VL_UNDEFINED ∧ d1.take 2 = [1, 2] ∧
      heap1.deref 0 = some
          { ReferenceCount := 1, CharacterSet := 0, VR := .OB, VL := 4, NumberOfValues := 4,
            Data := .uchars [1, 2, 3, 4] } := by
  obtain ⟨heap1, v1, d1, h1, _, h3, h4, h5, h6, h7, _, _, h10, h11, _⟩ :=
    C39_reallocate_bytes (0 : Nat)
      [some
          ({ ReferenceCount := 2, CharacterSet := 0, VR := .OB, VL := 4, NumberOfValues := 4,
             Data := .uchars [1, 2, 3, 4] } : Value Nat Nat)] 0
      { ReferenceCount := 2, CharacterSet := 0, VR := .OB, VL := 4, NumberOfValues := 4,
        Data := .uchars [1, 2, 3, 4] }
      [1, 2, 3, 4] 2 rfl rfl (by decide) (by decide) (by decide)
  exact ⟨heap1, v1, d1, h1, h3, h4, h5, h6, h7, h10, h11⟩

/-- Claim C40: `ComputeHash` is injective on tags.  For all tags `a` and `b`
(all 2^32 keys), equal hash values imply `a == b`, so distinct tags never
collide on the 32-bit hash value; equal tags hash equally. -/
theorem C40_hash_injective (a b : vtkDICOMTag) (ha : a.Key < UINT_RANGE)
    (hb : b.Key < UINT_RANGE) :
    (a.ComputeHash = b.ComputeHash → a.operator_eq b = true) ∧
    (a.operator_ne b = true → a.ComputeHash ≠ b.ComputeHash) ∧
    (a.operator_eq b = true → a.ComputeHash = b.ComputeHash) ∧
    a.ComputeHash < UINT_RANGE := by
  have hinj : a.ComputeHash = b.ComputeHash → a.Key = b.Key := by
    intro h
    simp only [vtkDICOMTag.ComputeHash] at h
    exact mix6_injective _ _ ha hb
      (fold16_injective _ _ (mix6_lt _ ha) (mix6_lt _ hb) h)
  refine ⟨?_, ?_, ?_, ?_⟩
  · intro h
    simp only [vtkDICOMTag.operator_eq, beq_iff_eq]
    exact hinj h
  · intro h heq
    simp only [vtkDICOMTag.operator_ne, bne_iff_ne, ne_eq] at h
    exact h (hinj heq)
  · intro h
    simp only [vtkDICOMTag.operator_eq, beq_iff_eq] at h
    simp only [vtkDICOMTag.ComputeHash, h]
  · simp only [vtkDICOMTag.ComputeHash]
    apply Nat.xor_lt_two_pow (n := 32)
    · exact mix6_lt _ ha
    · rw [Nat.shiftRight_eq_div_pow]
      exact lt_of_le_of_lt (Nat.div_le_self _ _) (mix6_lt _ ha)

theorem C40_hash_injective_witness :
    ((vtkDICOMTag.ofGroupElement 8 24).ComputeHash =
        (vtkDICOMTag.ofGroupElement 8 24).ComputeHash →
      (vtkDICOMTag.ofGroupElement 8 24).operator_eq (vtkDICOMTag.ofGroupElement 8 24) = true) ∧
    ((vtkDICOMTag.ofGroupElement 8 24).operator_ne (vtkDICOMTag.ofGroupElement 8 25) = true →
      (vtkDICOMTag.ofGroupElement 8 24).ComputeHash ≠
        (vtkDICOMTag.ofGroupElement 8 25).ComputeHash) :=
  ⟨(C40_hash_injective (vtkDICOMTag.ofGroupElement 8 24) (vtkDICOMTag.ofGroupElement 8 24)
      (by decide) (by decide)).1,
   (C40_hash_injective (vtkDICOMTag.ofGroupElement 8 24) (vtkDICOMTag.ofGroupElement 8 25)
      (by decide) (by decide)).2.1⟩

end DICOM
